import Mathlib

/-!
# sgd2png: a shallow embedding of `sgd.c` / `sgd.h`

The C program overlays typed views on one static byte buffer `base`.  The
embedding has two levels.  At the level of records an `Image` gives, for every
offset, the `SGDEntry` (or `SGDDirectory`) that the program reads through a
pointer cast at that offset, and a store changes the record at one offset:
this level describes the program on files whose records share no byte.  At the
level of bytes (`Bytes`, in the section on the buffer as bytes) the buffer is
an array of bytes, a record is decoded from the bytes at the moment it is
read, and a store changes every record that lies on the bytes stored.  The
functions that read the buffer are given once, on records, and are run at the
level of bytes on the records decoded from the bytes; the functions that store
into the buffer (`validate_set_r`, `fixup_set`, `calc_set_bounds_r`,
`process_sets`) are given at both levels.

Unsigned 32-bit fields are natural numbers; conversions to and from `int` are
written out (`int_of_u32`, `u32_of_int`, `int_wrap`).  Arrays of a record are
read with `getD _ 0`: the static buffer is zero-initialised and has 4096 bytes
of slack.

Points are `float` in the file and `int` in `bounds_t`; a record holds a point
by the integers that its coordinates are truncated to, and `MIN` and `MAX` on
them are exact.  A call of `panic` is an error value.  The recursive functions
`validate_set_r` and `calc_set_bounds_r` take fuel for the depth of the
recursion; the error `out_of_fuel` belongs to the embedding.  The drawing done
through cairo is left out: `process_sets` takes the call of `render_mask_r`
as a function that reads the buffer and may fail.
-/

namespace SGD

/-! ## Constants -/

/-- `#define SGD_OFFSET 0x94` -/
abbrev SGD_OFFSET : Nat := 0x94

/-- `SGD_MRCIHEADER` (enum SGDType: `SGD_QTHEAD = 20`, six further members). -/
abbrev SGD_MRCIHEADER : Nat := 26
abbrev SGD_POLYLINE2D : Nat := 45
abbrev SGD_ELLIPTICALARC2D : Nat := 47
abbrev SGD_LASSO2D : Nat := 50
abbrev SGD_TEXTLINE2D : Nat := 55
abbrev SGD_SIMPLEAREA : Nat := 82
abbrev SGD_CONNECTEDAREA : Nat := 83
abbrev SGD_SET : Nat := 90
abbrev SGD_BULKDATA : Nat := 99

abbrev SGD_BMPTILELIST : Nat := 0x4ed
abbrev SGD_BMPTILE : Nat := 0x4ee
abbrev SGD_BMPPALETTE : Nat := 0x4ef

abbrev MAX_WIDTH : Nat := 2048
abbrev MAX_HEIGHT : Nat := 2048
abbrev TILE_WIDTH : Nat := 128
abbrev TILE_HEIGHT : Nat := 128
abbrev MAX_TILES : Nat := (MAX_WIDTH / TILE_WIDTH) * (MAX_HEIGHT / TILE_HEIGHT)
abbrev MAX_BASE : Nat := MAX_WIDTH * MAX_HEIGHT

abbrev PAL_BLACK : Nat := 0
abbrev PAL_WHITE : Nat := 7

abbrev INT_MAX : Int := 2147483647

/-- `#define SET_DRAWN 0x80000000` -/
abbrev SET_DRAWN : Nat := 0x80000000

/-- Byte sizes fixed by the struct declarations of `sgd.h`. -/
abbrev sizeof_uint32 : Nat := 4
abbrev sizeof_SGDPoint : Nat := 8
abbrev sizeof_SGDEntryHeader : Nat := 28

/-- Offset of `points` in `SGDPolyline`: header, `point1`, `point2`, `num_points`. -/
abbrev offsetof_polyline_points : Nat := sizeof_SGDEntryHeader + 12
/-- Offset of `points` in `SGDLasso`: header, `num_points`. -/
abbrev offsetof_lasso_points : Nat := sizeof_SGDEntryHeader + 4
/-- Offset of `entries` in `SGDSimpleArea`: header, `num_entries`. -/
abbrev offsetof_simple_area_entries : Nat := sizeof_SGDEntryHeader + 4
/-- Offset of `entries` in `SGDSet`: header, `unk7`, `num_entries`. -/
abbrev offsetof_set_entries : Nat := sizeof_SGDEntryHeader + 8
/-- Offset of `text` in `SGDTextline`: header, `unk7`, `unk8`, `pos`, `unk11`,
`width`, `height`, `end`. -/
abbrev offsetof_textline_text : Nat := sizeof_SGDEntryHeader + 8 + 8 + 4 + 8 + 8 + 8

/-! ## Machine integers -/

/-- Conversion `uint32_t` to `int` (two's complement). -/
def int_of_u32 (n : Nat) : Int :=
  if n % 2 ^ 32 < 2 ^ 31 then ((n % 2 ^ 32 : Nat) : Int) else ((n % 2 ^ 32 : Nat) : Int) - 2 ^ 32

/-- Conversion `int` to `uint32_t`. -/
def u32_of_int (x : Int) : Nat := (x % 2 ^ 32).toNat

/-- The value that an `int` operation leaves when its exact result is `x`:
`x` itself when it fits 32 bits, else `x` wrapped around (the program as
compiled for two's complement; in C the overflow of `int` is undefined). -/
def int_wrap (x : Int) : Int := int_of_u32 (u32_of_int x)

/-- The value `-1` seen as `uint32_t`. -/
abbrev U32_MINUS_ONE : Nat := 0xFFFFFFFF

/-! ## Errors -/

/-- One constructor for each `panic(...)` message of the embedded functions;
`out_of_fuel` is not a behaviour of the program: it only marks that a
function with fuel was run with too little of it. -/
inductive Err where
  | bad_directory_table_entries
  | bad_directory_address
  | bad_directory_type
  | bad_number_of_directory_entries
  | directory_0_not_found
  | bad_entry_address
  | bad_number_of_points
  | text_too_long
  | bad_number_of_entries
  | cycle_encountered
  | entry_not_found (index : Nat)
  | bad_mrci_header_type
  | bad_mrci_image_size
  | bad_mrci_bit_depth
  | bad_mrci_tile_size
  | bad_mrci_palette_address
  | bad_mrci_bitmap_address
  | bad_palette_type
  | bad_palette_bytes_per_pixel
  | bad_palette_bit_depth_or_colors
  | out_of_fuel
  deriving DecidableEq, Repr

/-! ## Data model (sgd.h) -/

structure SGDEntryHeader where
  size : Nat := 0
  type : Nat := 0
  index : Nat := 0
  unk3 : Nat := 0
  deriving DecidableEq, Repr

/-- `text` lists the bytes of the buffer from the field `text` on. -/
structure SGDTextline where
  text : List Nat := []
  deriving DecidableEq, Repr

/-- The struct `SGDPoint`.  The coordinates are `float` in the file; the
model takes them to be integers (floats that hold integral values, on which
the arithmetic of the program is exact). -/
structure SGDPoint where
  x : Int := 0
  y : Int := 0
  deriving DecidableEq, Repr

structure SGDLasso where
  num_points : Nat := 0
  points : List SGDPoint := []
  deriving DecidableEq, Repr

structure SGDPolyline where
  point1 : Nat := 0
  point2 : Nat := 0
  num_points : Nat := 0
  points : List SGDPoint := []
  deriving DecidableEq, Repr

structure SGDEllipticalArc where
  num_points : Nat := 0
  points : List SGDPoint := []
  deriving DecidableEq, Repr

/-- The struct `SGDPointEntry`, of which the program reads `point`. -/
structure SGDPointEntry where
  point : SGDPoint := {}
  deriving DecidableEq, Repr

structure SGDSimpleArea where
  num_entries : Nat := 0
  entries : List Int := []
  deriving DecidableEq, Repr

structure SGDSet where
  unk7 : Nat := 0
  num_entries : Nat := 0
  entries : List Nat := []
  deriving DecidableEq, Repr

/-- The union `SGDEntry`: one field for each view the program reads. -/
structure SGDEntry where
  hdr : SGDEntryHeader := {}
  polyline : SGDPolyline := {}
  elliptical_arc : SGDEllipticalArc := {}
  lasso : SGDLasso := {}
  textline : SGDTextline := {}
  simple_area : SGDSimpleArea := {}
  set : SGDSet := {}
  point : SGDPointEntry := {}
  deriving DecidableEq, Repr

structure SGDDirectoryType0 where
  num_entries : Nat := 0
  addr : List Nat := []
  deriving DecidableEq, Repr

/-- The union `SGDDirectory`, with `hdr.type` and the view `type0`. -/
structure SGDDirectory where
  hdr_type : Nat := 0
  type0 : SGDDirectoryType0 := {}
  deriving DecidableEq, Repr

/-- One slot `entry[i]` of `SGDDirectoryTable`. -/
structure SGDDirectoryTableEntry where
  type : Nat := 0
  addr : Nat := 0
  deriving DecidableEq, Repr

structure SGDDirectoryTable where
  num_entries : Nat := 0
  entry : List SGDDirectoryTableEntry := []
  deriving DecidableEq, Repr

/-- The loaded buffer: `file_size`, the directory table at `base + 0x4c`, the
directory read at `base + a` and the entry read at `base_off + a`. -/
structure Image where
  file_size : Nat
  table : SGDDirectoryTable
  directory : Nat → SGDDirectory
  entry : Nat → SGDEntry

/-- The buffer together with the global `dir`. -/
structure State where
  img : Image
  dir : SGDDirectoryType0

/-- `#define file_size_off (file_size - SGD_OFFSET)`, in `uint32_t`. -/
def file_size_off (img : Image) : Nat := (img.file_size + 2 ^ 32 - SGD_OFFSET) % 2 ^ 32

/-- `dir->addr[i]` -/
def State.dir_addr (st : State) (i : Nat) : Nat := st.dir.addr.getD i 0

/-- The entry `(SGDEntry *)(base_off + a)`. -/
def State.entry (st : State) (a : Nat) : SGDEntry := st.img.entry a

/-- The store `e->set.num_entries = v` for the entry at offset `a`, on
records that share no byte: the record at `a` changes and no other.  The
store on the bytes is `Bytes.store_set_num_entries`. -/
def State.store_set_num_entries (st : State) (a : Nat) (v : Nat) : State :=
  let e := st.img.entry a
  let e2 : SGDEntry := { e with set := { e.set with num_entries := v } }
  { st with img := { st.img with entry := Function.update st.img.entry a e2 } }

/-- The store `e->set.unk7 = v` for the entry at offset `a`, on records that
share no byte: the record at `a` changes and no other.  The store on the
bytes is `Bytes.store_set_unk7`. -/
def State.store_set_unk7 (st : State) (a : Nat) (v : Nat) : State :=
  let e := st.img.entry a
  let e2 : SGDEntry := { e with set := { e.set with unk7 := v } }
  { st with img := { st.img with entry := Function.update st.img.entry a e2 } }

/-! ## Container validator -/

/-- The loop of `find_directory` from table slot `i` on. -/
def find_directory_loop (img : Image) : List Nat → Except Err SGDDirectoryType0
  | [] => .error .directory_0_not_found
  | i :: rest =>
    let t := img.table.entry.getD i {}
    if t.type = 0 then
      if t.addr > img.file_size then .error .bad_directory_address
      else
        let d := img.directory t.addr
        if d.hdr_type ≠ SGD_BULKDATA then .error .bad_directory_type
        else if d.type0.num_entries > (img.file_size - t.addr) / sizeof_uint32 then
          .error .bad_number_of_directory_entries
        else .ok d.type0
    else find_directory_loop img rest

def find_directory (img : Image) : Except Err SGDDirectoryType0 :=
  if img.table.num_entries > 8 then .error .bad_directory_table_entries
  else find_directory_loop img (List.range img.table.num_entries)

/-- The function `find_entry`: the offset of the first directory entry whose
`hdr.index` is `index`. -/
def find_entry (st : State) (index : Nat) : Except Err Nat :=
  match (List.range st.dir.num_entries).find?
      (fun i => (st.entry (st.dir_addr i)).hdr.index == index) with
  | some i => .ok (st.dir_addr i)
  | none => .error (.entry_not_found index)

/-- The `for` loop of `validate_set_r`; `self` stands for the recursive call. -/
def validate_set_loop (self : State → Nat → Except Err State) (set : Nat) :
    List Nat → State → Except Err State
  | [], st => .ok st
  | i :: rest, st =>
    match find_entry st ((st.entry set).set.entries.getD i 0) with
    | .error err => .error err
    | .ok e =>
      if (st.entry e).hdr.type = SGD_SET then
        match self st e with
        | .error err => .error err
        | .ok st2 => validate_set_loop self set rest st2
      else validate_set_loop self set rest st

/-- The function `validate_set_r`, with fuel for the depth of the recursion. -/
def validate_set_r : Nat → State → Nat → Except Err State
  | 0, _, _ => .error .out_of_fuel
  | fuel + 1, st, set =>
    if (st.entry set).set.num_entries = U32_MINUS_ONE then .error .cycle_encountered
    else
      let num_entries : Int := int_of_u32 (st.entry set).set.num_entries
      let st1 := st.store_set_num_entries set U32_MINUS_ONE
      match validate_set_loop (validate_set_r fuel) set (List.range num_entries.toNat) st1 with
      | .error err => .error err
      | .ok st2 => .ok (st2.store_set_num_entries set (u32_of_int num_entries))

/-- `memchr(s, c, n)`: the offset of the first `c` among the first `n` bytes. -/
def memchr (s : List Nat) (c : Nat) (n : Nat) : Option Nat :=
  (List.range n).find? (fun k => s.getD k 0 == c)

/-- The body of the first loop of `validate_directory` for slot `i`. -/
def validate_entry (st : State) (i : Nat) : Except Err Unit :=
  if st.dir_addr i > file_size_off st.img then .error .bad_entry_address
  else
    let e := st.entry (st.dir_addr i)
    let tail := file_size_off st.img - st.dir_addr i
    if e.hdr.type = SGD_POLYLINE2D then
      if e.polyline.num_points > tail / sizeof_SGDPoint then .error .bad_number_of_points
      else .ok ()
    else if e.hdr.type = SGD_LASSO2D then
      if e.lasso.num_points > tail / sizeof_SGDPoint then .error .bad_number_of_points
      else .ok ()
    else if e.hdr.type = SGD_TEXTLINE2D then
      if (memchr e.textline.text 0 tail).isNone then .error .text_too_long
      else .ok ()
    else if e.hdr.type = SGD_SIMPLEAREA ∨ e.hdr.type = SGD_CONNECTEDAREA then
      if e.simple_area.num_entries > tail / sizeof_uint32 then .error .bad_number_of_entries
      else .ok ()
    else if e.hdr.type = SGD_SET then
      if e.set.num_entries > tail / sizeof_uint32 then .error .bad_number_of_entries
      else .ok ()
    else .ok ()

/-- The first loop of `validate_directory`. -/
def validate_entries (st : State) : List Nat → Except Err Unit
  | [] => .ok ()
  | i :: rest =>
    match validate_entry st i with
    | .error err => .error err
    | .ok _ => validate_entries st rest

/-- The second loop of `validate_directory`. -/
def validate_sets (fuel : Nat) : List Nat → State → Except Err State
  | [], st => .ok st
  | i :: rest, st =>
    if (st.entry (st.dir_addr i)).hdr.type = SGD_SET then
      match validate_set_r fuel st (st.dir_addr i) with
      | .error err => .error err
      | .ok st2 => validate_sets fuel rest st2
    else validate_sets fuel rest st

/-- The function `validate_directory`.  A nested call of `validate_set_r` marks
one more directory entry, so `dir->num_entries + 1` bounds the depth. -/
def validate_directory (img : Image) : Except Err State :=
  match find_directory img with
  | .error err => .error err
  | .ok d =>
    let st : State := { img := img, dir := d }
    match validate_entries st (List.range d.num_entries) with
    | .error err => .error err
    | .ok _ => validate_sets (d.num_entries + 1) (List.range d.num_entries) st

/-! ## Raster decoder -/

structure SGDMrciHeader where
  hdr : SGDEntryHeader := {}
  width : Nat := 0
  height : Nat := 0
  bytes_per_pixel : Nat := 0
  bit_depth : Nat := 0
  palette_addr : Nat := 0
  tile_width : Nat := 0
  tile_height : Nat := 0
  bitmap_addr : Nat := 0
  deriving DecidableEq, Repr

structure SGDMrciPalette where
  type : Nat := 0
  bytes_per_pixel : Nat := 0
  bit_depth : Nat := 0
  num_colors : Nat := 0
  data : List Nat := []
  deriving DecidableEq, Repr

/-- The globals `sgd_width`, `sgd_height`, `h_tiles`, `v_tiles`. -/
structure Raster where
  sgd_width : Nat
  sgd_height : Nat
  h_tiles : Nat
  v_tiles : Nat
  deriving DecidableEq, Repr

/-- The struct `png_color` of libpng: three `png_byte` channels. -/
structure png_color where
  red : Nat := 0
  green : Nat := 0
  blue : Nat := 0
  deriving DecidableEq, Repr

/-- The channels are bytes. -/
def png_color.valid (c : png_color) : Prop := c.red < 256 ∧ c.green < 256 ∧ c.blue < 256

instance (c : png_color) : Decidable c.valid := by
  unfold png_color.valid; infer_instance

/-- The table `sgd_pal`. -/
def sgd_pal : List png_color :=
  [ { red := 0x15, green := 0x22, blue := 0x25 },
    { red := 0x55, green := 0x6a, blue := 0x48 },
    { red := 0x75, green := 0x92, blue := 0x64 },
    { red := 0x90, green := 0xa9, blue := 0x80 },
    { red := 0xaa, green := 0xbd, blue := 0x9f },
    { red := 0xc5, green := 0xd2, blue := 0xbd },
    { red := 0xdf, green := 0xe7, blue := 0xdb },
    { red := 0xff, green := 0xff, blue := 0xff } ]

/-- The function `set_default_pal`: the value of `png_pal` it leaves. -/
def set_default_pal : Nat → png_color := fun k =>
  if k < 8 then sgd_pal.getD k {}
  else if k < 16 then { sgd_pal.getD (k - 8) {} with blue := 0 }
  else {}

/-- The header checks of `parse_mrci` and the four globals it sets; `fso` is
`file_size_off`.  The two calls that follow in the source are `parse_pal`
(below) and `parse_bmp` (zlib). -/
def parse_mrci_header (fso : Nat) (m : SGDMrciHeader) : Except Err Raster :=
  if m.hdr.type ≠ SGD_MRCIHEADER then .error .bad_mrci_header_type
  else if (m.width + 2 ^ 32 - 1) % 2 ^ 32 > MAX_WIDTH - 1 ∨
      (m.height + 2 ^ 32 - 1) % 2 ^ 32 > MAX_HEIGHT - 1 then .error .bad_mrci_image_size
  else if m.bytes_per_pixel ≠ 1 ∨ m.bit_depth ≠ 8 then .error .bad_mrci_bit_depth
  else if m.tile_width ≠ TILE_WIDTH ∨ m.tile_height ≠ TILE_HEIGHT then .error .bad_mrci_tile_size
  else if m.palette_addr > fso then .error .bad_mrci_palette_address
  else if m.bitmap_addr > fso then .error .bad_mrci_bitmap_address
  else .ok
    { sgd_width := m.width
      sgd_height := m.height
      h_tiles := ((m.width + TILE_WIDTH - 1) % 2 ^ 32) / TILE_WIDTH
      v_tiles := ((m.height + TILE_HEIGHT - 1) % 2 ^ 32) / TILE_HEIGHT }

/-- The value `abs(rd) + abs(gd) + abs(bd)` of `remap_colors`, in `int`. -/
def color_dist (p c : png_color) : Int :=
  |(p.red : Int) - (c.red : Int)| + |(p.green : Int) - (c.green : Int)| +
    |(p.blue : Int) - (c.blue : Int)|

/-- One pass of the inner loop of `remap_colors`; the state is
`(best, min_dist)`. -/
def remap_colors_step (png_pal : Nat → png_color) (c : png_color) (s : Nat × Int) (j : Nat) :
    Nat × Int :=
  let dist := color_dist (png_pal j) c
  if dist < s.2 then (j, dist) else s

/-- The inner loop of `remap_colors`: the final `best` for the colour `c`. -/
def remap_colors_best (png_pal : Nat → png_color) (c : png_color) : Nat :=
  ((List.range 8).foldl (remap_colors_step png_pal c) (0, INT_MAX)).1

/-- The function `remap_colors`: the table `colormap` after the call. -/
def remap_colors (png_pal : Nat → png_color) (colormap : Nat → Nat) (pal : Nat → png_color)
    (ncolors : Nat) : Nat → Nat :=
  (List.range ncolors).foldl
    (fun cm i => Function.update cm i (remap_colors_best png_pal (pal i))) colormap

/-- One pass of the loop of `parse_pal` that fills the local `pal`; the state
is `(pal, src)`, `src` an offset into `e->data`. -/
def parse_pal_step (e : SGDMrciPalette) (s : (Nat → png_color) × Nat) (i : Nat) :
    (Nat → png_color) × Nat :=
  let c : png_color :=
    if e.bytes_per_pixel = 3 then
      { red := e.data.getD s.2 0, green := e.data.getD (s.2 + 1) 0, blue := e.data.getD (s.2 + 2) 0 }
    else
      { red := e.data.getD s.2 0, green := e.data.getD s.2 0, blue := e.data.getD s.2 0 }
  (Function.update s.1 i c, s.2 + e.bytes_per_pixel)

/-- The function `parse_pal`: the table `colormap` after the call. -/
def parse_pal (png_pal : Nat → png_color) (colormap : Nat → Nat) (e : SGDMrciPalette) :
    Except Err (Nat → Nat) :=
  if e.type ≠ SGD_BMPPALETTE then .error .bad_palette_type
  else if e.bytes_per_pixel ≠ 1 ∧ e.bytes_per_pixel ≠ 3 then .error .bad_palette_bytes_per_pixel
  else if e.bit_depth ≠ 8 ∨ (e.num_colors + 2 ^ 32 - 1) % 2 ^ 32 > 255 then
    .error .bad_palette_bit_depth_or_colors
  else
    let pal := ((List.range e.num_colors).foldl (parse_pal_step e) (fun _ => {}, 0)).1
    .ok (remap_colors png_pal colormap pal e.num_colors)

/-- The static table `colormap` before the first call: all zero. -/
def colormap_init : Nat → Nat := fun _ => 0

/-! ## Overlay compositor -/

/-- The buffer `sgd_data` with the cursors `dst` and `msk` of `render_tiles`;
`stores` lists the offsets stored through `dst`, in program order. -/
structure RenderState where
  sgd_data : Nat → Nat
  dst : Nat
  msk : Nat
  stores : List Nat

/-- The body of the loop over `k`: `*dst++ = *msk == 255 ? colormap[src[k]] : *msk >> 5`,
then `msk++`; `tile` is `tiles[d * h_tiles + j]` and `src` the offset `m * w`. -/
def render_tiles_pixel (colormap : Nat → Nat) (cr_data : Nat → Nat) (tile : Nat → Nat)
    (src : Nat) (s : RenderState) (k : Nat) : RenderState :=
  let v := if cr_data s.msk = 255 then colormap (tile (src + k)) else cr_data s.msk / 2 ^ 5
  { sgd_data := Function.update s.sgd_data s.dst v
    dst := s.dst + 1
    msk := s.msk + 1
    stores := s.stores ++ [s.dst] }

/-- The body of the loop over `j` (one tile of the row). -/
def render_tiles_tile (g : Raster) (colormap : Nat → Nat) (tiles : Nat → Nat → Nat)
    (cr_data : Nat → Nat) (d m : Nat) (s : RenderState) (j : Nat) : RenderState :=
  let w := min TILE_WIDTH (g.sgd_width - j * TILE_WIDTH)
  (List.range w).foldl
    (render_tiles_pixel colormap cr_data (tiles (d * g.h_tiles + j)) (m * w)) s

/-- The body of the loop over `i` (one row). -/
def render_tiles_row (g : Raster) (colormap : Nat → Nat) (tiles : Nat → Nat → Nat)
    (cr_data : Nat → Nat) (cr_stride : Nat) (s : RenderState) (i : Nat) : RenderState :=
  let d := i / TILE_HEIGHT
  let m := i % TILE_HEIGHT
  let s1 : RenderState := { s with dst := i * g.sgd_width, msk := i * cr_stride }
  (List.range g.h_tiles).foldl (render_tiles_tile g colormap tiles cr_data d m) s1

/-- The function `render_tiles`; `cr_data` and `cr_stride` are what cairo
returns for the mask. -/
def render_tiles (g : Raster) (colormap : Nat → Nat) (tiles : Nat → Nat → Nat)
    (cr_data : Nat → Nat) (cr_stride : Nat) (sgd_data : Nat → Nat) : RenderState :=
  (List.range g.sgd_height).foldl (render_tiles_row g colormap tiles cr_data cr_stride)
    { sgd_data := sgd_data, dst := 0, msk := 0, stores := [] }

/-- The buffer `sgd_data` with the cursors `dst` and `msk` of `apply_mask`. -/
structure MaskState where
  sgd_data : Nat → Nat
  dst : Nat
  msk : Nat

/-- The body of the loop over `j` of `apply_mask`. -/
def apply_mask_pixel (cr_data : Nat → Nat) (s : MaskState) (_j : Nat) : MaskState :=
  let s1 : MaskState :=
    if cr_data s.msk ≠ 0 ∧ (s.sgd_data s.dst ≠ PAL_WHITE ∨ cr_data s.msk = 255) then
      { s with sgd_data := Function.update s.sgd_data s.dst (s.sgd_data s.dst ||| 8) }
    else s
  { s1 with dst := s1.dst + 1, msk := s1.msk + 1 }

/-- The body of the loop over `i` of `apply_mask`. -/
def apply_mask_row (g : Raster) (cr_data : Nat → Nat) (cr_stride : Nat) (s : MaskState)
    (i : Nat) : MaskState :=
  let s1 : MaskState := { s with dst := i * g.sgd_width, msk := i * cr_stride }
  (List.range g.sgd_width).foldl (apply_mask_pixel cr_data) s1

/-- The function `apply_mask`: the buffer `sgd_data` after the call. -/
def apply_mask (g : Raster) (cr_data : Nat → Nat) (cr_stride : Nat) (sgd_data : Nat → Nat) :
    Nat → Nat :=
  ((List.range g.sgd_height).foldl (apply_mask_row g cr_data cr_stride)
    { sgd_data := sgd_data, dst := 0, msk := 0 }).sgd_data

/-! ## Set engine: selection and names -/

/-- The function `set_has_entry`. -/
def set_has_entry (st : State) (set : Nat) (index : Nat) : Bool :=
  (List.range (st.entry set).set.num_entries).any
    (fun i => (st.entry set).set.entries.getD i 0 == index)

/-- The function `set_is_subset`. -/
def set_is_subset (st : State) (set : Nat) : Bool :=
  (List.range st.dir.num_entries).any (fun i =>
    let e := st.dir_addr i
    if e = set ∨ (st.entry e).hdr.type ≠ SGD_SET ∨
        (st.entry e).set.num_entries ≤ (st.entry set).set.num_entries then false
    else
      (List.range (st.entry set).set.num_entries).all
        (fun j => set_has_entry st e ((st.entry set).set.entries.getD j 0)))

/-- The bytes of a C string: up to the first zero byte. -/
def cstr (s : List Nat) : List Nat := s.takeWhile (fun c => c != 0)

/-- `strchr(s, c) != NULL`, for `c` not zero. -/
def strchr (s : List Nat) (c : Nat) : Bool := (cstr s).contains c

/-- The loop of `clearstr`: `inp` is the rest of the input, `size` the
`size_t` counter and `out` the bytes written. -/
def clearstr_loop : List Nat → Nat → List Nat → List Nat
  | [], _, out => out
  | c :: rest, size, out =>
    if c = 0 then out
    else if c ≤ 32 ∨ c = 40 ∨ c = 41 then clearstr_loop rest size out
    else
      let c2 :=
        if (65 ≤ c ∧ c ≤ 90) ∨ (48 ≤ c ∧ c ≤ 57) then c
        else if 97 ≤ c ∧ c ≤ 122 then c - (97 - 65)
        else 95
      let size2 := (size + 2 ^ 64 - 1) % 2 ^ 64
      if size2 = 0 then out
      else clearstr_loop rest size2 (out ++ [c2])

/-- The function `clearstr`: the string left in `out`. -/
def clearstr (size : Nat) (inp : List Nat) : List Nat := clearstr_loop inp size []

/-- The loop of `get_set_name_buf`. -/
def get_set_name_loop (st : State) (size : Nat) (set : Nat) :
    List Nat → Except Err (Option (List Nat))
  | [] => .ok none
  | i :: rest =>
    match find_entry st ((st.entry set).set.entries.getD i 0) with
    | .error err => .error err
    | .ok e =>
      if (st.entry e).hdr.type = SGD_TEXTLINE2D ∧ strchr (st.entry e).textline.text 45 = false then
        let buf := clearstr size (st.entry e).textline.text
        if buf.headD 0 ≠ 0 then .ok (some buf)
        else get_set_name_loop st size set rest
      else get_set_name_loop st size set rest

/-- The function `get_set_name_buf`: `none` stands for `NULL`. -/
def get_set_name_buf (st : State) (size : Nat) (set : Nat) : Except Err (Option (List Nat)) :=
  get_set_name_loop st size set (List.range (st.entry set).set.num_entries)

/-- `#define get_set_name(set) get_set_name_buf((char [16]){}, 16, set)` -/
def get_set_name (st : State) (set : Nat) : Except Err (Option (List Nat)) :=
  get_set_name_buf st 16 set

/-! ## Set engine: bounds

The coordinates of a `bounds_t` are integers.  `MIN` and `MAX` are exact;
`bounds_area` reduces its result to 32 bits.  `expand_bounds` is given twice:
in the integers, and as `expand_bounds_int` with the sums and differences of
`int` reduced to 32 bits; the two agree where nothing overflows. -/

/-- The struct `bounds_t`. -/
structure bounds_t where
  min_x : Int
  min_y : Int
  max_x : Int
  max_y : Int
  deriving DecidableEq, Repr

/-- `#define EMPTY_BOUNDS (bounds_t){9999, 9999, -9999, -9999}` -/
def EMPTY_BOUNDS : bounds_t := { min_x := 9999, min_y := 9999, max_x := -9999, max_y := -9999 }

/-- The function `add_point`. -/
def add_point (b : bounds_t) (x y : Int) : bounds_t :=
  { min_x := min b.min_x x, min_y := min b.min_y y, max_x := max b.max_x x, max_y := max b.max_y y }

/-- The function `union_bounds`. -/
def union_bounds (b1 b2 : bounds_t) : bounds_t :=
  { min_x := min b1.min_x b2.min_x, min_y := min b1.min_y b2.min_y,
    max_x := max b1.max_x b2.max_x, max_y := max b1.max_y b2.max_y }

/-- The function `bounds_empty`. -/
def bounds_empty (b : bounds_t) : Bool := decide (b.min_x > b.max_x) || decide (b.min_y > b.max_y)

/-- The function `bounds_area`.  The differences, the sums and the product
are those of `int`: the value is the exact one reduced to 32 bits, which is
what the 32-bit operations give one after the other. -/
def bounds_area (b : bounds_t) : Int :=
  if bounds_empty b then 0 else int_wrap ((b.max_x - b.min_x + 1) * (b.max_y - b.min_y + 1))

/-- The function `expand_bounds`. -/
def expand_bounds (g : Raster) (b : bounds_t) : bounds_t :=
  if bounds_empty b = false then
    let mx := min (min 75 b.min_x) ((g.sgd_width : Int) - b.max_x - 1)
    let my := min (min 75 b.min_y) ((g.sgd_height : Int) - b.max_y - 1)
    { min_x := b.min_x - mx, min_y := b.min_y - my, max_x := b.max_x + mx, max_y := b.max_y + my }
  else b

/-- The function `calc_polyline_bounds` for the polyline at `e`. -/
def calc_polyline_bounds (st : State) (g : Raster) (b : bounds_t) (e : Nat) :
    Except Err bounds_t :=
  let pl := (st.entry e).polyline
  let first : Except Err bounds_t :=
    if pl.point1 ≠ 0 then
      match find_entry st pl.point1 with
      | .error err => .error err
      | .ok p1 =>
        .ok (add_point b (st.entry p1).point.point.x
          ((g.sgd_height : Int) - (st.entry p1).point.point.y))
    else .ok b
  match first with
  | .error err => .error err
  | .ok b1 =>
    let b2 := (List.range pl.num_points).foldl
      (fun acc i => add_point acc (pl.points.getD i {}).x
        ((g.sgd_height : Int) - (pl.points.getD i {}).y)) b1
    if pl.point2 ≠ 0 then
      match find_entry st pl.point2 with
      | .error err => .error err
      | .ok p2 =>
        .ok (add_point b2 (st.entry p2).point.point.x
          ((g.sgd_height : Int) - (st.entry p2).point.point.y))
    else .ok b2

/-- The loop of `calc_area_bounds` for the area at `e`.  For an elliptical
arc, `r = (points[1].x - x) / 2` may be a half: `y - r` and `y + r` are
truncated towards zero by the conversion to `int`. -/
def calc_area_bounds_loop (st : State) (g : Raster) (e : Nat) :
    List Nat → bounds_t → Except Err bounds_t
  | [], b => .ok b
  | i :: rest, b =>
    match find_entry st ((st.entry e).simple_area.entries.getD i 0).natAbs with
    | .error err => .error err
    | .ok s =>
      if (st.entry s).hdr.type = SGD_POLYLINE2D then
        match calc_polyline_bounds st g b s with
        | .error err => .error err
        | .ok b2 => calc_area_bounds_loop st g e rest b2
      else if (st.entry s).hdr.type = SGD_ELLIPTICALARC2D then
        let x := ((st.entry s).elliptical_arc.points.getD 0 {}).x
        let y := (g.sgd_height : Int) - ((st.entry s).elliptical_arc.points.getD 0 {}).y
        let d := ((st.entry s).elliptical_arc.points.getD 1 {}).x - x
        let b1 := add_point b x (Int.tdiv (2 * y - d) 2)
        let b2 := add_point b1 (x + d) (Int.tdiv (2 * y + d) 2)
        calc_area_bounds_loop st g e rest b2
      else calc_area_bounds_loop st g e rest b

/-- The function `calc_area_bounds`. -/
def calc_area_bounds (st : State) (g : Raster) (b : bounds_t) (e : Nat) : Except Err bounds_t :=
  calc_area_bounds_loop st g e (List.range (st.entry e).simple_area.num_entries) b

/-- The loop of `calc_entry_bounds` for a CONNECTED_AREA at `e`. -/
def calc_connected_bounds_loop (st : State) (g : Raster) (e : Nat) :
    List Nat → bounds_t → Except Err bounds_t
  | [], b => .ok b
  | j :: rest, b =>
    match find_entry st (u32_of_int ((st.entry e).simple_area.entries.getD j 0)) with
    | .error err => .error err
    | .ok s =>
      if (st.entry s).hdr.type = SGD_SIMPLEAREA then
        match calc_area_bounds st g b s with
        | .error err => .error err
        | .ok b2 => calc_connected_bounds_loop st g e rest b2
      else calc_connected_bounds_loop st g e rest b

/-- The function `calc_entry_bounds`. -/
def calc_entry_bounds (st : State) (g : Raster) (b : bounds_t) (e : Nat) : Except Err bounds_t :=
  if (st.entry e).hdr.type = SGD_LASSO2D then
    .ok ((List.range (st.entry e).lasso.num_points).foldl
      (fun acc j => add_point acc ((st.entry e).lasso.points.getD j {}).x
        ((g.sgd_height : Int) - ((st.entry e).lasso.points.getD j {}).y)) b)
  else if (st.entry e).hdr.type = SGD_CONNECTEDAREA then
    calc_connected_bounds_loop st g e (List.range (st.entry e).simple_area.num_entries) b
  else if (st.entry e).hdr.type = SGD_SIMPLEAREA then
    calc_area_bounds st g b e
  else .ok b

/-- The loop of `finalize_bounds` over the adjacent pairs of children. -/
def finalize_bounds_loop (st : State) (g : Raster) (set : Nat) :
    List Nat → bounds_t → Except Err bounds_t
  | [], b => .ok b
  | i :: rest, b =>
    match find_entry st ((st.entry set).set.entries.getD i 0) with
    | .error err => .error err
    | .ok e =>
      match find_entry st ((st.entry set).set.entries.getD (i + 1) 0) with
      | .error err => .error err
      | .ok n =>
        if (st.entry e).hdr.type = SGD_TEXTLINE2D ∧ strchr (st.entry e).textline.text 45 = false ∧
            (st.entry n).hdr.type = SGD_SIMPLEAREA then
          calc_entry_bounds st g b n
        else finalize_bounds_loop st g set rest b

/-- The function `finalize_bounds`. -/
def finalize_bounds (st : State) (g : Raster) (b : bounds_t) (set : Nat) : Except Err bounds_t :=
  let seeded : Except Err bounds_t :=
    if bounds_empty b then
      finalize_bounds_loop st g set
        (List.range (int_of_u32 (st.entry set).set.num_entries - 1).toNat) b
    else .ok b
  match seeded with
  | .error err => .error err
  | .ok b1 => .ok (expand_bounds g b1)

/-- The function `expand_bounds` with the arithmetic of `int`: every
difference and sum is reduced to 32 bits. -/
def expand_bounds_int (g : Raster) (b : bounds_t) : bounds_t :=
  if bounds_empty b = false then
    let mx := min (min 75 b.min_x) (int_wrap (int_wrap ((g.sgd_width : Int) - b.max_x) - 1))
    let my := min (min 75 b.min_y) (int_wrap (int_wrap ((g.sgd_height : Int) - b.max_y) - 1))
    { min_x := int_wrap (b.min_x - mx), min_y := int_wrap (b.min_y - my),
      max_x := int_wrap (b.max_x + mx), max_y := int_wrap (b.max_y + my) }
  else b

/-- The function `finalize_bounds` with `expand_bounds_int`. -/
def finalize_bounds_int (st : State) (g : Raster) (b : bounds_t) (set : Nat) :
    Except Err bounds_t :=
  let seeded : Except Err bounds_t :=
    if bounds_empty b then
      finalize_bounds_loop st g set
        (List.range (int_of_u32 (st.entry set).set.num_entries - 1).toNat) b
    else .ok b
  match seeded with
  | .error err => .error err
  | .ok b1 => .ok (expand_bounds_int g b1)

/-- What `write_crop` hands to `write_rows`: the width, the height and, for
each row, the offset in `sgd_data` at which it starts. -/
structure CropRows where
  width : Int
  height : Int
  rows : List Int
  deriving DecidableEq, Repr

/-- The function `write_crop`: `none` when nothing is written. -/
def write_crop (g : Raster) (b : bounds_t) : Option CropRows :=
  if bounds_empty b = false then
    let w := b.max_x - b.min_x + 1
    let h := b.max_y - b.min_y + 1
    some { width := w, height := h,
           rows := (List.range h.toNat).map
             (fun (i : Nat) => (b.min_y + (i : Int)) * (g.sgd_width : Int) + b.min_x) }
  else none

/-! ## Set engine: fixup -/

/-- The store of a new array `e->set.entries` for the entry at offset `a`,
on records that share no byte: the record at `a` changes and no other.  The
stores of `fixup_set` on the bytes are `fixup_set_store_bytes`. -/
def State.store_set_entries (st : State) (a : Nat) (l : List Nat) : State :=
  let e := st.img.entry a
  let e2 : SGDEntry := { e with set := { e.set with entries := l } }
  { st with img := { st.img with entry := Function.update st.img.entry a e2 } }

/-- The test of the loop of `fixup_set` at slot `i`: when `e` is a TEXT_LINE
with a `-` and `n` a SIMPLE_AREA, the values `e->hdr.index` and
`n->hdr.index`.  The program reads them after the `memmove`, which leaves them
on records that share no byte; `fixup_set_store_bytes` keeps the order of the
program. -/
def fixup_set_test (st : State) (set : Nat) (i : Nat) : Except Err (Option (Nat × Nat)) :=
  match find_entry st ((st.entry set).set.entries.getD i 0) with
  | .error err => .error err
  | .ok e =>
    match find_entry st ((st.entry set).set.entries.getD (i + 1) 0) with
    | .error err => .error err
    | .ok n =>
      if (st.entry e).hdr.type = SGD_TEXTLINE2D ∧ strchr (st.entry e).textline.text 45 = true ∧
          (st.entry n).hdr.type = SGD_SIMPLEAREA then
        .ok (some ((st.entry e).hdr.index, (st.entry n).hdr.index))
      else .ok none

/-- The first `num_entries` slots of `e->set.entries` for the entry at `a`. -/
def State.children (st : State) (a : Nat) : List Nat :=
  (List.range (st.entry a).set.num_entries).map (fun i => (st.entry a).set.entries.getD i 0)

/-- The slots `c` of the array after
`memmove(&entries[i], &entries[i+2], (num_entries-i-2)*4)` and the stores
`entries[num_entries-2] = ei`, `entries[num_entries-1] = ni`, where
`num_entries` is the local count of `fixup_set`. -/
def fixup_set_move (c : List Nat) (num_entries i ei ni : Nat) : List Nat :=
  c.take i ++ (c.drop (i + 2)).take (num_entries - i - 2) ++ [ei, ni] ++ c.drop num_entries

/-- The branch of the loop of `fixup_set` that moves the pair at slot `i`;
what follows the array in the buffer is kept. -/
def fixup_set_store (st : State) (set : Nat) (num_entries i : Nat) (p : Nat × Nat) : State :=
  st.store_set_entries set
    (fixup_set_move (st.children set) num_entries i p.1 p.2 ++
      (st.entry set).set.entries.drop (st.entry set).set.num_entries)

/-- The loop of `fixup_set`, entered at slot `i` with `k` further slots to
look at: the local `num_entries` is `i + k + 1`.  When a pair is moved,
`num_entries` drops by 2 and `i` stays (`i--` then `i++`). -/
def fixup_set_loop (set : Nat) : Nat → Nat → State → Except Err State
  | 0, _, st => .ok st
  | 1, i, st =>
    match fixup_set_test st set i with
    | .error err => .error err
    | .ok (some p) => .ok (fixup_set_store st set (i + 2) i p)
    | .ok none => .ok st
  | k + 2, i, st =>
    match fixup_set_test st set i with
    | .error err => .error err
    | .ok (some p) => fixup_set_loop set k i (fixup_set_store st set (i + k + 3) i p)
    | .ok none => fixup_set_loop set (k + 1) (i + 1) st

/-- The function `fixup_set`: the loop runs while `i < num_entries - 1`, with
`int num_entries`. -/
def fixup_set (st : State) (set : Nat) : Except Err State :=
  fixup_set_loop set (int_of_u32 (st.entry set).set.num_entries - 1).toNat 0 st

/-! ## Set engine: bounds of a set -/

/-- The loop of `entry_has_shape` for the SIMPLE_AREA at `e`. -/
def entry_has_shape_loop (st : State) (e : Nat) : List Nat → Except Err Int
  | [] => .ok 0
  | i :: rest =>
    match find_entry st ((st.entry e).simple_area.entries.getD i 0).natAbs with
    | .error err => .error err
    | .ok s =>
      if (st.entry s).hdr.type = SGD_POLYLINE2D then .ok 4
      else entry_has_shape_loop st e rest

/-- The function `entry_has_shape`. -/
def entry_has_shape (st : State) (e : Nat) : Except Err Int :=
  if (st.entry e).hdr.type = SGD_SET then .ok 1
  else if (st.entry e).hdr.type = SGD_LASSO2D then .ok 2
  else if (st.entry e).hdr.type = SGD_CONNECTEDAREA then .ok 3
  else if (st.entry e).hdr.type = SGD_SIMPLEAREA then
    entry_has_shape_loop st e (List.range (st.entry e).simple_area.num_entries)
  else .ok 0

/-- The sum `shape + v` of two `int`, taken as the 32-bit sum. -/
def int_add (shape v : Int) : Int := int_of_u32 (u32_of_int (shape + v))

/-- The locals of the inner loop of `calc_set_bounds_r`: `eb`, `shape`,
`textline` and `count = i - start`, the number of slots passed. -/
structure ScanState where
  eb : bounds_t
  shape : Int
  textline : Bool
  count : Nat

/-- The inner loop `for (; i < set->set.num_entries; i++)` of
`calc_set_bounds_r`, which scans one run: it ends at the end of the array or
at a TEXT_LINE met when `textline` is set. -/
def calc_set_scan (st : State) (g : Raster) (set : Nat) : List Nat → ScanState →
    Except Err ScanState
  | [], s => .ok s
  | i :: rest, s =>
    match find_entry st ((st.entry set).set.entries.getD i 0) with
    | .error err => .error err
    | .ok e =>
      if (st.entry e).hdr.type = SGD_TEXTLINE2D then
        if s.textline = true then .ok s
        else calc_set_scan st g set rest { s with textline := true, count := s.count + 1 }
      else
        match calc_entry_bounds st g s.eb e with
        | .error err => .error err
        | .ok eb =>
          match entry_has_shape st e with
          | .error err => .error err
          | .ok cls =>
            let shape := if cls ≠ 0 then int_add s.shape (2 ^ (8 * (cls - 1)).toNat) else s.shape
            calc_set_scan st g set rest { s with eb := eb, shape := shape, count := s.count + 1 }

/-- The loop `e = find_entry(set->set.entries[j]); if (e->hdr.type == SGD_SET)
calc_set_bounds_r(b, e);` of `calc_set_bounds_r`.  The function runs it over
the slots of a run, into `eb`, and at `recurse:` over all slots, into `b`;
`self` stands for the recursive call. -/
def calc_set_children (self : State → bounds_t → Nat → Except Err (State × bounds_t))
    (set : Nat) : List Nat → State → bounds_t → Except Err (State × bounds_t)
  | [], st, b => .ok (st, b)
  | j :: rest, st, b =>
    match find_entry st ((st.entry set).set.entries.getD j 0) with
    | .error err => .error err
    | .ok e =>
      if (st.entry e).hdr.type = SGD_SET then
        match self st b e with
        | .error err => .error err
        | .ok r => calc_set_children self set rest r.1 r.2
      else calc_set_children self set rest st b

/-- One run of a SET as `calc_set_bounds_r` sees it: the shape sum `shape` and
the rectangle `eb` of the run after its child SETs are merged in. -/
structure SetRun where
  shape : Int
  eb : bounds_t
  deriving DecidableEq, Repr

/-- The buffer and the locals of `calc_set_bounds_r` in its outer loop; `runs`
keeps, for every run that passed `if (!shape) continue;`, its `shape` and its
`eb` at the point where `t` is computed. -/
structure RunState where
  st : State
  min_b : bounds_t
  max_b : bounds_t
  min_area : Int
  last_shape : Int
  textline : Bool
  runs : List SetRun

/-- The outer loop of `calc_set_bounds_r` with caller's bounds `b`.  The list
holds the slots from `i` on; `skip` counts the slots that the inner loop of
the last run has passed already (the inner loop advances `i` itself, and the
outer `i++` then steps over the slot at which it stopped). -/
def calc_set_runs (self : State → bounds_t → Nat → Except Err (State × bounds_t))
    (g : Raster) (b : bounds_t) (set : Nat) : List Nat → Nat → RunState → Except Err RunState
  | [], _, s => .ok s
  | _ :: rest, skip + 1, s => calc_set_runs self g b set rest skip s
  | i :: rest, 0, s =>
    match calc_set_scan s.st g set (i :: rest)
        { eb := EMPTY_BOUNDS, shape := 0, textline := s.textline, count := 0 } with
    | .error err => .error err
    | .ok sc =>
      if sc.shape = 0 then
        calc_set_runs self g b set rest sc.count { s with textline := sc.textline }
      else
        let last_shape :=
          if s.last_shape = 0 then sc.shape
          else if s.last_shape ≠ sc.shape then -1
          else s.last_shape
        match calc_set_children self set (List.range' i sc.count) s.st sc.eb with
        | .error err => .error err
        | .ok r =>
          let t := union_bounds b r.2
          let area := bounds_area t
          calc_set_runs self g b set rest sc.count
            { st := r.1
              min_b := if area < s.min_area then t else s.min_b
              max_b := union_bounds s.max_b t
              min_area := if area < s.min_area then area else s.min_area
              last_shape := last_shape
              textline := sc.textline
              runs := s.runs ++ [{ shape := sc.shape, eb := r.2 }] }

/-- The locals of `calc_set_bounds_r` when its outer loop starts, in the
buffer `st`. -/
def RunState.init (st : State) : RunState :=
  { st := st, min_b := EMPTY_BOUNDS, max_b := EMPTY_BOUNDS, min_area := INT_MAX,
    last_shape := 0, textline := false, runs := [] }

/-- The function `calc_set_bounds_r`, with fuel for the depth of the
recursion; it returns the buffer and `*b`.  `~SET_DRAWN` is `0x7FFFFFFF`.  No
store to `num_entries` is made here, so each loop reads its bound once. -/
def calc_set_bounds_r (g : Raster) : Nat → State → bounds_t → Nat → Except Err (State × bounds_t)
  | 0, _, _, _ => .error .out_of_fuel
  | fuel + 1, st, b, set =>
    if (st.entry set).set.unk7 &&& 0x7FFFFFFF = 0x79 then
      calc_set_children (calc_set_bounds_r g fuel) set
        (List.range (st.entry set).set.num_entries) st b
    else
      match fixup_set st set with
      | .error err => .error err
      | .ok st1 =>
        match calc_set_runs (calc_set_bounds_r g fuel) g b set
            (List.range (st1.entry set).set.num_entries) 0 (RunState.init st1) with
        | .error err => .error err
        | .ok s =>
          if s.last_shape = -1 then
            if bounds_empty s.max_b = false then .ok (s.st, s.max_b)
            else calc_set_children (calc_set_bounds_r g fuel) set
              (List.range (s.st.entry set).set.num_entries) s.st b
          else
            if bounds_empty s.min_b = false then .ok (s.st, s.min_b)
            else calc_set_children (calc_set_bounds_r g fuel) set
              (List.range (s.st.entry set).set.num_entries) s.st b

/-! ## Set engine: the passes of `process_sets` -/

/-- One pass of `process_sets`: the SET `first` that starts it, its name
`text`, the SETs `merged` into it by the inner loop, and the bounds `b` that
go to `write_crop` (when `do_crop` is set). -/
structure SetPass where
  first : Nat
  text : List Nat
  merged : List Nat
  b : bounds_t
  deriving DecidableEq, Repr

/-- The test `e->hdr.type != SGD_SET || e->set.unk7 & SET_DRAWN ||
set_is_subset(e)` of `process_sets`. -/
def process_sets_skip (st : State) (e : Nat) : Bool :=
  decide ((st.entry e).hdr.type ≠ SGD_SET) || decide ((st.entry e).set.unk7 &&& SET_DRAWN ≠ 0) ||
    set_is_subset st e

/-- The steps `render_mask_r(mask_cr, e); if (do_crop) calc_set_bounds_r(&b,
e); e->set.unk7 |= SET_DRAWN;` of `process_sets`.  The call of `render_mask_r`
is `render`: it draws on the mask, stores nothing in the buffer and stops the
program when a `find_entry` fails. -/
def process_sets_draw (render : State → Nat → Except Err Unit) (g : Raster) (do_crop : Bool)
    (fuel : Nat) (st : State) (b : bounds_t) (e : Nat) : Except Err (State × bounds_t) :=
  match render st e with
  | .error err => .error err
  | .ok _ =>
    match (if do_crop = true then calc_set_bounds_r g fuel st b e else .ok (st, b)) with
    | .error err => .error err
    | .ok r => .ok (r.1.store_set_unk7 e ((r.1.entry e).set.unk7 ||| SET_DRAWN), r.2)

/-- The inner loop `for (int j = i + 1; j < dir->num_entries; j++)` of
`process_sets` for the name `text`; `merged` collects the SETs drawn. -/
def process_sets_merge (render : State → Nat → Except Err Unit) (g : Raster) (do_crop : Bool)
    (fuel : Nat) (text : List Nat) : List Nat → State → bounds_t → List Nat →
    Except Err (State × bounds_t × List Nat)
  | [], st, b, merged => .ok (st, b, merged)
  | j :: rest, st, b, merged =>
    if process_sets_skip st (st.dir_addr j) = true then
      process_sets_merge render g do_crop fuel text rest st b merged
    else
      match get_set_name st (st.dir_addr j) with
      | .error err => .error err
      | .ok none => process_sets_merge render g do_crop fuel text rest st b merged
      | .ok (some text2) =>
        if text2 ≠ text then process_sets_merge render g do_crop fuel text rest st b merged
        else
          match process_sets_draw render g do_crop fuel st b (st.dir_addr j) with
          | .error err => .error err
          | .ok r =>
            process_sets_merge render g do_crop fuel text rest r.1 r.2
              (merged ++ [st.dir_addr j])

/-- The loop `for (int i = 0; i < dir->num_entries; i++)` of `process_sets`;
`passes` collects what is written, one pass for each PNG name. -/
def process_sets_loop (render : State → Nat → Except Err Unit) (g : Raster) (do_crop : Bool)
    (fuel : Nat) : List Nat → State → List SetPass → Except Err (State × List SetPass)
  | [], st, passes => .ok (st, passes)
  | i :: rest, st, passes =>
    if process_sets_skip st (st.dir_addr i) = true then
      process_sets_loop render g do_crop fuel rest st passes
    else
      match get_set_name st (st.dir_addr i) with
      | .error err => .error err
      | .ok none => process_sets_loop render g do_crop fuel rest st passes
      | .ok (some text) =>
        match process_sets_draw render g do_crop fuel st EMPTY_BOUNDS (st.dir_addr i) with
        | .error err => .error err
        | .ok r =>
          match process_sets_merge render g do_crop fuel text rest r.1 r.2 [] with
          | .error err => .error err
          | .ok m =>
            match (if do_crop = true then finalize_bounds m.1 g m.2.1 (st.dir_addr i)
                else .ok m.2.1) with
            | .error err => .error err
            | .ok b2 =>
              process_sets_loop render g do_crop fuel rest m.1
                (passes ++ [{ first := st.dir_addr i, text := text, merged := m.2.2, b := b2 }])

/-- The function `process_sets`: the buffer it leaves and its passes.  The
recursion of `calc_set_bounds_r` gets `dir->num_entries + 1` units of fuel. -/
def process_sets (render : State → Nat → Except Err Unit) (g : Raster) (do_crop : Bool)
    (st : State) : Except Err (State × List SetPass) :=
  process_sets_loop render g do_crop (st.dir.num_entries + 1) (List.range st.dir.num_entries) st []

/-! ## Mask renderer: polylines and areas

The calls that the program makes to cairo are kept as a list, in program
order; a panic in the middle loses the list. -/

/-- The vertex that `line_to` hands to `cairo_line_to`. -/
def line_to (g : Raster) (p : SGDPoint) : Int × Int := (p.x, (g.sgd_height : Int) - p.y)

/-- The statements `if (start) line_to(cr, find_entry(start)->point.point);`
and `if (end) line_to(...)` of `draw_polyline`, for the index `idx`. -/
def draw_polyline_end (st : State) (g : Raster) (idx : Nat) : Except Err (List (Int × Int)) :=
  if idx ≠ 0 then
    match find_entry st idx with
    | .error err => .error err
    | .ok p => .ok [line_to g (st.entry p).point.point]
  else .ok []

/-- The function `draw_polyline` for the polyline at `e`: the vertices handed
to `line_to`, in order.  The loop of the reverse direction starts at
`int i = num_points - 1`. -/
def draw_polyline (st : State) (g : Raster) (e : Nat) (reverse : Bool) :
    Except Err (List (Int × Int)) :=
  let pl := (st.entry e).polyline
  let start := if reverse then pl.point2 else pl.point1
  let last := if reverse then pl.point1 else pl.point2
  match draw_polyline_end st g start with
  | .error err => .error err
  | .ok v1 =>
    let v2 :=
      if reverse then
        (List.range (int_of_u32 (pl.num_points + 2 ^ 32 - 1) + 1).toNat).reverse.map
          (fun i => line_to g (pl.points.getD i {}))
      else (List.range pl.num_points).map (fun i => line_to g (pl.points.getD i {}))
    match draw_polyline_end st g last with
    | .error err => .error err
    | .ok v3 => .ok (v1 ++ v2 ++ v3)

/-- A call made by `render_area_mask`: `line_to`, `cairo_arc` (for the arc
that starts at `(x, y)` with the diameter `d`: the centre is `x + d/2` and the
radius `d/2`) and `set_color` with `COLOR_SHAPE` or `COLOR_LABEL`. -/
inductive PathOp where
  | line (v : Int × Int)
  | arc (x y d : Int)
  | color_shape
  | color_label
  deriving DecidableEq, Repr

/-- The loop of `render_area_mask` for the SIMPLE_AREA at `e`. -/
def render_area_mask_loop (st : State) (g : Raster) (e : Nat) :
    List Nat → Except Err (List PathOp)
  | [] => .ok []
  | i :: rest =>
    match find_entry st ((st.entry e).simple_area.entries.getD i 0).natAbs with
    | .error err => .error err
    | .ok s =>
      if (st.entry s).hdr.type = SGD_POLYLINE2D then
        match draw_polyline st g s (decide ((st.entry e).simple_area.entries.getD i 0 < 0)) with
        | .error err => .error err
        | .ok v =>
          match render_area_mask_loop st g e rest with
          | .error err => .error err
          | .ok r => .ok (v.map PathOp.line ++ PathOp.color_shape :: r)
      else if (st.entry s).hdr.type = SGD_ELLIPTICALARC2D then
        let x := ((st.entry s).elliptical_arc.points.getD 0 {}).x
        let y := (g.sgd_height : Int) - ((st.entry s).elliptical_arc.points.getD 0 {}).y
        let d := ((st.entry s).elliptical_arc.points.getD 1 {}).x - x
        match render_area_mask_loop st g e rest with
        | .error err => .error err
        | .ok r => .ok (PathOp.arc x y d :: PathOp.color_label :: r)
      else render_area_mask_loop st g e rest

/-- The function `render_area_mask`. -/
def render_area_mask (st : State) (g : Raster) (e : Nat) : Except Err (List PathOp) :=
  render_area_mask_loop st g e (List.range (st.entry e).simple_area.num_entries)

/-! ## Palette file

The file is the list of its bytes, `none` when `fopen` fails.  The library
calls are modelled from the C standard: `fgets` gives the next bytes up to and
including a newline, at most `size - 1` of them; `sscanf` is a parameter
`scan` that gives the three values when `sscanf(buf, "%x %x %x", ...)` returns
3. -/

/-- One constructor for each `panic(...)` of `parse_pal_file`. -/
inductive PalFileErr where
  | cannot_open
  | error_at_line (j : Nat)
  | too_many_colors
  | bad_number_of_colors
  deriving DecidableEq, Repr

/-- The bytes that `fgets` stores when it may store `k` more, and the rest of
the file. -/
def fgets_loop : Nat → List Nat → List Nat × List Nat
  | 0, inp => ([], inp)
  | _ + 1, [] => ([], [])
  | k + 1, c :: rest =>
    if c = 10 then ([c], rest) else ((fgets_loop k rest).1.cons c, (fgets_loop k rest).2)

/-- The call `fgets(buf, size, fp)`: `none` at the end of the file. -/
def fgets (size : Nat) : List Nat → Option (List Nat × List Nat)
  | [] => none
  | c :: rest => some (fgets_loop (size - 1) (c :: rest))

/-- The buffers that the calls `fgets(buf, size, fp)` of a loop
`while (fgets(...))` give, with fuel for the number of calls. -/
def fgets_all (size : Nat) : Nat → List Nat → List (List Nat)
  | 0, _ => []
  | fuel + 1, inp =>
    match fgets size inp with
    | none => []
    | some r => r.1 :: fgets_all size fuel r.2

/-- The function `is_white` on the bytes of a buffer; the end of the list
stands for the terminating zero.  `char_signed` tells whether `char` is
signed: then the bytes from 128 on are negative and not above `' '`. -/
def is_white (char_signed : Bool) : List Nat → Bool
  | [] => true
  | c :: rest =>
    if c = 0 then true
    else if 32 < c ∧ (char_signed = false ∨ c < 128) then false
    else is_white char_signed rest

/-- The loop `while (fgets(buf, sizeof(buf), fp))` of `parse_pal_file` over
the buffers that `fgets` gives; the state is `j`, `i` and `png_pal`.  The
stores to the `png_byte` channels keep the low 8 bits. -/
def parse_pal_file_loop (char_signed : Bool) (scan : List Nat → Option (Nat × Nat × Nat)) :
    List (List Nat) → Nat → Nat → (Nat → png_color) → Except PalFileErr (Nat × (Nat → png_color))
  | [], _, i, png_pal => .ok (i, png_pal)
  | buf :: rest, j, i, png_pal =>
    if is_white char_signed buf then
      parse_pal_file_loop char_signed scan rest (j + 1) i png_pal
    else
      match scan buf with
      | none => .error (.error_at_line (j + 1))
      | some v =>
        if i = 16 then .error .too_many_colors
        else
          parse_pal_file_loop char_signed scan rest (j + 1) (i + 1)
            (Function.update png_pal i
              { red := v.1 % 256, green := v.2.1 % 256, blue := v.2.2 % 256 })

/-- The function `parse_pal_file`: the table `png_pal` that it leaves.  The
file has at most as many buffers as bytes. -/
def parse_pal_file (char_signed : Bool) (scan : List Nat → Option (Nat × Nat × Nat))
    (file : Option (List Nat)) (png_pal : Nat → png_color) :
    Except PalFileErr (Nat → png_color) :=
  match file with
  | none => .error .cannot_open
  | some inp =>
    match parse_pal_file_loop char_signed scan (fgets_all 1024 inp.length inp) 0 0 png_pal with
    | .error err => .error err
    | .ok r =>
      if r.1 = 8 then
        .ok ((List.range 8).foldl
          (fun pal i => Function.update pal (i + 8) { pal i with blue := 0 }) r.2)
      else if r.1 ≠ 16 then .error .bad_number_of_colors
      else .ok r.2

/-! ## The buffer as bytes
The records above are typed views, one for each offset, and a store changes
one record.  In the program they are views of the bytes of `base`, and two
records of a file may share bytes: `validate_directory` checks every record
against the end of the file and not against the other records.  The
functions that store into the buffer (`validate_set_r`, `fixup_set`,
`calc_set_bounds_r`, `process_sets`) are modelled here on the bytes; what
they call to read the buffer is run on the typed view `Bytes.view` of the
bytes at that moment.  Integers are little-endian, and a `float` is taken at
the integer that it is truncated to (`f32_to_int`).  A loop whose bound the
program reads again at every turn (`i < dir->num_entries`,
`i < set->set.num_entries`) reads it again here; it takes fuel, and `2 ^ 32`
turns are enough for an index that runs below a `uint32_t`. -/

/-- The array `base`, byte by byte, with the globals `file_size` and `dir`;
`dir` is kept as its offset from `base`. -/
structure Bytes where
  mem : Nat → Nat
  file_size : Nat
  dir : Nat

/-- The byte at `p`. -/
def rd8 (m : Nat → Nat) (p : Nat) : Nat := m p % 256

/-- The `uint16_t` at `p`. -/
def rd16 (m : Nat → Nat) (p : Nat) : Nat := rd8 m p + 2 ^ 8 * rd8 m (p + 1)

/-- The `uint32_t` at `p`. -/
def rd32 (m : Nat → Nat) (p : Nat) : Nat :=
  rd8 m p + 2 ^ 8 * rd8 m (p + 1) + 2 ^ 16 * rd8 m (p + 2) + 2 ^ 24 * rd8 m (p + 3)

/-- The store of the `uint32_t` `v` at `p`. -/
def wr32 (m : Nat → Nat) (p v : Nat) : Nat → Nat := fun x =>
  if p ≤ x ∧ x < p + 4 then v / 2 ^ (8 * (x - p)) % 256 else m x

/-- `memmove(base + dst, base + src, n)`: the `n` bytes are copied as if
through a temporary array. -/
def memmove (m : Nat → Nat) (dst src n : Nat) : Nat → Nat := fun x =>
  if dst ≤ x ∧ x < dst + n then m (src + (x - dst)) else m x

/-- The `float` with the bits `w`, converted to `int`: the value
`m * 2 ^ (e - 150)` truncated towards zero; zero for a subnormal, an infinity
or a NaN. -/
def f32_to_int (w : Nat) : Int :=
  let e := w / 2 ^ 23 % 256
  let m := w % 2 ^ 23 + 2 ^ 23
  let a : Nat :=
    if e = 0 ∨ e = 255 then 0
    else if 150 ≤ e then m * 2 ^ (e - 150)
    else m / 2 ^ (150 - e)
  if w / 2 ^ 31 % 2 = 1 then -(a : Int) else (a : Int)

/-- The `n` bytes from `p` on. -/
def rd_bytes (m : Nat → Nat) : Nat → Nat → List Nat
  | 0, _ => []
  | n + 1, p => rd8 m p :: rd_bytes m n (p + 1)

/-- The `n` words `uint32_t` from `p` on. -/
def rd_words (m : Nat → Nat) : Nat → Nat → List Nat
  | 0, _ => []
  | n + 1, p => rd32 m p :: rd_words m n (p + 4)

/-- The `n` points `SGDPoint` from `p` on. -/
def rd_points (m : Nat → Nat) : Nat → Nat → List SGDPoint
  | 0, _ => []
  | n + 1, p =>
    { x := f32_to_int (rd32 m p), y := f32_to_int (rd32 m (p + 4)) } :: rd_points m n (p + 8)

/-- The union `SGDEntry` read at the byte `p`, with the offsets of `sgd.h`:
the header (`size` 0, `type` 2, `index` 4, `unk3` 12) and, from byte 28 on,
the views.  Of an elliptical arc the program reads `points[0]` and
`points[1]`; a text is read up to its zero byte, which `file_size` bytes
hold. -/
def decode_entry (m : Nat → Nat) (file_size : Nat) (p : Nat) : SGDEntry :=
  { hdr := { size := rd16 m p, type := rd16 m (p + 2), index := rd32 m (p + 4),
             unk3 := rd32 m (p + 12) }
    polyline := { point1 := rd32 m (p + 28), point2 := rd32 m (p + 32),
                  num_points := rd32 m (p + 36),
                  points := rd_points m (rd32 m (p + 36)) (p + 40) }
    elliptical_arc := { num_points := rd32 m (p + 36), points := rd_points m 2 (p + 40) }
    lasso := { num_points := rd32 m (p + 28), points := rd_points m (rd32 m (p + 28)) (p + 32) }
    textline := { text := rd_bytes m file_size (p + 72) }
    simple_area := { num_entries := rd32 m (p + 28),
                     entries := (rd_words m (rd32 m (p + 28)) (p + 32)).map int_of_u32 }
    set := { unk7 := rd32 m (p + 28), num_entries := rd32 m (p + 32),
             entries := rd_words m (rd32 m (p + 32)) (p + 36) }
    point := { point := { x := f32_to_int (rd32 m (p + 28)),
                          y := f32_to_int (rd32 m (p + 32)) } } }

/-- `e->hdr.type` for the entry at `base_off + e`. -/
def Bytes.hdr_type (bs : Bytes) (e : Nat) : Nat := rd16 bs.mem (SGD_OFFSET + e + 2)

/-- `e->hdr.index` for the entry at `base_off + e`. -/
def Bytes.hdr_index (bs : Bytes) (e : Nat) : Nat := rd32 bs.mem (SGD_OFFSET + e + 4)

/-- `e->set.unk7` -/
def Bytes.set_unk7 (bs : Bytes) (e : Nat) : Nat := rd32 bs.mem (SGD_OFFSET + e + 28)

/-- `e->set.num_entries` -/
def Bytes.set_num_entries (bs : Bytes) (e : Nat) : Nat := rd32 bs.mem (SGD_OFFSET + e + 32)

/-- `e->set.entries[i]` -/
def Bytes.set_entries (bs : Bytes) (e i : Nat) : Nat := rd32 bs.mem (SGD_OFFSET + e + 36 + 4 * i)

/-- `dir->num_entries` -/
def Bytes.dir_num_entries (bs : Bytes) : Nat := rd32 bs.mem (bs.dir + 12)

/-- `dir->addr[i]` -/
def Bytes.dir_addr (bs : Bytes) (i : Nat) : Nat := rd32 bs.mem (bs.dir + 24 + 4 * i)

/-- The store `e->set.unk7 = v`. -/
def Bytes.store_set_unk7 (bs : Bytes) (e v : Nat) : Bytes :=
  { bs with mem := wr32 bs.mem (SGD_OFFSET + e + 28) v }

/-- The store `e->set.num_entries = v`. -/
def Bytes.store_set_num_entries (bs : Bytes) (e v : Nat) : Bytes :=
  { bs with mem := wr32 bs.mem (SGD_OFFSET + e + 32) v }

/-- The typed view of the bytes: what the program reads through its pointer
casts at this moment. -/
def Bytes.view (bs : Bytes) : State :=
  { img :=
      { file_size := bs.file_size
        table :=
          { num_entries := rd32 bs.mem 0x4c
            entry := (List.range 8).map (fun i =>
              { type := rd32 bs.mem (0x4c + 4 + 8 * i), addr := rd32 bs.mem (0x4c + 8 + 8 * i) }) }
        directory := fun a =>
          { hdr_type := rd16 bs.mem (a + 2)
            type0 := { num_entries := rd32 bs.mem (a + 12),
                       addr := rd_words bs.mem (rd32 bs.mem (a + 12)) (a + 24) } }
        entry := fun a => decode_entry bs.mem bs.file_size (SGD_OFFSET + a) }
    dir := { num_entries := rd32 bs.mem (bs.dir + 12),
             addr := rd_words bs.mem (rd32 bs.mem (bs.dir + 12)) (bs.dir + 24) } }

/-- The loop of `find_directory` on the bytes: the offset of the directory. -/
def find_directory_loop_bytes (m : Nat → Nat) (file_size : Nat) : List Nat → Except Err Nat
  | [] => .error .directory_0_not_found
  | i :: rest =>
    if rd32 m (0x4c + 4 + 8 * i) = 0 then
      let addr := rd32 m (0x4c + 8 + 8 * i)
      if addr > file_size then .error .bad_directory_address
      else if rd16 m (addr + 2) ≠ SGD_BULKDATA then .error .bad_directory_type
      else if rd32 m (addr + 12) > (file_size - addr) / sizeof_uint32 then
        .error .bad_number_of_directory_entries
      else .ok addr
    else find_directory_loop_bytes m file_size rest

/-- The function `find_directory` on the bytes. -/
def find_directory_bytes (m : Nat → Nat) (file_size : Nat) : Except Err Nat :=
  if rd32 m 0x4c > 8 then .error .bad_directory_table_entries
  else find_directory_loop_bytes m file_size (List.range (rd32 m 0x4c))

/-- The `for` loop of `validate_set_r` on the bytes; its bound is the local
`num_entries`. -/
def validate_set_loop_bytes (self : Bytes → Nat → Except Err Bytes) (set : Nat) :
    List Nat → Bytes → Except Err Bytes
  | [], bs => .ok bs
  | i :: rest, bs =>
    match find_entry bs.view (bs.set_entries set i) with
    | .error err => .error err
    | .ok e =>
      if bs.hdr_type e = SGD_SET then
        match self bs e with
        | .error err => .error err
        | .ok bs2 => validate_set_loop_bytes self set rest bs2
      else validate_set_loop_bytes self set rest bs

/-- The function `validate_set_r` on the bytes, with fuel for the depth of
the recursion. -/
def validate_set_r_bytes : Nat → Bytes → Nat → Except Err Bytes
  | 0, _, _ => .error .out_of_fuel
  | fuel + 1, bs, set =>
    if bs.set_num_entries set = U32_MINUS_ONE then .error .cycle_encountered
    else
      let num_entries : Int := int_of_u32 (bs.set_num_entries set)
      let bs1 := bs.store_set_num_entries set U32_MINUS_ONE
      match validate_set_loop_bytes (validate_set_r_bytes fuel) set
          (List.range num_entries.toNat) bs1 with
      | .error err => .error err
      | .ok bs2 => .ok (bs2.store_set_num_entries set (u32_of_int num_entries))

/-- The second loop of `validate_directory` on the bytes, from slot `i` on. -/
def validate_sets_bytes (fuel : Nat) : Nat → Nat → Bytes → Except Err Bytes
  | 0, _, _ => .error .out_of_fuel
  | k + 1, i, bs =>
    if i < bs.dir_num_entries then
      if bs.hdr_type (bs.dir_addr i) = SGD_SET then
        match validate_set_r_bytes fuel bs (bs.dir_addr i) with
        | .error err => .error err
        | .ok bs2 => validate_sets_bytes fuel k (i + 1) bs2
      else validate_sets_bytes fuel k (i + 1) bs
    else .ok bs

/-- The function `validate_directory` on the bytes `m` of a file of
`file_size` bytes; `fuel` bounds the depth of the recursion of
`validate_set_r`.  The first loop stores nothing. -/
def validate_directory_bytes (m : Nat → Nat) (file_size : Nat) (fuel : Nat) : Except Err Bytes :=
  match find_directory_bytes m file_size with
  | .error err => .error err
  | .ok d =>
    let bs : Bytes := { mem := m, file_size := file_size, dir := d }
    match validate_entries bs.view (List.range bs.dir_num_entries) with
    | .error err => .error err
    | .ok _ => validate_sets_bytes fuel (2 ^ 32) 0 bs

/-- The test of the loop of `fixup_set` at slot `i` on the bytes: the entries
`e` and `n` when `e` is a TEXT_LINE with a `-` and `n` a SIMPLE_AREA. -/
def fixup_set_test_bytes (bs : Bytes) (set : Nat) (i : Nat) : Except Err (Option (Nat × Nat)) :=
  match find_entry bs.view (bs.set_entries set i) with
  | .error err => .error err
  | .ok e =>
    match find_entry bs.view (bs.set_entries set (i + 1)) with
    | .error err => .error err
    | .ok n =>
      if bs.hdr_type e = SGD_TEXTLINE2D ∧ strchr (bs.view.entry e).textline.text 45 = true ∧
          bs.hdr_type n = SGD_SIMPLEAREA then
        .ok (some (e, n))
      else .ok none

/-- The three statements of `fixup_set` that move the pair at slot `i`:
the `memmove`, then `entries[num_entries-2] = e->hdr.index`, then
`entries[num_entries-1] = n->hdr.index`, each reading the bytes that the
statement before has left. -/
def fixup_set_store_bytes (bs : Bytes) (set : Nat) (num_entries i : Nat) (p : Nat × Nat) : Bytes :=
  let a := SGD_OFFSET + set + 36
  let bs1 : Bytes :=
    { bs with mem := memmove bs.mem (a + 4 * i) (a + 4 * (i + 2)) ((num_entries - i - 2) * 4) }
  let bs2 : Bytes :=
    { bs1 with mem := wr32 bs1.mem (a + 4 * (num_entries - 2)) (bs1.hdr_index p.1) }
  { bs2 with mem := wr32 bs2.mem (a + 4 * (num_entries - 1)) (bs2.hdr_index p.2) }

/-- The loop of `fixup_set` on the bytes, entered at slot `i` with `k`
further slots to look at: the local `num_entries` is `i + k + 1`. -/
def fixup_set_loop_bytes (set : Nat) : Nat → Nat → Bytes → Except Err Bytes
  | 0, _, bs => .ok bs
  | 1, i, bs =>
    match fixup_set_test_bytes bs set i with
    | .error err => .error err
    | .ok (some p) => .ok (fixup_set_store_bytes bs set (i + 2) i p)
    | .ok none => .ok bs
  | k + 2, i, bs =>
    match fixup_set_test_bytes bs set i with
    | .error err => .error err
    | .ok (some p) => fixup_set_loop_bytes set k i (fixup_set_store_bytes bs set (i + k + 3) i p)
    | .ok none => fixup_set_loop_bytes set (k + 1) (i + 1) bs

/-- The function `fixup_set` on the bytes. -/
def fixup_set_bytes (bs : Bytes) (set : Nat) : Except Err Bytes :=
  fixup_set_loop_bytes set (int_of_u32 (bs.set_num_entries set) - 1).toNat 0 bs

/-- The loop `for (int j = start; j < i; j++)` of `calc_set_bounds_r` on the
bytes, over the slots of a run. -/
def calc_set_children_bytes (self : Bytes → bounds_t → Nat → Except Err (Bytes × bounds_t))
    (set : Nat) : List Nat → Bytes → bounds_t → Except Err (Bytes × bounds_t)
  | [], bs, b => .ok (bs, b)
  | j :: rest, bs, b =>
    match find_entry bs.view (bs.set_entries set j) with
    | .error err => .error err
    | .ok e =>
      if bs.hdr_type e = SGD_SET then
        match self bs b e with
        | .error err => .error err
        | .ok r => calc_set_children_bytes self set rest r.1 r.2
      else calc_set_children_bytes self set rest bs b

/-- The loop at `recurse:` of `calc_set_bounds_r` on the bytes, from slot `i`
on. -/
def calc_set_recurse_bytes (self : Bytes → bounds_t → Nat → Except Err (Bytes × bounds_t))
    (set : Nat) : Nat → Nat → Bytes → bounds_t → Except Err (Bytes × bounds_t)
  | 0, _, _, _ => .error .out_of_fuel
  | k + 1, i, bs, b =>
    if i < bs.set_num_entries set then
      match find_entry bs.view (bs.set_entries set i) with
      | .error err => .error err
      | .ok e =>
        if bs.hdr_type e = SGD_SET then
          match self bs b e with
          | .error err => .error err
          | .ok r => calc_set_recurse_bytes self set k (i + 1) r.1 r.2
        else calc_set_recurse_bytes self set k (i + 1) bs b
    else .ok (bs, b)

/-- The bytes and the locals of `calc_set_bounds_r` in its outer loop. -/
structure RunBytes where
  bs : Bytes
  min_b : bounds_t
  max_b : bounds_t
  min_area : Int
  last_shape : Int
  textline : Bool

/-- The outer loop of `calc_set_bounds_r` on the bytes, from slot `i` on.  The
inner loop stores nothing: it is `calc_set_scan` on the view, over the slots
from `i` to `set->set.num_entries`; it passes `count` slots, and the `i++` of
the outer loop steps over the slot at which it stopped. -/
def calc_set_runs_bytes (self : Bytes → bounds_t → Nat → Except Err (Bytes × bounds_t))
    (g : Raster) (b : bounds_t) (set : Nat) : Nat → Nat → RunBytes → Except Err RunBytes
  | 0, _, _ => .error .out_of_fuel
  | k + 1, i, s =>
    if i < s.bs.set_num_entries set then
      match calc_set_scan s.bs.view g set (List.range' i (s.bs.set_num_entries set - i))
          { eb := EMPTY_BOUNDS, shape := 0, textline := s.textline, count := 0 } with
      | .error err => .error err
      | .ok sc =>
        if sc.shape = 0 then
          calc_set_runs_bytes self g b set k (i + sc.count + 1) { s with textline := sc.textline }
        else
          let last_shape :=
            if s.last_shape = 0 then sc.shape
            else if s.last_shape ≠ sc.shape then -1
            else s.last_shape
          match calc_set_children_bytes self set (List.range' i sc.count) s.bs sc.eb with
          | .error err => .error err
          | .ok r =>
            let t := union_bounds b r.2
            let area := bounds_area t
            calc_set_runs_bytes self g b set k (i + sc.count + 1)
              { bs := r.1
                min_b := if area < s.min_area then t else s.min_b
                max_b := union_bounds s.max_b t
                min_area := if area < s.min_area then area else s.min_area
                last_shape := last_shape
                textline := sc.textline }
    else .ok s

/-- The function `calc_set_bounds_r` on the bytes, with fuel for the depth of
the recursion; it returns the bytes and `*b`. -/
def calc_set_bounds_r_bytes (g : Raster) :
    Nat → Bytes → bounds_t → Nat → Except Err (Bytes × bounds_t)
  | 0, _, _, _ => .error .out_of_fuel
  | fuel + 1, bs, b, set =>
    if bs.set_unk7 set &&& 0x7FFFFFFF = 0x79 then
      calc_set_recurse_bytes (calc_set_bounds_r_bytes g fuel) set (2 ^ 32) 0 bs b
    else
      match fixup_set_bytes bs set with
      | .error err => .error err
      | .ok bs1 =>
        match calc_set_runs_bytes (calc_set_bounds_r_bytes g fuel) g b set (2 ^ 32) 0
            { bs := bs1, min_b := EMPTY_BOUNDS, max_b := EMPTY_BOUNDS, min_area := INT_MAX,
              last_shape := 0, textline := false } with
        | .error err => .error err
        | .ok s =>
          if s.last_shape = -1 then
            if bounds_empty s.max_b = false then .ok (s.bs, s.max_b)
            else calc_set_recurse_bytes (calc_set_bounds_r_bytes g fuel) set (2 ^ 32) 0 s.bs b
          else
            if bounds_empty s.min_b = false then .ok (s.bs, s.min_b)
            else calc_set_recurse_bytes (calc_set_bounds_r_bytes g fuel) set (2 ^ 32) 0 s.bs b

/-- The steps `render_mask_r(mask_cr, e); if (do_crop) calc_set_bounds_r(&b,
e); e->set.unk7 |= SET_DRAWN;` of `process_sets` on the bytes. -/
def process_sets_draw_bytes (render : State → Nat → Except Err Unit) (g : Raster)
    (do_crop : Bool) (fuel : Nat) (bs : Bytes) (b : bounds_t) (e : Nat) :
    Except Err (Bytes × bounds_t) :=
  match render bs.view e with
  | .error err => .error err
  | .ok _ =>
    match (if do_crop = true then calc_set_bounds_r_bytes g fuel bs b e else .ok (bs, b)) with
    | .error err => .error err
    | .ok r => .ok (r.1.store_set_unk7 e (r.1.set_unk7 e ||| SET_DRAWN), r.2)

/-- The inner loop of `process_sets` on the bytes, from slot `j` on. -/
def process_sets_merge_bytes (render : State → Nat → Except Err Unit) (g : Raster)
    (do_crop : Bool) (fuel : Nat) (text : List Nat) :
    Nat → Nat → Bytes → bounds_t → List Nat → Except Err (Bytes × bounds_t × List Nat)
  | 0, _, _, _, _ => .error .out_of_fuel
  | k + 1, j, bs, b, merged =>
    if j < bs.dir_num_entries then
      if process_sets_skip bs.view (bs.dir_addr j) = true then
        process_sets_merge_bytes render g do_crop fuel text k (j + 1) bs b merged
      else
        match get_set_name bs.view (bs.dir_addr j) with
        | .error err => .error err
        | .ok none => process_sets_merge_bytes render g do_crop fuel text k (j + 1) bs b merged
        | .ok (some text2) =>
          if text2 ≠ text then
            process_sets_merge_bytes render g do_crop fuel text k (j + 1) bs b merged
          else
            match process_sets_draw_bytes render g do_crop fuel bs b (bs.dir_addr j) with
            | .error err => .error err
            | .ok r =>
              process_sets_merge_bytes render g do_crop fuel text k (j + 1) r.1 r.2
                (merged ++ [bs.dir_addr j])
    else .ok (bs, b, merged)

/-- The outer loop of `process_sets` on the bytes, from slot `i` on. -/
def process_sets_loop_bytes (render : State → Nat → Except Err Unit) (g : Raster)
    (do_crop : Bool) (fuel : Nat) :
    Nat → Nat → Bytes → List SetPass → Except Err (Bytes × List SetPass)
  | 0, _, _, _ => .error .out_of_fuel
  | k + 1, i, bs, passes =>
    if i < bs.dir_num_entries then
      if process_sets_skip bs.view (bs.dir_addr i) = true then
        process_sets_loop_bytes render g do_crop fuel k (i + 1) bs passes
      else
        match get_set_name bs.view (bs.dir_addr i) with
        | .error err => .error err
        | .ok none => process_sets_loop_bytes render g do_crop fuel k (i + 1) bs passes
        | .ok (some text) =>
          match process_sets_draw_bytes render g do_crop fuel bs EMPTY_BOUNDS (bs.dir_addr i) with
          | .error err => .error err
          | .ok r =>
            match process_sets_merge_bytes render g do_crop fuel text (2 ^ 32) (i + 1)
                r.1 r.2 [] with
            | .error err => .error err
            | .ok m =>
              match (if do_crop = true then finalize_bounds_int m.1.view g m.2.1 (bs.dir_addr i)
                  else .ok m.2.1) with
              | .error err => .error err
              | .ok b2 =>
                process_sets_loop_bytes render g do_crop fuel k (i + 1) m.1
                  (passes ++ [{ first := bs.dir_addr i, text := text, merged := m.2.2, b := b2 }])
    else .ok (bs, passes)

/-- The function `process_sets` on the bytes: the bytes it leaves and its
passes; `fuel` bounds the depth of the recursion of `calc_set_bounds_r`. -/
def process_sets_bytes (render : State → Nat → Except Err Unit) (g : Raster) (do_crop : Bool)
    (fuel : Nat) (bs : Bytes) : Except Err (Bytes × List SetPass) :=
  process_sets_loop_bytes render g do_crop fuel (2 ^ 32) 0 bs []

/-! ## Predicates used in the statements -/

/-- The entry at offset `a` is a SET listed in the directory. -/
def is_set_entry (st : State) (a : Nat) : Prop :=
  ∃ i, i < st.dir.num_entries ∧ st.dir_addr i = a ∧ (st.entry a).hdr.type = SGD_SET

/-- The SET at `b` is a child of the SET at `a`: one of the child indices
listed in `a` is resolved by `find_entry` to `b`. -/
def set_child (st : State) (a b : Nat) : Prop :=
  is_set_entry st a ∧ ∃ j, j < (st.entry a).set.num_entries ∧
    find_entry st ((st.entry a).set.entries.getD j 0) = .ok b ∧
    (st.entry b).hdr.type = SGD_SET

/-- The calls made by the loop of `validate_set_r` at `a`: the loop runs over
`(int) num_entries` slots. -/
def set_call (st : State) (a b : Nat) : Prop :=
  ∃ j, j < (int_of_u32 (st.entry a).set.num_entries).toNat ∧
    find_entry st ((st.entry a).set.entries.getD j 0) = .ok b ∧
    (st.entry b).hdr.type = SGD_SET

/-- Every SET of the directory has a count that fits `uint32_t`. -/
def counts_u32 (st : State) : Prop :=
  ∀ a, is_set_entry st a → (st.entry a).set.num_entries < 2 ^ 32

/-- The absolute offset `SGD_OFFSET + dir->addr[i]` of the entry of slot `i`. -/
def State.entry_offset (st : State) (i : Nat) : Nat := SGD_OFFSET + st.dir_addr i

/-- The declared size in bytes of the inline array of an entry: the count
times the element size, for the kinds checked by `validate_directory`. -/
def entry_array_bytes (e : SGDEntry) : Nat :=
  if e.hdr.type = SGD_POLYLINE2D then e.polyline.num_points * sizeof_SGDPoint
  else if e.hdr.type = SGD_LASSO2D then e.lasso.num_points * sizeof_SGDPoint
  else if e.hdr.type = SGD_SIMPLEAREA ∨ e.hdr.type = SGD_CONNECTEDAREA then
    e.simple_area.num_entries * sizeof_uint32
  else if e.hdr.type = SGD_SET then e.set.num_entries * sizeof_uint32
  else 0

/-- The offset of the inline array (or of the text) inside an entry. -/
def entry_array_offset (e : SGDEntry) : Nat :=
  if e.hdr.type = SGD_POLYLINE2D then offsetof_polyline_points
  else if e.hdr.type = SGD_LASSO2D then offsetof_lasso_points
  else if e.hdr.type = SGD_SIMPLEAREA ∨ e.hdr.type = SGD_CONNECTEDAREA then
    offsetof_simple_area_entries
  else if e.hdr.type = SGD_SET then offsetof_set_entries
  else if e.hdr.type = SGD_TEXTLINE2D then offsetof_textline_text
  else 0

/-- What the loop of `validate_set_r` needs from the recursive call. -/
def SelfSpec (self : State → Nat → Except Err State) : Prop :=
  ∀ st e st2, counts_u32 st → is_set_entry st e → self st e = .ok st2 →
    st2 = st ∧ ∀ b, Relation.ReflTransGen (set_call st) e b →
      (st.entry b).set.num_entries ≠ U32_MINUS_ONE

/-- The value that `render_tiles` is to leave at pixel `(x, y)`. -/
def render_tiles_value (g : Raster) (colormap : Nat → Nat) (tiles : Nat → Nat → Nat)
    (cr_data : Nat → Nat) (cr_stride : Nat) (x y : Nat) : Nat :=
  if cr_data (y * cr_stride + x) = 255 then
    colormap (tiles ((y / 128) * g.h_tiles + x / 128)
      ((y % 128) * min 128 (g.sgd_width - (x / 128) * 128) + x % 128))
  else cr_data (y * cr_stride + x) / 2 ^ 5

/-- The entry at `e` gives a name: a TEXT_LINE whose text has no `-` and whose
normalisation by `clearstr` (16-byte buffer) is not empty. -/
def gives_name (st : State) (e : Nat) : Prop :=
  (st.entry e).hdr.type = SGD_TEXTLINE2D ∧ strchr (st.entry e).textline.text 45 = false ∧
    clearstr 16 (st.entry e).textline.text ≠ []

/-- The offsets of the SETs of the directory that are not marked as being
visited by `validate_set_r`. -/
def unmarked (st : State) : Finset Nat :=
  (((List.range st.dir.num_entries).map st.dir_addr).toFinset).filter
    (fun a => (st.entry a).hdr.type = SGD_SET ∧ (st.entry a).set.num_entries ≠ U32_MINUS_ONE)

/-- Every child index that the loop of `validate_set_r` looks up is the index
of some directory entry. -/
def children_resolve (st : State) : Prop :=
  ∀ a, is_set_entry st a → ∀ j, j < (int_of_u32 (st.entry a).set.num_entries).toNat →
    ∃ e, find_entry st ((st.entry a).set.entries.getD j 0) = .ok e

/-- What the loop of `validate_set_r` needs to know about the failures of the
recursive call, run with `bound` units of fuel. -/
def SelfFails (bound : Nat) (self : State → Nat → Except Err State) : Prop :=
  ∀ st e err, counts_u32 st → is_set_entry st e → (unmarked st).card < bound →
    self st e = .error err →
    err ≠ .out_of_fuel ∧ (children_resolve st → err = .cycle_encountered)

/-- The per-byte mapping that the specification gives for `clearstr`: bytes
`0..32`, `(` and `)` are dropped, `A..Z` and `0..9` are kept, `a..z` become
`A..Z` and every other byte becomes `_`. -/
def clearstr_byte (c : Nat) : Option Nat :=
  if c ≤ 32 ∨ c = 40 ∨ c = 41 then none
  else if (65 ≤ c ∧ c ≤ 90) ∨ (48 ≤ c ∧ c ≤ 57) then some c
  else if 97 ≤ c ∧ c ≤ 122 then some (c - 32)
  else some 95

/-- A byte of `[A-Z0-9_]`. -/
def name_byte (x : Nat) : Prop := (65 ≤ x ∧ x ≤ 90) ∨ (48 ≤ x ∧ x ≤ 57) ∨ x = 95

/-- The rectangle `b` is not empty and lies inside the image of the raster. -/
def inside_image (g : Raster) (b : bounds_t) : Prop :=
  0 ≤ b.min_x ∧ b.min_x ≤ b.max_x ∧ b.max_x ≤ (g.sgd_width : Int) - 1 ∧
  0 ≤ b.min_y ∧ b.min_y ≤ b.max_y ∧ b.max_y ≤ (g.sgd_height : Int) - 1

instance (g : Raster) (b : bounds_t) : Decidable (inside_image g b) := by
  unfold inside_image; infer_instance

/-- What `write_crop` does with the rectangle `b`: nothing when `b` is empty,
else a crop of `max_x - min_x + 1` by `max_y - min_y + 1` pixels, at least 1
and at most the size of the image, all of whose rows lie in the buffer of
`W * H` bytes. -/
def crop_in_image (g : Raster) (b : bounds_t) : Prop :=
  (bounds_empty b = true ∧ write_crop g b = none) ∨
  (inside_image g b ∧ ∃ c, write_crop g b = some c ∧
    c.width = b.max_x - b.min_x + 1 ∧ c.height = b.max_y - b.min_y + 1 ∧
    1 ≤ c.width ∧ c.width ≤ (g.sgd_width : Int) ∧
    1 ≤ c.height ∧ c.height ≤ (g.sgd_height : Int) ∧
    c.rows.length = c.height.toNat ∧
    ∀ r ∈ c.rows, 0 ≤ r ∧ r + c.width ≤ (g.sgd_width : Int) * (g.sgd_height : Int))

/-- The children `x`, `y` of a SET are a pair that `fixup_set` moves: `x` is a
TEXT_LINE whose text contains `-` and `y` a SIMPLE_AREA. -/
def is_fixup_pair (st : State) (x y : Nat) : Bool :=
  match find_entry st x, find_entry st y with
  | .ok e, .ok n =>
    decide ((st.entry e).hdr.type = SGD_TEXTLINE2D) && strchr (st.entry e).textline.text 45 &&
      decide ((st.entry n).hdr.type = SGD_SIMPLEAREA)
  | _, _ => false

/-- The children that the scan of `fixup_set` leaves in place, in their
order; `pair` tells which adjacent children are moved. -/
def fixup_kept (pair : Nat → Nat → Bool) : List Nat → List Nat
  | x :: y :: rest =>
    if pair x y then fixup_kept pair rest else x :: fixup_kept pair (y :: rest)
  | l => l

/-- The adjacent pairs that the scan of `fixup_set` moves, in the order in
which they occur in the child list. -/
def fixup_pairs (pair : Nat → Nat → Bool) : List Nat → List (Nat × Nat)
  | x :: y :: rest =>
    if pair x y then (x, y) :: fixup_pairs pair rest else fixup_pairs pair (y :: rest)
  | _ => []

/-- The child indices of a list of pairs, each pair in its order. -/
def pairs_flat : List (Nat × Nat) → List Nat
  | [] => []
  | p :: ps => p.1 :: p.2 :: pairs_flat ps

/-- The child `x` of a SET resolves to a TEXT_LINE whose text contains `-`. -/
def is_dash_text (st : State) (x : Nat) : Bool :=
  match find_entry st x with
  | .ok e => decide ((st.entry e).hdr.type = SGD_TEXTLINE2D) && strchr (st.entry e).textline.text 45
  | .error _ => false

/-- Every child index of the SET at `a` is the index of a directory entry. -/
def children_found (st : State) (a : Nat) : Prop :=
  ∀ x ∈ st.children a, ∃ e, find_entry st x = .ok e

/-- The rectangle `t = union_bounds(b, &eb)` of a run, for caller's bounds
`b`. -/
def run_rect (b : bounds_t) (r : SetRun) : bounds_t := union_bounds b r.eb

/-- The rectangle `t` is the one of minimum area in `ts`, the first one on
ties: every rectangle before it has a larger area and none after it has a
smaller one. -/
def first_min_area (ts : List bounds_t) (t : bounds_t) : Prop :=
  ∃ pre post, ts = pre ++ t :: post ∧ (∀ u ∈ pre, bounds_area t < bounds_area u) ∧
    ∀ u ∈ post, bounds_area t ≤ bounds_area u

/-- The union of all the rectangles of `ts`. -/
def union_all (ts : List bounds_t) : bounds_t := ts.foldl union_bounds EMPTY_BOUNDS

/-- What the locals of `calc_set_bounds_r` hold after the runs `s.runs`. -/
def RunInv (b : bounds_t) (s : RunState) : Prop :=
  (∀ r ∈ s.runs, r.shape ≠ 0) ∧
  (s.runs = [] → s.last_shape = 0) ∧
  (∀ sh, s.runs ≠ [] → (∀ r ∈ s.runs, r.shape = sh) → s.last_shape = sh) ∧
  ((∃ r1 ∈ s.runs, ∃ r2 ∈ s.runs, r1.shape ≠ r2.shape) → s.last_shape = -1) ∧
  s.max_b = union_all (s.runs.map (run_rect b)) ∧
  (s.min_area = INT_MAX ∨ ∃ u ∈ s.runs.map (run_rect b), s.min_area = bounds_area u) ∧
  (∀ u ∈ s.runs.map (run_rect b), s.min_area ≤ bounds_area u) ∧
  ∀ t, first_min_area (s.runs.map (run_rect b)) t → bounds_area t < INT_MAX → s.min_b = t

/-- The calls that the loops of `calc_set_bounds_r` make for the SET at `a`:
a child of `a` is resolved by `find_entry` to the SET at `b`. -/
def calc_call (st : State) (a b : Nat) : Prop :=
  ∃ c ∈ st.children a, find_entry st c = .ok b ∧ (st.entry b).hdr.type = SGD_SET

/-- The child `c` of a SET resolves to a TEXT_LINE whose text has no `-`. -/
def is_name_text (st : State) (c : Nat) : Bool :=
  match find_entry st c with
  | .ok e => decide ((st.entry e).hdr.type = SGD_TEXTLINE2D) && !strchr (st.entry e).textline.text 45
  | .error _ => false

/-- The entry `e` with other values of `set.unk7` and `set.entries`. -/
def SGDEntry.with_set (e : SGDEntry) (v : Nat) (l : List Nat) : SGDEntry :=
  { e with set := { e.set with unk7 := v, entries := l } }

/-- The stores of the set engine: `st2` comes from `st` by calls of
`fixup_set` on SETs that satisfy `RF` and by stores `e->set.unk7 |= SET_DRAWN`
on SETs that satisfy `RD`. -/
inductive Mut (RF RD : Nat → Prop) : State → State → Prop
  | refl (st : State) : Mut RF RD st st
  | fix {st st1 st2 : State} (a : Nat) :
    Mut RF RD st st1 → RF a → fixup_set st1 a = .ok st2 → Mut RF RD st st2
  | drawn {st st1 : State} (e : Nat) :
    Mut RF RD st st1 → RD e →
    Mut RF RD st (st1.store_set_unk7 e ((st1.entry e).set.unk7 ||| SET_DRAWN))

/-- The buffer `st` with the DRAWN bit of every `set.unk7` cleared. -/
def State.clear_drawn (st : State) : State :=
  let f : Nat → SGDEntry := fun x =>
    (st.img.entry x).with_set ((st.img.entry x).set.unk7 &&& 0x7FFFFFFF) (st.img.entry x).set.entries
  { st with img := { st.img with entry := f } }

/-- The buffers `st` and `st2` have the same directory and, in every entry,
the same fields other than those of the view `set`. -/
def same_geometry (st st2 : State) : Prop :=
  st2.dir = st.dir ∧ ∀ x, (st2.entry x).hdr = (st.entry x).hdr ∧
    (st2.entry x).polyline = (st.entry x).polyline ∧
    (st2.entry x).elliptical_arc = (st.entry x).elliptical_arc ∧
    (st2.entry x).lasso = (st.entry x).lasso ∧ (st2.entry x).textline = (st.entry x).textline ∧
    (st2.entry x).simple_area = (st.entry x).simple_area ∧
    (st2.entry x).point = (st.entry x).point

/-- The locals `s` with the DRAWN bits of the buffer cleared. -/
def RunState.clear_drawn (s : RunState) : RunState := { s with st := s.st.clear_drawn }

/-- The result `r` of `calc_set_bounds_r` with the DRAWN bits of the buffer
cleared. -/
def clear_drawn_result (r : State × bounds_t) : State × bounds_t := (r.1.clear_drawn, r.2)

/-- The child index `c` seen by a loop of `calc_set_bounds_r`: the SET that
`find_entry` resolves it to, if it is one. -/
def calc_child_set (st : State) (c : Nat) : Option Nat :=
  match find_entry st c with
  | .ok e => if (st.entry e).hdr.type = SGD_SET then some e else none
  | .error _ => none

/-- The child SETs of the SET at `a`, in the order of its child list. -/
def calc_child_sets (st : State) (a : Nat) : List Nat :=
  (st.children a).filterMap (calc_child_set st)

/-- The calls `self(b, e)` for the SETs `e` of a list, one after the other,
each on the buffer and the rectangle that the call before has left. -/
def calc_sets (self : State → bounds_t → Nat → Except Err (State × bounds_t)) :
    List Nat → State → bounds_t → Except Err (State × bounds_t)
  | [], st, b => .ok (st, b)
  | e :: rest, st, b =>
    match self st b e with
    | .error err => .error err
    | .ok r => calc_sets self rest r.1 r.2

/-- The name that the child `c` gives in `get_set_name_buf`, if it gives one:
`c` resolves to a TEXT_LINE without `-` whose normalisation is not empty. -/
def child_name (st : State) (size : Nat) (c : Nat) : Option (List Nat) :=
  match find_entry st c with
  | .ok e =>
    if (st.entry e).hdr.type = SGD_TEXTLINE2D ∧ strchr (st.entry e).textline.text 45 = false then
      if (clearstr size (st.entry e).textline.text).headD 0 ≠ 0 then
        some (clearstr size (st.entry e).textline.text)
      else none
    else none
  | .error _ => none

/-- The DRAWN bit of the SET at `e` is set. -/
def is_drawn (st : State) (e : Nat) : Prop := (st.entry e).set.unk7 &&& SET_DRAWN ≠ 0

/-- The entry at `e` is a candidate of `process_sets` with the name `nm`: a
SET that is not DRAWN, is not a subset of another SET and has the name `nm`. -/
def is_candidate (st : State) (e : Nat) (nm : List Nat) : Prop :=
  (st.entry e).hdr.type = SGD_SET ∧ ¬ is_drawn st e ∧ set_is_subset st e = false ∧
    get_set_name st e = .ok (some nm)

/-- The pass `p` is the pass of its name among the candidates of the buffer
`st` on entry: it starts, at a slot below `n`, at the first candidate of the
directory that has the name, and it merges the candidates of later slots that
have the name, and nothing else. -/
def pass_ok (st : State) (n : Nat) (p : SetPass) : Prop :=
  ∃ i, i < n ∧ i < st.dir.num_entries ∧ st.dir_addr i = p.first ∧
    is_candidate st p.first p.text ∧
    (∀ k, k < i → ¬ is_candidate st (st.dir_addr k) p.text) ∧
    ∀ e, e ∈ p.merged ↔
      e ≠ p.first ∧ ∃ j, i < j ∧ j < st.dir.num_entries ∧ st.dir_addr j = e ∧
        is_candidate st e p.text

/-- What holds in `process_sets` before slot `i`, in the buffer `st` and with
the passes `ps` made, for the buffer `st0` on entry. -/
def PassInv (st0 : State) (i : Nat) (st : State) (ps : List SetPass) : Prop :=
  Mut (fun _ => True) (fun _ => True) st0 st ∧
  (∀ x, is_drawn st x ↔ is_drawn st0 x ∨ ∃ p ∈ ps, x = p.first ∨ x ∈ p.merged) ∧
  (∀ p ∈ ps, pass_ok st0 i p) ∧
  (ps.map SetPass.text).Nodup ∧
  ∀ k, k < i → ∀ nm, is_candidate st0 (st0.dir_addr k) nm →
    ∃ p ∈ ps, p.text = nm ∧ (st0.dir_addr k = p.first ∨ st0.dir_addr k ∈ p.merged)

/-- What holds in the inner loop of `process_sets` before slot `j`, in the
buffer `st` and with the SETs `ml` merged, for the pass that the SET `e` of
slot `i` has started with the name `text`; `stF` is the buffer when the inner
loop starts. -/
def MergeInv (st0 : State) (text : List Nat) (e i : Nat) (stF : State) (j : Nat) (st : State)
    (ml : List Nat) : Prop :=
  Mut (fun _ => True) (fun _ => True) st0 st ∧
  (∀ x, is_drawn st x ↔ is_drawn stF x ∨ x ∈ ml) ∧
  (∀ x ∈ ml, x ≠ e ∧ ∃ k, i < k ∧ k < j ∧ k < st0.dir.num_entries ∧ st0.dir_addr k = x ∧
    is_candidate st0 x text) ∧
  ∀ k, i < k → k < j → is_candidate st0 (st0.dir_addr k) text →
    st0.dir_addr k = e ∨ st0.dir_addr k ∈ ml

/-- The recursion of `calc_set_bounds_r` from the SET at `a` is less than `k`
calls deep: no chain of calls that starts at `a` has `k` calls. -/
def calc_depth_lt : Nat → State → Nat → Prop
  | 0, _, _ => False
  | k + 1, st, a => ∀ c, calc_call st a c → calc_depth_lt k st c

/-- The recursion of `validate_set_r` from the SET `a` is less than `k` calls
deep. -/
def set_depth_lt : Nat → State → Nat → Prop
  | 0, _, _ => False
  | k + 1, st, a => ∀ c, set_call st a c → set_depth_lt k st c

/-- The rectangle `b2` contains the rectangle `b`, side by side. -/
def bounds_within (b b2 : bounds_t) : Prop :=
  b2.min_x ≤ b.min_x ∧ b2.min_y ≤ b.min_y ∧ b.max_x ≤ b2.max_x ∧ b.max_y ≤ b2.max_y

/-- A failure of the program in `validate_set_r`: the cycle error, or the
error of `find_entry` for a child index that no entry has. -/
def is_validate_failure (err : Err) : Prop :=
  err = .cycle_encountered ∨ ∃ idx, err = .entry_not_found idx

/-- The statement `if (class) shape += 1 << (8*(class-1));` of the inner loop
of `calc_set_bounds_r`, for one child of class `cls`. -/
def shape_step (shape cls : Int) : Int :=
  if cls ≠ 0 then int_add shape (2 ^ (8 * (cls - 1)).toNat) else shape

/-- The shape sum of a run whose children other than the TEXT_LINEs have the
classes `cl`. -/
def shape_sum (cl : List Int) : Int := cl.foldl shape_step 0

/-- The classes `entry_has_shape(e)` of the children that the inner loop of
`calc_set_bounds_r` passes in one run, TEXT_LINEs left out; `textline` is the
flag when the run starts. -/
def run_classes (st : State) (set : Nat) : List Nat → Bool → Except Err (List Int)
  | [], _ => .ok []
  | i :: rest, textline =>
    match find_entry st ((st.entry set).set.entries.getD i 0) with
    | .error err => .error err
    | .ok e =>
      if (st.entry e).hdr.type = SGD_TEXTLINE2D then
        if textline = true then .ok [] else run_classes st set rest true
      else
        match entry_has_shape st e with
        | .error err => .error err
        | .ok cls =>
          match run_classes st set rest textline with
          | .error err => .error err
          | .ok cl => .ok (cls :: cl)

/-- The adjacent children `x`, `y` of a SET resolve to a TEXT_LINE whose text
has no `-` and to a SIMPLE_AREA: the test of the loop of `finalize_bounds`. -/
def is_name_area (st : State) (x y : Nat) : Bool :=
  match find_entry st x, find_entry st y with
  | .ok e, .ok n =>
    decide ((st.entry e).hdr.type = SGD_TEXTLINE2D) && !strchr (st.entry e).textline.text 45 &&
      decide ((st.entry n).hdr.type = SGD_SIMPLEAREA)
  | _, _ => false

/-- The second child of the first adjacent pair of the list that satisfies
`pair`. -/
def first_pair_second (pair : Nat → Nat → Bool) : List Nat → Option Nat
  | x :: y :: rest => if pair x y then some y else first_pair_second pair (y :: rest)
  | _ => none

/-- The forward vertex sequence of the polyline at `e` as the specification
gives it: the first endpoint if `point1` is not zero, the inline points, the
second endpoint if `point2` is not zero. -/
def polyline_forward (st : State) (g : Raster) (e : Nat) : Except Err (List (Int × Int)) :=
  match draw_polyline_end st g (st.entry e).polyline.point1,
    draw_polyline_end st g (st.entry e).polyline.point2 with
  | .ok v1, .ok v3 =>
    .ok (v1 ++ (List.range (st.entry e).polyline.num_points).map
      (fun i => line_to g ((st.entry e).polyline.points.getD i {})) ++ v3)
  | .error err, _ => .error err
  | .ok _, .error err => .error err

/-- The first line of a text, with its newline, and the text after it. -/
def take_line : List Nat → List Nat × List Nat
  | [] => ([], [])
  | c :: rest => if c = 10 then ([c], rest) else ((take_line rest).1.cons c, (take_line rest).2)

/-- The lines of a text, each with its newline (the last one may lack it);
the fuel is the number of bytes. -/
def lines_all : Nat → List Nat → List (List Nat)
  | 0, _ => []
  | _ + 1, [] => []
  | fuel + 1, c :: rest =>
    (take_line (c :: rest)).1 :: lines_all fuel (take_line (c :: rest)).2

/-- The lines of a file. -/
def file_lines (inp : List Nat) : List (List Nat) := lines_all inp.length inp

/-- A line of white space only: blanks, tabs, newlines and the like. -/
def is_blank (l : List Nat) : Bool := l.all (fun c => decide (c = 32 ∨ (9 ≤ c ∧ c ≤ 13)))

/-- The colours of the lines of a file that are not blank, as `scan` reads
them, in the order of the file. -/
def file_colors (scan : List Nat → Option (Nat × Nat × Nat)) (inp : List Nat) :
    List (Nat × Nat × Nat) :=
  (file_lines inp).filterMap (fun l => if is_blank l then none else scan l)

/-- The colour that the stores of `parse_pal_file` leave for the values `v`. -/
def byte_color (v : Nat × Nat × Nat) : png_color :=
  { red := v.1 % 256, green := v.2.1 % 256, blue := v.2.2 % 256 }

/-- A check of `set_child st a b`: `a` is the SET of slot `i` of the
directory and its child `j` resolves to the SET `b`. -/
def set_child_at (st : State) (a b i j : Nat) : Bool :=
  decide (i < st.dir.num_entries) && decide (st.dir_addr i = a) &&
    decide ((st.entry a).hdr.type = SGD_SET) && decide (j < (st.entry a).set.num_entries) &&
    decide ((find_entry st ((st.entry a).set.entries.getD j 0)).toOption = some b) &&
    decide ((st.entry b).hdr.type = SGD_SET)

/-- A check of `is_candidate st e nm`. -/
def is_candidate_check (st : State) (e : Nat) (nm : List Nat) : Bool :=
  decide ((st.entry e).hdr.type = SGD_SET) && decide ((st.entry e).set.unk7 &&& SET_DRAWN = 0) &&
    !set_is_subset st e && decide ((get_set_name st e).toOption = some (some nm))

/-- The error with which a run has stopped, if it has. -/
def error_of {α : Type} (e : Except Err α) : Option Err :=
  match e with
  | .error x => some x
  | .ok _ => none

/-- The intervals `[lo, hi)` and `[lo2, hi2)` of the buffer share no byte. -/
def apart (lo hi lo2 hi2 : Nat) : Prop := hi ≤ lo2 ∨ hi2 ≤ lo

instance (lo hi lo2 hi2 : Nat) : Decidable (apart lo hi lo2 hi2) := by
  unfold apart; infer_instance

/-- The end of the child array of the SET at `a`: the byte after
`entries[num_entries - 1]`. -/
def Bytes.set_hi (bs : Bytes) (a : Nat) : Nat := SGD_OFFSET + a + 36 + 4 * bs.set_num_entries a

/-- The end of the text of the TEXT_LINE at `e`: the byte after its zero
byte. -/
def Bytes.text_hi (bs : Bytes) (e : Nat) : Nat :=
  SGD_OFFSET + e + 72 + (cstr (bs.view.entry e).textline.text).length + 1

/-- The fields `unk7`, `num_entries` and `entries[0 .. num_entries)` of the
SET at `a` share no byte with the directory (`num_entries` and `addr`), with
the header of a directory entry, with the text of a TEXT_LINE of the
directory, or with these fields of another SET of the directory. -/
def Bytes.set_apart (bs : Bytes) (a : Nat) : Prop :=
  apart (SGD_OFFSET + a + 28) (bs.set_hi a) (bs.dir + 12) (bs.dir + 24 + 4 * bs.dir_num_entries) ∧
  ∀ j, j < bs.dir_num_entries →
    apart (SGD_OFFSET + a + 28) (bs.set_hi a)
      (SGD_OFFSET + bs.dir_addr j) (SGD_OFFSET + bs.dir_addr j + 28) ∧
    (bs.hdr_type (bs.dir_addr j) = SGD_TEXTLINE2D →
      apart (SGD_OFFSET + a + 28) (bs.set_hi a)
        (SGD_OFFSET + bs.dir_addr j + 72) (bs.text_hi (bs.dir_addr j))) ∧
    (bs.hdr_type (bs.dir_addr j) = SGD_SET → bs.dir_addr j ≠ a →
      apart (SGD_OFFSET + a + 28) (bs.set_hi a)
        (SGD_OFFSET + bs.dir_addr j + 28) (bs.set_hi (bs.dir_addr j)))

instance (bs : Bytes) (a : Nat) : Decidable (bs.set_apart a) := by
  unfold Bytes.set_apart; infer_instance

/-- Every SET of the directory has its fields `unk7`, `num_entries` and
`entries` apart from what the set engine reads elsewhere: `Bytes.set_apart`. -/
def Bytes.sets_apart (bs : Bytes) : Prop :=
  ∀ i, i < bs.dir_num_entries → bs.hdr_type (bs.dir_addr i) = SGD_SET →
    bs.set_apart (bs.dir_addr i)

instance (bs : Bytes) : Decidable bs.sets_apart := by
  unfold Bytes.sets_apart; infer_instance

/-- The buffer `bs2` has the globals of `bs` and its bytes outside the child
array of the SET at `a`. -/
def array_frame (bs bs2 : Bytes) (a : Nat) : Prop :=
  bs2.file_size = bs.file_size ∧ bs2.dir = bs.dir ∧
  ∀ x, x < SGD_OFFSET + a + 36 ∨ bs.set_hi a ≤ x → bs2.mem x = bs.mem x

/-- The buffers `bs` and `bs2` agree in what `find_entry` and the tests of
`fixup_set` read: the directory, and the type, the index and (for a
TEXT_LINE) the text of every directory entry. -/
def same_index (bs bs2 : Bytes) : Prop :=
  bs2.file_size = bs.file_size ∧ bs2.dir = bs.dir ∧
  bs2.dir_num_entries = bs.dir_num_entries ∧
  ∀ j, j < bs.dir_num_entries →
    bs2.dir_addr j = bs.dir_addr j ∧
    bs2.hdr_type (bs.dir_addr j) = bs.hdr_type (bs.dir_addr j) ∧
    bs2.hdr_index (bs.dir_addr j) = bs.hdr_index (bs.dir_addr j) ∧
    (bs.hdr_type (bs.dir_addr j) = SGD_TEXTLINE2D →
      cstr (bs2.view.entry (bs.dir_addr j)).textline.text =
        cstr (bs.view.entry (bs.dir_addr j)).textline.text)

/-- The buffer `bs2` has the globals of `bs` and its bytes outside the fields
`unk7`, `num_entries` and `entries` of the SET at `a`. -/
def set_frame (bs bs2 : Bytes) (a : Nat) : Prop :=
  bs2.file_size = bs.file_size ∧ bs2.dir = bs.dir ∧
  ∀ x, x < SGD_OFFSET + a + 28 ∨ bs.set_hi a ≤ x → bs2.mem x = bs.mem x

/-- The entry at offset `a` is a SET listed in the directory of the bytes. -/
def Bytes.is_set (bs : Bytes) (a : Nat) : Prop :=
  ∃ j, j < bs.dir_num_entries ∧ bs.dir_addr j = a ∧ bs.hdr_type a = SGD_SET

/-- The byte `x` of the buffer belongs to the fields `unk7`, `num_entries` or
`entries[0 .. num_entries)` of a SET of the directory. -/
def Bytes.in_set (bs : Bytes) (x : Nat) : Prop :=
  ∃ j, j < bs.dir_num_entries ∧ bs.hdr_type (bs.dir_addr j) = SGD_SET ∧
    SGD_OFFSET + bs.dir_addr j + 28 ≤ x ∧ x < bs.set_hi (bs.dir_addr j)

/-- What the set engine may have stored when it has gone from the bytes `bs0`
to the bytes `bs`: no byte outside the fields `unk7`, `num_entries` and
`entries` of the SETs of the directory differs and, for each such SET,
`num_entries` is as before, `unk7` is as before or has the DRAWN bit set in
addition, and the child list is a permutation of the list before. -/
def bytes_frame (bs0 bs : Bytes) : Prop :=
  bs.file_size = bs0.file_size ∧ bs.dir = bs0.dir ∧
  (∀ x, ¬ bs0.in_set x → bs.mem x = bs0.mem x) ∧
  ∀ a, bs0.is_set a →
    bs.set_num_entries a = bs0.set_num_entries a ∧
    (bs.set_unk7 a = bs0.set_unk7 a ∨ bs.set_unk7 a = bs0.set_unk7 a ||| SET_DRAWN) ∧
    (bs.view.children a).Perm (bs0.view.children a)

/-- The function `self` keeps `bytes_frame` from `bs0` when it is called on a
SET of the directory. -/
def frame_self (bs0 : Bytes) (self : Bytes → bounds_t → Nat → Except Err (Bytes × bounds_t)) :
    Prop :=
  ∀ bs b e r, bytes_frame bs0 bs → bs0.is_set e → self bs b e = .ok r → bytes_frame bs0 r.1

/-! ## Example inputs -/

/-- Three entries: the SET 1 (children 2 and 3), the SET 2 (child 3) and the
text line 3. -/
def ex_entry (a : Nat) : SGDEntry :=
  if a = 0 then
    { hdr := { type := SGD_SET, index := 1 }, set := { num_entries := 2, entries := [2, 3] } }
  else if a = 48 then
    { hdr := { type := SGD_SET, index := 2 }, set := { num_entries := 1, entries := [3] } }
  else if a = 96 then
    { hdr := { type := SGD_TEXTLINE2D, index := 3 }, textline := { text := [65, 66, 0] } }
  else {}

/-- A file of `0x94 + 212` bytes: the three entries, then the directory at
offset `0x94 + 176`. -/
def ex_image : Image :=
  { file_size := 0x94 + 212
    table := { num_entries := 1, entry := [{ type := 0, addr := 0x94 + 176 }] }
    directory := fun a =>
      if a = 0x94 + 176 then
        { hdr_type := SGD_BULKDATA, type0 := { num_entries := 3, addr := [0, 48, 96] } }
      else {}
    entry := ex_entry }

/-- The state that `validate_directory` leaves for `ex_image`. -/
def ex_state : State := { img := ex_image, dir := { num_entries := 3, addr := [0, 48, 96] } }

/-- A file of `0x94 + 28` bytes: the directory fills its last 28 bytes and its
one slot points at the end of the file, where the zeroed buffer is read. -/
def end_entry_image : Image :=
  { file_size := 0x94 + 28
    table := { num_entries := 1, entry := [{ type := 0, addr := 0x94 }] }
    directory := fun a =>
      if a = 0x94 then { hdr_type := SGD_BULKDATA, type0 := { num_entries := 1, addr := [28] } }
      else {}
    entry := fun _ => {} }

/-- A file of `0x94 + 64` bytes: the directory, then a LASSO at offset 28
whose 32-byte header ends at offset 60 and which declares 4 points. -/
def long_lasso_image : Image :=
  { file_size := 0x94 + 64
    table := { num_entries := 1, entry := [{ type := 0, addr := 0x94 }] }
    directory := fun a =>
      if a = 0x94 then { hdr_type := SGD_BULKDATA, type0 := { num_entries := 1, addr := [28] } }
      else {}
    entry := fun a =>
      if a = 28 then { hdr := { type := SGD_LASSO2D, index := 1 }, lasso := { num_points := 4 } }
      else {} }

/-- An MRCI header of 2048 by 2048 pixels with all other fields valid. -/
def ex_mrci : SGDMrciHeader :=
  { hdr := { type := SGD_MRCIHEADER }, width := 2048, height := 2048, bytes_per_pixel := 1,
    bit_depth := 8, palette_addr := 160, tile_width := 128, tile_height := 128,
    bitmap_addr := 1000 }

/-- Three palette entries: white, a colour one step from entry 1, black. -/
def ex_pal : Nat → png_color := fun i =>
  [({ red := 255, green := 255, blue := 255 } : png_color),
    { red := 0x55, green := 0x6a, blue := 0x49 }, {}].getD i {}

/-- A palette of three grey levels, one byte each. -/
def ex_palette : SGDMrciPalette :=
  { type := SGD_BMPPALETTE, bytes_per_pixel := 1, bit_depth := 8, num_colors := 3,
    data := [0, 128, 255] }

/-- A raster of 130 by 2 pixels: two tiles in a row, the second 2 pixels wide. -/
def ex_raster : Raster := { sgd_width := 130, sgd_height := 2, h_tiles := 2, v_tiles := 1 }

/-- A mask that is 255 except at offsets 3 (half alpha) and 5 (zero). -/
def ex_mask : Nat → Nat := fun p => if p = 3 then 128 else if p = 5 then 0 else 255

/-- Tiles whose bytes are the offset in the tile plus the tile number. -/
def ex_tiles : Nat → Nat → Nat := fun t o => (t + o) % 256

/-- A colormap with values in `0..7`. -/
def ex_colormap : Nat → Nat := fun c => c % 8

/-- The SET 1 with the children 2 (text `()`) and 3 (text `AB`). -/
def paren_entry (a : Nat) : SGDEntry :=
  if a = 0 then
    { hdr := { type := SGD_SET, index := 1 }, set := { num_entries := 2, entries := [2, 3] } }
  else if a = 48 then
    { hdr := { type := SGD_TEXTLINE2D, index := 2 }, textline := { text := [40, 41, 0] } }
  else if a = 128 then
    { hdr := { type := SGD_TEXTLINE2D, index := 3 }, textline := { text := [65, 66, 0] } }
  else {}

/-- A file of `0x94 + 256` bytes: the three entries of `paren_entry`, then
the directory at offset `0x94 + 208`. -/
def paren_image : Image :=
  { file_size := 0x94 + 256
    table := { num_entries := 1, entry := [{ type := 0, addr := 0x94 + 208 }] }
    directory := fun a =>
      if a = 0x94 + 208 then
        { hdr_type := SGD_BULKDATA, type0 := { num_entries := 3, addr := [0, 48, 128] } }
      else {}
    entry := paren_entry }

/-- The state that `validate_directory` leaves for `paren_image`. -/
def paren_state : State :=
  { img := paren_image, dir := { num_entries := 3, addr := [0, 48, 128] } }

/-- The SET 1 lists the SET 2 and the SET 2 lists the SET 1. -/
def cycle_image : Image :=
  { file_size := 0x94 + 128
    table := { num_entries := 1, entry := [{ type := 0, addr := 0x94 + 96 }] }
    directory := fun a =>
      if a = 0x94 + 96 then
        { hdr_type := SGD_BULKDATA, type0 := { num_entries := 2, addr := [0, 48] } }
      else {}
    entry := fun a =>
      if a = 0 then
        { hdr := { type := SGD_SET, index := 1 }, set := { num_entries := 1, entries := [2] } }
      else if a = 48 then
        { hdr := { type := SGD_SET, index := 2 }, set := { num_entries := 1, entries := [1] } }
      else {} }

/-- A raster of 300 by 200 pixels. -/
def ex_raster_crop : Raster := { sgd_width := 300, sgd_height := 200, h_tiles := 3, v_tiles := 2 }

/-- The SET 1 with the children 2 (`A-B`), 3 (area), 4 (`C-D`), 5 (area) and
6 (lasso): two pairs that `fixup_set` moves. -/
def pairs_entry (a : Nat) : SGDEntry :=
  if a = 0 then
    { hdr := { type := SGD_SET, index := 1 },
      set := { num_entries := 5, entries := [2, 3, 4, 5, 6] } }
  else if a = 64 then
    { hdr := { type := SGD_TEXTLINE2D, index := 2 }, textline := { text := [65, 45, 66, 0] } }
  else if a = 144 then
    { hdr := { type := SGD_SIMPLEAREA, index := 3 } }
  else if a = 176 then
    { hdr := { type := SGD_TEXTLINE2D, index := 4 }, textline := { text := [67, 45, 68, 0] } }
  else if a = 256 then
    { hdr := { type := SGD_SIMPLEAREA, index := 5 } }
  else if a = 288 then
    { hdr := { type := SGD_LASSO2D, index := 6 },
      lasso := { num_points := 2, points := [{ x := 10, y := 20 }, { x := 30, y := 50 }] } }
  else {}

/-- A file of `0x94 + 384` bytes with the entries of `pairs_entry` and the
directory at offset `0x94 + 336`. -/
def pairs_image : Image :=
  { file_size := 0x94 + 384
    table := { num_entries := 1, entry := [{ type := 0, addr := 0x94 + 336 }] }
    directory := fun a =>
      if a = 0x94 + 336 then
        { hdr_type := SGD_BULKDATA,
          type0 := { num_entries := 6, addr := [0, 64, 144, 176, 256, 288] } }
      else {}
    entry := pairs_entry }

/-- The state that `validate_directory` leaves for `pairs_image`. -/
def pairs_state : State :=
  { img := pairs_image, dir := { num_entries := 6, addr := [0, 64, 144, 176, 256, 288] } }

/-- Eight entries: the SET 1 with the children 2 (lasso), 3 (`AB`), 4 (`CD`)
and 5 (lasso); the SET 6 with the child 5; the SET 7 with the children 2, 3, 4
and 6; the SET 8, with `unk7 = 0x79`, with the children 2 and 6. -/
def shapes_entry (a : Nat) : SGDEntry :=
  if a = 0 then
    { hdr := { type := SGD_SET, index := 1 },
      set := { num_entries := 4, entries := [2, 3, 4, 5] } }
  else if a = 64 then
    { hdr := { type := SGD_LASSO2D, index := 2 },
      lasso := { num_points := 2, points := [{ x := 10, y := 20 }, { x := 30, y := 50 }] } }
  else if a = 112 then
    { hdr := { type := SGD_TEXTLINE2D, index := 3 }, textline := { text := [65, 66, 0] } }
  else if a = 192 then
    { hdr := { type := SGD_TEXTLINE2D, index := 4 }, textline := { text := [67, 68, 0] } }
  else if a = 272 then
    { hdr := { type := SGD_LASSO2D, index := 5 },
      lasso := { num_points := 2, points := [{ x := 100, y := 100 }, { x := 105, y := 110 }] } }
  else if a = 320 then
    { hdr := { type := SGD_SET, index := 6 }, set := { num_entries := 1, entries := [5] } }
  else if a = 368 then
    { hdr := { type := SGD_SET, index := 7 },
      set := { num_entries := 4, entries := [2, 3, 4, 6] } }
  else if a = 432 then
    { hdr := { type := SGD_SET, index := 8 },
      set := { unk7 := 0x79, num_entries := 2, entries := [2, 6] } }
  else {}

/-- A file of `0x94 + 544` bytes with the entries of `shapes_entry` and the
directory at offset `0x94 + 480`. -/
def shapes_image : Image :=
  { file_size := 0x94 + 544
    table := { num_entries := 1, entry := [{ type := 0, addr := 0x94 + 480 }] }
    directory := fun a =>
      if a = 0x94 + 480 then
        { hdr_type := SGD_BULKDATA,
          type0 := { num_entries := 8, addr := [0, 64, 112, 192, 272, 320, 368, 432] } }
      else {}
    entry := shapes_entry }

/-- The state that `validate_directory` leaves for `shapes_image`. -/
def shapes_state : State :=
  { img := shapes_image, dir := { num_entries := 8, addr := [0, 64, 112, 192, 272, 320, 368, 432] } }

/-- The SET 1 with the children 2 (`A-B`), 3 (area), 4 (`XY`) and 5 (lasso):
a SET with a name and one pair that `fixup_set` moves. -/
def named_pair_entry (a : Nat) : SGDEntry :=
  if a = 0 then
    { hdr := { type := SGD_SET, index := 1 },
      set := { num_entries := 4, entries := [2, 3, 4, 5] } }
  else if a = 64 then
    { hdr := { type := SGD_TEXTLINE2D, index := 2 }, textline := { text := [65, 45, 66, 0] } }
  else if a = 144 then
    { hdr := { type := SGD_SIMPLEAREA, index := 3 } }
  else if a = 176 then
    { hdr := { type := SGD_TEXTLINE2D, index := 4 }, textline := { text := [88, 89, 0] } }
  else if a = 256 then
    { hdr := { type := SGD_LASSO2D, index := 5 },
      lasso := { num_points := 2, points := [{ x := 10, y := 20 }, { x := 30, y := 50 }] } }
  else {}

/-- A file of `0x94 + 352` bytes with the entries of `named_pair_entry` and
the directory at offset `0x94 + 304`. -/
def named_pair_image : Image :=
  { file_size := 0x94 + 352
    table := { num_entries := 1, entry := [{ type := 0, addr := 0x94 + 304 }] }
    directory := fun a =>
      if a = 0x94 + 304 then
        { hdr_type := SGD_BULKDATA,
          type0 := { num_entries := 5, addr := [0, 64, 144, 176, 256] } }
      else {}
    entry := named_pair_entry }

/-- The state that `validate_directory` leaves for `named_pair_image`. -/
def named_pair_state : State :=
  { img := named_pair_image, dir := { num_entries := 5, addr := [0, 64, 144, 176, 256] } }

/-- A `render_mask_r` that draws nothing and finds every entry. -/
def render_nothing : State → Nat → Except Err Unit := fun _ _ => .ok ()

/-- A raster of 128 by 128 pixels. -/
def thin_raster : Raster := { sgd_width := 128, sgd_height := 128, h_tiles := 1, v_tiles := 1 }

/-- The SET 1 with the one child 2, a lasso with the points `(0, 254)` and
`(0, 256 - 2^31)`: on a raster of height 128 its rectangle is one pixel wide
and `2^31 - 1` pixels high. -/
def thin_entry (a : Nat) : SGDEntry :=
  if a = 0 then
    { hdr := { type := SGD_SET, index := 1 }, set := { num_entries := 1, entries := [2] } }
  else if a = 64 then
    { hdr := { type := SGD_LASSO2D, index := 2 },
      lasso := { num_points := 2, points := [{ x := 0, y := 254 }, { x := 0, y := 256 - 2 ^ 31 }] } }
  else {}

/-- A file of `0x94 + 160` bytes with the entries of `thin_entry` and the
directory at offset `0x94 + 112`. -/
def thin_image : Image :=
  { file_size := 0x94 + 160
    table := { num_entries := 1, entry := [{ type := 0, addr := 0x94 + 112 }] }
    directory := fun a =>
      if a = 0x94 + 112 then
        { hdr_type := SGD_BULKDATA, type0 := { num_entries := 2, addr := [0, 64] } }
      else {}
    entry := thin_entry }

/-- The state that `validate_directory` leaves for `thin_image`. -/
def thin_state : State := { img := thin_image, dir := { num_entries := 2, addr := [0, 64] } }

/-- The state of `validate_directory` for `cycle_image` when its second loop
starts. -/
def cycle_state : State :=
  { img := cycle_image, dir := { num_entries := 2, addr := [0, 48] } }

/-- Four entries: the SET 1 whose 256 children are all the lasso 3, the SET 2
with the connected area 4 as its child, the lasso 3, the connected area 4
(without entries). -/
def carry_entry (a : Nat) : SGDEntry :=
  if a = 0 then
    { hdr := { type := SGD_SET, index := 1 },
      set := { num_entries := 256, entries := List.replicate 256 3 } }
  else if a = 1088 then
    { hdr := { type := SGD_SET, index := 2 }, set := { num_entries := 1, entries := [4] } }
  else if a = 1152 then
    { hdr := { type := SGD_LASSO2D, index := 3 },
      lasso := { num_points := 2, points := [{ x := 10, y := 20 }, { x := 30, y := 50 }] } }
  else if a = 1200 then
    { hdr := { type := SGD_CONNECTEDAREA, index := 4 } }
  else {}

/-- A file of `0x94 + 1296` bytes with the entries of `carry_entry` and the
directory at offset `0x94 + 1248`. -/
def carry_image : Image :=
  { file_size := 0x94 + 1296
    table := { num_entries := 1, entry := [{ type := 0, addr := 0x94 + 1248 }] }
    directory := fun a =>
      if a = 0x94 + 1248 then
        { hdr_type := SGD_BULKDATA, type0 := { num_entries := 4, addr := [0, 1088, 1152, 1200] } }
      else {}
    entry := carry_entry }

/-- The state that `validate_directory` leaves for `carry_image`. -/
def carry_state : State :=
  { img := carry_image, dir := { num_entries := 4, addr := [0, 1088, 1152, 1200] } }

/-- The SET 1 with the children 2 (`AB`) and 3 (area), the area 3 with the
polyline 4, and the polyline 4 with the points (10, 20) and (30, 50). -/
def seed_entry (a : Nat) : SGDEntry :=
  if a = 0 then
    { hdr := { type := SGD_SET, index := 1 }, set := { num_entries := 2, entries := [2, 3] } }
  else if a = 64 then
    { hdr := { type := SGD_TEXTLINE2D, index := 2 }, textline := { text := [65, 66, 0] } }
  else if a = 144 then
    { hdr := { type := SGD_SIMPLEAREA, index := 3 },
      simple_area := { num_entries := 1, entries := [4] } }
  else if a = 192 then
    { hdr := { type := SGD_POLYLINE2D, index := 4 },
      polyline := { num_points := 2, points := [{ x := 10, y := 20 }, { x := 30, y := 50 }] } }
  else {}

/-- A file of `0x94 + 320` bytes with the entries of `seed_entry` and the
directory at offset `0x94 + 256`. -/
def seed_image : Image :=
  { file_size := 0x94 + 320
    table := { num_entries := 1, entry := [{ type := 0, addr := 0x94 + 256 }] }
    directory := fun a =>
      if a = 0x94 + 256 then
        { hdr_type := SGD_BULKDATA, type0 := { num_entries := 4, addr := [0, 64, 144, 192] } }
      else {}
    entry := seed_entry }

/-- The state that `validate_directory` leaves for `seed_image`. -/
def seed_state : State :=
  { img := seed_image, dir := { num_entries := 4, addr := [0, 64, 144, 192] } }

/-- The area 1 with the entries `2` and `-2`, the polyline 2 from the point 3
over (10, 20) and (30, 50) to the point 4, and the points 3 and 4. -/
def poly_entry (a : Nat) : SGDEntry :=
  if a = 0 then
    { hdr := { type := SGD_SIMPLEAREA, index := 1 },
      simple_area := { num_entries := 2, entries := [2, -2] } }
  else if a = 48 then
    { hdr := { type := SGD_POLYLINE2D, index := 2 },
      polyline := { point1 := 3, point2 := 4, num_points := 2,
                    points := [{ x := 10, y := 20 }, { x := 30, y := 50 }] } }
  else if a = 112 then
    { hdr := { type := 40, index := 3 }, point := { point := { x := 1, y := 2 } } }
  else if a = 144 then
    { hdr := { type := 40, index := 4 }, point := { point := { x := 7, y := 8 } } }
  else {}

/-- A file of `0x94 + 256` bytes with the entries of `poly_entry` and the
directory at offset `0x94 + 192`. -/
def poly_image : Image :=
  { file_size := 0x94 + 256
    table := { num_entries := 1, entry := [{ type := 0, addr := 0x94 + 192 }] }
    directory := fun a =>
      if a = 0x94 + 192 then
        { hdr_type := SGD_BULKDATA, type0 := { num_entries := 4, addr := [0, 48, 112, 144] } }
      else {}
    entry := poly_entry }

/-- The state that `validate_directory` leaves for `poly_image`. -/
def poly_state : State :=
  { img := poly_image, dir := { num_entries := 4, addr := [0, 48, 112, 144] } }

/-- The value of a hexadecimal digit. -/
def hex_val (c : Nat) : Option Nat :=
  if 48 ≤ c ∧ c ≤ 57 then some (c - 48)
  else if 65 ≤ c ∧ c ≤ 70 then some (c - 55)
  else if 97 ≤ c ∧ c ≤ 102 then some (c - 87)
  else none

/-- The value of the hexadecimal digits at the head of `s`, after `acc`, and
what follows them. -/
def scan_hex_digits : List Nat → Nat → Nat × List Nat
  | [], acc => (acc, [])
  | c :: rest, acc =>
    match hex_val c with
    | some d => scan_hex_digits rest (16 * acc + d)
    | none => (acc, c :: rest)

/-- One conversion `%x`: white space, then at least one hexadecimal digit. -/
def scan_hex (s : List Nat) : Option (Nat × List Nat) :=
  match s.dropWhile (fun c => decide (c = 32 ∨ (9 ≤ c ∧ c ≤ 13))) with
  | [] => none
  | c :: rest => if (hex_val c).isSome then some (scan_hex_digits (c :: rest) 0) else none

/-- A model of `sscanf(buf, "%x %x %x", &r, &g, &b) == 3` for numbers without
sign and without the prefix `0x` that fit `unsigned int`. -/
def sscanf_hex3 (s : List Nat) : Option (Nat × Nat × Nat) :=
  match scan_hex s with
  | none => none
  | some r =>
    match scan_hex r.2 with
    | none => none
    | some g =>
      match scan_hex g.2 with
      | none => none
      | some b => some (r.1, g.1, b.1)

/-- The line `1 2 3` with its newline. -/
def pal_line : List Nat := [49, 32, 50, 32, 51, 10]

/-- A palette file of 8 lines: the first one is `1 2 3`, 1018 blanks and
`4 5 6`, the others are `1 2 3`. -/
def long_line_file : List Nat :=
  [49, 32, 50, 32, 51] ++ List.replicate 1018 32 ++ [52, 32, 53, 32, 54, 10] ++
    (List.replicate 7 pal_line).flatten

/-- A palette file of 16 lines: `1FF 2 3`, then 15 times `1 2 3`. -/
def wide_value_file : List Nat :=
  [49, 70, 70, 32, 50, 32, 51, 10] ++ (List.replicate 15 pal_line).flatten

/-- A palette file of 8 lines `1 2 3` with a blank line after the first. -/
def eight_line_file : List Nat :=
  pal_line ++ [32, 10] ++ (List.replicate 7 pal_line).flatten

/-- The bytes of a `uint16_t`. -/
def le16 (v : Nat) : List Nat := [v % 256, v / 256 % 256]

/-- The bytes of a `uint32_t`. -/
def le32 (v : Nat) : List Nat := [v % 256, v / 256 % 256, v / 65536 % 256, v / 16777216 % 256]

/-- The 28 bytes of an `SGDEntryHeader` with the given `type` and `index`. -/
def hdr_bytes (type index : Nat) : List Nat :=
  le16 0 ++ le16 type ++ le32 index ++ List.replicate 20 0

/-- The first `0x94` bytes of a file: the `SGDFileHeader` and, at `0x4c`, a
directory table of one slot, of type 0, for the directory at `dir`. -/
def file_head (dir : Nat) : List Nat :=
  le32 0x0a0090 ++ le16 0x07db ++ le16 0x0407 ++ le32 0x01020015 ++ le32 0x55555555 ++
    List.replicate 60 0 ++ le32 1 ++ le32 0 ++ le32 dir ++ List.replicate 60 0

/-- The bytes of a directory of type 0 with the slots `addrs`. -/
def dir_bytes (addrs : List Nat) : List Nat :=
  le16 0 ++ le16 SGD_BULKDATA ++ le32 0 ++ le32 0 ++ le32 addrs.length ++ le32 0 ++ le32 0 ++
    (addrs.map le32).flatten

/-- The bytes of a SET. -/
def set_bytes (index unk7 : Nat) (children : List Nat) : List Nat :=
  hdr_bytes SGD_SET index ++ le32 unk7 ++ le32 children.length ++ (children.map le32).flatten

/-- The bytes of a TEXT_LINE with the text `text`. -/
def text_bytes (index : Nat) (text : List Nat) : List Nat :=
  hdr_bytes SGD_TEXTLINE2D index ++ List.replicate 44 0 ++ text ++ [0]

/-- The bytes of a file loaded at `base`; the rest of `base` is zero. -/
def load (file : List Nat) : Nat → Nat := fun x => file.getD x 0

/-- A file of 532 bytes.  The SET `A` (index 2) is at offset 200 and the SET
`X` at offset 228: the header of `X` lies on `A.unk7`, `A.num_entries` and
`A.entries`, so that `X.hdr.index` is `A.num_entries = 1`.  `A` lists the
index 1 and `X` lists the index 2; the TEXT_LINE `Z` at offset 272 has the
index 1 as well and comes after `X` in the directory. -/
def overlap_cycle_file : List Nat :=
  file_head 496 ++ List.replicate 200 0 ++
    hdr_bytes SGD_SET 2 ++ le16 0 ++ le16 SGD_SET ++ le32 1 ++ le32 1 ++ List.replicate 16 0 ++
    le32 0 ++ le32 1 ++ le32 2 ++ List.replicate 4 0 ++
    text_bytes 1 [90] ++ List.replicate 2 0 ++
    dir_bytes [200, 228, 272]

/-- The bytes of a SIMPLE_AREA or CONNECTED_AREA (`type`) with the entries
`entries`, each given as a `uint32_t`. -/
def area_bytes (type index : Nat) (entries : List Nat) : List Nat :=
  hdr_bytes type index ++ le32 entries.length ++ (entries.map le32).flatten

/-- The record `r` followed by zero bytes up to a multiple of 4. -/
def pad4 (r : List Nat) : List Nat := r ++ List.replicate ((4 - r.length % 4) % 4) 0

/-- The offsets at which records start when they are laid out one after the
other from the offset `o` on, each padded by `pad4`. -/
def record_offsets (o : Nat) : List (List Nat) → List Nat
  | [] => []
  | r :: rs => o :: record_offsets (o + (pad4 r).length) rs

/-- A file with the records `recs`, which share no byte: the head of the
file, 200 zero bytes after `base_off` (room for the header of the raster,
which is not part of these examples), the records one after the other, and
the directory, which lists them in this order. -/
def file_of (recs : List (List Nat)) : List Nat :=
  file_head (SGD_OFFSET + 200 + ((recs.map pad4).flatten).length) ++ List.replicate 200 0 ++
    (recs.map pad4).flatten ++ dir_bytes (record_offsets 200 recs)

/-- The bytes of a LASSO with the points `pts`, each given by the bits of its
two `float`. -/
def lasso_bytes (index : Nat) (pts : List (Nat × Nat)) : List Nat :=
  hdr_bytes SGD_LASSO2D index ++ le32 pts.length ++ (pts.map (fun q => le32 q.1 ++ le32 q.2)).flatten

/-- The buffer after `validate_directory` has accepted the file `file`, whose
directory is at `dir`. -/
def loaded (file : List Nat) (dir : Nat) : Bytes :=
  { mem := load file, file_size := file.length, dir := dir }

/-- A file of 620 bytes.  The SET `A` (index 2, one child: the index 3) is at
offset 200 and the SET `X` (one child: the index 4) at offset 228, so that
`X.hdr.type` is the upper half of `A.unk7` and `X.hdr.index` is
`A.num_entries = 1`.  The index 3 is the TEXT_LINE `AB` at offset 272 and the
index 4 the TEXT_LINE `CD` at offset 352. -/
def overlap_drawn_file : List Nat :=
  file_head 580 ++ List.replicate 200 0 ++
    hdr_bytes SGD_SET 2 ++ le16 0 ++ le16 SGD_SET ++ le32 1 ++ le32 3 ++ List.replicate 16 0 ++
    le32 0 ++ le32 1 ++ le32 4 ++ List.replicate 4 0 ++
    text_bytes 3 [65, 66] ++ List.replicate 5 0 ++
    text_bytes 4 [67, 68] ++ List.replicate 5 0 ++
    dir_bytes [200, 228, 272, 352]

/-- A file of 652 bytes.  The SET `A` (index 1) at offset 200 has the four
children `0x370000`, 5, 6, 7, and the TEXT_LINE `T` with the text `A-B` is at
offset 236, on the array of `A`: `T.hdr.type` is the upper half of
`A.entries[0]` and `T.hdr.index` is `A.entries[1] = 5`.  The index `0x370000`
is the TEXT_LINE `AB` at offset 320, the index 6 the SIMPLE_AREA at offset 396
and the index 7 the LASSO at offset 428. -/
def overlap_fixup_file : List Nat :=
  file_head 608 ++ List.replicate 200 0 ++
    hdr_bytes SGD_SET 1 ++ le32 0 ++ le32 4 ++
    le16 0 ++ le16 SGD_TEXTLINE2D ++ le32 5 ++ le32 6 ++ le32 7 ++ List.replicate 56 0 ++
    [65, 45, 66, 0] ++ List.replicate 8 0 ++
    text_bytes 0x370000 [65, 66] ++ List.replicate 1 0 ++
    area_bytes SGD_SIMPLEAREA 6 [] ++
    lasso_bytes 7 [] ++
    dir_bytes [200, 236, 320, 396, 428]

/-- A file of 708 bytes.  The SET `A` (index 1, `unk7 = 0x79`, children
`0x79` and 6) is at offset 200 and the SET `Y` (one child: the index 5) at
offset 224, so that `Y.hdr.index` is `A.unk7`.  The index 5 is a LASSO with
the points `(10, 20)` and `(30, 50)` at offset 268, the index 6 the TEXT_LINE
`AB` at offset 316; the SET `P` (index 7) at offset 392 has the children 8,
the TEXT_LINE `CD` at offset 436, and 1. -/
def overlap_container_file : List Nat :=
  file_head 660 ++ List.replicate 200 0 ++
    le16 0 ++ le16 SGD_SET ++ le32 1 ++ List.replicate 16 0 ++ le16 0 ++ le16 SGD_SET ++
    le32 0x79 ++ le32 2 ++ le32 0x79 ++ le32 6 ++ List.replicate 8 0 ++
    le32 0 ++ le32 1 ++ le32 5 ++ List.replicate 4 0 ++
    lasso_bytes 5 [(0x41200000, 0x41A00000), (0x41F00000, 0x42480000)] ++
    text_bytes 6 [65, 66] ++ List.replicate 1 0 ++
    set_bytes 7 0 [8, 1] ++
    text_bytes 8 [67, 68] ++ List.replicate 1 0 ++
    dir_bytes [200, 224, 268, 316, 392, 436]

/-- A file of 552 bytes: the SET 1 at offset 200 with the children 2, the
TEXT_LINE `AB`, and 3, a lasso with the points `(0, 254)` and
`(0, 256 - 2^31)`.  On a raster of height 128 the rectangle of the lasso is
one pixel wide and `2^31 - 1` pixels high. -/
def thin_file : List Nat :=
  file_of [set_bytes 1 0 [2, 3], text_bytes 2 [65, 66],
    lasso_bytes 3 [(0, 0x437E0000), (0, 0xCEFFFFFE)]]

/-- A file of 544 bytes: the SET 1 at offset 200 with the children 2, the
TEXT_LINE `AB`, and 3, a lasso with the one point `(2147483520, 100)`. -/
def far_lasso_file : List Nat :=
  file_of [set_bytes 1 0 [2, 3], text_bytes 2 [65, 66], lasso_bytes 3 [(0x4EFFFFFF, 0x42C80000)]]

/-- A file of 716 bytes whose records share no byte: the SET 1 at offset 200
with the children 2 (the TEXT_LINE `A-B`), 3 (a SIMPLE_AREA), 4 (the
TEXT_LINE `C-D`), 5 (a SIMPLE_AREA) and 6 (a lasso): two pairs that
`fixup_set` moves. -/
def pairs_file : List Nat :=
  file_of [set_bytes 1 0 [2, 3, 4, 5, 6], text_bytes 2 [65, 45, 66],
    area_bytes SGD_SIMPLEAREA 3 [], text_bytes 4 [67, 45, 68], area_bytes SGD_SIMPLEAREA 5 [],
    lasso_bytes 6 [(0x41200000, 0x41A00000), (0x41F00000, 0x42480000)]]

/-- The file `pairs_file` with the text `CD` for the TEXT_LINE 4 and the
children 2, 3, 6, 5, 6 for the SET: one pair that `fixup_set` moves. -/
def one_dash_file : List Nat :=
  file_of [set_bytes 1 0 [2, 3, 6, 5, 6], text_bytes 2 [65, 45, 66],
    area_bytes SGD_SIMPLEAREA 3 [], text_bytes 4 [67, 68], area_bytes SGD_SIMPLEAREA 5 [],
    lasso_bytes 6 [(0x41200000, 0x41A00000), (0x41F00000, 0x42480000)]]

/-- A file of 676 bytes whose records share no byte: the SET 1 at offset 200
with the children 2 (the TEXT_LINE `A-B`), 3 (a SIMPLE_AREA), 4 (the
TEXT_LINE `XY`) and 5 (a lasso with the points `(10, 20)` and `(30, 50)`). -/
def named_pair_file : List Nat :=
  file_of [set_bytes 1 0 [2, 3, 4, 5], text_bytes 2 [65, 45, 66],
    area_bytes SGD_SIMPLEAREA 3 [], text_bytes 4 [88, 89],
    lasso_bytes 5 [(0x41200000, 0x41A00000), (0x41F00000, 0x42480000)]]


/-! ## Theorems: container validator -/

theorem store_entry (st : State) (a v x : Nat) :
    (st.store_set_num_entries a v).entry x =
      if x = a then { (st.entry a) with set := { (st.entry a).set with num_entries := v } }
      else st.entry x := by
  unfold State.store_set_num_entries State.entry
  by_cases h : x = a
  · subst h; simp
  · simp [h]

theorem store_dir (st : State) (a v : Nat) : (st.store_set_num_entries a v).dir = st.dir := rfl

theorem store_dir_addr (st : State) (a v i : Nat) :
    (st.store_set_num_entries a v).dir_addr i = st.dir_addr i := rfl

theorem store_hdr (st : State) (a v x : Nat) :
    ((st.store_set_num_entries a v).entry x).hdr = (st.entry x).hdr := by
  rw [store_entry]; split
  · next h => subst h; rfl
  · rfl

theorem store_entries (st : State) (a v x : Nat) :
    ((st.store_set_num_entries a v).entry x).set.entries = (st.entry x).set.entries := by
  rw [store_entry]; split
  · next h => subst h; rfl
  · rfl

theorem store_num_same (st : State) (a v : Nat) :
    ((st.store_set_num_entries a v).entry a).set.num_entries = v := by
  rw [store_entry]; simp

theorem store_num_other (st : State) (a v x : Nat) (h : x ≠ a) :
    ((st.store_set_num_entries a v).entry x).set.num_entries = (st.entry x).set.num_entries := by
  rw [store_entry]; simp [h]

theorem store_store (st : State) (a v w : Nat) :
    (st.store_set_num_entries a v).store_set_num_entries a w = st.store_set_num_entries a w := by
  unfold State.store_set_num_entries
  simp

theorem store_self (st : State) (a : Nat) :
    st.store_set_num_entries a (st.entry a).set.num_entries = st := by
  unfold State.store_set_num_entries State.entry
  simp

theorem find_entry_store (st : State) (a v idx : Nat) :
    find_entry (st.store_set_num_entries a v) idx = find_entry st idx := by
  unfold find_entry
  simp only [store_dir, store_dir_addr, store_hdr]

theorem is_set_entry_store (st : State) (a v x : Nat) :
    is_set_entry (st.store_set_num_entries a v) x ↔ is_set_entry st x := by
  unfold is_set_entry
  simp only [store_dir, store_dir_addr, store_hdr]

theorem find_entry_ok {st : State} {idx e : Nat} (h : find_entry st idx = .ok e) :
    ∃ i, i < st.dir.num_entries ∧ st.dir_addr i = e := by
  unfold find_entry at h
  split at h
  · next i hi =>
    have hm := List.mem_of_find?_eq_some hi
    rw [List.mem_range] at hm
    injection h with h
    exact ⟨i, hm, h⟩
  · cases h

theorem int_of_u32_minus_one : (int_of_u32 U32_MINUS_ONE).toNat = 0 := by decide

theorem int_of_u32_small {n : Nat} (h : n < 2 ^ 31) : (int_of_u32 n).toNat = n := by
  unfold int_of_u32
  have h1 : n % 2 ^ 32 = n := Nat.mod_eq_of_lt (by omega)
  rw [h1, if_pos h]
  simp

theorem u32_of_int_of_u32 {n : Nat} (h : n < 2 ^ 32) : u32_of_int (int_of_u32 n) = n := by
  unfold int_of_u32 u32_of_int
  have h1 : n % 2 ^ 32 = n := Nat.mod_eq_of_lt h
  rw [h1]
  split <;> omega

theorem int_of_u32_toNat_le {n : Nat} (h : n < 2 ^ 32) : (int_of_u32 n).toNat ≤ n := by
  unfold int_of_u32
  have h1 : n % 2 ^ 32 = n := Nat.mod_eq_of_lt h
  rw [h1]
  split <;> omega

theorem validate_set_loop_spec (self : State → Nat → Except Err State) (hself : SelfSpec self)
    (set : Nat) : ∀ (l : List Nat) (st st2 : State), counts_u32 st →
      validate_set_loop self set l st = .ok st2 →
      st2 = st ∧ ∀ i ∈ l, ∀ e, find_entry st ((st.entry set).set.entries.getD i 0) = .ok e →
        (st.entry e).hdr.type = SGD_SET →
        ∀ b, Relation.ReflTransGen (set_call st) e b →
          (st.entry b).set.num_entries ≠ U32_MINUS_ONE := by
  intro l
  induction l with
  | nil =>
    intro st st2 _ h
    simp only [validate_set_loop] at h
    injection h with h
    exact ⟨h.symm, by simp⟩
  | cons i rest ih =>
    intro st st2 hc h
    simp only [validate_set_loop] at h
    cases hf : find_entry st ((st.entry set).set.entries.getD i 0) with
    | error err => rw [hf] at h; cases h
    | ok e =>
      rw [hf] at h
      simp only at h
      by_cases ht : (st.entry e).hdr.type = SGD_SET
      · rw [if_pos ht] at h
        cases hs : self st e with
        | error err => rw [hs] at h; cases h
        | ok st3 =>
          rw [hs] at h
          simp only at h
          obtain ⟨i0, hi0, hi1⟩ := find_entry_ok hf
          have hse : is_set_entry st e := ⟨i0, hi0, hi1, ht⟩
          obtain ⟨h3, hreach⟩ := hself st e st3 hc hse hs
          subst h3
          obtain ⟨h4, hrest⟩ := ih st3 st2 hc h
          refine ⟨h4, ?_⟩
          intro k hk e2 hf2 ht2 b hb
          rcases List.mem_cons.mp hk with hk | hk
          · subst hk
            rw [hf] at hf2
            injection hf2 with hf2
            subst hf2
            exact hreach b hb
          · exact hrest k hk e2 hf2 ht2 b hb
      · rw [if_neg ht] at h
        obtain ⟨h4, hrest⟩ := ih st st2 hc h
        refine ⟨h4, ?_⟩
        intro k hk e2 hf2 ht2 b hb
        rcases List.mem_cons.mp hk with hk | hk
        · subst hk
          rw [hf] at hf2
          injection hf2 with hf2
          subst hf2
          exact absurd ht2 ht
        · exact hrest k hk e2 hf2 ht2 b hb

theorem counts_u32_store {st : State} (a : Nat) (hc : counts_u32 st) :
    counts_u32 (st.store_set_num_entries a U32_MINUS_ONE) := by
  intro x hx
  rw [is_set_entry_store] at hx
  by_cases h : x = a
  · subst h; rw [store_num_same]; decide
  · rw [store_num_other _ _ _ _ h]; exact hc x hx

theorem set_call_store {st : State} {a x y : Nat} (hx : x ≠ a) (h : set_call st x y) :
    set_call (st.store_set_num_entries a U32_MINUS_ONE) x y := by
  obtain ⟨j, hj, hf, ht⟩ := h
  refine ⟨j, ?_, ?_, ?_⟩
  · rw [store_num_other _ _ _ _ hx]; exact hj
  · rw [find_entry_store, store_entries]; exact hf
  · rw [store_hdr]; exact ht

theorem reach_split (st : State) (a : Nat) {c b : Nat}
    (h : Relation.ReflTransGen (set_call st) c b) :
    Relation.ReflTransGen (set_call (st.store_set_num_entries a U32_MINUS_ONE)) c b ∨
    Relation.ReflTransGen (set_call (st.store_set_num_entries a U32_MINUS_ONE)) c a := by
  induction h with
  | refl => exact Or.inl Relation.ReflTransGen.refl
  | @tail m b _ hmb ih =>
    rcases ih with ih | ih
    · by_cases hm : m = a
      · subst hm; exact Or.inr ih
      · exact Or.inl (ih.tail (set_call_store hm hmb))
    · exact Or.inr ih

theorem validate_set_r_step (fuel : Nat) (hself : SelfSpec (validate_set_r fuel))
    (st : State) (a : Nat) (st2 : State) (hc : counts_u32 st) (hs : is_set_entry st a)
    (h : validate_set_r (fuel + 1) st a = .ok st2) :
    st2 = st ∧ (st.entry a).set.num_entries ≠ U32_MINUS_ONE ∧
    ∀ c, set_call st a c → ∀ b,
      Relation.ReflTransGen (set_call (st.store_set_num_entries a U32_MINUS_ONE)) c b →
      ((st.store_set_num_entries a U32_MINUS_ONE).entry b).set.num_entries ≠ U32_MINUS_ONE := by
  simp only [validate_set_r] at h
  by_cases hn : (st.entry a).set.num_entries = U32_MINUS_ONE
  · rw [if_pos hn] at h; cases h
  · rw [if_neg hn] at h
    cases hl : validate_set_loop (validate_set_r fuel) a
        (List.range (int_of_u32 (st.entry a).set.num_entries).toNat)
        (st.store_set_num_entries a U32_MINUS_ONE) with
    | error err => rw [hl] at h; cases h
    | ok st3 =>
      rw [hl] at h
      simp only at h
      injection h with h
      obtain ⟨h3, hch⟩ := validate_set_loop_spec _ hself a _ _ _ (counts_u32_store a hc) hl
      subst h3
      refine ⟨?_, hn, ?_⟩
      · rw [← h, store_store, u32_of_int_of_u32 (hc a hs), store_self]
      · intro c hcall b hb
        obtain ⟨j, hj, hf, ht⟩ := hcall
        refine hch j (List.mem_range.mpr hj) c ?_ ?_ b hb
        · rw [find_entry_store, store_entries]; exact hf
        · rw [store_hdr]; exact ht

theorem validate_set_r_spec (fuel : Nat) : SelfSpec (validate_set_r fuel) := by
  induction fuel with
  | zero =>
    intro st e st2 _ _ h
    simp only [validate_set_r] at h
    cases h
  | succ fuel ih =>
    intro st a st2 hc hs h
    obtain ⟨h2, hn, hch⟩ := validate_set_r_step fuel ih st a st2 hc hs h
    refine ⟨h2, ?_⟩
    intro b hb
    rcases Relation.ReflTransGen.cases_head hb with hab | ⟨c, hac, hcb⟩
    · subst hab; exact hn
    · rcases reach_split st a hcb with hr | hr
      · have h1 := hch c hac b hr
        by_cases hba : b = a
        · subst hba; rw [store_num_same] at h1; exact absurd rfl h1
        · rw [store_num_other _ _ _ _ hba] at h1; exact h1
      · have h1 := hch c hac a hr
        rw [store_num_same] at h1; exact absurd rfl h1

theorem validate_set_r_acyclic (fuel : Nat) (st : State) (a : Nat) (st2 : State)
    (hc : counts_u32 st) (hs : is_set_entry st a) (h : validate_set_r fuel st a = .ok st2) :
    ¬ Relation.TransGen (set_call st) a a := by
  cases fuel with
  | zero => simp only [validate_set_r] at h; cases h
  | succ fuel =>
    obtain ⟨_, _, hch⟩ := validate_set_r_step fuel (validate_set_r_spec fuel) st a st2 hc hs h
    intro hcyc
    obtain ⟨c, hac, hca⟩ := Relation.TransGen.head'_iff.mp hcyc
    have h1 : Relation.ReflTransGen (set_call (st.store_set_num_entries a U32_MINUS_ONE)) c a := by
      rcases reach_split st a hca with hr | hr <;> exact hr
    have h2 := hch c hac a h1
    rw [store_num_same] at h2
    exact h2 rfl

theorem validate_sets_spec (fuel : Nat) : ∀ (l : List Nat) (st st2 : State), counts_u32 st →
    (∀ i ∈ l, i < st.dir.num_entries) → validate_sets fuel l st = .ok st2 →
    st2 = st ∧ ∀ i ∈ l, (st.entry (st.dir_addr i)).hdr.type = SGD_SET →
      ¬ Relation.TransGen (set_call st) (st.dir_addr i) (st.dir_addr i) := by
  intro l
  induction l with
  | nil =>
    intro st st2 _ _ h
    simp only [validate_sets] at h
    injection h with h
    exact ⟨h.symm, by simp⟩
  | cons i rest ih =>
    intro st st2 hc hl h
    simp only [validate_sets] at h
    have hrest : ∀ k ∈ rest, k < st.dir.num_entries := fun k hk => hl k (List.mem_cons_of_mem _ hk)
    by_cases ht : (st.entry (st.dir_addr i)).hdr.type = SGD_SET
    · rw [if_pos ht] at h
      cases hv : validate_set_r fuel st (st.dir_addr i) with
      | error err => rw [hv] at h; cases h
      | ok st3 =>
        rw [hv] at h
        simp only at h
        have hs : is_set_entry st (st.dir_addr i) := ⟨i, hl i (List.mem_cons_self _ _), rfl, ht⟩
        obtain ⟨h3, _⟩ := validate_set_r_spec fuel st _ st3 hc hs hv
        have hacyc := validate_set_r_acyclic fuel st _ st3 hc hs hv
        subst h3
        obtain ⟨h4, hr⟩ := ih st3 st2 hc hrest h
        refine ⟨h4, ?_⟩
        intro k hk hkt
        rcases List.mem_cons.mp hk with hk | hk
        · subst hk; exact hacyc
        · exact hr k hk hkt
    · rw [if_neg ht] at h
      obtain ⟨h4, hr⟩ := ih st st2 hc hrest h
      refine ⟨h4, ?_⟩
      intro k hk hkt
      rcases List.mem_cons.mp hk with hk | hk
      · subst hk; exact absurd hkt ht
      · exact hr k hk hkt

theorem validate_entries_ok (st : State) : ∀ (l : List Nat), validate_entries st l = .ok () →
    ∀ i ∈ l, validate_entry st i = .ok () := by
  intro l
  induction l with
  | nil => intro _ i hi; cases hi
  | cons k rest ih =>
    intro h i hi
    simp only [validate_entries] at h
    cases hv : validate_entry st k with
    | error err => rw [hv] at h; cases h
    | ok u =>
      rw [hv] at h
      simp only at h
      rcases List.mem_cons.mp hi with hi | hi
      · subst hi; exact hv
      · exact ih h i hi

theorem file_size_off_lt (img : Image) : file_size_off img < 2 ^ 32 := by
  unfold file_size_off
  exact Nat.mod_lt _ (by norm_num)

theorem tail_div_lt (img : Image) (x : Nat) :
    (file_size_off img - x) / sizeof_uint32 < 2 ^ 31 := by
  have h2 := file_size_off_lt img
  apply Nat.div_lt_of_lt_mul
  show file_size_off img - x < 4 * 2 ^ 31
  omega

theorem validate_entry_set {st : State} {i : Nat} (h : validate_entry st i = .ok ())
    (ht : (st.entry (st.dir_addr i)).hdr.type = SGD_SET) :
    (st.entry (st.dir_addr i)).set.num_entries ≤
      (file_size_off st.img - st.dir_addr i) / sizeof_uint32 := by
  unfold validate_entry at h
  simp only [ht] at h
  split at h
  · cases h
  · simp at h
    exact h

/-- What a successful `validate_directory` establishes. -/
theorem validate_directory_ok {img : Image} {st : State} (h : validate_directory img = .ok st) :
    st.img = img ∧ find_directory img = .ok st.dir ∧
    (∀ i, i < st.dir.num_entries → validate_entry st i = .ok ()) ∧
    ∀ i, i < st.dir.num_entries → (st.entry (st.dir_addr i)).hdr.type = SGD_SET →
      ¬ Relation.TransGen (set_call st) (st.dir_addr i) (st.dir_addr i) := by
  unfold validate_directory at h
  cases hd : find_directory img with
  | error err => rw [hd] at h; cases h
  | ok d =>
    rw [hd] at h
    simp only at h
    cases he : validate_entries { img := img, dir := d } (List.range d.num_entries) with
    | error err => rw [he] at h; cases h
    | ok u =>
      rw [he] at h
      simp only at h
      have hent := validate_entries_ok _ _ he
      have hc : counts_u32 { img := img, dir := d } := by
        intro a ⟨i, hi, hia, ht⟩
        subst hia
        have h1 := validate_entry_set (hent i (List.mem_range.mpr hi)) ht
        have h3 := tail_div_lt img (State.dir_addr { img := img, dir := d } i)
        simp only at h1
        omega
      obtain ⟨h2, hac⟩ := validate_sets_spec _ _ _ _ hc (fun i hi => List.mem_range.mp hi) h
      subst h2
      refine ⟨rfl, rfl, ?_, ?_⟩
      · intro i hi; exact hent i (List.mem_range.mpr hi)
      · intro i hi ht; exact hac i (List.mem_range.mpr hi) ht

/-- The cycle check on records that share no byte.  After a successful
`validate_directory`, no SET entry is reachable
from itself by following child indices (each resolved with `find_entry`)
through SET entries; so a directory with a SET on such a cycle is never
accepted. -/
theorem validate_directory_no_cycle (img : Image) (st : State)
    (h : validate_directory img = .ok st) (a : Nat) :
    ¬ Relation.TransGen (set_child st) a a := by
  obtain ⟨_, _, hent, hac⟩ := validate_directory_ok h
  intro hcyc
  have hmono : ∀ x y, set_child st x y → set_call st x y := by
    intro x y ⟨⟨i, hi, hix, ht⟩, j, hj, hf, hty⟩
    subst hix
    have h1 := validate_entry_set (hent i hi) ht
    have h3 := tail_div_lt st.img (st.dir_addr i)
    refine ⟨j, ?_, hf, hty⟩
    rw [int_of_u32_small (by omega)]
    exact hj
  obtain ⟨c, ⟨⟨i, hi, hia, ht⟩, _⟩, _⟩ := Relation.TransGen.head'_iff.mp hcyc
  subst hia
  exact hac i hi ht (Relation.TransGen.mono hmono hcyc)

theorem validate_directory_no_cycle_witness :
    ∃ st, validate_directory ex_image = .ok st ∧
      ∀ a, ¬ Relation.TransGen (set_child st) a a :=
  ⟨_, rfl, validate_directory_no_cycle ex_image _ rfl⟩

theorem file_size_off_eq {img : Image} (hmin : SGD_OFFSET ≤ img.file_size)
    (hmax : img.file_size ≤ MAX_BASE) : file_size_off img = img.file_size - SGD_OFFSET := by
  unfold file_size_off
  have h : img.file_size ≤ 4194304 := hmax
  have h2 : 148 ≤ img.file_size := hmin
  show (img.file_size + 2 ^ 32 - 148) % 2 ^ 32 = img.file_size - 148
  omega

theorem validate_entry_addr {st : State} {i : Nat} (h : validate_entry st i = .ok ()) :
    st.dir_addr i ≤ file_size_off st.img := by
  unfold validate_entry at h
  split at h
  · cases h
  · omega

/-- The checks made by the first loop of `validate_directory`, by kind. -/
theorem validate_entry_counts {st : State} {i : Nat} (h : validate_entry st i = .ok ()) :
    ((st.entry (st.dir_addr i)).hdr.type = SGD_POLYLINE2D →
      (st.entry (st.dir_addr i)).polyline.num_points ≤
        (file_size_off st.img - st.dir_addr i) / sizeof_SGDPoint) ∧
    ((st.entry (st.dir_addr i)).hdr.type = SGD_LASSO2D →
      (st.entry (st.dir_addr i)).lasso.num_points ≤
        (file_size_off st.img - st.dir_addr i) / sizeof_SGDPoint) ∧
    ((st.entry (st.dir_addr i)).hdr.type = SGD_SIMPLEAREA ∨
        (st.entry (st.dir_addr i)).hdr.type = SGD_CONNECTEDAREA →
      (st.entry (st.dir_addr i)).simple_area.num_entries ≤
        (file_size_off st.img - st.dir_addr i) / sizeof_uint32) ∧
    ((st.entry (st.dir_addr i)).hdr.type = SGD_SET →
      (st.entry (st.dir_addr i)).set.num_entries ≤
        (file_size_off st.img - st.dir_addr i) / sizeof_uint32) ∧
    ((st.entry (st.dir_addr i)).hdr.type = SGD_TEXTLINE2D →
      (memchr (st.entry (st.dir_addr i)).textline.text 0
        (file_size_off st.img - st.dir_addr i)).isSome = true) := by
  unfold validate_entry at h
  split at h
  · cases h
  · simp only at h
    refine ⟨?_, ?_, ?_, ?_, ?_⟩
    · intro ht
      simp only [ht, if_true] at h
      split at h
      · cases h
      · omega
    · intro ht
      simp only [ht] at h
      simp at h
      exact h
    · intro ht
      rcases ht with ht | ht <;> simp only [ht] at h <;> simp at h <;> exact h
    · intro ht
      simp only [ht] at h
      simp at h
      exact h
    · intro ht
      simp only [ht] at h
      simp at h
      cases hm : memchr (st.entry (st.dir_addr i)).textline.text 0
        (file_size_off st.img - st.dir_addr i) with
      | none => exact absurd hm h
      | some k => rfl

theorem memchr_some {s : List Nat} {c n k : Nat} (h : memchr s c n = some k) :
    k < n ∧ s.getD k 0 = c ∧ ∀ m, m < k → s.getD m 0 ≠ c := by
  unfold memchr at h
  rw [List.find?_range_eq_some] at h
  obtain ⟨h1, h2, h3⟩ := h
  refine ⟨List.mem_range.mp h2, by simpa using h1, ?_⟩
  intro m hm
  have := h3 m hm
  simpa using this

theorem fits_aux {fs addr n k : Nat} (hk : 0 < k) (hmin : SGD_OFFSET ≤ fs)
    (h1 : addr ≤ fs - SGD_OFFSET) (h : n ≤ (fs - SGD_OFFSET - addr) / k) :
    SGD_OFFSET + addr + n * k ≤ fs := by
  have h2 := (Nat.le_div_iff_mul_le hk).mp h
  omega

theorem text_aux {fs addr k : Nat} (h : k < fs - SGD_OFFSET - addr) :
    SGD_OFFSET + addr + k < fs := by
  omega

/-- C2 (as stated) fails: a directory slot that points exactly at `file_size`
is accepted. -/
theorem validate_directory_accepts_offset_file_size :
    SGD_OFFSET ≤ end_entry_image.file_size ∧ end_entry_image.file_size ≤ MAX_BASE ∧
    ∃ st, validate_directory end_entry_image = .ok st ∧ 0 < st.dir.num_entries ∧
      ¬ (st.entry_offset 0 < end_entry_image.file_size) :=
  ⟨by decide, by decide, _, rfl, by decide, by decide⟩

/-- C2 (amended). For a buffer of `file_size` bytes accepted by `load_sgd`
(`SGD_OFFSET ≤ file_size ≤ MAX_BASE`) that passes `validate_directory`, every
directory entry offset `a = SGD_OFFSET + dir.addr[i]` satisfies
`SGD_OFFSET ≤ a ≤ file_size`. -/
theorem validate_directory_entry_offset (img : Image) (st : State)
    (hmin : SGD_OFFSET ≤ img.file_size) (hmax : img.file_size ≤ MAX_BASE)
    (h : validate_directory img = .ok st) (i : Nat) (hi : i < st.dir.num_entries) :
    SGD_OFFSET ≤ st.entry_offset i ∧ st.entry_offset i ≤ img.file_size := by
  obtain ⟨himg, _, hent, _⟩ := validate_directory_ok h
  have h1 := validate_entry_addr (hent i hi)
  rw [himg, file_size_off_eq hmin hmax] at h1
  unfold State.entry_offset
  omega

theorem validate_directory_entry_offset_witness :
    ∃ st, validate_directory ex_image = .ok st ∧
      SGD_OFFSET ≤ st.entry_offset 2 ∧ st.entry_offset 2 ≤ ex_image.file_size :=
  ⟨_, rfl, validate_directory_entry_offset ex_image _ (by decide) (by decide) rfl 2 (by decide)⟩

/-- C3 (as stated) fails: a LASSO whose declared points end 28 bytes after the
end of the file is accepted. -/
theorem validate_directory_accepts_long_lasso :
    SGD_OFFSET ≤ long_lasso_image.file_size ∧ long_lasso_image.file_size ≤ MAX_BASE ∧
    ∃ st, validate_directory long_lasso_image = .ok st ∧ 0 < st.dir.num_entries ∧
      (st.entry (st.dir_addr 0)).hdr.type = SGD_LASSO2D ∧
      ¬ (st.entry_offset 0 + offsetof_lasso_points +
          (st.entry (st.dir_addr 0)).lasso.num_points * sizeof_SGDPoint
            ≤ long_lasso_image.file_size) :=
  ⟨by decide, by decide, _, rfl, by decide, by decide, by decide⟩

/-- C3 (amended). For a buffer accepted by `load_sgd` that passes
`validate_directory`, every POLYLINE, LASSO, SIMPLE_AREA, CONNECTED_AREA and
SET entry satisfies: entry offset + declared count × element size ≤
`file_size` (the fields before the inline array are not counted, so the array
ends at most `entry_array_offset` bytes after the end of the file), and every
TEXT_LINE has its first zero byte at a text position `k` with entry offset +
`k` < `file_size`. -/
theorem validate_directory_entry_fits (img : Image) (st : State)
    (hmin : SGD_OFFSET ≤ img.file_size) (hmax : img.file_size ≤ MAX_BASE)
    (h : validate_directory img = .ok st) (i : Nat) (hi : i < st.dir.num_entries) :
    st.entry_offset i + entry_array_bytes (st.entry (st.dir_addr i)) ≤ img.file_size ∧
    st.entry_offset i + entry_array_offset (st.entry (st.dir_addr i)) +
        entry_array_bytes (st.entry (st.dir_addr i))
      ≤ img.file_size + entry_array_offset (st.entry (st.dir_addr i)) ∧
    ((st.entry (st.dir_addr i)).hdr.type = SGD_TEXTLINE2D →
      ∃ k, (st.entry (st.dir_addr i)).textline.text.getD k 0 = 0 ∧
        (∀ m, m < k → (st.entry (st.dir_addr i)).textline.text.getD m 0 ≠ 0) ∧
        st.entry_offset i + k < img.file_size) := by
  obtain ⟨himg, _, hent, _⟩ := validate_directory_ok h
  have h1 := validate_entry_addr (hent i hi)
  obtain ⟨hp, hl, ha, hs, ht⟩ := validate_entry_counts (hent i hi)
  rw [himg, file_size_off_eq hmin hmax] at h1 hp hl ha hs ht
  have key : st.entry_offset i + entry_array_bytes (st.entry (st.dir_addr i)) ≤ img.file_size := by
    unfold State.entry_offset entry_array_bytes
    split
    · next h0 => exact fits_aux (by decide) hmin h1 (hp h0)
    · split
      · next h0 => exact fits_aux (by decide) hmin h1 (hl h0)
      · split
        · next h0 => exact fits_aux (by decide) hmin h1 (ha h0)
        · split
          · next h0 => exact fits_aux (by decide) hmin h1 (hs h0)
          · exact fits_aux (by decide : 0 < 1) hmin h1 (Nat.zero_le _)
  refine ⟨key, Nat.add_right_comm _ _ _ ▸ Nat.add_le_add_right key _, ?_⟩
  intro htx
  have h2 := ht htx
  cases hm : memchr (st.entry (st.dir_addr i)).textline.text 0
      (img.file_size - SGD_OFFSET - st.dir_addr i) with
  | none => rw [hm] at h2; cases h2
  | some k =>
    obtain ⟨hk, hz, hfirst⟩ := memchr_some hm
    refine ⟨k, hz, hfirst, ?_⟩
    unfold State.entry_offset
    exact text_aux hk

theorem validate_directory_entry_fits_witness :
    ∃ st, validate_directory ex_image = .ok st ∧
      st.entry_offset 0 + entry_array_bytes (st.entry (st.dir_addr 0)) ≤ ex_image.file_size ∧
      st.entry_offset 0 + entry_array_offset (st.entry (st.dir_addr 0)) +
          entry_array_bytes (st.entry (st.dir_addr 0))
        ≤ ex_image.file_size + entry_array_offset (st.entry (st.dir_addr 0)) ∧
      ((st.entry (st.dir_addr 0)).hdr.type = SGD_TEXTLINE2D →
        ∃ k, (st.entry (st.dir_addr 0)).textline.text.getD k 0 = 0 ∧
          (∀ m, m < k → (st.entry (st.dir_addr 0)).textline.text.getD m 0 ≠ 0) ∧
          st.entry_offset 0 + k < ex_image.file_size) :=
  ⟨_, rfl, validate_directory_entry_fits ex_image _ (by decide) (by decide) rfl 0 (by decide)⟩

/-! ## Theorems: raster decoder -/

/-- C4. With all other MRCI header fields valid, `parse_mrci` accepts the
32-bit unsigned `(width, height)` if and only if `1 ≤ width ≤ 2048` and
`1 ≤ height ≤ 2048`; otherwise it fails with the image size error (0 is
rejected because the unsigned `width - 1` wraps). -/
theorem parse_mrci_size_check (fso : Nat) (m : SGDMrciHeader)
    (hw : m.width < 2 ^ 32) (hh : m.height < 2 ^ 32)
    (ht : m.hdr.type = SGD_MRCIHEADER) (hb : m.bytes_per_pixel = 1) (hd : m.bit_depth = 8)
    (htw : m.tile_width = TILE_WIDTH) (hth : m.tile_height = TILE_HEIGHT)
    (hp : m.palette_addr ≤ fso) (hbm : m.bitmap_addr ≤ fso) :
    ((∃ g, parse_mrci_header fso m = .ok g) ↔
      (1 ≤ m.width ∧ m.width ≤ 2048 ∧ 1 ≤ m.height ∧ m.height ≤ 2048)) ∧
    (¬ (1 ≤ m.width ∧ m.width ≤ 2048 ∧ 1 ≤ m.height ∧ m.height ≤ 2048) →
      parse_mrci_header fso m = .error .bad_mrci_image_size) := by
  have hsize : ((m.width + 2 ^ 32 - 1) % 2 ^ 32 > MAX_WIDTH - 1 ∨
      (m.height + 2 ^ 32 - 1) % 2 ^ 32 > MAX_HEIGHT - 1) ↔
      ¬ (1 ≤ m.width ∧ m.width ≤ 2048 ∧ 1 ≤ m.height ∧ m.height ≤ 2048) := by
    show ((m.width + 2 ^ 32 - 1) % 2 ^ 32 > 2048 - 1 ∨
      (m.height + 2 ^ 32 - 1) % 2 ^ 32 > 2048 - 1) ↔ _
    omega
  unfold parse_mrci_header
  by_cases hs : (1 ≤ m.width ∧ m.width ≤ 2048 ∧ 1 ≤ m.height ∧ m.height ≤ 2048)
  · have hs2 := (not_congr hsize).mpr (not_not.mpr hs)
    rw [if_neg (by simp [ht]), if_neg hs2, if_neg (by simp [hb, hd]),
      if_neg (by simp [htw, hth]), if_neg (Nat.not_lt.mpr hp), if_neg (Nat.not_lt.mpr hbm)]
    exact ⟨⟨fun _ => hs, fun _ => ⟨_, rfl⟩⟩, fun h => absurd hs h⟩
  · have hs2 := hsize.mpr hs
    rw [if_neg (by simp [ht]), if_pos hs2]
    refine ⟨⟨fun h => ?_, fun h => absurd h hs⟩, fun _ => rfl⟩
    obtain ⟨g, hg⟩ := h
    cases hg

theorem parse_mrci_size_check_witness :
    ((∃ g, parse_mrci_header 4096 ex_mrci = .ok g) ↔
      (1 ≤ ex_mrci.width ∧ ex_mrci.width ≤ 2048 ∧ 1 ≤ ex_mrci.height ∧
        ex_mrci.height ≤ 2048)) ∧
    (¬ (1 ≤ ex_mrci.width ∧ ex_mrci.width ≤ 2048 ∧ 1 ≤ ex_mrci.height ∧
        ex_mrci.height ≤ 2048) →
      parse_mrci_header 4096 ex_mrci = .error .bad_mrci_image_size) :=
  parse_mrci_size_check 4096 ex_mrci (by decide) (by decide) rfl rfl rfl rfl rfl
    (by decide) (by decide)

/-- `parse_mrci` on the boundary: 2048 by 2048 is accepted, 2049 and 0 in
either dimension are rejected. -/
theorem parse_mrci_boundary :
    parse_mrci_header 4096 ex_mrci =
      .ok { sgd_width := 2048, sgd_height := 2048, h_tiles := 16, v_tiles := 16 } ∧
    parse_mrci_header 4096 { ex_mrci with width := 2049 } = .error .bad_mrci_image_size ∧
    parse_mrci_header 4096 { ex_mrci with height := 2049 } = .error .bad_mrci_image_size ∧
    parse_mrci_header 4096 { ex_mrci with width := 0 } = .error .bad_mrci_image_size ∧
    parse_mrci_header 4096 { ex_mrci with height := 0 } = .error .bad_mrci_image_size := by
  exact ⟨rfl, rfl, rfl, rfl, rfl⟩

theorem foldl_update_range (f : Nat → Nat) (cm : Nat → Nat) (n i : Nat) :
    (List.range n).foldl (fun cm k => Function.update cm k (f k)) cm i =
      if i < n then f i else cm i := by
  induction n with
  | zero => simp
  | succ n ih =>
    rw [List.range_succ, List.foldl_append]
    simp only [List.foldl_cons, List.foldl_nil]
    by_cases h : i = n
    · subst h; simp
    · rw [Function.update_noteq h, ih]
      by_cases h2 : i < n
      · rw [if_pos h2, if_pos (by omega)]
      · rw [if_neg h2, if_neg (by omega)]

theorem remap_colors_apply (png_pal : Nat → png_color) (colormap : Nat → Nat)
    (pal : Nat → png_color) (ncolors i : Nat) :
    remap_colors png_pal colormap pal ncolors i =
      if i < ncolors then remap_colors_best png_pal (pal i) else colormap i := by
  unfold remap_colors
  exact foldl_update_range (fun k => remap_colors_best png_pal (pal k)) colormap ncolors i

theorem color_dist_bounds {p c : png_color} (hp : p.valid) (hc : c.valid) :
    0 ≤ color_dist p c ∧ color_dist p c < INT_MAX := by
  obtain ⟨h1, h2, h3⟩ := hp
  obtain ⟨h4, h5, h6⟩ := hc
  unfold color_dist
  have a1 : |(p.red : Int) - (c.red : Int)| ≤ 255 := abs_le.mpr ⟨by omega, by omega⟩
  have a2 : |(p.green : Int) - (c.green : Int)| ≤ 255 := abs_le.mpr ⟨by omega, by omega⟩
  have a3 : |(p.blue : Int) - (c.blue : Int)| ≤ 255 := abs_le.mpr ⟨by omega, by omega⟩
  have b1 := abs_nonneg ((p.red : Int) - (c.red : Int))
  have b2 := abs_nonneg ((p.green : Int) - (c.green : Int))
  have b3 := abs_nonneg ((p.blue : Int) - (c.blue : Int))
  constructor
  · omega
  · show _ < (2147483647 : Int)
    omega

/-- The state of the inner loop of `remap_colors` after `n` passes. -/
theorem remap_colors_fold_inv (png_pal : Nat → png_color) (c : png_color)
    (hd : color_dist (png_pal 0) c < INT_MAX) (n : Nat) :
    let s := (List.range n).foldl (remap_colors_step png_pal c) (0, INT_MAX)
    (n = 0 → s = (0, INT_MAX)) ∧
    (0 < n → s.1 < n ∧ s.2 = color_dist (png_pal s.1) c ∧
      (∀ j, j < n → s.2 ≤ color_dist (png_pal j) c) ∧
      (∀ j, j < s.1 → s.2 < color_dist (png_pal j) c)) := by
  induction n with
  | zero => simp
  | succ n ih =>
    rw [List.range_succ, List.foldl_append]
    simp only [List.foldl_cons, List.foldl_nil]
    obtain ⟨ih0, ihp⟩ := ih
    generalize (List.range n).foldl (remap_colors_step png_pal c) (0, INT_MAX) = s at ih0 ihp
    refine ⟨fun h => absurd h (Nat.succ_ne_zero n), fun _ => ?_⟩
    show (remap_colors_step png_pal c s n).1 < n + 1 ∧ _
    unfold remap_colors_step
    simp only
    by_cases hlt : color_dist (png_pal n) c < s.2
    · simp only [hlt, if_true]
      refine ⟨by omega, trivial, ?_, ?_⟩
      · intro j hj
        by_cases hjn : j = n
        · subst hjn; exact le_refl _
        · have hn : 0 < n := by omega
          have := (ihp hn).2.2.1 j (by omega)
          omega
      · intro j hj
        have hn : 0 < n := by omega
        have := (ihp hn).2.2.1 j hj
        omega
    · simp only [hlt, if_false]
      have hn : 0 < n := by
        rcases Nat.eq_zero_or_pos n with h0 | h0
        · subst h0
          rw [ih0 rfl] at hlt
          exact absurd hd hlt
        · exact h0
      obtain ⟨h1, h2, h3, h4⟩ := ihp hn
      refine ⟨by omega, h2, ?_, h4⟩
      intro j hj
      by_cases hjn : j = n
      · subst hjn; omega
      · exact h3 j (by omega)

/-- C5. For every palette of `n ≤ 256` colours and every `i < n`, after
`remap_colors` the entry `colormap[i]` is the smallest index `j` in `0..7` that
minimises `|R_j - r_i| + |G_j - g_i| + |B_j - b_i|` over the 8 working-palette
colours. -/
theorem remap_colors_nearest (png_pal : Nat → png_color) (colormap : Nat → Nat)
    (pal : Nat → png_color) (ncolors i : Nat) (_hn : ncolors ≤ 256) (hi : i < ncolors)
    (hv : ∀ j, j < 8 → (png_pal j).valid) (hp : (pal i).valid) :
    remap_colors png_pal colormap pal ncolors i < 8 ∧
    (∀ j, j < 8 → color_dist (png_pal (remap_colors png_pal colormap pal ncolors i)) (pal i)
      ≤ color_dist (png_pal j) (pal i)) ∧
    (∀ j, j < remap_colors png_pal colormap pal ncolors i →
      color_dist (png_pal (remap_colors png_pal colormap pal ncolors i)) (pal i)
        < color_dist (png_pal j) (pal i)) := by
  rw [remap_colors_apply, if_pos hi]
  have hd := (color_dist_bounds (hv 0 (by decide)) hp).2
  obtain ⟨h1, h2, h3, h4⟩ := (remap_colors_fold_inv png_pal (pal i) hd 8).2 (by decide)
  unfold remap_colors_best
  refine ⟨h1, ?_, ?_⟩
  · intro j hj
    rw [← h2]
    exact h3 j hj
  · intro j hj
    rw [← h2]
    exact h4 j hj

theorem remap_colors_nearest_witness :
    remap_colors set_default_pal colormap_init ex_pal 3 1 < 8 ∧
    (∀ j, j < 8 →
      color_dist (set_default_pal (remap_colors set_default_pal colormap_init ex_pal 3 1))
        (ex_pal 1) ≤ color_dist (set_default_pal j) (ex_pal 1)) ∧
    (∀ j, j < remap_colors set_default_pal colormap_init ex_pal 3 1 →
      color_dist (set_default_pal (remap_colors set_default_pal colormap_init ex_pal 3 1))
        (ex_pal 1) < color_dist (set_default_pal j) (ex_pal 1)) :=
  remap_colors_nearest set_default_pal colormap_init ex_pal 3 1 (by decide) (by decide)
    (by decide) (by decide)

theorem remap_colors_best_lt (png_pal : Nat → png_color) (c : png_color) :
    remap_colors_best png_pal c < 8 := by
  unfold remap_colors_best
  have key : ∀ n, ((List.range n).foldl (remap_colors_step png_pal c) (0, INT_MAX)).1 ≤ n - 1 := by
    intro n
    induction n with
    | zero => simp
    | succ n ih =>
      rw [List.range_succ, List.foldl_append]
      simp only [List.foldl_cons, List.foldl_nil]
      generalize (List.range n).foldl (remap_colors_step png_pal c) (0, INT_MAX) = s at ih
      unfold remap_colors_step
      simp only
      split
      · simp
      · simp only [Nat.add_sub_cancel]; omega
  have := key 8
  omega

/-- C6. `colormap[i]` is in `0..7` for every `i` in `0..255` at all times: it
holds for the initial zeroed table and is preserved by every call of
`remap_colors` with a palette of at most 256 entries (also from `parse_pal`);
the entries `i ≥ ncolors` are not written. -/
theorem colormap_range :
    (∀ i, i < 256 → colormap_init i < 8) ∧
    (∀ (png_pal : Nat → png_color) (colormap : Nat → Nat) (pal : Nat → png_color)
        (ncolors : Nat), ncolors ≤ 256 → (∀ i, i < 256 → colormap i < 8) →
      (∀ i, i < 256 → remap_colors png_pal colormap pal ncolors i < 8) ∧
      (∀ i, ncolors ≤ i → remap_colors png_pal colormap pal ncolors i = colormap i)) ∧
    (∀ (png_pal : Nat → png_color) (colormap : Nat → Nat) (e : SGDMrciPalette)
        (colormap2 : Nat → Nat), parse_pal png_pal colormap e = .ok colormap2 →
      (∀ i, i < 256 → colormap i < 8) → ∀ i, i < 256 → colormap2 i < 8) := by
  have hremap : ∀ (png_pal : Nat → png_color) (colormap : Nat → Nat) (pal : Nat → png_color)
      (ncolors : Nat), (∀ i, i < 256 → colormap i < 8) →
      ∀ i, i < 256 → remap_colors png_pal colormap pal ncolors i < 8 := by
    intro png_pal colormap pal ncolors hinv i hi
    rw [remap_colors_apply]
    split
    · exact remap_colors_best_lt png_pal (pal i)
    · exact hinv i hi
  refine ⟨?_, ?_, ?_⟩
  · intro i _
    show (0 : Nat) < 8
    decide
  · intro png_pal colormap pal ncolors _ hinv
    refine ⟨hremap png_pal colormap pal ncolors hinv, ?_⟩
    intro i hi
    rw [remap_colors_apply, if_neg (by omega)]
  · intro png_pal colormap e colormap2 h hinv i hi
    unfold parse_pal at h
    split at h
    · cases h
    · split at h
      · cases h
      · split at h
        · cases h
        · injection h with h
          rw [← h]
          exact hremap _ _ _ _ hinv i hi

theorem colormap_range_witness :
    (∀ i, i < 256 → remap_colors set_default_pal colormap_init ex_pal 3 i < 8) ∧
    (∀ i, 3 ≤ i → remap_colors set_default_pal colormap_init ex_pal 3 i = colormap_init i) ∧
    (∃ cm, parse_pal set_default_pal colormap_init ex_palette = .ok cm ∧
      ∀ i, i < 256 → cm i < 8) :=
  ⟨(colormap_range.2.1 set_default_pal colormap_init ex_pal 3 (by decide) colormap_range.1).1,
    (colormap_range.2.1 set_default_pal colormap_init ex_pal 3 (by decide) colormap_range.1).2,
    _, rfl, colormap_range.2.2 set_default_pal colormap_init ex_palette _ rfl colormap_range.1⟩

/-! ## Theorems: overlay compositor -/

/-- The loop over `k` of `render_tiles`, run for `w` pixels from the state `s`. -/
theorem render_tiles_pixels_fold (colormap : Nat → Nat) (cr_data : Nat → Nat)
    (tile : Nat → Nat) (src w : Nat) (s : RenderState) :
    ((List.range w).foldl (render_tiles_pixel colormap cr_data tile src) s).dst = s.dst + w ∧
    ((List.range w).foldl (render_tiles_pixel colormap cr_data tile src) s).msk = s.msk + w ∧
    ((List.range w).foldl (render_tiles_pixel colormap cr_data tile src) s).stores =
      s.stores ++ List.range' s.dst w ∧
    (∀ p, (p < s.dst ∨ s.dst + w ≤ p) →
      ((List.range w).foldl (render_tiles_pixel colormap cr_data tile src) s).sgd_data p =
        s.sgd_data p) ∧
    (∀ k, k < w →
      ((List.range w).foldl (render_tiles_pixel colormap cr_data tile src) s).sgd_data
          (s.dst + k) =
        if cr_data (s.msk + k) = 255 then colormap (tile (src + k))
        else cr_data (s.msk + k) / 2 ^ 5) := by
  induction w with
  | zero => simp
  | succ w ih =>
    rw [List.range_succ, List.foldl_append]
    simp only [List.foldl_cons, List.foldl_nil]
    obtain ⟨h1, h2, h3, h4, h5⟩ := ih
    generalize (List.range w).foldl (render_tiles_pixel colormap cr_data tile src) s = r
      at h1 h2 h3 h4 h5
    unfold render_tiles_pixel
    simp only
    refine ⟨by omega, by omega, ?_, ?_, ?_⟩
    · rw [h3, h1, List.range'_concat, List.append_assoc]
      simp
    · intro p hp
      rw [h1, Function.update_noteq (by omega)]
      exact h4 p (by omega)
    · intro k hk
      rw [h1, h2]
      by_cases hkw : k = w
      · subst hkw
        rw [Function.update_same]
      · rw [Function.update_noteq (by omega)]
        exact h5 k (by omega)

/-- The loop over `j` of `render_tiles` in row `i`, after `j` tiles. -/
theorem render_tiles_tiles_fold (g : Raster) (colormap : Nat → Nat) (tiles : Nat → Nat → Nat)
    (cr_data : Nat → Nat) (cr_stride i : Nat) (s : RenderState)
    (hd : s.dst = i * g.sgd_width) (hm : s.msk = i * cr_stride) (j : Nat) :
    ((List.range j).foldl (render_tiles_tile g colormap tiles cr_data (i / TILE_HEIGHT)
        (i % TILE_HEIGHT)) s).dst = i * g.sgd_width + min (j * 128) g.sgd_width ∧
    ((List.range j).foldl (render_tiles_tile g colormap tiles cr_data (i / TILE_HEIGHT)
        (i % TILE_HEIGHT)) s).msk = i * cr_stride + min (j * 128) g.sgd_width ∧
    ((List.range j).foldl (render_tiles_tile g colormap tiles cr_data (i / TILE_HEIGHT)
        (i % TILE_HEIGHT)) s).stores =
      s.stores ++ List.range' (i * g.sgd_width) (min (j * 128) g.sgd_width) ∧
    (∀ p, (p < i * g.sgd_width ∨ i * g.sgd_width + min (j * 128) g.sgd_width ≤ p) →
      ((List.range j).foldl (render_tiles_tile g colormap tiles cr_data (i / TILE_HEIGHT)
        (i % TILE_HEIGHT)) s).sgd_data p = s.sgd_data p) ∧
    (∀ x, x < min (j * 128) g.sgd_width →
      ((List.range j).foldl (render_tiles_tile g colormap tiles cr_data (i / TILE_HEIGHT)
        (i % TILE_HEIGHT)) s).sgd_data (i * g.sgd_width + x) =
        render_tiles_value g colormap tiles cr_data cr_stride x i) := by
  induction j with
  | zero => simp [hd, hm]
  | succ j ih =>
    rw [List.range_succ, List.foldl_append]
    simp only [List.foldl_cons, List.foldl_nil]
    obtain ⟨h1, h2, h3, h4, h5⟩ := ih
    generalize (List.range j).foldl (render_tiles_tile g colormap tiles cr_data
      (i / TILE_HEIGHT) (i % TILE_HEIGHT)) s = r at h1 h2 h3 h4 h5
    unfold render_tiles_tile
    simp only
    obtain ⟨k1, k2, k3, k4, k5⟩ := render_tiles_pixels_fold colormap cr_data
      (tiles (i / TILE_HEIGHT * g.h_tiles + j))
      (i % TILE_HEIGHT * min TILE_WIDTH (g.sgd_width - j * TILE_WIDTH))
      (min TILE_WIDTH (g.sgd_width - j * TILE_WIDTH)) r
    have hX : min ((j + 1) * 128) g.sgd_width =
        min (j * 128) g.sgd_width + min TILE_WIDTH (g.sgd_width - j * TILE_WIDTH) := by
      show _ = min (j * 128) g.sgd_width + min 128 (g.sgd_width - j * 128)
      omega
    refine ⟨?_, ?_, ?_, ?_, ?_⟩
    · rw [k1, h1, hX]; omega
    · rw [k2, h2, hX]; omega
    · rw [k3, h3, h1, hX, List.append_assoc, List.range'_append_1, Nat.add_comm]
    · intro p hp
      rw [k4 p (by rw [h1]; omega)]
      exact h4 p (by omega)
    · intro x hx
      by_cases hxX : x < min (j * 128) g.sgd_width
      · rw [k4 _ (by rw [h1]; omega)]
        exact h5 x hxX
      · have hk : x - min (j * 128) g.sgd_width <
            min TILE_WIDTH (g.sgd_width - j * TILE_WIDTH) := by omega
        have h6 := k5 _ hk
        rw [h1, h2] at h6
        have e1 : i * g.sgd_width + min (j * 128) g.sgd_width +
            (x - min (j * 128) g.sgd_width) = i * g.sgd_width + x := by omega
        have e2 : i * cr_stride + min (j * 128) g.sgd_width +
            (x - min (j * 128) g.sgd_width) = i * cr_stride + x := by omega
        rw [e1, e2] at h6
        rw [h6]
        unfold render_tiles_value
        have hw : min TILE_WIDTH (g.sgd_width - j * TILE_WIDTH) ≤ 128 := Nat.min_le_left _ _
        have hjW : j * 128 < g.sgd_width := by
          have : 0 < min TILE_WIDTH (g.sgd_width - j * TILE_WIDTH) := by omega
          have h7 : min TILE_WIDTH (g.sgd_width - j * TILE_WIDTH) ≤ g.sgd_width - j * 128 :=
            Nat.min_le_right _ _
          omega
        have hXj : min (j * 128) g.sgd_width = j * 128 := by omega
        rw [hXj] at hk hxX
        have hxj : x / 128 = j := by omega
        have hxk : x % 128 = x - j * 128 := by omega
        rw [hxj, hxk, hXj]

/-- The loop over `i` of `render_tiles`, after `n` rows. -/
theorem render_tiles_rows_fold (g : Raster) (colormap : Nat → Nat) (tiles : Nat → Nat → Nat)
    (cr_data : Nat → Nat) (cr_stride : Nat) (s : RenderState)
    (hw : g.sgd_width ≤ g.h_tiles * 128) (n : Nat) :
    ((List.range n).foldl (render_tiles_row g colormap tiles cr_data cr_stride) s).stores =
      s.stores ++ List.range' 0 (n * g.sgd_width) ∧
    (∀ p, n * g.sgd_width ≤ p →
      ((List.range n).foldl (render_tiles_row g colormap tiles cr_data cr_stride) s).sgd_data p =
        s.sgd_data p) ∧
    (∀ x y, x < g.sgd_width → y < n →
      ((List.range n).foldl (render_tiles_row g colormap tiles cr_data cr_stride) s).sgd_data
          (y * g.sgd_width + x) =
        render_tiles_value g colormap tiles cr_data cr_stride x y) := by
  induction n with
  | zero => simp
  | succ n ih =>
    rw [List.range_succ, List.foldl_append]
    simp only [List.foldl_cons, List.foldl_nil]
    obtain ⟨h1, h2, h3⟩ := ih
    generalize (List.range n).foldl (render_tiles_row g colormap tiles cr_data cr_stride) s = r
      at h1 h2 h3
    unfold render_tiles_row
    simp only
    obtain ⟨_, _, k3, k4, k5⟩ := render_tiles_tiles_fold g colormap tiles cr_data cr_stride n
      { r with dst := n * g.sgd_width, msk := n * cr_stride } rfl rfl g.h_tiles
    have hX : min (g.h_tiles * 128) g.sgd_width = g.sgd_width := by omega
    rw [hX] at k3 k4 k5
    have hsucc : (n + 1) * g.sgd_width = n * g.sgd_width + g.sgd_width := by ring
    refine ⟨?_, ?_, ?_⟩
    · rw [k3, hsucc]
      show r.stores ++ _ = _
      rw [h1, List.append_assoc]
      congr 1
      have := List.range'_append_1 0 (n * g.sgd_width) g.sgd_width
      simp only [Nat.zero_add] at this
      rw [this, Nat.add_comm]
    · intro p hp
      rw [k4 p (by omega)]
      exact h2 p (by omega)
    · intro x y hx hy
      by_cases hyn : y = n
      · subst hyn
        exact k5 x hx
      · have hlt : y < n := by omega
        have hle : (y + 1) * g.sgd_width ≤ n * g.sgd_width :=
          Nat.mul_le_mul_right _ (by omega)
        have hy1 : (y + 1) * g.sgd_width = y * g.sgd_width + g.sgd_width := by ring
        rw [k4 _ (by omega)]
        exact h3 x y hx hlt

/-- C7. `render_tiles` stores to every offset `0 .. W*H - 1` exactly once (in
increasing order) and leaves at `out[y*W + x]` the value
`colormap[tiles[(y/128)*h_tiles + x/128][(y%128)*w + x%128]]` if
`mask[y][x] == 255` and `mask[y][x] >> 5` otherwise, where
`w = min(128, W - (x/128)*128)`; `h_tiles` is as set by `parse_mrci`. -/
theorem render_tiles_pixels (g : Raster) (colormap : Nat → Nat) (tiles : Nat → Nat → Nat)
    (cr_data : Nat → Nat) (cr_stride : Nat) (sgd_data : Nat → Nat)
    (hw : g.h_tiles = (g.sgd_width + TILE_WIDTH - 1) / TILE_WIDTH) :
    (render_tiles g colormap tiles cr_data cr_stride sgd_data).stores =
      List.range (g.sgd_width * g.sgd_height) ∧
    ∀ x y, x < g.sgd_width → y < g.sgd_height →
      (render_tiles g colormap tiles cr_data cr_stride sgd_data).sgd_data (y * g.sgd_width + x) =
        if cr_data (y * cr_stride + x) = 255 then
          colormap (tiles ((y / 128) * g.h_tiles + x / 128)
            ((y % 128) * min 128 (g.sgd_width - (x / 128) * 128) + x % 128))
        else cr_data (y * cr_stride + x) / 2 ^ 5 := by
  have hw2 : g.sgd_width ≤ g.h_tiles * 128 := by
    rw [hw]
    show g.sgd_width ≤ (g.sgd_width + 128 - 1) / 128 * 128
    omega
  obtain ⟨h1, _, h3⟩ := render_tiles_rows_fold g colormap tiles cr_data cr_stride
    { sgd_data := sgd_data, dst := 0, msk := 0, stores := [] } hw2 g.sgd_height
  unfold render_tiles
  refine ⟨?_, ?_⟩
  · rw [h1, List.range_eq_range', Nat.mul_comm]
    simp
  · intro x y hx hy
    exact h3 x y hx hy

theorem render_tiles_pixels_witness :
    (render_tiles ex_raster ex_colormap ex_tiles ex_mask 132 (fun _ => 0)).stores =
      List.range (ex_raster.sgd_width * ex_raster.sgd_height) ∧
    ∀ x y, x < ex_raster.sgd_width → y < ex_raster.sgd_height →
      (render_tiles ex_raster ex_colormap ex_tiles ex_mask 132 (fun _ => 0)).sgd_data
          (y * ex_raster.sgd_width + x) =
        if ex_mask (y * 132 + x) = 255 then
          ex_colormap (ex_tiles ((y / 128) * ex_raster.h_tiles + x / 128)
            ((y % 128) * min 128 (ex_raster.sgd_width - (x / 128) * 128) + x % 128))
        else ex_mask (y * 132 + x) / 2 ^ 5 :=
  render_tiles_pixels ex_raster ex_colormap ex_tiles ex_mask 132 (fun _ => 0) (by decide)

/-- The loop over `j` of `apply_mask` in row `i`, after `n` pixels. -/
theorem apply_mask_pixels_fold (cr_data : Nat → Nat) (a b : Nat) (s : MaskState)
    (hd : s.dst = a) (hm : s.msk = b) (n : Nat) :
    ((List.range n).foldl (apply_mask_pixel cr_data) s).dst = a + n ∧
    ((List.range n).foldl (apply_mask_pixel cr_data) s).msk = b + n ∧
    (∀ p, (p < a ∨ a + n ≤ p) →
      ((List.range n).foldl (apply_mask_pixel cr_data) s).sgd_data p = s.sgd_data p) ∧
    (∀ x, x < n →
      ((List.range n).foldl (apply_mask_pixel cr_data) s).sgd_data (a + x) =
        if cr_data (b + x) ≠ 0 ∧ (s.sgd_data (a + x) ≠ PAL_WHITE ∨ cr_data (b + x) = 255) then
          s.sgd_data (a + x) ||| 8
        else s.sgd_data (a + x)) := by
  induction n with
  | zero => simp [hd, hm]
  | succ n ih =>
    rw [List.range_succ, List.foldl_append]
    simp only [List.foldl_cons, List.foldl_nil]
    obtain ⟨h1, h2, h3, h4⟩ := ih
    generalize (List.range n).foldl (apply_mask_pixel cr_data) s = r at h1 h2 h3 h4
    have hr : r.sgd_data (a + n) = s.sgd_data (a + n) := h3 _ (by omega)
    unfold apply_mask_pixel
    simp only [h1, h2, hr]
    by_cases hc : cr_data (b + n) ≠ 0 ∧ (s.sgd_data (a + n) ≠ PAL_WHITE ∨ cr_data (b + n) = 255)
    · rw [if_pos hc]
      refine ⟨rfl, rfl, ?_, ?_⟩
      · intro p hp
        show Function.update r.sgd_data (a + n) _ p = _
        rw [Function.update_noteq (by omega)]
        exact h3 p (by omega)
      · intro x hx
        show Function.update r.sgd_data (a + n) _ (a + x) = _
        by_cases hxn : x = n
        · subst hxn
          rw [Function.update_same, if_pos hc]
        · rw [Function.update_noteq (by omega)]
          exact h4 x (by omega)
    · rw [if_neg hc]
      refine ⟨by omega, by omega, ?_, ?_⟩
      · intro p hp
        exact h3 p (by omega)
      · intro x hx
        by_cases hxn : x = n
        · subst hxn
          rw [if_neg hc]
          exact hr
        · exact h4 x (by omega)

/-- The loop over `i` of `apply_mask`, after `n` rows. -/
theorem apply_mask_rows_fold (g : Raster) (cr_data : Nat → Nat) (cr_stride : Nat)
    (s : MaskState) (n : Nat) :
    (∀ p, n * g.sgd_width ≤ p →
      ((List.range n).foldl (apply_mask_row g cr_data cr_stride) s).sgd_data p = s.sgd_data p) ∧
    (∀ x y, x < g.sgd_width → y < n →
      ((List.range n).foldl (apply_mask_row g cr_data cr_stride) s).sgd_data
          (y * g.sgd_width + x) =
        if cr_data (y * cr_stride + x) ≠ 0 ∧
            (s.sgd_data (y * g.sgd_width + x) ≠ PAL_WHITE ∨ cr_data (y * cr_stride + x) = 255) then
          s.sgd_data (y * g.sgd_width + x) ||| 8
        else s.sgd_data (y * g.sgd_width + x)) := by
  induction n with
  | zero => simp
  | succ n ih =>
    rw [List.range_succ, List.foldl_append]
    simp only [List.foldl_cons, List.foldl_nil]
    obtain ⟨h2, h3⟩ := ih
    generalize (List.range n).foldl (apply_mask_row g cr_data cr_stride) s = r at h2 h3
    unfold apply_mask_row
    simp only
    obtain ⟨_, _, k3, k4⟩ := apply_mask_pixels_fold cr_data (n * g.sgd_width) (n * cr_stride)
      { r with dst := n * g.sgd_width, msk := n * cr_stride } rfl rfl g.sgd_width
    have hsucc : (n + 1) * g.sgd_width = n * g.sgd_width + g.sgd_width := by ring
    refine ⟨?_, ?_⟩
    · intro p hp
      rw [k3 p (by omega)]
      exact h2 p (by omega)
    · intro x y hx hy
      by_cases hyn : y = n
      · subst hyn
        rw [k4 x hx]
        show (if cr_data (y * cr_stride + x) ≠ 0 ∧
            (r.sgd_data (y * g.sgd_width + x) ≠ PAL_WHITE ∨ cr_data (y * cr_stride + x) = 255) then
          r.sgd_data (y * g.sgd_width + x) ||| 8 else r.sgd_data (y * g.sgd_width + x)) = _
        rw [h2 _ (by omega)]
      · have hlt : y < n := by omega
        have hle : (y + 1) * g.sgd_width ≤ n * g.sgd_width :=
          Nat.mul_le_mul_right _ (by omega)
        have hy1 : (y + 1) * g.sgd_width = y * g.sgd_width + g.sgd_width := by ring
        rw [k3 _ (by omega)]
        exact h3 x y hx hlt

/-- C8. `apply_mask` maps each pixel `p` with mask byte `m` to `p | 8` when
`m != 0` and (`p != 7` or `m == 255`), and leaves `p` unchanged otherwise; so a
white pixel stays white under a mask value other than 255, and a pixel with
mask 0 is not changed. -/
theorem apply_mask_pixels (g : Raster) (cr_data : Nat → Nat) (cr_stride : Nat)
    (sgd_data : Nat → Nat) (x y : Nat) (hx : x < g.sgd_width) (hy : y < g.sgd_height) :
    (apply_mask g cr_data cr_stride sgd_data (y * g.sgd_width + x) =
      if cr_data (y * cr_stride + x) ≠ 0 ∧
          (sgd_data (y * g.sgd_width + x) ≠ PAL_WHITE ∨ cr_data (y * cr_stride + x) = 255) then
        sgd_data (y * g.sgd_width + x) ||| 8
      else sgd_data (y * g.sgd_width + x)) ∧
    (sgd_data (y * g.sgd_width + x) = PAL_WHITE → cr_data (y * cr_stride + x) ≠ 255 →
      apply_mask g cr_data cr_stride sgd_data (y * g.sgd_width + x) = PAL_WHITE) ∧
    (cr_data (y * cr_stride + x) = 0 →
      apply_mask g cr_data cr_stride sgd_data (y * g.sgd_width + x) =
        sgd_data (y * g.sgd_width + x)) := by
  have h := (apply_mask_rows_fold g cr_data cr_stride
    { sgd_data := sgd_data, dst := 0, msk := 0 } g.sgd_height).2 x y hx hy
  have h0 : apply_mask g cr_data cr_stride sgd_data (y * g.sgd_width + x) =
      if cr_data (y * cr_stride + x) ≠ 0 ∧
          (sgd_data (y * g.sgd_width + x) ≠ PAL_WHITE ∨ cr_data (y * cr_stride + x) = 255) then
        sgd_data (y * g.sgd_width + x) ||| 8
      else sgd_data (y * g.sgd_width + x) := h
  refine ⟨h0, ?_, ?_⟩
  · intro hp hm
    rw [h0, if_neg (by simp [hp, hm])]
    exact hp
  · intro hm
    rw [h0, if_neg (by simp [hm])]

theorem apply_mask_pixels_witness :
    (apply_mask ex_raster ex_mask 132 (fun _ => 7) (0 * ex_raster.sgd_width + 3) =
      if ex_mask (0 * 132 + 3) ≠ 0 ∧
          ((fun _ => 7) (0 * ex_raster.sgd_width + 3) ≠ PAL_WHITE ∨ ex_mask (0 * 132 + 3) = 255) then
        (fun _ => 7) (0 * ex_raster.sgd_width + 3) ||| 8
      else (fun _ => 7) (0 * ex_raster.sgd_width + 3)) ∧
    ((fun _ => 7) (0 * ex_raster.sgd_width + 3) = PAL_WHITE → ex_mask (0 * 132 + 3) ≠ 255 →
      apply_mask ex_raster ex_mask 132 (fun _ => 7) (0 * ex_raster.sgd_width + 3) = PAL_WHITE) ∧
    (ex_mask (0 * 132 + 3) = 0 →
      apply_mask ex_raster ex_mask 132 (fun _ => 7) (0 * ex_raster.sgd_width + 3) =
        (fun _ => 7) (0 * ex_raster.sgd_width + 3)) :=
  apply_mask_pixels ex_raster ex_mask 132 (fun _ => 7) 3 0 (by decide) (by decide)

/-! ## Theorems: set selection and names -/

theorem set_has_entry_iff (st : State) (e index : Nat) :
    set_has_entry st e index = true ↔
      ∃ k, k < (st.entry e).set.num_entries ∧ (st.entry e).set.entries.getD k 0 = index := by
  unfold set_has_entry
  simp only [List.any_eq_true, List.mem_range, beq_iff_eq]

/-- C9. `set_is_subset(A)` is true if and only if the directory lists another
SET `B` (another entry: a different offset) with strictly more child entries
than `A` such that every child index listed in `A` occurs among the child
indices of `B`. -/
theorem set_is_subset_iff (st : State) (a : Nat) :
    set_is_subset st a = true ↔
      ∃ i, i < st.dir.num_entries ∧ st.dir_addr i ≠ a ∧
        (st.entry (st.dir_addr i)).hdr.type = SGD_SET ∧
        (st.entry a).set.num_entries < (st.entry (st.dir_addr i)).set.num_entries ∧
        ∀ j, j < (st.entry a).set.num_entries →
          ∃ k, k < (st.entry (st.dir_addr i)).set.num_entries ∧
            (st.entry (st.dir_addr i)).set.entries.getD k 0 =
              (st.entry a).set.entries.getD j 0 := by
  unfold set_is_subset
  simp only [List.any_eq_true, List.mem_range]
  constructor
  · rintro ⟨i, hi, h⟩
    split at h
    · cases h
    · next hc =>
      simp only [not_or, not_not, Nat.not_le] at hc
      obtain ⟨h1, h2, h3⟩ := hc
      refine ⟨i, hi, h1, h2, h3, ?_⟩
      intro j hj
      rw [List.all_eq_true] at h
      exact (set_has_entry_iff st _ _).mp (h j (List.mem_range.mpr hj))
  · rintro ⟨i, hi, h1, h2, h3, h4⟩
    refine ⟨i, hi, ?_⟩
    rw [if_neg (by simp only [not_or, not_not, Nat.not_le]; exact ⟨h1, h2, h3⟩)]
    rw [List.all_eq_true]
    intro j hj
    exact (set_has_entry_iff st _ _).mpr (h4 j (List.mem_range.mp hj))

/-- In the example directory the SET at 48 (child 3) is a subset of the SET at
0 (children 2 and 3), and not the other way round. -/
theorem set_is_subset_example :
    set_is_subset ex_state 48 = true ∧ set_is_subset ex_state 0 = false := by
  decide

theorem clearstr_loop_ne_zero : ∀ (inp : List Nat) (size : Nat) (out : List Nat),
    (∀ x ∈ out, x ≠ 0) → ∀ x ∈ clearstr_loop inp size out, x ≠ 0 := by
  intro inp
  induction inp with
  | nil => intro size out h x hx; exact h x hx
  | cons c rest ih =>
    intro size out h x hx
    unfold clearstr_loop at hx
    split at hx
    · exact h x hx
    · split at hx
      · exact ih size out h x hx
      · next h1 h2 =>
        simp only at hx
        split at hx
        · exact h x hx
        · refine ih _ _ ?_ x hx
          intro y hy
          rcases List.mem_append.mp hy with hy | hy
          · exact h y hy
          · rw [List.mem_singleton] at hy
            subst hy
            split
            · omega
            · split <;> omega

theorem clearstr_head_ne_zero (size : Nat) (inp : List Nat) :
    (clearstr size inp).headD 0 ≠ 0 ↔ clearstr size inp ≠ [] := by
  have h := clearstr_loop_ne_zero inp size [] (by simp)
  unfold clearstr
  cases hc : clearstr_loop inp size [] with
  | nil => simp
  | cons y ys =>
    rw [hc] at h
    simp only [List.headD_cons, ne_eq, reduceCtorEq, not_false_eq_true, iff_true]
    exact h y (List.mem_cons_self _ _)

/-- The loop of `get_set_name_buf` over the child slots `s, s+1, .., s+n-1`. -/
theorem get_set_name_loop_spec (st : State) (a : Nat) : ∀ (n s : Nat),
    (∀ j, s ≤ j → j < s + n → ∃ e, find_entry st ((st.entry a).set.entries.getD j 0) = .ok e) →
    (∃ j e, s ≤ j ∧ j < s + n ∧
      find_entry st ((st.entry a).set.entries.getD j 0) = .ok e ∧ gives_name st e ∧
      (∀ k f, s ≤ k → k < j → find_entry st ((st.entry a).set.entries.getD k 0) = .ok f →
        ¬ gives_name st f) ∧
      get_set_name_loop st 16 a (List.range' s n) =
        .ok (some (clearstr 16 (st.entry e).textline.text))) ∨
    ((∀ k f, s ≤ k → k < s + n → find_entry st ((st.entry a).set.entries.getD k 0) = .ok f →
        ¬ gives_name st f) ∧
      get_set_name_loop st 16 a (List.range' s n) = .ok none) := by
  intro n
  induction n with
  | zero =>
    intro s _
    right
    refine ⟨fun k f h1 h2 => absurd h2 (by omega), ?_⟩
    simp [get_set_name_loop]
  | succ n ih =>
    intro s hres
    obtain ⟨e, he⟩ := hres s (Nat.le_refl _) (by omega)
    have hrest := ih (s + 1) (fun j h1 h2 => hres j (by omega) (by omega))
    rw [List.range'_succ]
    simp only [get_set_name_loop, he]
    by_cases hg : gives_name st e
    · left
      refine ⟨s, e, Nat.le_refl _, by omega, he, hg, fun k f h1 h2 => absurd h2 (by omega), ?_⟩
      obtain ⟨h1, h2, h3⟩ := hg
      rw [if_pos ⟨h1, h2⟩, if_pos ((clearstr_head_ne_zero _ _).mpr h3)]
    · have hstep : (if (st.entry e).hdr.type = SGD_TEXTLINE2D ∧
            strchr (st.entry e).textline.text 45 = false then
          if (clearstr 16 (st.entry e).textline.text).headD 0 ≠ 0 then
            Except.ok (some (clearstr 16 (st.entry e).textline.text))
          else get_set_name_loop st 16 a (List.range' (s + 1) n)
          else get_set_name_loop st 16 a (List.range' (s + 1) n)) =
          get_set_name_loop st 16 a (List.range' (s + 1) n) := by
        by_cases hc : (st.entry e).hdr.type = SGD_TEXTLINE2D ∧
            strchr (st.entry e).textline.text 45 = false
        · rw [if_pos hc, if_neg]
          intro hh
          exact hg ⟨hc.1, hc.2, (clearstr_head_ne_zero _ _).mp hh⟩
        · rw [if_neg hc]
      rw [hstep]
      have hfirst : ∀ k f, s ≤ k → k < s + 1 →
          find_entry st ((st.entry a).set.entries.getD k 0) = .ok f → ¬ gives_name st f := by
        intro k f h1 h2 hf
        have : k = s := by omega
        subst this
        rw [he] at hf
        injection hf with hf
        subst hf
        exact hg
      rcases hrest with ⟨j, e2, h1, h2, h3, h4, h5, h6⟩ | ⟨h1, h2⟩
      · left
        refine ⟨j, e2, by omega, by omega, h3, h4, ?_, h6⟩
        intro k f hk1 hk2 hf
        by_cases hks : k < s + 1
        · exact hfirst k f hk1 hks hf
        · exact h5 k f (by omega) hk2 hf
      · right
        refine ⟨?_, h2⟩
        intro k f hk1 hk2 hf
        by_cases hks : k < s + 1
        · exact hfirst k f hk1 hks hf
        · exact h1 k f (by omega) (by omega) hf

/-- C10 (as stated) fails: the first TEXT_LINE child without `-` of the SET
has an empty normalisation, and the SET still has a name, taken from a later
child. -/
theorem get_set_name_skips_empty_text :
    ∃ st, validate_directory paren_image = .ok st ∧
      ∃ e, find_entry st ((st.entry 0).set.entries.getD 0 0) = .ok e ∧
        (st.entry e).hdr.type = SGD_TEXTLINE2D ∧
        strchr (st.entry e).textline.text 45 = false ∧
        clearstr 16 (st.entry e).textline.text = [] ∧
        get_set_name st 0 = .ok (some [65, 66]) :=
  ⟨_, rfl, 48, rfl, rfl, rfl, rfl, rfl⟩

/-- C10 (amended). For a SET whose child indices all resolve, the name
returned by `get_set_name` is the normalisation (`clearstr`) of the first
direct TEXT_LINE child whose text contains no `-` and whose normalisation is
not empty (children with an empty normalisation are passed over); if there is
no such child, `get_set_name` returns NULL. -/
theorem get_set_name_first_named (st : State) (a : Nat)
    (hres : ∀ j, j < (st.entry a).set.num_entries →
      ∃ e, find_entry st ((st.entry a).set.entries.getD j 0) = .ok e) :
    (∃ j e, j < (st.entry a).set.num_entries ∧
      find_entry st ((st.entry a).set.entries.getD j 0) = .ok e ∧ gives_name st e ∧
      (∀ k f, k < j → find_entry st ((st.entry a).set.entries.getD k 0) = .ok f →
        ¬ gives_name st f) ∧
      get_set_name st a = .ok (some (clearstr 16 (st.entry e).textline.text))) ∨
    ((∀ k f, k < (st.entry a).set.num_entries →
        find_entry st ((st.entry a).set.entries.getD k 0) = .ok f → ¬ gives_name st f) ∧
      get_set_name st a = .ok none) := by
  unfold get_set_name get_set_name_buf
  rw [List.range_eq_range']
  rcases get_set_name_loop_spec st a (st.entry a).set.num_entries 0
      (fun j _ h2 => hres j (by omega)) with ⟨j, e, _, h2, h3, h4, h5, h6⟩ | ⟨h1, h2⟩
  · left
    exact ⟨j, e, by omega, h3, h4, fun k f hk hf => h5 k f (Nat.zero_le _) hk hf, h6⟩
  · right
    exact ⟨fun k f hk hf => h1 k f (Nat.zero_le _) (by omega) hf, h2⟩

theorem get_set_name_first_named_witness :
    (∃ j e, j < (paren_state.entry 0).set.num_entries ∧
      find_entry paren_state ((paren_state.entry 0).set.entries.getD j 0) = .ok e ∧
      gives_name paren_state e ∧
      (∀ k f, k < j → find_entry paren_state ((paren_state.entry 0).set.entries.getD k 0) = .ok f →
        ¬ gives_name paren_state f) ∧
      get_set_name paren_state 0 =
        .ok (some (clearstr 16 (paren_state.entry e).textline.text))) ∨
    ((∀ k f, k < (paren_state.entry 0).set.num_entries →
        find_entry paren_state ((paren_state.entry 0).set.entries.getD k 0) = .ok f →
        ¬ gives_name paren_state f) ∧
      get_set_name paren_state 0 = .ok none) :=
  get_set_name_first_named paren_state 0 (by
    intro j hj
    have hj2 : j < 2 := hj
    interval_cases j
    · exact ⟨48, rfl⟩
    · exact ⟨128, rfl⟩)

/-! ## Theorems: termination and failures of the validator -/

theorem mem_unmarked (st : State) (a : Nat) :
    a ∈ unmarked st ↔ is_set_entry st a ∧ (st.entry a).set.num_entries ≠ U32_MINUS_ONE := by
  unfold unmarked is_set_entry
  simp only [Finset.mem_filter, List.mem_toFinset, List.mem_map, List.mem_range]
  constructor
  · rintro ⟨⟨i, hi, hia⟩, ht, hn⟩
    exact ⟨⟨i, hi, hia, ht⟩, hn⟩
  · rintro ⟨⟨i, hi, hia, ht⟩, hn⟩
    exact ⟨⟨i, hi, hia⟩, ht, hn⟩

theorem unmarked_card_le (st : State) : (unmarked st).card ≤ st.dir.num_entries := by
  unfold unmarked
  refine (Finset.card_filter_le _ _).trans ?_
  refine (List.toFinset_card_le _).trans ?_
  simp

theorem unmarked_store (st : State) (a : Nat) :
    unmarked (st.store_set_num_entries a U32_MINUS_ONE) = (unmarked st).erase a := by
  ext x
  rw [Finset.mem_erase, mem_unmarked, mem_unmarked, is_set_entry_store]
  by_cases h : x = a
  · subst h
    rw [store_num_same]
    simp
  · rw [store_num_other _ _ _ _ h]
    simp [h]

theorem unmarked_store_card {st : State} {a fuel : Nat} (hs : is_set_entry st a)
    (hn : (st.entry a).set.num_entries ≠ U32_MINUS_ONE) (hf : (unmarked st).card < fuel + 1) :
    (unmarked (st.store_set_num_entries a U32_MINUS_ONE)).card < fuel := by
  have hm : a ∈ unmarked st := (mem_unmarked st a).mpr ⟨hs, hn⟩
  rw [unmarked_store, Finset.card_erase_of_mem hm]
  have : 0 < (unmarked st).card := Finset.card_pos.mpr ⟨a, hm⟩
  omega

theorem children_resolve_store {st : State} (a : Nat) (h : children_resolve st) :
    children_resolve (st.store_set_num_entries a U32_MINUS_ONE) := by
  intro x hx j hj
  rw [is_set_entry_store] at hx
  by_cases hxa : x = a
  · subst hxa
    rw [store_num_same, int_of_u32_minus_one] at hj
    exact absurd hj (Nat.not_lt_zero _)
  · rw [store_num_other _ _ _ _ hxa] at hj
    rw [find_entry_store, store_entries]
    exact h x hx j hj

theorem validate_set_loop_fails (bound : Nat) (self : State → Nat → Except Err State)
    (hspec : SelfSpec self) (hfail : SelfFails bound self) (set : Nat) :
    ∀ (l : List Nat) (st : State) (err : Err), counts_u32 st → (unmarked st).card < bound →
      validate_set_loop self set l st = .error err →
      err ≠ .out_of_fuel ∧
      (children_resolve st →
        (∀ i ∈ l, ∃ e, find_entry st ((st.entry set).set.entries.getD i 0) = .ok e) →
        err = .cycle_encountered) := by
  intro l
  induction l with
  | nil =>
    intro st err _ _ h
    simp only [validate_set_loop] at h
    cases h
  | cons i rest ih =>
    intro st err hc hcard h
    simp only [validate_set_loop] at h
    cases hf : find_entry st ((st.entry set).set.entries.getD i 0) with
    | error e0 =>
      rw [hf] at h
      simp only at h
      injection h with h
      subst h
      refine ⟨?_, ?_⟩
      · unfold find_entry at hf
        split at hf
        · cases hf
        · injection hf with hf
          rw [← hf]
          simp
      · intro _ hres
        obtain ⟨e, he⟩ := hres i (List.mem_cons_self _ _)
        rw [hf] at he
        cases he
    | ok e =>
      rw [hf] at h
      simp only at h
      by_cases ht : (st.entry e).hdr.type = SGD_SET
      · rw [if_pos ht] at h
        obtain ⟨i0, hi0, hi1⟩ := find_entry_ok hf
        have hse : is_set_entry st e := ⟨i0, hi0, hi1, ht⟩
        cases hs : self st e with
        | error e1 =>
          rw [hs] at h
          simp only at h
          injection h with h
          subst h
          obtain ⟨h1, h2⟩ := hfail st e e1 hc hse hcard hs
          exact ⟨h1, fun hr _ => h2 hr⟩
        | ok st3 =>
          rw [hs] at h
          simp only at h
          obtain ⟨h3, _⟩ := hspec st e st3 hc hse hs
          subst h3
          obtain ⟨h1, h2⟩ := ih st3 err hc hcard h
          exact ⟨h1, fun hr hres => h2 hr (fun k hk => hres k (List.mem_cons_of_mem _ hk))⟩
      · rw [if_neg ht] at h
        obtain ⟨h1, h2⟩ := ih st err hc hcard h
        exact ⟨h1, fun hr hres => h2 hr (fun k hk => hres k (List.mem_cons_of_mem _ hk))⟩

/-- A failure of `validate_set_r` run with more fuel than there are unmarked
SETs is a failure of the program, and it is the cycle error when all child
indices resolve. -/
theorem validate_set_r_fails (fuel : Nat) : SelfFails fuel (validate_set_r fuel) := by
  induction fuel with
  | zero =>
    intro st e err _ _ hcard _
    exact absurd hcard (Nat.not_lt_zero _)
  | succ fuel ih =>
    intro st a err hc hs hcard h
    simp only [validate_set_r] at h
    by_cases hn : (st.entry a).set.num_entries = U32_MINUS_ONE
    · rw [if_pos hn] at h
      injection h with h
      subst h
      exact ⟨by simp, fun _ => rfl⟩
    · rw [if_neg hn] at h
      cases hl : validate_set_loop (validate_set_r fuel) a
          (List.range (int_of_u32 (st.entry a).set.num_entries).toNat)
          (st.store_set_num_entries a U32_MINUS_ONE) with
      | ok st3 => rw [hl] at h; cases h
      | error e1 =>
        rw [hl] at h
        simp only at h
        injection h with h
        subst h
        obtain ⟨h1, h2⟩ := validate_set_loop_fails fuel _ (validate_set_r_spec fuel) ih a _ _ _
          (counts_u32_store a hc) (unmarked_store_card hs hn hcard) hl
        refine ⟨h1, fun hr => h2 (children_resolve_store a hr) ?_⟩
        intro i hi
        rw [find_entry_store, store_entries]
        exact hr a hs i (List.mem_range.mp hi)

theorem validate_sets_fails (fuel : Nat) : ∀ (l : List Nat) (st : State) (err : Err),
    counts_u32 st → (unmarked st).card < fuel → (∀ i ∈ l, i < st.dir.num_entries) →
    validate_sets fuel l st = .error err →
    err ≠ .out_of_fuel ∧ (children_resolve st → err = .cycle_encountered) := by
  intro l
  induction l with
  | nil =>
    intro st err _ _ _ h
    simp only [validate_sets] at h
    cases h
  | cons i rest ih =>
    intro st err hc hcard hl h
    simp only [validate_sets] at h
    have hrest : ∀ k ∈ rest, k < st.dir.num_entries := fun k hk => hl k (List.mem_cons_of_mem _ hk)
    by_cases ht : (st.entry (st.dir_addr i)).hdr.type = SGD_SET
    · rw [if_pos ht] at h
      have hs : is_set_entry st (st.dir_addr i) := ⟨i, hl i (List.mem_cons_self _ _), rfl, ht⟩
      cases hv : validate_set_r fuel st (st.dir_addr i) with
      | error e1 =>
        rw [hv] at h
        simp only at h
        injection h with h
        subst h
        exact validate_set_r_fails fuel st _ e1 hc hs hcard hv
      | ok st3 =>
        rw [hv] at h
        simp only at h
        obtain ⟨h3, _⟩ := validate_set_r_spec fuel st _ st3 hc hs hv
        subst h3
        exact ih st3 err hc hcard hrest h
    · rw [if_neg ht] at h
      exact ih st err hc hcard hrest h

theorem find_directory_loop_error (img : Image) : ∀ (l : List Nat) (err : Err),
    find_directory_loop img l = .error err → err ≠ .out_of_fuel := by
  intro l
  induction l with
  | nil =>
    intro err h
    simp only [find_directory_loop] at h
    injection h with h
    rw [← h]
    simp
  | cons i rest ih =>
    intro err h
    simp only [find_directory_loop] at h
    split at h
    · split at h
      · injection h with h; rw [← h]; simp
      · split at h
        · injection h with h; rw [← h]; simp
        · split at h
          · injection h with h; rw [← h]; simp
          · cases h
    · exact ih err h

theorem find_directory_error (img : Image) (err : Err) (h : find_directory img = .error err) :
    err ≠ .out_of_fuel := by
  unfold find_directory at h
  split at h
  · injection h with h; rw [← h]; simp
  · exact find_directory_loop_error img _ err h

theorem validate_entry_error (st : State) (i : Nat) (err : Err)
    (h : validate_entry st i = .error err) : err ≠ .out_of_fuel := by
  unfold validate_entry at h
  simp only at h
  repeat' split at h
  all_goals first
    | (injection h with h; rw [← h]; simp)
    | cases h

theorem validate_entries_error (st : State) : ∀ (l : List Nat) (err : Err),
    validate_entries st l = .error err → err ≠ .out_of_fuel := by
  intro l
  induction l with
  | nil =>
    intro err h
    simp only [validate_entries] at h
    cases h
  | cons i rest ih =>
    intro err h
    simp only [validate_entries] at h
    cases hv : validate_entry st i with
    | error e1 =>
      rw [hv] at h
      simp only at h
      injection h with h
      subst h
      exact validate_entry_error st i e1 hv
    | ok u =>
      rw [hv] at h
      exact ih err h

theorem validate_entries_counts (st : State) (h : validate_entries st
    (List.range st.dir.num_entries) = .ok ()) : counts_u32 st := by
  intro a ⟨i, hi, hia, ht⟩
  subst hia
  have h1 := validate_entry_set (validate_entries_ok st _ h i (List.mem_range.mpr hi)) ht
  have h3 := tail_div_lt st.img (st.dir_addr i)
  omega

/-- After the first loop of `validate_directory`, the children of a SET are
the calls made by the loop of `validate_set_r`. -/
theorem set_child_call {st : State}
    (hent : ∀ i, i < st.dir.num_entries → validate_entry st i = .ok ()) {x y : Nat}
    (h : set_child st x y) : set_call st x y := by
  obtain ⟨⟨i, hi, hix, ht⟩, j, hj, hf, hty⟩ := h
  subst hix
  have h1 := validate_entry_set (hent i hi) ht
  have h3 := tail_div_lt st.img (st.dir_addr i)
  refine ⟨j, ?_, hf, hty⟩
  rw [int_of_u32_small (by omega)]
  exact hj

/-- The fuel that `validate_directory` gives to `validate_set_r` is enough:
the result is never `out_of_fuel`. -/
theorem validate_directory_fuel (img : Image) :
    validate_directory img ≠ .error .out_of_fuel := by
  intro h
  unfold validate_directory at h
  cases hd : find_directory img with
  | error err =>
    rw [hd] at h
    simp only at h
    injection h with h
    exact find_directory_error img err hd h
  | ok d =>
    rw [hd] at h
    simp only at h
    cases he : validate_entries { img := img, dir := d } (List.range d.num_entries) with
    | error err =>
      rw [he] at h
      simp only at h
      injection h with h
      exact validate_entries_error _ _ err he h
    | ok u =>
      rw [he] at h
      simp only at h
      have hc := validate_entries_counts { img := img, dir := d } he
      have hcard := unmarked_card_le { img := img, dir := d }
      exact (validate_sets_fails (d.num_entries + 1) _ _ _ hc
        (Nat.lt_succ_of_le hcard) (fun i hi => List.mem_range.mp hi) h).1 rfl

/-- When the directory is found, the first loop of `validate_directory`
passes and every child index of every SET resolves, a SET on a cycle makes
`validate_directory` fail with the cycle error. -/
theorem validate_directory_cycle_error (img : Image) (d : SGDDirectoryType0)
    (hd : find_directory img = .ok d)
    (he : validate_entries { img := img, dir := d } (List.range d.num_entries) = .ok ())
    (hres : ∀ a, is_set_entry { img := img, dir := d } a →
      ∀ j, j < (State.entry { img := img, dir := d } a).set.num_entries →
      ∃ e, find_entry { img := img, dir := d }
        ((State.entry { img := img, dir := d } a).set.entries.getD j 0) = .ok e)
    (hcyc : ∃ a, Relation.TransGen (set_child { img := img, dir := d }) a a) :
    validate_directory img = .error .cycle_encountered := by
  have hc := validate_entries_counts { img := img, dir := d } he
  have hres2 : children_resolve { img := img, dir := d } := by
    intro a ha j hj
    exact hres a ha j (lt_of_lt_of_le hj (int_of_u32_toNat_le (hc a ha)))
  cases hv : validate_directory img with
  | ok st =>
    obtain ⟨a, ha⟩ := hcyc
    obtain ⟨h1, h2, _, _⟩ := validate_directory_ok hv
    rw [hd] at h2
    injection h2 with h2
    have hst : st = { img := img, dir := d } := by
      cases st
      simp only at h1 h2
      rw [h1, h2]
    subst hst
    obtain ⟨_, _, hent, hac⟩ := validate_directory_ok hv
    obtain ⟨c, ⟨⟨i, hi, hia, ht⟩, _⟩, _⟩ := Relation.TransGen.head'_iff.mp ha
    subst hia
    exact absurd (Relation.TransGen.mono (fun x y => set_child_call hent) ha) (hac i hi ht)
  | error err =>
    have hv2 := hv
    unfold validate_directory at hv2
    rw [hd] at hv2
    simp only at hv2
    rw [he] at hv2
    simp only at hv2
    have hcard := unmarked_card_le { img := img, dir := d }
    rw [(validate_sets_fails (d.num_entries + 1) _ _ _ hc
      (Nat.lt_succ_of_le hcard) (fun i hi => List.mem_range.mp hi) hv2).2 hres2]

/-- A directory with two SETs on a cycle is rejected with the cycle error. -/
theorem validate_directory_cycle_example :
    validate_directory cycle_image = .error .cycle_encountered := rfl

/-! ## Theorems: normalisation of names -/

theorem clearstr_byte_name {c x : Nat} (h : clearstr_byte c = some x) : name_byte x := by
  unfold clearstr_byte at h
  unfold name_byte
  split at h
  · cases h
  · split at h
    · injection h with h; omega
    · split at h
      · injection h with h; omega
      · injection h with h; omega

/-- The loop of `clearstr` appends to `out` the first `size - 1` mapped bytes
of the rest of the input. -/
theorem clearstr_loop_eq : ∀ (inp : List Nat) (size : Nat) (out : List Nat),
    1 ≤ size → size < 2 ^ 64 →
    clearstr_loop inp size out = out ++ ((cstr inp).filterMap clearstr_byte).take (size - 1) := by
  intro inp
  induction inp with
  | nil =>
    intro size out _ _
    simp [clearstr_loop, cstr]
  | cons c rest ih =>
    intro size out h1 h2
    unfold clearstr_loop
    by_cases hc0 : c = 0
    · subst hc0
      simp [cstr]
    · have hcs : cstr (c :: rest) = c :: cstr rest := by
        simp [cstr, List.takeWhile_cons, hc0]
      rw [if_neg hc0, hcs]
      by_cases hdrop : c ≤ 32 ∨ c = 40 ∨ c = 41
      · rw [if_pos hdrop, ih size out h1 h2]
        have : clearstr_byte c = none := by simp [clearstr_byte, hdrop]
        rw [List.filterMap_cons_none this]
      · rw [if_neg hdrop]
        have hs2 : (size + 2 ^ 64 - 1) % 2 ^ 64 = size - 1 := by omega
        simp only [hs2]
        have hmap : clearstr_byte c = some
            (if (65 ≤ c ∧ c ≤ 90) ∨ (48 ≤ c ∧ c ≤ 57) then c
              else if 97 ≤ c ∧ c ≤ 122 then c - (97 - 65) else 95) := by
          unfold clearstr_byte
          rw [if_neg hdrop]
          split
          · rfl
          · split <;> rfl
        rw [List.filterMap_cons_some hmap]
        by_cases hz : size - 1 = 0
        · rw [if_pos hz, hz]
          simp
        · rw [if_neg hz, ih _ _ (by omega) (by omega)]
          obtain ⟨m, hm⟩ : ∃ m, size - 1 = m + 1 := ⟨size - 2, by omega⟩
          rw [hm]
          simp

/-- C11. For every zero-terminated input text, `clearstr` with a 16-byte
buffer outputs the first 15 bytes of the per-byte mapping of the input (bytes
`0..32`, `(` and `)` dropped, `A..Z` and `0..9` kept, `a..z` turned into
`A..Z`, every other byte turned into `_`); so a name has at most 15 bytes, all
in `[A-Z0-9_]`, and never holds `/`, `.` or `#`. -/
theorem clearstr_spec (inp : List Nat) :
    clearstr 16 inp = ((cstr inp).filterMap clearstr_byte).take 15 ∧
    (clearstr 16 inp).length ≤ 15 ∧
    (∀ x ∈ clearstr 16 inp, name_byte x) ∧
    (∀ x ∈ clearstr 16 inp, x ≠ 47 ∧ x ≠ 46 ∧ x ≠ 35) := by
  have h : clearstr 16 inp = ((cstr inp).filterMap clearstr_byte).take 15 := by
    unfold clearstr
    rw [clearstr_loop_eq inp 16 [] (by decide) (by decide)]
    simp
  have hname : ∀ x ∈ clearstr 16 inp, name_byte x := by
    intro x hx
    rw [h] at hx
    have hx2 := List.mem_of_mem_take hx
    obtain ⟨c, _, hc⟩ := List.mem_filterMap.mp hx2
    exact clearstr_byte_name hc
  refine ⟨h, ?_, hname, ?_⟩
  · rw [h, List.length_take]
    exact Nat.min_le_left _ _
  · intro x hx
    have := hname x hx
    unfold name_byte at this
    omega

/-- The normalisation of `a (-B9È` and of a long text. -/
theorem clearstr_example :
    clearstr 16 [97, 32, 40, 45, 66, 57, 200, 0, 65] = [65, 95, 66, 57, 95] ∧
    clearstr 16 (List.replicate 20 97) = List.replicate 15 65 := by
  decide

/-! ## Theorems: the validator restores the directory -/

/-- A successful `validate_set_r` leaves the state as it found it, for any
entry whose count fits `uint32_t`. -/
theorem validate_set_r_restore (fuel : Nat) (st : State) (a : Nat) (st2 : State)
    (hc : counts_u32 st) (ha : (st.entry a).set.num_entries < 2 ^ 32)
    (h : validate_set_r fuel st a = .ok st2) : st2 = st := by
  cases fuel with
  | zero => simp only [validate_set_r] at h; cases h
  | succ fuel =>
    simp only [validate_set_r] at h
    by_cases hn : (st.entry a).set.num_entries = U32_MINUS_ONE
    · rw [if_pos hn] at h; cases h
    · rw [if_neg hn] at h
      cases hl : validate_set_loop (validate_set_r fuel) a
          (List.range (int_of_u32 (st.entry a).set.num_entries).toNat)
          (st.store_set_num_entries a U32_MINUS_ONE) with
      | error err => rw [hl] at h; cases h
      | ok st3 =>
        rw [hl] at h
        simp only at h
        injection h with h
        obtain ⟨h3, _⟩ := validate_set_loop_spec _ (validate_set_r_spec fuel) a _ _ _
          (counts_u32_store a hc) hl
        subst h3
        rw [← h, store_store, u32_of_int_of_u32 ha, store_self]

/-- C16. Whenever `validate_set_r` returns normally the state is the one
before the call, so every SET has the `num_entries` it had; a successful
`validate_directory` leaves the buffer unchanged and a second validation pass
gives the same result as the first. -/
theorem validate_restores :
    (∀ (fuel : Nat) (st : State) (a : Nat) (st2 : State), counts_u32 st →
      (st.entry a).set.num_entries < 2 ^ 32 → validate_set_r fuel st a = .ok st2 →
      st2 = st ∧ ∀ x, (st2.entry x).set.num_entries = (st.entry x).set.num_entries) ∧
    (∀ (img : Image) (st : State), validate_directory img = .ok st →
      st.img = img ∧ (∀ x, (st.entry x).set.num_entries = (img.entry x).set.num_entries) ∧
      validate_directory st.img = .ok st) := by
  refine ⟨?_, ?_⟩
  · intro fuel st a st2 hc ha h
    have h2 := validate_set_r_restore fuel st a st2 hc ha h
    subst h2
    exact ⟨rfl, fun _ => rfl⟩
  · intro img st h
    obtain ⟨himg, _, _, _⟩ := validate_directory_ok h
    refine ⟨himg, ?_, ?_⟩
    · intro x
      unfold State.entry
      rw [himg]
    · rw [himg]
      exact h

theorem validate_restores_witness :
    (∃ st2, validate_set_r 4 ex_state 0 = .ok st2 ∧ st2 = ex_state ∧
      ∀ x, (st2.entry x).set.num_entries = (ex_state.entry x).set.num_entries) ∧
    (∃ st, validate_directory ex_image = .ok st ∧ st.img = ex_image ∧
      (∀ x, (st.entry x).set.num_entries = (ex_image.entry x).set.num_entries) ∧
      validate_directory st.img = .ok st) :=
  ⟨⟨_, rfl, validate_restores.1 4 ex_state 0 _ (by
        intro a ⟨i, hi, hia, _⟩
        have hi3 : i < 3 := hi
        subst hia
        interval_cases i <;> decide) (by decide) rfl⟩,
    ⟨_, rfl, validate_restores.2 ex_image _ rfl⟩⟩

/-! ## Theorems: crop bounds -/

theorem bounds_empty_false {b : bounds_t} :
    bounds_empty b = false ↔ b.min_x ≤ b.max_x ∧ b.min_y ≤ b.max_y := by
  unfold bounds_empty
  simp only [Bool.or_eq_false_iff, decide_eq_false_iff_not, gt_iff_lt, not_lt]

theorem bounds_empty_true {b : bounds_t} :
    bounds_empty b = true ↔ b.max_x < b.min_x ∨ b.max_y < b.min_y := by
  unfold bounds_empty
  simp only [Bool.or_eq_true, decide_eq_true_eq, gt_iff_lt]

/-- After `expand_bounds` a rectangle is empty or inside the image. -/
theorem expand_bounds_inside (g : Raster) (b : bounds_t) :
    bounds_empty (expand_bounds g b) = true ∨ inside_image g (expand_bounds g b) := by
  unfold expand_bounds
  cases hb : bounds_empty b with
  | true => left; simp [hb]
  | false =>
    simp only [if_true]
    by_cases he : bounds_empty
        { min_x := b.min_x - min (min 75 b.min_x) ((g.sgd_width : Int) - b.max_x - 1),
          min_y := b.min_y - min (min 75 b.min_y) ((g.sgd_height : Int) - b.max_y - 1),
          max_x := b.max_x + min (min 75 b.min_x) ((g.sgd_width : Int) - b.max_x - 1),
          max_y := b.max_y + min (min 75 b.min_y) ((g.sgd_height : Int) - b.max_y - 1) } = true
    · exact Or.inl he
    · right
      rw [Bool.not_eq_true, bounds_empty_false] at he
      simp only at he
      unfold inside_image
      simp only
      omega

theorem crop_rows_inside {w h mx my W H : Int} (hx0 : 0 ≤ mx) (hy0 : 0 ≤ my)
    (hw : mx + w ≤ W) (hh : my + h ≤ H) (hw0 : 0 ≤ w) (i : Nat) (hi : (i : Int) < h) :
    0 ≤ (my + (i : Int)) * W + mx ∧ (my + (i : Int)) * W + mx + w ≤ W * H := by
  have hi0 : (0 : Int) ≤ (i : Int) := Int.ofNat_nonneg i
  have hW : 0 ≤ W := by omega
  have h1 : 0 ≤ (my + (i : Int)) * W := Int.mul_nonneg (by omega) hW
  have h2 : (my + (i : Int) + 1) * W ≤ H * W :=
    Int.mul_le_mul_of_nonneg_right (by omega) hW
  have h3 : (my + (i : Int) + 1) * W = (my + (i : Int)) * W + W := by ring
  have h4 : H * W = W * H := Int.mul_comm _ _
  constructor
  · omega
  · omega

/-- A rectangle that is empty or inside the image is cropped inside the image. -/
theorem crop_in_image_of_inside (g : Raster) (b : bounds_t)
    (h : bounds_empty b = true ∨ inside_image g b) : crop_in_image g b := by
  unfold crop_in_image
  cases hb : bounds_empty b with
  | true => left; exact ⟨rfl, by simp [write_crop, hb]⟩
  | false =>
    right
    rcases h with h | h
    · rw [hb] at h; cases h
    · refine ⟨h, ?_⟩
      obtain ⟨h1, h2, h3, h4, h5, h6⟩ := h
      unfold write_crop
      simp only [hb, if_true]
      refine ⟨_, rfl, rfl, rfl, ?_, ?_, ?_, ?_, ?_, ?_⟩
      · show 1 ≤ b.max_x - b.min_x + 1
        omega
      · show b.max_x - b.min_x + 1 ≤ (g.sgd_width : Int)
        omega
      · show 1 ≤ b.max_y - b.min_y + 1
        omega
      · show b.max_y - b.min_y + 1 ≤ (g.sgd_height : Int)
        omega
      · simp
      · intro r hr
        simp only [List.mem_map, List.mem_range] at hr
        obtain ⟨i, hi, hir⟩ := hr
        rw [← hir]
        show 0 ≤ (b.min_y + (i : Int)) * (g.sgd_width : Int) + b.min_x ∧
          (b.min_y + (i : Int)) * (g.sgd_width : Int) + b.min_x + (b.max_x - b.min_x + 1) ≤
            (g.sgd_width : Int) * (g.sgd_height : Int)
        exact crop_rows_inside h1 h4 (by omega) (by omega : b.min_y + (b.max_y - b.min_y + 1) ≤ _)
          (by omega) i (by omega)

/-- The function `expand_bounds` with exact integers (no operation on `int`
overflows).  For every image size and every rectangle `b`, after `expand_bounds`
(and so after `finalize_bounds`, whenever it returns) either `b` is empty and
`write_crop` writes nothing, or `0 ≤ min_x ≤ max_x ≤ W-1` and
`0 ≤ min_y ≤ max_y ≤ H-1`, the crop has width `max_x - min_x + 1` in `1..W`
and height `max_y - min_y + 1` in `1..H`, and every crop row lies inside the
`W*H` image buffer. -/
theorem crop_bounds_inside (g : Raster) :
    (∀ b, crop_in_image g (expand_bounds g b)) ∧
    (∀ (st : State) (b : bounds_t) (set : Nat) (b2 : bounds_t),
      finalize_bounds st g b set = .ok b2 → crop_in_image g b2) := by
  refine ⟨fun b => crop_in_image_of_inside g _ (expand_bounds_inside g b), ?_⟩
  intro st b set b2 h
  unfold finalize_bounds at h
  simp only at h
  split at h
  · cases h
  · next b1 _ =>
    injection h with h
    rw [← h]
    exact crop_in_image_of_inside g _ (expand_bounds_inside g b1)

theorem crop_bounds_inside_witness :
    (∀ b, crop_in_image ex_raster_crop (expand_bounds ex_raster_crop b)) ∧
    (∃ b2, finalize_bounds ex_state ex_raster_crop
        { min_x := 250, min_y := 20, max_x := 280, max_y := 30 } 0 = .ok b2 ∧
      b2 = { min_x := 231, min_y := 0, max_x := 299, max_y := 50 } ∧
      crop_in_image ex_raster_crop b2) :=
  ⟨(crop_bounds_inside ex_raster_crop).1,
    _, rfl, by decide, (crop_bounds_inside ex_raster_crop).2 ex_state
      { min_x := 250, min_y := 20, max_x := 280, max_y := 30 } 0 _ rfl⟩

/-- C20. For every non-empty rectangle `b` inside the image, `expand_bounds`
moves both x sides outward by `m_x = min(75, min_x, W-1-max_x)` and both y
sides outward by `m_y = min(75, min_y, H-1-max_y)`, with `0 ≤ m_x, m_y ≤ 75`,
so the result contains `b`; an empty rectangle is left unchanged. -/
theorem expand_bounds_margin (g : Raster) (b : bounds_t) :
    (inside_image g b →
      expand_bounds g b =
        { min_x := b.min_x - min 75 (min b.min_x ((g.sgd_width : Int) - 1 - b.max_x)),
          min_y := b.min_y - min 75 (min b.min_y ((g.sgd_height : Int) - 1 - b.max_y)),
          max_x := b.max_x + min 75 (min b.min_x ((g.sgd_width : Int) - 1 - b.max_x)),
          max_y := b.max_y + min 75 (min b.min_y ((g.sgd_height : Int) - 1 - b.max_y)) } ∧
      0 ≤ min 75 (min b.min_x ((g.sgd_width : Int) - 1 - b.max_x)) ∧
      min 75 (min b.min_x ((g.sgd_width : Int) - 1 - b.max_x)) ≤ 75 ∧
      0 ≤ min 75 (min b.min_y ((g.sgd_height : Int) - 1 - b.max_y)) ∧
      min 75 (min b.min_y ((g.sgd_height : Int) - 1 - b.max_y)) ≤ 75 ∧
      (expand_bounds g b).min_x ≤ b.min_x ∧ (expand_bounds g b).min_y ≤ b.min_y ∧
      b.max_x ≤ (expand_bounds g b).max_x ∧ b.max_y ≤ (expand_bounds g b).max_y ∧
      inside_image g (expand_bounds g b)) ∧
    (bounds_empty b = true → expand_bounds g b = b) := by
  refine ⟨?_, ?_⟩
  · intro h
    obtain ⟨h1, h2, h3, h4, h5, h6⟩ := h
    have hb : bounds_empty b = false := bounds_empty_false.mpr ⟨h2, h5⟩
    have hx : min (min 75 b.min_x) ((g.sgd_width : Int) - b.max_x - 1) =
        min 75 (min b.min_x ((g.sgd_width : Int) - 1 - b.max_x)) := by omega
    have hy : min (min 75 b.min_y) ((g.sgd_height : Int) - b.max_y - 1) =
        min 75 (min b.min_y ((g.sgd_height : Int) - 1 - b.max_y)) := by omega
    have he : expand_bounds g b =
        { min_x := b.min_x - min 75 (min b.min_x ((g.sgd_width : Int) - 1 - b.max_x)),
          min_y := b.min_y - min 75 (min b.min_y ((g.sgd_height : Int) - 1 - b.max_y)),
          max_x := b.max_x + min 75 (min b.min_x ((g.sgd_width : Int) - 1 - b.max_x)),
          max_y := b.max_y + min 75 (min b.min_y ((g.sgd_height : Int) - 1 - b.max_y)) } := by
      unfold expand_bounds
      simp only [hb, if_true, hx, hy]
    rw [he]
    unfold inside_image
    simp only
    refine ⟨trivial, ?_⟩
    omega
  · intro h
    unfold expand_bounds
    simp [h]

theorem expand_bounds_margin_witness :
    expand_bounds ex_raster_crop { min_x := 250, min_y := 20, max_x := 280, max_y := 30 } =
      { min_x := 231, min_y := 0, max_x := 299, max_y := 50 } ∧
    expand_bounds ex_raster_crop EMPTY_BOUNDS = EMPTY_BOUNDS :=
  ⟨by
    have h := ((expand_bounds_margin ex_raster_crop
      { min_x := 250, min_y := 20, max_x := 280, max_y := 30 }).1 (by decide)).1
    rw [h]
    decide,
   (expand_bounds_margin ex_raster_crop EMPTY_BOUNDS).2 (by decide)⟩

/-! ## Theorems: fixup of a set -/

theorem store_entries_entry (st : State) (a : Nat) (l : List Nat) (x : Nat) :
    (st.store_set_entries a l).entry x =
      if x = a then { (st.entry a) with set := { (st.entry a).set with entries := l } }
      else st.entry x := by
  unfold State.store_set_entries State.entry
  by_cases h : x = a
  · subst h; simp
  · simp [h]

theorem store_entries_dir (st : State) (a : Nat) (l : List Nat) :
    (st.store_set_entries a l).dir = st.dir := rfl

theorem store_entries_dir_addr (st : State) (a : Nat) (l : List Nat) (i : Nat) :
    (st.store_set_entries a l).dir_addr i = st.dir_addr i := rfl

theorem store_entries_hdr (st : State) (a : Nat) (l : List Nat) (x : Nat) :
    ((st.store_set_entries a l).entry x).hdr = (st.entry x).hdr := by
  rw [store_entries_entry]; split
  · next h => subst h; rfl
  · rfl

theorem store_entries_textline (st : State) (a : Nat) (l : List Nat) (x : Nat) :
    ((st.store_set_entries a l).entry x).textline = (st.entry x).textline := by
  rw [store_entries_entry]; split
  · next h => subst h; rfl
  · rfl

theorem store_entries_num (st : State) (a : Nat) (l : List Nat) (x : Nat) :
    ((st.store_set_entries a l).entry x).set.num_entries = (st.entry x).set.num_entries := by
  rw [store_entries_entry]; split
  · next h => subst h; rfl
  · rfl

theorem store_entries_same (st : State) (a : Nat) (l : List Nat) :
    ((st.store_set_entries a l).entry a).set.entries = l := by
  rw [store_entries_entry]; simp

theorem store_entries_other (st : State) (a : Nat) (l : List Nat) (x : Nat) (h : x ≠ a) :
    (st.store_set_entries a l).entry x = st.entry x := by
  rw [store_entries_entry]; simp [h]

theorem find_entry_store_entries (st : State) (a : Nat) (l : List Nat) (idx : Nat) :
    find_entry (st.store_set_entries a l) idx = find_entry st idx := by
  unfold find_entry
  simp only [store_entries_dir, store_entries_dir_addr, store_entries_hdr]

theorem is_fixup_pair_store_entries (st : State) (a : Nat) (l : List Nat) :
    is_fixup_pair (st.store_set_entries a l) = is_fixup_pair st := by
  funext x y
  unfold is_fixup_pair
  simp only [find_entry_store_entries, store_entries_hdr, store_entries_textline]

/-- The entry found by `find_entry` has the index asked for. -/
theorem find_entry_index {st : State} {idx e : Nat} (h : find_entry st idx = .ok e) :
    (st.entry e).hdr.index = idx := by
  unfold find_entry at h
  split at h
  · next i hi =>
    have hp := List.find?_some hi
    injection h with h
    rw [← h]
    simpa using hp
  · cases h

theorem children_length (st : State) (a : Nat) :
    (st.children a).length = (st.entry a).set.num_entries := by
  unfold State.children
  simp

theorem children_getD (st : State) (a i : Nat) (hi : i < (st.entry a).set.num_entries) :
    (st.children a).getD i 0 = (st.entry a).set.entries.getD i 0 := by
  unfold State.children
  rw [List.getD_eq_getElem?_getD, List.getElem?_map, List.getElem?_range hi]
  rfl

/-- The slots of an array that begins with `c`, when `c` has `num_entries`
elements. -/
theorem children_store_entries (st : State) (a : Nat) (c t : List Nat)
    (hc : c.length = (st.entry a).set.num_entries) :
    (st.store_set_entries a (c ++ t)).children a = c := by
  unfold State.children
  rw [store_entries_num, store_entries_same, ← hc]
  apply List.ext_getElem
  · simp
  · intro i h1 h2
    simp only [List.getElem_map, List.getElem_range]
    rw [List.getD_eq_getElem?_getD, List.getElem?_append_left h2, List.getElem?_eq_getElem h2]
    rfl

theorem children_store_entries_other (st : State) (a : Nat) (l : List Nat) (x : Nat)
    (h : x ≠ a) : (st.store_set_entries a l).children x = st.children x := by
  unfold State.children
  rw [store_entries_other _ _ _ _ h]

theorem store_entries_store_entries (st : State) (a : Nat) (l1 l2 : List Nat) :
    (st.store_set_entries a l1).store_set_entries a l2 = st.store_set_entries a l2 := by
  unfold State.store_set_entries
  simp

theorem store_entries_self (st : State) (a : Nat) :
    st.store_set_entries a (st.entry a).set.entries = st := by
  unfold State.store_set_entries State.entry
  simp

theorem pairs_flat_append (l1 l2 : List (Nat × Nat)) :
    pairs_flat (l1 ++ l2) = pairs_flat l1 ++ pairs_flat l2 := by
  induction l1 with
  | nil => rfl
  | cons p ps ih => simp [pairs_flat, ih]

theorem getD_append_cons (P : List Nat) (x : Nat) (T : List Nat) :
    (P ++ x :: T).getD P.length 0 = x := by
  rw [List.getD_eq_getElem?_getD, List.getElem?_append_right (Nat.le_refl _)]
  simp

/-- The slot `i` and the slot `i + 1` of the array, read off the children. -/
theorem children_slots {st : State} {a i : Nat} {P R M : List Nat} {x y : Nat}
    (hc : st.children a = P ++ (x :: y :: R) ++ M) (hP : P.length = i) :
    (st.entry a).set.entries.getD i 0 = x ∧ (st.entry a).set.entries.getD (i + 1) 0 = y := by
  have hlen := children_length st a
  rw [hc] at hlen
  simp only [List.length_append, List.length_cons] at hlen
  constructor
  · rw [← children_getD st a i (by omega), hc, ← hP, List.append_assoc]
    exact getD_append_cons P x _
  · rw [← children_getD st a (i + 1) (by omega), hc, ← hP]
    have : P ++ (x :: y :: R) ++ M = (P ++ [x]) ++ y :: (R ++ M) := by simp
    rw [this]
    have h2 : P.length + 1 = (P ++ [x]).length := by simp
    rw [h2]
    exact getD_append_cons _ y _

/-- What the test of the loop of `fixup_set` returns at a slot holding `x`
followed by `y`. -/
theorem fixup_set_test_spec {st : State} {a i : Nat} {P R M : List Nat} {x y : Nat}
    (hc : st.children a = P ++ (x :: y :: R) ++ M) (hP : P.length = i)
    {r : Option (Nat × Nat)} (h : fixup_set_test st a i = .ok r) :
    (r = some (x, y) ∧ is_fixup_pair st x y = true) ∨
    (r = none ∧ is_fixup_pair st x y = false) := by
  obtain ⟨hx, hy⟩ := children_slots hc hP
  unfold fixup_set_test at h
  rw [hx, hy] at h
  unfold is_fixup_pair
  cases he : find_entry st x with
  | error err => rw [he] at h; cases h
  | ok e =>
    rw [he] at h
    simp only at h
    cases hn : find_entry st y with
    | error err => rw [hn] at h; cases h
    | ok n =>
      rw [hn] at h
      simp only at h
      split at h
      · next hcond =>
        left
        injection h with h
        rw [find_entry_index he, find_entry_index hn] at h
        refine ⟨h.symm, ?_⟩
        simp [hcond.1, hcond.2.1, hcond.2.2]
      · next hcond =>
        right
        injection h with h
        refine ⟨h.symm, ?_⟩
        by_contra hne
        apply hcond
        simp only [Bool.not_eq_false, Bool.and_eq_true, decide_eq_true_eq] at hne
        exact ⟨hne.1.1, hne.1.2, hne.2⟩

theorem fixup_set_move_eq (P R M : List Nat) (x y : Nat) (i num : Nat)
    (hP : P.length = i) (hnum : num = i + R.length + 2) :
    fixup_set_move (P ++ (x :: y :: R) ++ M) num i x y = P ++ R ++ [x, y] ++ M := by
  unfold fixup_set_move
  have h1 : (P ++ (x :: y :: R) ++ M).take i = P := by
    rw [List.append_assoc, List.take_left' hP]
  have h2 : (P ++ (x :: y :: R) ++ M).drop (i + 2) = R ++ M := by
    have : P ++ (x :: y :: R) ++ M = (P ++ [x, y]) ++ (R ++ M) := by simp
    rw [this, List.drop_left' (by simp [hP])]
  have h3 : (P ++ (x :: y :: R) ++ M).drop num = M := by
    rw [List.drop_left' (by simp [hP, hnum]; omega)]
  have h4 : num - i - 2 = R.length := by omega
  rw [h1, h2, h3, h4, List.take_left' rfl]

/-- The state after the pair at slot `i` is moved. -/
theorem fixup_set_store_children {st : State} {a i : Nat} {P R M : List Nat} {x y : Nat}
    (hc : st.children a = P ++ (x :: y :: R) ++ M) (hP : P.length = i) :
    (fixup_set_store st a (i + R.length + 2) i (x, y)).children a = P ++ R ++ [x, y] ++ M := by
  unfold fixup_set_store
  have hlen := children_length st a
  rw [hc] at hlen
  simp only
  rw [hc, fixup_set_move_eq P R M x y i _ hP rfl]
  apply children_store_entries
  rw [← hlen]
  simp only [List.length_append, List.length_cons, List.length_nil]
  omega

theorem fixup_set_store_pair (st : State) (a num i : Nat) (p : Nat × Nat) :
    is_fixup_pair (fixup_set_store st a num i p) = is_fixup_pair st := by
  unfold fixup_set_store
  exact is_fixup_pair_store_entries _ _ _

/-- The loop of `fixup_set` on the slots `X` that follow the slots `P`
already looked at: the children kept stay in their order and the pairs moved
are stacked from the end of `X`, the first pair moved last. -/
theorem fixup_set_loop_spec (a : Nat) : ∀ (k i : Nat) (st st2 : State) (P X M : List Nat),
    st.children a = P ++ X ++ M → P.length = i → X.length = k + 1 →
    fixup_set_loop a k i st = .ok st2 →
    (∃ l, st2 = st.store_set_entries a l) ∧
    st2.children a = P ++ fixup_kept (is_fixup_pair st) X ++
      pairs_flat (fixup_pairs (is_fixup_pair st) X).reverse ++ M := by
  intro k
  induction k using Nat.strong_induction_on with
  | _ k ih =>
    intro i st st2 P X M hc hP hX h
    match k, X, hX with
    | 0, [x], _ =>
      simp only [fixup_set_loop] at h
      injection h with h
      subst h
      refine ⟨⟨_, (store_entries_self st a).symm⟩, ?_⟩
      simp [fixup_kept, fixup_pairs, pairs_flat, hc]
    | 1, [x, y], _ =>
      have hc2 : st.children a = P ++ (x :: y :: []) ++ M := hc
      simp only [fixup_set_loop] at h
      cases ht : fixup_set_test st a i with
      | error err => rw [ht] at h; cases h
      | ok r =>
        rw [ht] at h
        rcases fixup_set_test_spec hc2 hP ht with ⟨hr, hp⟩ | ⟨hr, hp⟩
        · subst hr
          simp only at h
          injection h with h
          subst h
          refine ⟨⟨_, rfl⟩, ?_⟩
          have := fixup_set_store_children hc2 hP
          simp only [List.length_nil, Nat.add_zero] at this
          rw [this]
          simp [fixup_kept, fixup_pairs, pairs_flat, hp]
        · subst hr
          simp only at h
          injection h with h
          subst h
          refine ⟨⟨_, (store_entries_self st a).symm⟩, ?_⟩
          simp [fixup_kept, fixup_pairs, pairs_flat, hp, hc]
    | k + 2, x :: y :: R, hX =>
      have hR : R.length = k + 1 := by simpa using hX
      simp only [fixup_set_loop] at h
      cases ht : fixup_set_test st a i with
      | error err => rw [ht] at h; cases h
      | ok r =>
        rw [ht] at h
        rcases fixup_set_test_spec hc hP ht with ⟨hr, hp⟩ | ⟨hr, hp⟩
        · subst hr
          simp only at h
          have hch := fixup_set_store_children hc hP
          have hnum : i + R.length + 2 = i + k + 3 := by omega
          rw [hnum] at hch
          have hch2 : (fixup_set_store st a (i + k + 3) i (x, y)).children a =
              P ++ R ++ ([x, y] ++ M) := by rw [hch]; simp
          obtain ⟨⟨l, hl⟩, hres⟩ := ih k (by omega) i _ st2 P R ([x, y] ++ M) hch2 hP hR h
          refine ⟨⟨l, ?_⟩, ?_⟩
          · rw [hl]
            unfold fixup_set_store
            rw [store_entries_store_entries]
          · rw [hres, fixup_set_store_pair]
            simp [fixup_kept, fixup_pairs, hp, pairs_flat_append, pairs_flat]
        · subst hr
          simp only at h
          have hc3 : st.children a = (P ++ [x]) ++ (y :: R) ++ M := by rw [hc]; simp
          obtain ⟨hl, hres⟩ := ih (k + 1) (by omega) (i + 1) st st2 (P ++ [x]) (y :: R) M hc3
            (by simp [hP]) (by simp [hR]) h
          refine ⟨hl, ?_⟩
          rw [hres]
          simp [fixup_kept, fixup_pairs, hp]

theorem toNat_pred_count {n : Nat} (h : n < 2 ^ 31) : (int_of_u32 n - 1).toNat = n - 1 := by
  unfold int_of_u32
  have h1 : n % 2 ^ 32 = n := Nat.mod_eq_of_lt (by omega)
  rw [h1, if_pos h]
  omega

/-- The function `fixup_set` on a SET with fewer than `2^31` children: only
the array of the SET changes; its slots are the children kept, in their
order, followed by the pairs moved, the first pair moved last. -/
theorem fixup_set_spec {st : State} {a : Nat} {st2 : State}
    (hn : (st.entry a).set.num_entries < 2 ^ 31) (h : fixup_set st a = .ok st2) :
    (∃ l, st2 = st.store_set_entries a l) ∧
    st2.children a = fixup_kept (is_fixup_pair st) (st.children a) ++
      pairs_flat (fixup_pairs (is_fixup_pair st) (st.children a)).reverse := by
  unfold fixup_set at h
  rw [toNat_pred_count hn] at h
  have hlen := children_length st a
  by_cases h0 : (st.entry a).set.num_entries = 0
  · rw [h0] at h hlen
    simp only [fixup_set_loop] at h
    injection h with h
    subst h
    have hnil : st.children a = [] := List.length_eq_zero.mp hlen
    refine ⟨⟨_, (store_entries_self st a).symm⟩, ?_⟩
    rw [hnil]
    rfl
  · have := fixup_set_loop_spec a ((st.entry a).set.num_entries - 1) 0 st st2 []
      (st.children a) [] (by simp) rfl (by rw [hlen]; omega) h
    simpa using this

/-- The pairs moved are pairs of a TEXT_LINE with `-` and a SIMPLE_AREA. -/
theorem fixup_pairs_are_pairs (pair : Nat → Nat → Bool) : ∀ (n : Nat) (l : List Nat),
    l.length ≤ n → ∀ p ∈ fixup_pairs pair l, pair p.1 p.2 = true := by
  intro n
  induction n with
  | zero =>
    intro l hl p hp
    have : l = [] := List.length_eq_zero.mp (Nat.le_zero.mp hl)
    subst this
    simp [fixup_pairs] at hp
  | succ n ih =>
    intro l hl p hp
    match l with
    | [] => simp [fixup_pairs] at hp
    | [x] => simp [fixup_pairs] at hp
    | x :: y :: rest =>
      simp only [fixup_pairs] at hp
      simp only [List.length_cons] at hl
      split at hp
      · next hxy =>
        rcases List.mem_cons.mp hp with hp | hp
        · subst hp; exact hxy
        · exact ih rest (by omega) p hp
      · exact ih (y :: rest) (by simp; omega) p hp

/-- The pairs moved are adjacent in the child list and are listed in the
order in which they occur there. -/
theorem fixup_pairs_sublist (pair : Nat → Nat → Bool) : ∀ (n : Nat) (l : List Nat),
    l.length ≤ n → List.Sublist (fixup_pairs pair l) (l.zip l.tail) := by
  intro n
  induction n with
  | zero =>
    intro l hl
    have : l = [] := List.length_eq_zero.mp (Nat.le_zero.mp hl)
    subst this
    simp [fixup_pairs]
  | succ n ih =>
    intro l hl
    match l with
    | [] => simp [fixup_pairs]
    | [x] => simp [fixup_pairs]
    | x :: y :: rest =>
      simp only [fixup_pairs, List.tail_cons, List.zip_cons_cons]
      simp only [List.length_cons] at hl
      have h1 := ih (y :: rest) (by simp; omega)
      simp only [List.tail_cons] at h1
      split
      · apply List.Sublist.cons₂
        have h2 := ih rest (by omega)
        refine h2.trans ?_
        match rest with
        | [] => simp
        | z :: rest2 =>
          simp only [List.tail_cons, List.zip_cons_cons]
          exact List.sublist_cons_self _ _
      · exact List.Sublist.cons _ h1

/-- The function `fixup_set` on the records of `pairs_image`: two pairs are
moved and the tail of the child list
holds them in the reverse of the order in which they occurred. -/
theorem fixup_set_reverses_pairs :
    ∃ st, validate_directory pairs_image = .ok st ∧
      st.children 0 = [2, 3, 4, 5, 6] ∧
      fixup_pairs (is_fixup_pair st) (st.children 0) = [(2, 3), (4, 5)] ∧
      ∃ st2, fixup_set st 0 = .ok st2 ∧ st2.children 0 = [6, 4, 5, 2, 3] ∧
        st2.children 0 ≠ fixup_kept (is_fixup_pair st) (st.children 0) ++
          pairs_flat (fixup_pairs (is_fixup_pair st) (st.children 0)) :=
  ⟨_, rfl, rfl, rfl, _, rfl, rfl, by decide⟩

/-- The function `fixup_set` on records that share no byte.  After
`fixup_set` the pairs (TEXT_LINE whose text contains
`-`, SIMPLE_AREA) that it moved form the tail of the child list, each
TEXT_LINE immediately followed by its SIMPLE_AREA, after the children that
were not moved; the pairs moved are adjacent pairs of the original list and
they appear in the tail in the reverse of the order in which they occurred
there. -/
theorem fixup_set_tail (st : State) (a : Nat) (st2 : State)
    (hn : (st.entry a).set.num_entries < 2 ^ 31) (h : fixup_set st a = .ok st2) :
    st2.children a = fixup_kept (is_fixup_pair st) (st.children a) ++
      pairs_flat (fixup_pairs (is_fixup_pair st) (st.children a)).reverse ∧
    (∀ p ∈ fixup_pairs (is_fixup_pair st) (st.children a), is_fixup_pair st p.1 p.2 = true) ∧
    List.Sublist (fixup_pairs (is_fixup_pair st) (st.children a))
      ((st.children a).zip (st.children a).tail) := by
  refine ⟨(fixup_set_spec hn h).2, ?_, ?_⟩
  · exact fixup_pairs_are_pairs _ _ _ (Nat.le_refl _)
  · exact fixup_pairs_sublist _ _ _ (Nat.le_refl _)

theorem fixup_set_tail_witness :
    ∃ st2, fixup_set pairs_state 0 = .ok st2 ∧
      st2.children 0 = fixup_kept (is_fixup_pair pairs_state) (pairs_state.children 0) ++
        pairs_flat (fixup_pairs (is_fixup_pair pairs_state) (pairs_state.children 0)).reverse ∧
      (∀ p ∈ fixup_pairs (is_fixup_pair pairs_state) (pairs_state.children 0),
        is_fixup_pair pairs_state p.1 p.2 = true) ∧
      List.Sublist (fixup_pairs (is_fixup_pair pairs_state) (pairs_state.children 0))
        ((pairs_state.children 0).zip (pairs_state.children 0).tail) :=
  ⟨_, rfl, fixup_set_tail pairs_state 0 _ (by decide) rfl⟩

theorem pairs_flat_reverse_perm : ∀ (ps : List (Nat × Nat)),
    (pairs_flat ps.reverse).Perm (pairs_flat ps) := by
  intro ps
  induction ps with
  | nil => exact List.Perm.refl _
  | cons p ps ih =>
    rw [List.reverse_cons, pairs_flat_append]
    have h1 : pairs_flat [p] = [p.1, p.2] := rfl
    rw [h1]
    have h2 : pairs_flat (p :: ps) = [p.1, p.2] ++ pairs_flat ps := rfl
    rw [h2]
    exact List.perm_append_comm.trans (List.Perm.append_left _ ih)

theorem fixup_perm_aux (pair : Nat → Nat → Bool) : ∀ (n : Nat) (l : List Nat), l.length ≤ n →
    (fixup_kept pair l ++ pairs_flat (fixup_pairs pair l)).Perm l := by
  intro n
  induction n with
  | zero =>
    intro l hl
    have : l = [] := List.length_eq_zero.mp (Nat.le_zero.mp hl)
    subst this
    simp [fixup_kept, fixup_pairs, pairs_flat]
  | succ n ih =>
    intro l hl
    match l with
    | [] => simp [fixup_kept, fixup_pairs, pairs_flat]
    | [x] => simp [fixup_kept, fixup_pairs, pairs_flat]
    | x :: y :: rest =>
      simp only [List.length_cons] at hl
      by_cases hp : pair x y = true
      · have h1 := ih rest (by omega)
        simp only [fixup_kept, fixup_pairs, hp, if_true, pairs_flat]
        have h2 : (fixup_kept pair rest ++ x :: y :: pairs_flat (fixup_pairs pair rest)).Perm
            (x :: y :: (fixup_kept pair rest ++ pairs_flat (fixup_pairs pair rest))) := by
          refine List.perm_middle.trans (List.Perm.cons x ?_)
          exact List.perm_middle
        exact h2.trans ((h1.cons y).cons x)
      · have h1 := ih (y :: rest) (by simp; omega)
        simp only [fixup_kept, fixup_pairs, hp, Bool.false_eq_true, if_false, List.cons_append]
        exact h1.cons x

/-- The child list that `fixup_set` leaves is a permutation of the child list
that it found. -/
theorem fixup_perm (pair : Nat → Nat → Bool) (l : List Nat) :
    (fixup_kept pair l ++ pairs_flat (fixup_pairs pair l).reverse).Perm l :=
  ((pairs_flat_reverse_perm _).append_left _).trans (fixup_perm_aux pair l.length l (Nat.le_refl _))

theorem fixup_kept_of_no_pairs (pair : Nat → Nat → Bool) : ∀ (n : Nat) (l : List Nat),
    l.length ≤ n → fixup_pairs pair l = [] → fixup_kept pair l = l := by
  intro n
  induction n with
  | zero =>
    intro l hl _
    have : l = [] := List.length_eq_zero.mp (Nat.le_zero.mp hl)
    subst this
    simp [fixup_kept]
  | succ n ih =>
    intro l hl h
    match l with
    | [] => simp [fixup_kept]
    | [x] => simp [fixup_kept]
    | x :: y :: rest =>
      simp only [List.length_cons] at hl
      by_cases hp : pair x y = true
      · simp [fixup_pairs, hp] at h
      · simp only [fixup_pairs, hp, Bool.false_eq_true, if_false] at h
        simp only [fixup_kept, hp, Bool.false_eq_true, if_false]
        rw [ih (y :: rest) (by simp; omega) h]

theorem fixup_count (pair : Nat → Nat → Bool) (D : Nat → Bool)
    (hD : ∀ x y, pair x y = true → D x = true) : ∀ (n : Nat) (l : List Nat), l.length ≤ n →
    (fixup_kept pair l).countP D + (fixup_pairs pair l).length ≤ l.countP D := by
  intro n
  induction n with
  | zero =>
    intro l hl
    have : l = [] := List.length_eq_zero.mp (Nat.le_zero.mp hl)
    subst this
    simp [fixup_kept, fixup_pairs]
  | succ n ih =>
    intro l hl
    match l with
    | [] => simp [fixup_kept, fixup_pairs]
    | [x] => simp [fixup_kept, fixup_pairs]
    | x :: y :: rest =>
      simp only [List.length_cons] at hl
      by_cases hp : pair x y = true
      · have h1 := ih rest (by omega)
        have hx := hD x y hp
        simp only [fixup_kept, fixup_pairs, hp, if_true, List.length_cons]
        rw [List.countP_cons_of_pos _ _ hx]
        have h2 : rest.countP D ≤ (y :: rest).countP D := by
          rw [List.countP_cons]; omega
        omega
      · have h1 := ih (y :: rest) (by simp; omega)
        simp only [fixup_kept, fixup_pairs, hp, Bool.false_eq_true, if_false]
        rw [List.countP_cons, List.countP_cons D x (y :: rest)]
        omega

theorem fixup_append_pair (pair : Nat → Nat → Bool) (D : Nat → Bool)
    (hD : ∀ x y, pair x y = true → D x = true) (x y : Nat) (hp : pair x y = true) :
    ∀ (K : List Nat), (∀ k ∈ K, D k = false) →
    fixup_kept pair (K ++ [x, y]) = K ∧ fixup_pairs pair (K ++ [x, y]) = [(x, y)] := by
  intro K
  induction K with
  | nil =>
    intro _
    simp [fixup_kept, fixup_pairs, hp]
  | cons k K ih =>
    intro hK
    have hk : D k = false := hK k (List.mem_cons_self _ _)
    obtain ⟨ih1, ih2⟩ := ih (fun z hz => hK z (List.mem_cons_of_mem _ hz))
    cases hKK : K ++ [x, y] with
    | nil => simp at hKK
    | cons z rest =>
      have hkz : pair k z = false := by
        cases hpk : pair k z with
        | false => rfl
        | true => rw [hD k z hpk] at hk; cases hk
      rw [hKK] at ih1 ih2
      simp only [List.cons_append, hKK, fixup_kept, fixup_pairs, hkz, Bool.false_eq_true,
        if_false, ih1, ih2, and_self]

/-- The rearrangement of `fixup_set` on a child list: applied a second time it
changes nothing when at most one child is a TEXT_LINE with `-`. -/
theorem fixup_idem_pure (pair : Nat → Nat → Bool) (D : Nat → Bool)
    (hD : ∀ x y, pair x y = true → D x = true) (l : List Nat) (hl : l.countP D ≤ 1) :
    fixup_kept pair (fixup_kept pair l ++ pairs_flat (fixup_pairs pair l).reverse) ++
      pairs_flat (fixup_pairs pair
        (fixup_kept pair l ++ pairs_flat (fixup_pairs pair l).reverse)).reverse =
    fixup_kept pair l ++ pairs_flat (fixup_pairs pair l).reverse := by
  have hc := fixup_count pair D hD l.length l (Nat.le_refl _)
  have hpp := fixup_pairs_are_pairs pair l.length l (Nat.le_refl _)
  cases hps : fixup_pairs pair l with
  | nil =>
    have hk := fixup_kept_of_no_pairs pair l.length l (Nat.le_refl _) hps
    simp only [List.reverse_nil, pairs_flat, List.append_nil, hk, hps]
  | cons p ps =>
    rw [hps] at hc hpp
    simp only [List.length_cons] at hc
    have hps2 : ps = [] := List.length_eq_zero.mp (by omega)
    subst hps2
    have hz : (fixup_kept pair l).countP D = 0 := by omega
    have hK : ∀ k ∈ fixup_kept pair l, D k = false := by
      intro k hk
      have := List.countP_eq_zero.mp hz k hk
      simpa using this
    have hp := hpp p (List.mem_cons_self _ _)
    obtain ⟨h1, h2⟩ := fixup_append_pair pair D hD p.1 p.2 hp _ hK
    simp only [List.reverse_cons, List.reverse_nil, List.nil_append, pairs_flat]
    rw [h1, h2]
    rfl

theorem is_fixup_pair_dash (st : State) (x y : Nat) (h : is_fixup_pair st x y = true) :
    is_dash_text st x = true := by
  unfold is_fixup_pair at h
  unfold is_dash_text
  split at h
  · next e n he hn =>
    rw [he]
    simp only [Bool.and_eq_true] at h
    simp only [Bool.and_eq_true]
    exact h.1
  · cases h

theorem fixup_set_test_total {st : State} {a i : Nat} {P R M : List Nat} {x y : Nat}
    (hc : st.children a = P ++ (x :: y :: R) ++ M) (hP : P.length = i)
    (hx : ∃ e, find_entry st x = .ok e) (hy : ∃ e, find_entry st y = .ok e) :
    ∃ r, fixup_set_test st a i = .ok r := by
  obtain ⟨hsx, hsy⟩ := children_slots hc hP
  obtain ⟨e, he⟩ := hx
  obtain ⟨n, hn⟩ := hy
  unfold fixup_set_test
  rw [hsx, hsy, he, hn]
  simp only
  split
  · exact ⟨_, rfl⟩
  · exact ⟨_, rfl⟩

/-- The loop of `fixup_set` ends without an error when the slots it looks at
hold indices of directory entries. -/
theorem fixup_set_loop_total (a : Nat) : ∀ (k i : Nat) (st : State) (P X M : List Nat),
    st.children a = P ++ X ++ M → P.length = i → X.length = k + 1 →
    (∀ x ∈ X, ∃ e, find_entry st x = .ok e) →
    ∃ st2, fixup_set_loop a k i st = .ok st2 := by
  intro k
  induction k using Nat.strong_induction_on with
  | _ k ih =>
    intro i st P X M hc hP hX hf
    match k, X, hX with
    | 0, [x], _ => exact ⟨st, by simp only [fixup_set_loop]⟩
    | 1, [x, y], _ =>
      have hc2 : st.children a = P ++ (x :: y :: []) ++ M := hc
      obtain ⟨r, hr⟩ := fixup_set_test_total hc2 hP (hf x (by simp)) (hf y (by simp))
      simp only [fixup_set_loop, hr]
      cases r with
      | none => exact ⟨_, rfl⟩
      | some p => exact ⟨_, rfl⟩
    | k + 2, x :: y :: R, hX =>
      have hR : R.length = k + 1 := by simpa using hX
      obtain ⟨r, hr⟩ := fixup_set_test_total hc hP (hf x (by simp)) (hf y (by simp))
      simp only [fixup_set_loop, hr]
      rcases fixup_set_test_spec hc hP hr with ⟨hr2, _⟩ | ⟨hr2, _⟩
      · subst hr2
        simp only
        have hch := fixup_set_store_children hc hP
        have hnum : i + R.length + 2 = i + k + 3 := by omega
        rw [hnum] at hch
        have hch2 : (fixup_set_store st a (i + k + 3) i (x, y)).children a =
            P ++ R ++ ([x, y] ++ M) := by rw [hch]; simp
        refine ih k (by omega) i _ P R ([x, y] ++ M) hch2 hP hR ?_
        intro z hz
        unfold fixup_set_store
        rw [find_entry_store_entries]
        exact hf z (by simp [hz])
      · subst hr2
        simp only
        have hc3 : st.children a = (P ++ [x]) ++ (y :: R) ++ M := by rw [hc]; simp
        refine ih (k + 1) (by omega) (i + 1) st (P ++ [x]) (y :: R) M hc3
          (by simp [hP]) (by simp [hR]) ?_
        intro z hz
        exact hf z (List.mem_cons_of_mem _ hz)

/-- The function `fixup_set` returns when every child index of the SET is the
index of a directory entry. -/
theorem fixup_set_total {st : State} {a : Nat}
    (hn : (st.entry a).set.num_entries < 2 ^ 31) (hf : children_found st a) :
    ∃ st2, fixup_set st a = .ok st2 := by
  unfold fixup_set
  rw [toNat_pred_count hn]
  have hlen := children_length st a
  by_cases h0 : (st.entry a).set.num_entries = 0
  · rw [h0]
    exact ⟨st, by simp only [fixup_set_loop]⟩
  · exact fixup_set_loop_total a ((st.entry a).set.num_entries - 1) 0 st []
      (st.children a) [] (by simp) rfl (by rw [hlen]; omega) hf

/-- The function `fixup_set` on the records of `pairs_image`: on a SET with
two pairs to move, a second
`fixup_set` swaps the two pairs again. -/
theorem fixup_set_not_idempotent :
    ∃ st, validate_directory pairs_image = .ok st ∧
      ∃ st1, fixup_set st 0 = .ok st1 ∧ st1.children 0 = [6, 4, 5, 2, 3] ∧
        ∃ st2, fixup_set st1 0 = .ok st2 ∧ st2.children 0 = [6, 2, 3, 4, 5] ∧
          st2.children 0 ≠ st1.children 0 :=
  ⟨_, rfl, _, rfl, rfl, _, rfl, rfl, by decide⟩

/-- The function `fixup_set` on records that share no byte.  When at most one
child of a SET is a TEXT_LINE whose text
contains `-` (the SET has fewer than `2^31` children and each child index is
the index of a directory entry), `fixup_set` returns, a second `fixup_set`
returns too, and the child list after the second is the child list after the
first. -/
theorem fixup_set_idempotent_one_dash (st : State) (a : Nat)
    (hn : (st.entry a).set.num_entries < 2 ^ 31) (hf : children_found st a)
    (hd : (st.children a).countP (is_dash_text st) ≤ 1) :
    ∃ st1, fixup_set st a = .ok st1 ∧
      ∃ st2, fixup_set st1 a = .ok st2 ∧ st2.children a = st1.children a := by
  obtain ⟨st1, h1⟩ := fixup_set_total hn hf
  obtain ⟨⟨l, hl⟩, hc1⟩ := fixup_set_spec hn h1
  have hn1 : (st1.entry a).set.num_entries < 2 ^ 31 := by rw [hl, store_entries_num]; exact hn
  have hpair : is_fixup_pair st1 = is_fixup_pair st := by
    rw [hl]; exact is_fixup_pair_store_entries _ _ _
  have hf1 : children_found st1 a := by
    intro x hx
    rw [hc1] at hx
    have hx2 := (fixup_perm (is_fixup_pair st) (st.children a)).mem_iff.mp hx
    rw [hl, find_entry_store_entries]
    exact hf x hx2
  obtain ⟨st2, h2⟩ := fixup_set_total hn1 hf1
  refine ⟨st1, h1, st2, h2, ?_⟩
  rw [(fixup_set_spec hn1 h2).2, hpair, hc1]
  exact fixup_idem_pure (is_fixup_pair st) (is_dash_text st) (is_fixup_pair_dash st) _ hd

theorem fixup_set_idempotent_one_dash_witness :
    ((pairs_state.store_set_entries 0 [2, 3, 6, 5, 6]).entry 0).set.num_entries < 2 ^ 31 ∧
    children_found (pairs_state.store_set_entries 0 [2, 3, 6, 5, 6]) 0 ∧
    ((pairs_state.store_set_entries 0 [2, 3, 6, 5, 6]).children 0).countP
      (is_dash_text (pairs_state.store_set_entries 0 [2, 3, 6, 5, 6])) ≤ 1 ∧
    fixup_pairs (is_fixup_pair (pairs_state.store_set_entries 0 [2, 3, 6, 5, 6]))
      ((pairs_state.store_set_entries 0 [2, 3, 6, 5, 6]).children 0) = [(2, 3)] ∧
    ∃ st1, fixup_set (pairs_state.store_set_entries 0 [2, 3, 6, 5, 6]) 0 = .ok st1 ∧
      ∃ st2, fixup_set st1 0 = .ok st2 ∧ st2.children 0 = st1.children 0 :=
  have hf : children_found (pairs_state.store_set_entries 0 [2, 3, 6, 5, 6]) 0 := by
    intro x hx
    have hx2 : x ∈ [2, 3, 6, 5, 6] := hx
    simp only [List.mem_cons, List.mem_singleton, List.not_mem_nil, or_false] at hx2
    rcases hx2 with h | h | h | h | h <;> subst h <;> exact ⟨_, rfl⟩
  ⟨by decide, hf, by decide, by decide,
    fixup_set_idempotent_one_dash (pairs_state.store_set_entries 0 [2, 3, 6, 5, 6]) 0
      (by decide) hf (by decide)⟩

/-! ## Theorems: bounds of a set -/

theorem RunInv_init (b : bounds_t) (st : State) : RunInv b (RunState.init st) := by
  refine ⟨?_, ?_, ?_, ?_, ?_, ?_, ?_, ?_⟩
  · intro r hr; simp [RunState.init] at hr
  · intro _; rfl
  · intro sh h; exact absurd rfl h
  · rintro ⟨r1, hr1, _⟩; simp [RunState.init] at hr1
  · rfl
  · exact Or.inl rfl
  · intro u hu; simp [RunState.init] at hu
  · rintro t ⟨pre, post, h, _⟩ _
    simp [RunState.init] at h

theorem first_min_area_snoc {ts : List bounds_t} {new t : bounds_t}
    (h : first_min_area (ts ++ [new]) t) :
    (t = new ∧ ∀ u ∈ ts, bounds_area new < bounds_area u) ∨
    (first_min_area ts t ∧ bounds_area t ≤ bounds_area new) := by
  obtain ⟨pre, post, heq, hpre, hpost⟩ := h
  rcases List.eq_nil_or_concat post with hp | ⟨post2, z, hp⟩
  · subst hp
    have h2 : ts ++ [new] = pre ++ [t] := heq
    obtain ⟨h3, h4⟩ := List.append_inj' h2 rfl
    left
    have h5 : new = t := by simpa using h4
    subst h5
    subst h3
    exact ⟨rfl, hpre⟩
  · subst hp
    have h2 : ts ++ [new] = (pre ++ t :: post2) ++ [z] := by rw [heq]; simp
    obtain ⟨h3, h4⟩ := List.append_inj' h2 rfl
    have h5 : new = z := by simpa using h4
    subst h5
    right
    refine ⟨⟨pre, post2, h3, hpre, ?_⟩, ?_⟩
    · intro u hu; exact hpost u (by simp [hu])
    · exact hpost new (by simp)

/-- One run that passes `if (!shape) continue;` keeps `RunInv`. -/
theorem RunInv_step (b : bounds_t) (s : RunState) (h : RunInv b s) (shape : Int) (eb : bounds_t)
    (hshape : shape ≠ 0) (st2 : State) (tl : Bool) :
    RunInv b
      { st := st2
        min_b := if bounds_area (union_bounds b eb) < s.min_area then union_bounds b eb
          else s.min_b
        max_b := union_bounds s.max_b (union_bounds b eb)
        min_area := if bounds_area (union_bounds b eb) < s.min_area then
          bounds_area (union_bounds b eb) else s.min_area
        last_shape := if s.last_shape = 0 then shape
          else if s.last_shape ≠ shape then -1 else s.last_shape
        textline := tl
        runs := s.runs ++ [{ shape := shape, eb := eb }] } := by
  obtain ⟨h1, h2, h3, h4, h5, h6, h7, h8⟩ := h
  have hmap : (s.runs ++ [({ shape := shape, eb := eb } : SetRun)]).map (run_rect b) =
      s.runs.map (run_rect b) ++ [union_bounds b eb] := by
    simp [run_rect]
  refine ⟨?_, ?_, ?_, ?_, ?_, ?_, ?_, ?_⟩
  · intro r hr
    rcases List.mem_append.mp hr with hr | hr
    · exact h1 r hr
    · simp only [List.mem_singleton] at hr
      subst hr; exact hshape
  · intro hnil; simp at hnil
  · intro sh _ hall
    have hnew : shape = sh := hall ({ shape := shape, eb := eb } : SetRun) (by simp)
    by_cases hr : s.runs = []
    · simp only [h2 hr, if_true, hnew]
    · have hl : s.last_shape = sh := h3 sh hr (fun r hr2 => hall r (by simp [hr2]))
      have hne : s.last_shape ≠ 0 := by rw [hl, ← hnew]; exact hshape
      simp only [if_neg hne]
      rw [hl, hnew]
      simp
  · rintro ⟨r1, hr1, r2, hr2, hne⟩
    have hold : (∃ r1 ∈ s.runs, ∃ r2 ∈ s.runs, r1.shape ≠ r2.shape) ∨
        ∃ r1 ∈ s.runs, r1.shape ≠ shape := by
      rcases List.mem_append.mp hr1 with a1 | a1 <;> rcases List.mem_append.mp hr2 with a2 | a2
      · exact Or.inl ⟨r1, a1, r2, a2, hne⟩
      · simp only [List.mem_singleton] at a2
        subst a2
        exact Or.inr ⟨r1, a1, hne⟩
      · simp only [List.mem_singleton] at a1
        subst a1
        exact Or.inr ⟨r2, a2, fun h => hne h.symm⟩
      · simp only [List.mem_singleton] at a1 a2
        subst a1; subst a2
        exact absurd rfl hne
    have key : s.last_shape ≠ 0 ∧ (s.last_shape = -1 ∨ s.last_shape ≠ shape) := by
      rcases hold with hd | ⟨r0, hr0, hne0⟩
      · have := h4 hd
        rw [this]
        exact ⟨by decide, Or.inl rfl⟩
      · by_cases hall : ∀ x ∈ s.runs, x.shape = r0.shape
        · have hl := h3 r0.shape (List.ne_nil_of_mem hr0) hall
          rw [hl]
          exact ⟨h1 r0 hr0, Or.inr hne0⟩
        · push_neg at hall
          obtain ⟨x, hx, hxne⟩ := hall
          have := h4 ⟨x, hx, r0, hr0, hxne⟩
          rw [this]
          exact ⟨by decide, Or.inl rfl⟩
    obtain ⟨k1, k2⟩ := key
    simp only [if_neg k1]
    rcases k2 with k2 | k2
    · rw [k2]; split <;> rfl
    · rw [if_pos k2]
  · show union_bounds s.max_b (union_bounds b eb) = union_all _
    rw [hmap, h5]
    simp only [union_all, List.foldl_append, List.foldl_cons, List.foldl_nil]
  · rw [hmap]
    by_cases hlt : bounds_area (union_bounds b eb) < s.min_area
    · simp only [if_pos hlt]
      exact Or.inr ⟨_, by simp, rfl⟩
    · simp only [if_neg hlt]
      rcases h6 with h6 | ⟨u, hu, h6⟩
      · exact Or.inl h6
      · exact Or.inr ⟨u, by simp [hu], h6⟩
  · rw [hmap]
    intro u hu
    by_cases hlt : bounds_area (union_bounds b eb) < s.min_area
    · simp only [if_pos hlt]
      rcases List.mem_append.mp hu with hu | hu
      · have := h7 u hu; omega
      · simp only [List.mem_singleton] at hu
        subst hu; exact le_refl _
    · simp only [if_neg hlt]
      rcases List.mem_append.mp hu with hu | hu
      · exact h7 u hu
      · simp only [List.mem_singleton] at hu
        subst hu; omega
  · rw [hmap]
    intro t ht harea
    rcases first_min_area_snoc ht with ⟨heq, hless⟩ | ⟨hfirst, hle⟩
    · subst heq
      have hlt : bounds_area (union_bounds b eb) < s.min_area := by
        rcases h6 with h6 | ⟨u, hu, h6⟩
        · rw [h6]; exact harea
        · rw [h6]; exact hless u hu
      simp only [if_pos hlt]
    · have hmin := h8 t hfirst harea
      obtain ⟨pre, post, hts, _, _⟩ := hfirst
      have hmem : t ∈ s.runs.map (run_rect b) := by rw [hts]; simp
      have := h7 t hmem
      have hnlt : ¬ bounds_area (union_bounds b eb) < s.min_area := by omega
      simp only [if_neg hnlt]
      exact hmin

/-- The outer loop of `calc_set_bounds_r` keeps `RunInv`. -/
theorem calc_set_runs_inv (self : State → bounds_t → Nat → Except Err (State × bounds_t))
    (g : Raster) (b : bounds_t) (a : Nat) : ∀ (l : List Nat) (skip : Nat) (s s2 : RunState),
    RunInv b s → calc_set_runs self g b a l skip s = .ok s2 → RunInv b s2 := by
  intro l
  induction l with
  | nil =>
    intro skip s s2 hs h
    simp only [calc_set_runs] at h
    injection h with h
    subst h
    exact hs
  | cons i rest ih =>
    intro skip s s2 hs h
    cases skip with
    | succ k =>
      simp only [calc_set_runs] at h
      exact ih k s s2 hs h
    | zero =>
      simp only [calc_set_runs] at h
      split at h
      · cases h
      · next sc hsc =>
        split at h
        · exact ih _ { s with textline := sc.textline } s2 hs h
        · next hshape =>
          split at h
          · cases h
          · next r hr =>
            exact ih _ _ s2 (RunInv_step b s hs sc.shape r.2 hshape r.1 sc.textline) h

/-- The rule by which `calc_set_bounds_r` picks `*b` for a SET that is not a
pure container, given the runs `s.runs` that its outer loop has found. -/
theorem calc_set_bounds_r_pick (g : Raster) (fuel : Nat) (st : State) (b : bounds_t) (a : Nat)
    (st1 : State) (s : RunState)
    (hk : (st.entry a).set.unk7 &&& 0x7FFFFFFF ≠ 0x79) (hf : fixup_set st a = .ok st1)
    (hr : calc_set_runs (calc_set_bounds_r g fuel) g b a
      (List.range (st1.entry a).set.num_entries) 0 (RunState.init st1) = .ok s) :
    (s.last_shape ≠ -1 → bounds_empty s.min_b = false →
      calc_set_bounds_r g (fuel + 1) st b a = .ok (s.st, s.min_b)) ∧
    (s.last_shape = -1 → bounds_empty s.max_b = false →
      calc_set_bounds_r g (fuel + 1) st b a = .ok (s.st, s.max_b)) ∧
    (s.last_shape ≠ -1 → bounds_empty s.min_b = true →
      calc_set_bounds_r g (fuel + 1) st b a =
        calc_set_children (calc_set_bounds_r g fuel) a
          (List.range (s.st.entry a).set.num_entries) s.st b) := by
  refine ⟨?_, ?_, ?_⟩
  · intro h1 h2
    simp only [calc_set_bounds_r, if_neg hk, hf, hr, if_neg h1, h2, if_true]
  · intro h1 h2
    simp only [calc_set_bounds_r, if_neg hk, hf, hr, h1, h2, if_true]
  · intro h1 h2
    simp only [calc_set_bounds_r, if_neg hk, hf, hr, if_neg h1, h2]
    simp

/-- The function `calc_set_bounds_r` on the records of `thin_image`: the one
run of the SET has a rectangle `t` that is
not empty, of area `INT_MAX`; `area < min_area` is false for it, `min_b` stays
empty and `*b` is left as the caller had it. -/
theorem calc_set_bounds_r_skips_int_max :
    ∃ st, validate_directory thin_image = .ok st ∧
      (st.entry 0).set.unk7 &&& 0x7FFFFFFF ≠ 0x79 ∧
      ∃ st1, fixup_set st 0 = .ok st1 ∧
      ∃ s, calc_set_runs (calc_set_bounds_r thin_raster 2) thin_raster EMPTY_BOUNDS 0
          (List.range (st1.entry 0).set.num_entries) 0 (RunState.init st1) = .ok s ∧
        s.runs = [{ shape := 256,
                    eb := { min_x := 0, min_y := -126, max_x := 0, max_y := 2147483520 } }] ∧
        first_min_area (s.runs.map (run_rect EMPTY_BOUNDS))
          { min_x := 0, min_y := -126, max_x := 0, max_y := 2147483520 } ∧
        bounds_empty { min_x := 0, min_y := -126, max_x := 0, max_y := 2147483520 } = false ∧
        bounds_area { min_x := 0, min_y := -126, max_x := 0, max_y := 2147483520 } = INT_MAX ∧
        calc_set_bounds_r thin_raster 3 st EMPTY_BOUNDS 0 = .ok (s.st, EMPTY_BOUNDS) :=
  ⟨_, rfl, by decide, _, rfl, _, rfl, rfl, ⟨[], [], rfl, by simp, by simp⟩, by decide, by decide,
    rfl⟩

/-! ## Theorems: what the set engine stores -/

theorem int_of_u32_le (n : Nat) : int_of_u32 n ≤ (n : Int) := by
  unfold int_of_u32
  have h1 : n % 2 ^ 32 ≤ n := Nat.mod_le _ _
  split <;> omega

/-- The function `fixup_set` on any SET: only the array of the SET changes;
the slots `X` that the loop looks at are rearranged, the others stay. -/
theorem fixup_set_frame {st : State} {a : Nat} {st2 : State} (h : fixup_set st a = .ok st2) :
    ∃ X M, st.children a = X ++ M ∧ (∃ l, st2 = st.store_set_entries a l) ∧
      st2.children a = fixup_kept (is_fixup_pair st) X ++
        pairs_flat (fixup_pairs (is_fixup_pair st) X).reverse ++ M := by
  unfold fixup_set at h
  have hlen := children_length st a
  have hle := int_of_u32_le (st.entry a).set.num_entries
  by_cases hk : (int_of_u32 (st.entry a).set.num_entries - 1).toNat = 0
  · rw [hk] at h
    simp only [fixup_set_loop] at h
    injection h with h
    subst h
    refine ⟨[], st.children a, rfl, ⟨_, (store_entries_self st a).symm⟩, ?_⟩
    simp [fixup_kept, fixup_pairs, pairs_flat]
  · have hk2 : (int_of_u32 (st.entry a).set.num_entries - 1).toNat + 1 ≤
        (st.children a).length := by rw [hlen]; omega
    generalize (int_of_u32 (st.entry a).set.num_entries - 1).toNat = K at h hk2
    have := fixup_set_loop_spec a K 0 st st2 [] ((st.children a).take (K + 1))
      ((st.children a).drop (K + 1)) (by simp) rfl (by rw [List.length_take]; omega) h
    refine ⟨(st.children a).take (K + 1), (st.children a).drop (K + 1),
      (List.take_append_drop _ _).symm, this.1, ?_⟩
    simpa using this.2

theorem mem_pairs_flat : ∀ (ps : List (Nat × Nat)) (z : Nat),
    z ∈ pairs_flat ps → ∃ p ∈ ps, z = p.1 ∨ z = p.2 := by
  intro ps
  induction ps with
  | nil => intro z hz; simp [pairs_flat] at hz
  | cons p ps ih =>
    intro z hz
    simp only [pairs_flat, List.mem_cons] at hz
    rcases hz with hz | hz | hz
    · exact ⟨p, by simp, Or.inl hz⟩
    · exact ⟨p, by simp, Or.inr hz⟩
    · obtain ⟨q, hq, hz2⟩ := ih z hz
      exact ⟨q, by simp [hq], hz2⟩

theorem fixup_kept_filter (pair : Nat → Nat → Bool) (N : Nat → Bool)
    (hN : ∀ x y, pair x y = true → N x = false ∧ N y = false) : ∀ (n : Nat) (l : List Nat),
    l.length ≤ n → (fixup_kept pair l).filter N = l.filter N := by
  intro n
  induction n with
  | zero =>
    intro l hl
    have : l = [] := List.length_eq_zero.mp (Nat.le_zero.mp hl)
    subst this
    simp [fixup_kept]
  | succ n ih =>
    intro l hl
    match l with
    | [] => simp [fixup_kept]
    | [x] => simp [fixup_kept]
    | x :: y :: rest =>
      simp only [List.length_cons] at hl
      by_cases hp : pair x y = true
      · obtain ⟨hx, hy⟩ := hN x y hp
        simp only [fixup_kept, hp, if_true]
        rw [ih rest (by omega)]
        simp [List.filter_cons, hx, hy]
      · simp only [fixup_kept, hp, Bool.false_eq_true, if_false]
        have h2 := ih (y :: rest) (by simp; omega)
        simp only [List.filter_cons] at h2
        simp only [List.filter_cons, h2]

/-- The rearrangement of `fixup_set` keeps the children that a predicate `N`
selects, in their order, when no child of a moved pair satisfies `N`. -/
theorem fixup_filter (pair : Nat → Nat → Bool) (N : Nat → Bool)
    (hN : ∀ x y, pair x y = true → N x = false ∧ N y = false) (l : List Nat) :
    (fixup_kept pair l ++ pairs_flat (fixup_pairs pair l).reverse).filter N = l.filter N := by
  rw [List.filter_append, fixup_kept_filter pair N hN l.length l (Nat.le_refl _)]
  have : (pairs_flat (fixup_pairs pair l).reverse).filter N = [] := by
    rw [List.filter_eq_nil_iff]
    intro z hz
    obtain ⟨p, hp, hz2⟩ := mem_pairs_flat _ z hz
    have hp2 := fixup_pairs_are_pairs pair l.length l (Nat.le_refl _) p (List.mem_reverse.mp hp)
    obtain ⟨h1, h2⟩ := hN p.1 p.2 hp2
    rcases hz2 with hz2 | hz2 <;> rw [hz2] <;> simp [h1, h2]
  rw [this, List.append_nil]

theorem is_fixup_pair_not_name (st : State) (x y : Nat) (h : is_fixup_pair st x y = true) :
    is_name_text st x = false ∧ is_name_text st y = false := by
  unfold is_fixup_pair at h
  unfold is_name_text
  split at h
  · next e n he hn =>
    rw [he, hn]
    simp only [Bool.and_eq_true, decide_eq_true_eq] at h
    obtain ⟨⟨_, h2⟩, h3⟩ := h
    constructor
    · simp [h2]
    · simp [h3]
  · cases h

theorem store_unk7_entry (st : State) (a v x : Nat) :
    (st.store_set_unk7 a v).entry x =
      if x = a then { (st.entry a) with set := { (st.entry a).set with unk7 := v } }
      else st.entry x := by
  unfold State.store_set_unk7 State.entry
  by_cases h : x = a
  · subst h; simp
  · simp [h]

theorem store_unk7_dir (st : State) (a v : Nat) : (st.store_set_unk7 a v).dir = st.dir := rfl

theorem with_set_self (e : SGDEntry) : e.with_set e.set.unk7 e.set.entries = e := rfl

/-- What a sequence of stores of the set engine leaves as it was: the
directory, the tables, and every field of every entry but `set.unk7` (changed
only by `|= SET_DRAWN`, on SETs in `RD`) and `set.entries` (changed only on
SETs in `RF`). -/
theorem Mut_entry {RF RD : Nat → Prop} {st st2 : State} (h : Mut RF RD st st2) :
    st2.dir = st.dir ∧ st2.img.file_size = st.img.file_size ∧ st2.img.table = st.img.table ∧
    st2.img.directory = st.img.directory ∧
    ∀ x, ∃ v l, st2.entry x = (st.entry x).with_set v l ∧
      (v = (st.entry x).set.unk7 ∨ (RD x ∧ v = (st.entry x).set.unk7 ||| SET_DRAWN)) ∧
      (¬ RF x → l = (st.entry x).set.entries) := by
  induction h with
  | refl =>
    exact ⟨rfl, rfl, rfl, rfl, fun x => ⟨_, _, (with_set_self _).symm, Or.inl rfl, fun _ => rfl⟩⟩
  | @fix st1 st2 a _ ha hf ih =>
    obtain ⟨h1, h2, h3, h4, h5⟩ := ih
    obtain ⟨_, _, _, ⟨l, hl⟩, _⟩ := fixup_set_frame hf
    subst hl
    refine ⟨h1, h2, h3, h4, ?_⟩
    intro x
    obtain ⟨v, l1, he, hv, hl1⟩ := h5 x
    rw [store_entries_entry]
    by_cases hx : x = a
    · subst hx
      rw [if_pos rfl, he]
      exact ⟨v, l, rfl, hv, fun hn => absurd ha hn⟩
    · rw [if_neg hx]
      exact ⟨v, l1, he, hv, hl1⟩
  | @drawn st1 e _ he ih =>
    obtain ⟨h1, h2, h3, h4, h5⟩ := ih
    refine ⟨h1, h2, h3, h4, ?_⟩
    intro x
    obtain ⟨v, l1, hx1, hv, hl1⟩ := h5 x
    rw [store_unk7_entry]
    by_cases hx : x = e
    · subst hx
      rw [if_pos rfl, hx1]
      refine ⟨v ||| SET_DRAWN, l1, rfl, ?_, hl1⟩
      right
      refine ⟨he, ?_⟩
      rcases hv with hv | ⟨_, hv⟩
      · rw [hv]
      · rw [hv, Nat.lor_assoc]
        have hd : SET_DRAWN ||| SET_DRAWN = SET_DRAWN := by decide
        rw [hd]
    · rw [if_neg hx]
      exact ⟨v, l1, hx1, hv, hl1⟩

theorem Mut_dir {RF RD : Nat → Prop} {st st2 : State} (h : Mut RF RD st st2) :
    st2.dir = st.dir := (Mut_entry h).1

theorem Mut_hdr {RF RD : Nat → Prop} {st st2 : State} (h : Mut RF RD st st2) (x : Nat) :
    (st2.entry x).hdr = (st.entry x).hdr := by
  obtain ⟨v, l, he, _⟩ := (Mut_entry h).2.2.2.2 x
  rw [he]; rfl

theorem Mut_textline {RF RD : Nat → Prop} {st st2 : State} (h : Mut RF RD st st2) (x : Nat) :
    (st2.entry x).textline = (st.entry x).textline := by
  obtain ⟨v, l, he, _⟩ := (Mut_entry h).2.2.2.2 x
  rw [he]; rfl

theorem Mut_num {RF RD : Nat → Prop} {st st2 : State} (h : Mut RF RD st st2) (x : Nat) :
    (st2.entry x).set.num_entries = (st.entry x).set.num_entries := by
  obtain ⟨v, l, he, _⟩ := (Mut_entry h).2.2.2.2 x
  rw [he]; rfl

/-- The fields of an entry that no store of the set engine touches. -/
theorem Mut_fields {RF RD : Nat → Prop} {st st2 : State} (h : Mut RF RD st st2) (x : Nat) :
    (st2.entry x).hdr = (st.entry x).hdr ∧ (st2.entry x).polyline = (st.entry x).polyline ∧
    (st2.entry x).elliptical_arc = (st.entry x).elliptical_arc ∧
    (st2.entry x).lasso = (st.entry x).lasso ∧ (st2.entry x).textline = (st.entry x).textline ∧
    (st2.entry x).simple_area = (st.entry x).simple_area ∧
    (st2.entry x).point = (st.entry x).point ∧
    (st2.entry x).set.num_entries = (st.entry x).set.num_entries := by
  obtain ⟨v, l, he, _⟩ := (Mut_entry h).2.2.2.2 x
  rw [he]
  exact ⟨rfl, rfl, rfl, rfl, rfl, rfl, rfl, rfl⟩

theorem Mut_unk7 {RF RD : Nat → Prop} {st st2 : State} (h : Mut RF RD st st2) (x : Nat) :
    (st2.entry x).set.unk7 = (st.entry x).set.unk7 ∨
    (RD x ∧ (st2.entry x).set.unk7 = (st.entry x).set.unk7 ||| SET_DRAWN) := by
  obtain ⟨v, l, he, hv, _⟩ := (Mut_entry h).2.2.2.2 x
  rw [he]
  exact hv

/-- An entry outside `RF` and `RD` is left as it was. -/
theorem Mut_other {RF RD : Nat → Prop} {st st2 : State} (h : Mut RF RD st st2) (x : Nat)
    (hf : ¬ RF x) (hd : ¬ RD x) : st2.entry x = st.entry x := by
  obtain ⟨v, l, he, hv, hl⟩ := (Mut_entry h).2.2.2.2 x
  rw [he, hl hf]
  rcases hv with hv | ⟨hv, _⟩
  · rw [hv]; rfl
  · exact absurd hv hd

theorem Mut_find_entry {RF RD : Nat → Prop} {st st2 : State} (h : Mut RF RD st st2) (idx : Nat) :
    find_entry st2 idx = find_entry st idx := by
  unfold find_entry State.dir_addr
  simp only [Mut_dir h, Mut_hdr h]

theorem Mut_is_fixup_pair {RF RD : Nat → Prop} {st st2 : State} (h : Mut RF RD st st2) :
    is_fixup_pair st2 = is_fixup_pair st := by
  funext x y
  unfold is_fixup_pair
  simp only [Mut_find_entry h, Mut_hdr h, Mut_textline h]

theorem Mut_is_name_text {RF RD : Nat → Prop} {st st2 : State} (h : Mut RF RD st st2) :
    is_name_text st2 = is_name_text st := by
  funext x
  unfold is_name_text
  simp only [Mut_find_entry h, Mut_hdr h, Mut_textline h]

theorem children_store_unk7 (st : State) (a v x : Nat) :
    (st.store_set_unk7 a v).children x = st.children x := by
  unfold State.children
  rw [store_unk7_entry]
  split
  · next hx => subst hx; rfl
  · rfl

/-- The child list of every SET after stores of the set engine: a permutation
of the child list before, with the TEXT_LINE children without `-` in the
order they had. -/
theorem Mut_children {RF RD : Nat → Prop} {st st2 : State} (h : Mut RF RD st st2) (x : Nat) :
    (st2.children x).Perm (st.children x) ∧
    (st2.children x).filter (is_name_text st) = (st.children x).filter (is_name_text st) := by
  induction h with
  | refl => exact ⟨List.Perm.refl _, rfl⟩
  | @fix st1 st2 a h1 _ hf ih =>
    obtain ⟨X, M, hc, ⟨l, hl⟩, hc2⟩ := fixup_set_frame hf
    by_cases hx : x = a
    · subst hx
      rw [hc2]
      constructor
      · refine List.Perm.trans ?_ ih.1
        rw [hc]
        exact (fixup_perm _ X).append_right M
      · rw [← ih.2, hc, List.filter_append, List.filter_append X M]
        rw [← Mut_is_name_text h1, fixup_filter _ _ (is_fixup_pair_not_name st1) X]
    · rw [hl, children_store_entries_other _ _ _ _ hx]
      exact ih
  | @drawn st1 e _ _ ih =>
    rw [children_store_unk7]
    exact ih

theorem Mut_trans {RF RD : Nat → Prop} {st st1 st2 : State} (h1 : Mut RF RD st st1)
    (h2 : Mut RF RD st1 st2) : Mut RF RD st st2 := by
  induction h2 with
  | refl => exact h1
  | fix a _ ha hf ih => exact Mut.fix a ih ha hf
  | drawn e _ he ih => exact Mut.drawn e ih he

theorem Mut_mono {RF RD RF2 RD2 : Nat → Prop} {st st2 : State} (h : Mut RF RD st st2)
    (hF : ∀ x, RF x → RF2 x) (hD : ∀ x, RD x → RD2 x) : Mut RF2 RD2 st st2 := by
  induction h with
  | refl => exact Mut.refl _
  | fix a _ ha hf ih => exact Mut.fix a ih (hF a ha) hf
  | drawn e _ he ih => exact Mut.drawn e ih (hD e he)

theorem Mut_calc_call {RF RD : Nat → Prop} {st st2 : State} (h : Mut RF RD st st2) (a b : Nat) :
    calc_call st2 a b ↔ calc_call st a b := by
  unfold calc_call
  simp only [Mut_find_entry h, Mut_hdr h, (Mut_children h a).1.mem_iff]

theorem Mut_reach {RF RD : Nat → Prop} {st st2 : State} (h : Mut RF RD st st2) (a b : Nat) :
    Relation.ReflTransGen (calc_call st2) a b ↔ Relation.ReflTransGen (calc_call st) a b := by
  have : calc_call st2 = calc_call st := by
    funext x y
    exact propext (Mut_calc_call h x y)
  rw [this]

theorem drawn_or_and (v : Nat) : (v ||| SET_DRAWN) &&& 0x7FFFFFFF = v &&& 0x7FFFFFFF := by
  apply Nat.eq_of_testBit_eq
  intro i
  have h1 : (0x7FFFFFFF : Nat) = 2 ^ 31 - 1 := by decide
  have h2 : SET_DRAWN = 2 ^ 31 := by decide
  rw [h1, h2]
  simp only [Nat.testBit_and, Nat.testBit_or, Nat.testBit_two_pow_sub_one, Nat.testBit_two_pow]
  by_cases hi : i < 31
  · have : ¬ 31 = i := by omega
    simp [hi, this]
  · simp [hi]

theorem drawn_or_set (v : Nat) : (v ||| SET_DRAWN) &&& SET_DRAWN ≠ 0 := by
  intro h
  have h2 : SET_DRAWN = 2 ^ 31 := by decide
  rw [h2] at h
  have h3 := congrArg (fun n => Nat.testBit n 31) h
  simp only [Nat.testBit_and, Nat.testBit_or, Nat.testBit_two_pow, Nat.zero_testBit,
    decide_True, Bool.or_true, Bool.and_self] at h3
  cases h3

theorem drawn_or_keep (v : Nat) (h : v &&& SET_DRAWN ≠ 0) : (v ||| SET_DRAWN) = v := by
  have h2 : SET_DRAWN = 2 ^ 31 := by decide
  rw [h2] at h ⊢
  have hb : Nat.testBit v 31 = true := by
    by_contra hb
    apply h
    apply Nat.eq_of_testBit_eq
    intro i
    simp only [Nat.testBit_and, Nat.testBit_two_pow, Nat.zero_testBit]
    by_cases hi : 31 = i
    · subst hi; simp [hb]
    · simp [hi]
  apply Nat.eq_of_testBit_eq
  intro i
  simp only [Nat.testBit_or, Nat.testBit_two_pow]
  by_cases hi : 31 = i
  · subst hi; simp [hb]
  · simp [hi]

/-- The stores of the set engine change of `set.unk7` the DRAWN bit only, and
clear no DRAWN bit. -/
theorem Mut_drawn {RF RD : Nat → Prop} {st st2 : State} (h : Mut RF RD st st2) (x : Nat) :
    (st2.entry x).set.unk7 &&& 0x7FFFFFFF = (st.entry x).set.unk7 &&& 0x7FFFFFFF ∧
    ((st.entry x).set.unk7 &&& SET_DRAWN ≠ 0 → (st2.entry x).set.unk7 &&& SET_DRAWN ≠ 0) := by
  rcases Mut_unk7 h x with hv | ⟨_, hv⟩
  · rw [hv]; exact ⟨rfl, id⟩
  · rw [hv]
    exact ⟨drawn_or_and _, fun _ => drawn_or_set _⟩

/-! ## Theorems: the frame of `calc_set_bounds_r` -/

theorem slot_mem_children (st : State) (a j : Nat) (hj : j < (st.entry a).set.num_entries) :
    (st.entry a).set.entries.getD j 0 ∈ st.children a := by
  unfold State.children
  exact List.mem_map.mpr ⟨j, List.mem_range.mpr hj, rfl⟩

/-- A call made by a loop of `calc_set_bounds_r` after some stores is a call
of the SET in the buffer before the stores. -/
theorem calc_call_of_slot {RF RD : Nat → Prop} {st0 st : State} (h : Mut RF RD st0 st)
    {a j e : Nat} (hj : j < (st0.entry a).set.num_entries)
    (he : find_entry st ((st.entry a).set.entries.getD j 0) = .ok e)
    (ht : (st.entry e).hdr.type = SGD_SET) : calc_call st0 a e := by
  apply (Mut_calc_call h a e).mp
  exact ⟨_, slot_mem_children st a j (by rw [Mut_num h]; exact hj), he, ht⟩

theorem calc_set_children_frame (self : State → bounds_t → Nat → Except Err (State × bounds_t))
    (hself : ∀ st b e r, self st b e = .ok r →
      Mut (Relation.ReflTransGen (calc_call st) e) (fun _ => False) st r.1)
    (a : Nat) (R : Nat → Prop) (st0 : State)
    (hR : ∀ c y, calc_call st0 a c → Relation.ReflTransGen (calc_call st0) c y → R y) :
    ∀ (l : List Nat) (st : State) (b : bounds_t) (r : State × bounds_t),
    (∀ j ∈ l, j < (st0.entry a).set.num_entries) → Mut R (fun _ => False) st0 st →
    calc_set_children self a l st b = .ok r → Mut R (fun _ => False) st0 r.1 := by
  intro l
  induction l with
  | nil =>
    intro st b r _ hm h
    simp only [calc_set_children] at h
    injection h with h
    subst h
    exact hm
  | cons j rest ih =>
    intro st b r hl hm h
    have hrest : ∀ k ∈ rest, k < (st0.entry a).set.num_entries :=
      fun k hk => hl k (List.mem_cons_of_mem _ hk)
    simp only [calc_set_children] at h
    split at h
    · cases h
    · next e he =>
      split at h
      · next ht =>
        split at h
        · cases h
        · next r1 hr1 =>
          have hcall := calc_call_of_slot hm (hl j (List.mem_cons_self _ _)) he ht
          have h1 := hself st b e r1 hr1
          have h2 : Mut R (fun _ => False) st r1.1 :=
            Mut_mono h1 (fun y hy => hR e y hcall ((Mut_reach hm e y).mp hy)) (fun _ hf => hf)
          exact ih r1.1 r1.2 r hrest (Mut_trans hm h2) h
      · exact ih st b r hrest hm h

theorem calc_set_scan_count (st : State) (g : Raster) (a : Nat) :
    ∀ (l : List Nat) (s sc : ScanState), calc_set_scan st g a l s = .ok sc →
    sc.count ≤ s.count + l.length := by
  intro l
  induction l with
  | nil =>
    intro s sc h
    simp only [calc_set_scan] at h
    injection h with h
    subst h
    simp
  | cons i rest ih =>
    intro s sc h
    simp only [calc_set_scan] at h
    split at h
    · cases h
    · split at h
      · split at h
        · injection h with h
          subst h
          simp
        · have := ih _ _ h
          simp only [List.length_cons] at this ⊢
          omega
      · split at h
        · cases h
        · split at h
          · cases h
          · have := ih _ _ h
            simp only [List.length_cons] at this ⊢
            omega

theorem calc_set_runs_frame (self : State → bounds_t → Nat → Except Err (State × bounds_t))
    (hself : ∀ st b e r, self st b e = .ok r →
      Mut (Relation.ReflTransGen (calc_call st) e) (fun _ => False) st r.1)
    (g : Raster) (b : bounds_t) (a : Nat) (R : Nat → Prop) (st0 : State)
    (hR : ∀ c y, calc_call st0 a c → Relation.ReflTransGen (calc_call st0) c y → R y) :
    ∀ (m i skip : Nat) (s s2 : RunState), i + m ≤ (st0.entry a).set.num_entries →
    Mut R (fun _ => False) st0 s.st →
    calc_set_runs self g b a (List.range' i m) skip s = .ok s2 →
    Mut R (fun _ => False) st0 s2.st := by
  intro m
  induction m with
  | zero =>
    intro i skip s s2 _ hm h
    simp only [List.range'_zero, calc_set_runs] at h
    injection h with h
    subst h
    exact hm
  | succ m ih =>
    intro i skip s s2 hi hm h
    rw [List.range'_succ] at h
    cases skip with
    | succ k =>
      simp only [calc_set_runs] at h
      exact ih (i + 1) k s s2 (by omega) hm h
    | zero =>
      simp only [calc_set_runs] at h
      split at h
      · cases h
      · next sc hsc =>
        have hcount := calc_set_scan_count _ _ _ _ _ _ hsc
        simp only [List.length_cons, List.length_range', Nat.zero_add] at hcount
        split at h
        · exact ih (i + 1) _ { s with textline := sc.textline } s2 (by omega) hm h
        · split at h
          · cases h
          · next r hr =>
            have h1 := calc_set_children_frame self hself a R st0 hR _ s.st sc.eb r
              (by
                intro j hj
                rw [List.mem_range'_1] at hj
                omega) hm hr
            exact ih (i + 1) _ _ s2 (by omega) h1 h

/-- The stores of `calc_set_bounds_r` for the SET at `x`: calls of `fixup_set`
on `x` and on SETs that the calls of `x` reach; no store to `set.unk7`. -/
theorem calc_set_bounds_r_frame (g : Raster) : ∀ (fuel : Nat) (st : State) (b : bounds_t)
    (x : Nat) (r : State × bounds_t), calc_set_bounds_r g fuel st b x = .ok r →
    Mut (Relation.ReflTransGen (calc_call st) x) (fun _ => False) st r.1 := by
  intro fuel
  induction fuel with
  | zero =>
    intro st b x r h
    simp only [calc_set_bounds_r] at h
    cases h
  | succ fuel ih =>
    intro st b x r h
    have hR : ∀ c y, calc_call st x c → Relation.ReflTransGen (calc_call st) c y →
        Relation.ReflTransGen (calc_call st) x y :=
      fun c y h1 h2 => Relation.ReflTransGen.head h1 h2
    simp only [calc_set_bounds_r] at h
    split at h
    · exact calc_set_children_frame _ ih x _ st hR _ st b r
        (fun j hj => List.mem_range.mp hj) (Mut.refl _) h
    · split at h
      · cases h
      · next st1 hf =>
        have hm1 : Mut (Relation.ReflTransGen (calc_call st) x) (fun _ => False) st st1 :=
          Mut.fix x (Mut.refl _) Relation.ReflTransGen.refl hf
        split at h
        · cases h
        · next s hs =>
          rw [List.range_eq_range'] at hs
          have hm2 := calc_set_runs_frame _ ih g b x _ st hR _ 0 0 _ s
            (by rw [Mut_num hm1]; omega) hm1 hs
          have hfin : ∀ r2, calc_set_children (calc_set_bounds_r g fuel) x
              (List.range (s.st.entry x).set.num_entries) s.st b = .ok r2 →
              Mut (Relation.ReflTransGen (calc_call st) x) (fun _ => False) st r2.1 := by
            intro r2 h2
            exact calc_set_children_frame _ ih x _ st hR _ s.st b r2
              (fun j hj => by rw [← Mut_num hm2]; exact List.mem_range.mp hj) hm2 h2
          split at h
          · split at h
            · injection h with h
              subst h
              exact hm2
            · exact hfin r h
          · split at h
            · injection h with h
              subst h
              exact hm2
            · exact hfin r h

/-! ## Theorems: what the bounds read -/

theorem sg_find_entry {st st2 : State} (h : same_geometry st st2) (idx : Nat) :
    find_entry st2 idx = find_entry st idx := by
  unfold find_entry State.dir_addr
  have hh : ∀ x, (st2.entry x).hdr = (st.entry x).hdr := fun x => (h.2 x).1
  simp only [h.1, hh]

theorem sg_calc_polyline_bounds {st st2 : State} (h : same_geometry st st2) (g : Raster)
    (b : bounds_t) (e : Nat) : calc_polyline_bounds st2 g b e = calc_polyline_bounds st g b e := by
  have h1 : ∀ x, (st2.entry x).polyline = (st.entry x).polyline := fun x => (h.2 x).2.1
  have h2 : ∀ x, (st2.entry x).point = (st.entry x).point := fun x => (h.2 x).2.2.2.2.2.2
  unfold calc_polyline_bounds
  simp only [sg_find_entry h, h1, h2]

theorem sg_calc_area_bounds_loop {st st2 : State} (h : same_geometry st st2) (g : Raster)
    (e : Nat) : ∀ (l : List Nat) (b : bounds_t),
    calc_area_bounds_loop st2 g e l b = calc_area_bounds_loop st g e l b := by
  have h0 : ∀ x, (st2.entry x).hdr = (st.entry x).hdr := fun x => (h.2 x).1
  have h1 : ∀ x, (st2.entry x).elliptical_arc = (st.entry x).elliptical_arc :=
    fun x => (h.2 x).2.2.1
  have h2 : ∀ x, (st2.entry x).simple_area = (st.entry x).simple_area :=
    fun x => (h.2 x).2.2.2.2.2.1
  intro l
  induction l with
  | nil => intro b; rfl
  | cons i rest ih =>
    intro b
    simp only [calc_area_bounds_loop, sg_find_entry h, h0, h1, h2, sg_calc_polyline_bounds h, ih]

theorem sg_calc_area_bounds {st st2 : State} (h : same_geometry st st2) (g : Raster)
    (b : bounds_t) (e : Nat) : calc_area_bounds st2 g b e = calc_area_bounds st g b e := by
  unfold calc_area_bounds
  rw [sg_calc_area_bounds_loop h, (h.2 e).2.2.2.2.2.1]

theorem sg_calc_connected_bounds_loop {st st2 : State} (h : same_geometry st st2) (g : Raster)
    (e : Nat) : ∀ (l : List Nat) (b : bounds_t),
    calc_connected_bounds_loop st2 g e l b = calc_connected_bounds_loop st g e l b := by
  have h0 : ∀ x, (st2.entry x).hdr = (st.entry x).hdr := fun x => (h.2 x).1
  have h2 : ∀ x, (st2.entry x).simple_area = (st.entry x).simple_area :=
    fun x => (h.2 x).2.2.2.2.2.1
  intro l
  induction l with
  | nil => intro b; rfl
  | cons i rest ih =>
    intro b
    simp only [calc_connected_bounds_loop, sg_find_entry h, h0, h2, sg_calc_area_bounds h, ih]

/-- The function `calc_entry_bounds` reads the directory and the geometry of
the entries only. -/
theorem sg_calc_entry_bounds {st st2 : State} (h : same_geometry st st2) (g : Raster)
    (b : bounds_t) (e : Nat) : calc_entry_bounds st2 g b e = calc_entry_bounds st g b e := by
  have h0 : ∀ x, (st2.entry x).hdr = (st.entry x).hdr := fun x => (h.2 x).1
  have h1 : ∀ x, (st2.entry x).lasso = (st.entry x).lasso := fun x => (h.2 x).2.2.2.1
  have h2 : ∀ x, (st2.entry x).simple_area = (st.entry x).simple_area :=
    fun x => (h.2 x).2.2.2.2.2.1
  unfold calc_entry_bounds
  simp only [h0, h1, h2, sg_calc_connected_bounds_loop h, sg_calc_area_bounds h]

theorem sg_entry_has_shape_loop {st st2 : State} (h : same_geometry st st2) (e : Nat) :
    ∀ (l : List Nat), entry_has_shape_loop st2 e l = entry_has_shape_loop st e l := by
  have h0 : ∀ x, (st2.entry x).hdr = (st.entry x).hdr := fun x => (h.2 x).1
  have h2 : ∀ x, (st2.entry x).simple_area = (st.entry x).simple_area :=
    fun x => (h.2 x).2.2.2.2.2.1
  intro l
  induction l with
  | nil => rfl
  | cons i rest ih =>
    simp only [entry_has_shape_loop, sg_find_entry h, h0, h2, ih]

theorem sg_entry_has_shape {st st2 : State} (h : same_geometry st st2) (e : Nat) :
    entry_has_shape st2 e = entry_has_shape st e := by
  have h0 : ∀ x, (st2.entry x).hdr = (st.entry x).hdr := fun x => (h.2 x).1
  have h2 : ∀ x, (st2.entry x).simple_area = (st.entry x).simple_area :=
    fun x => (h.2 x).2.2.2.2.2.1
  unfold entry_has_shape
  simp only [h0, h2, sg_entry_has_shape_loop h]

/-- The inner loop of `calc_set_bounds_r` reads the directory, the geometry of
the entries and the array of the SET. -/
theorem sg_calc_set_scan {st st2 : State} (h : same_geometry st st2) (g : Raster) (a : Nat)
    (ha : (st2.entry a).set.entries = (st.entry a).set.entries) :
    ∀ (l : List Nat) (s : ScanState), calc_set_scan st2 g a l s = calc_set_scan st g a l s := by
  have h0 : ∀ x, (st2.entry x).hdr = (st.entry x).hdr := fun x => (h.2 x).1
  intro l
  induction l with
  | nil => intro s; rfl
  | cons i rest ih =>
    intro s
    simp only [calc_set_scan, sg_find_entry h, h0, ha, sg_calc_entry_bounds h,
      sg_entry_has_shape h, ih]

theorem sg_fixup_set_test {st st2 : State} (h : same_geometry st st2) (a i : Nat)
    (ha : (st2.entry a).set.entries = (st.entry a).set.entries) :
    fixup_set_test st2 a i = fixup_set_test st a i := by
  have h0 : ∀ x, (st2.entry x).hdr = (st.entry x).hdr := fun x => (h.2 x).1
  have h1 : ∀ x, (st2.entry x).textline = (st.entry x).textline := fun x => (h.2 x).2.2.2.2.1
  unfold fixup_set_test
  simp only [sg_find_entry h, h0, h1, ha]

theorem clear_drawn_entry (st : State) (x : Nat) :
    st.clear_drawn.entry x =
      (st.entry x).with_set ((st.entry x).set.unk7 &&& 0x7FFFFFFF) (st.entry x).set.entries := rfl

theorem clear_drawn_geometry (st : State) : same_geometry st st.clear_drawn :=
  ⟨rfl, fun _ => ⟨rfl, rfl, rfl, rfl, rfl, rfl, rfl⟩⟩

theorem clear_drawn_entries (st : State) (x : Nat) :
    (st.clear_drawn.entry x).set.entries = (st.entry x).set.entries := rfl

theorem clear_drawn_num (st : State) (x : Nat) :
    (st.clear_drawn.entry x).set.num_entries = (st.entry x).set.num_entries := rfl

theorem clear_drawn_children (st : State) (x : Nat) :
    st.clear_drawn.children x = st.children x := rfl

theorem and_mask_idem (v : Nat) : v &&& 0x7FFFFFFF &&& 0x7FFFFFFF = v &&& 0x7FFFFFFF := by
  rw [Nat.land_assoc]
  have : (0x7FFFFFFF : Nat) &&& 0x7FFFFFFF = 0x7FFFFFFF := by decide
  rw [this]

theorem clear_drawn_unk7 (st : State) (x : Nat) :
    (st.clear_drawn.entry x).set.unk7 &&& 0x7FFFFFFF = (st.entry x).set.unk7 &&& 0x7FFFFFFF := by
  rw [clear_drawn_entry]
  exact and_mask_idem _

theorem clear_drawn_store_entries (st : State) (a : Nat) (l : List Nat) :
    (st.store_set_entries a l).clear_drawn = st.clear_drawn.store_set_entries a l := by
  unfold State.store_set_entries State.clear_drawn
  simp only
  congr 2
  funext x
  by_cases hx : x = a
  · subst hx; simp [SGDEntry.with_set]
  · simp [Function.update, hx]

theorem clear_drawn_fixup_set_store (st : State) (a n i : Nat) (p : Nat × Nat) :
    fixup_set_store st.clear_drawn a n i p = (fixup_set_store st a n i p).clear_drawn := by
  unfold fixup_set_store
  rw [clear_drawn_store_entries, clear_drawn_children, clear_drawn_entries, clear_drawn_num]

theorem clear_drawn_fixup_set_loop (a : Nat) : ∀ (k i : Nat) (st : State),
    fixup_set_loop a k i st.clear_drawn = (fixup_set_loop a k i st).map State.clear_drawn := by
  intro k
  induction k using Nat.strong_induction_on with
  | _ k ih =>
    intro i st
    have ht := sg_fixup_set_test (clear_drawn_geometry st) a i (clear_drawn_entries st a)
    match k with
    | 0 => rfl
    | 1 =>
      simp only [fixup_set_loop, ht]
      cases fixup_set_test st a i with
      | error err => rfl
      | ok r =>
        cases r with
        | none => rfl
        | some p =>
          simp only [clear_drawn_fixup_set_store]
          rfl
    | k + 2 =>
      simp only [fixup_set_loop, ht]
      cases fixup_set_test st a i with
      | error err => rfl
      | ok r =>
        cases r with
        | none => exact ih (k + 1) (by omega) (i + 1) st
        | some p =>
          simp only [clear_drawn_fixup_set_store]
          exact ih k (by omega) i _

theorem clear_drawn_fixup_set (st : State) (a : Nat) :
    fixup_set st.clear_drawn a = (fixup_set st a).map State.clear_drawn := by
  unfold fixup_set
  rw [clear_drawn_num, clear_drawn_fixup_set_loop]

theorem clear_drawn_calc_set_children
    (self : State → bounds_t → Nat → Except Err (State × bounds_t))
    (hs : ∀ st b e, self st.clear_drawn b e = (self st b e).map clear_drawn_result) (a : Nat) :
    ∀ (l : List Nat) (st : State) (b : bounds_t),
    calc_set_children self a l st.clear_drawn b =
      (calc_set_children self a l st b).map clear_drawn_result := by
  intro l
  induction l with
  | nil => intro st b; rfl
  | cons j rest ih =>
    intro st b
    have hg := clear_drawn_geometry st
    have h0 : ∀ x, (st.clear_drawn.entry x).hdr = (st.entry x).hdr := fun x => (hg.2 x).1
    simp only [calc_set_children, sg_find_entry hg, h0, clear_drawn_entries, hs]
    cases find_entry st ((st.entry a).set.entries.getD j 0) with
    | error err => rfl
    | ok e =>
      simp only
      split
      · cases self st b e with
        | error err => rfl
        | ok r => exact ih r.1 r.2
      · exact ih st b

theorem clear_drawn_calc_set_runs
    (self : State → bounds_t → Nat → Except Err (State × bounds_t))
    (hs : ∀ st b e, self st.clear_drawn b e = (self st b e).map clear_drawn_result)
    (g : Raster) (b : bounds_t) (a : Nat) : ∀ (l : List Nat) (skip : Nat) (s : RunState),
    calc_set_runs self g b a l skip s.clear_drawn =
      (calc_set_runs self g b a l skip s).map RunState.clear_drawn := by
  intro l
  induction l with
  | nil => intro skip s; rfl
  | cons i rest ih =>
    intro skip s
    cases skip with
    | succ k =>
      simp only [calc_set_runs]
      exact ih k s
    | zero =>
      have hsc : ∀ sc0, calc_set_scan s.clear_drawn.st g a (i :: rest) sc0 =
          calc_set_scan s.st g a (i :: rest) sc0 :=
        sg_calc_set_scan (clear_drawn_geometry s.st) g a (clear_drawn_entries s.st a) _
      simp only [calc_set_runs, hsc]
      have htl : s.clear_drawn.textline = s.textline := rfl
      rw [htl]
      cases calc_set_scan s.st g a (i :: rest)
          { eb := EMPTY_BOUNDS, shape := 0, textline := s.textline, count := 0 } with
      | error err => rfl
      | ok sc =>
        simp only
        split
        · exact ih sc.count { s with textline := sc.textline }
        · have hch := clear_drawn_calc_set_children self hs a (List.range' i sc.count) s.st sc.eb
          have hst : s.clear_drawn.st = s.st.clear_drawn := rfl
          rw [hst, hch]
          cases calc_set_children self a (List.range' i sc.count) s.st sc.eb with
          | error err => rfl
          | ok r =>
            exact ih sc.count
              { st := r.1
                min_b := if bounds_area (union_bounds b r.2) < s.min_area then union_bounds b r.2
                  else s.min_b
                max_b := union_bounds s.max_b (union_bounds b r.2)
                min_area := if bounds_area (union_bounds b r.2) < s.min_area then
                  bounds_area (union_bounds b r.2) else s.min_area
                last_shape := if s.last_shape = 0 then sc.shape
                  else if s.last_shape ≠ sc.shape then -1 else s.last_shape
                textline := sc.textline
                runs := s.runs ++ [{ shape := sc.shape, eb := r.2 }] }

/-- The function `calc_set_bounds_r` does not read the DRAWN bits: on the
buffer with the DRAWN bits cleared it fails in the same way or returns the same
rectangle, and it leaves the same buffer up to the DRAWN bits. -/
theorem clear_drawn_calc_set_bounds_r (g : Raster) : ∀ (fuel : Nat) (st : State) (b : bounds_t)
    (x : Nat), calc_set_bounds_r g fuel st.clear_drawn b x =
      (calc_set_bounds_r g fuel st b x).map clear_drawn_result := by
  intro fuel
  induction fuel with
  | zero => intro st b x; rfl
  | succ fuel ih =>
    intro st b x
    simp only [calc_set_bounds_r, clear_drawn_unk7, clear_drawn_num]
    split
    · exact clear_drawn_calc_set_children _ ih x _ st b
    · rw [clear_drawn_fixup_set]
      cases fixup_set st x with
      | error err => rfl
      | ok st1 =>
        have hinit : RunState.init st1.clear_drawn = (RunState.init st1).clear_drawn := rfl
        simp only [Except.map, clear_drawn_num]
        rw [hinit, clear_drawn_calc_set_runs _ ih]
        cases calc_set_runs (calc_set_bounds_r g fuel) g b x
            (List.range (st1.entry x).set.num_entries) 0 (RunState.init st1) with
        | error err => rfl
        | ok s =>
          simp only [Except.map]
          have h1 : s.clear_drawn.last_shape = s.last_shape := rfl
          have h2 : s.clear_drawn.max_b = s.max_b := rfl
          have h3 : s.clear_drawn.min_b = s.min_b := rfl
          have h4 : s.clear_drawn.st = s.st.clear_drawn := rfl
          rw [h1, h2, h3, h4]
          have hfin := clear_drawn_calc_set_children _ ih x
            (List.range (s.st.entry x).set.num_entries) s.st b
          simp only [clear_drawn_num]
          split
          · split
            · rfl
            · exact hfin
          · split
            · rfl
            · exact hfin

/-! ## Theorems: pure containers -/

theorem calc_call_target {st : State} {x y : Nat} (h : calc_call st x y) : is_set_entry st y := by
  obtain ⟨c, _, hf, ht⟩ := h
  obtain ⟨i, hi, hia⟩ := find_entry_ok hf
  exact ⟨i, hi, hia, ht⟩

theorem calc_reach_target {st : State} {x y : Nat}
    (h : Relation.TransGen (calc_call st) x y) : is_set_entry st y := by
  cases h with
  | single h1 => exact calc_call_target h1
  | tail _ h1 => exact calc_call_target h1

theorem calc_call_set_child {st : State} {x y : Nat} (hx : is_set_entry st x)
    (h : calc_call st x y) : set_child st x y := by
  obtain ⟨c, hc, hf, ht⟩ := h
  unfold State.children at hc
  obtain ⟨j, hj, hjc⟩ := List.mem_map.mp hc
  subst hjc
  exact ⟨hx, j, List.mem_range.mp hj, hf, ht⟩

theorem calc_reach_set_child {st : State} {x y : Nat} (hx : is_set_entry st x)
    (h : Relation.TransGen (calc_call st) x y) : Relation.TransGen (set_child st) x y := by
  induction h with
  | single h1 => exact Relation.TransGen.single (calc_call_set_child hx h1)
  | tail h0 h1 ih =>
    exact Relation.TransGen.tail ih (calc_call_set_child (calc_reach_target h0) h1)

/-- In a directory that `validate_directory` accepts, the calls of
`calc_set_bounds_r` form no cycle. -/
theorem validated_calc_acyclic {img : Image} {st : State} (h : validate_directory img = .ok st)
    (a : Nat) : ¬ Relation.TransGen (calc_call st) a a := by
  obtain ⟨_, _, hent, hac⟩ := validate_directory_ok h
  intro hcyc
  have hmono : ∀ x y, set_child st x y → set_call st x y := by
    intro x y ⟨⟨i, hi, hix, ht⟩, j, hj, hf, hty⟩
    subst hix
    have h1 := validate_entry_set (hent i hi) ht
    have h3 := tail_div_lt st.img (st.dir_addr i)
    refine ⟨j, ?_, hf, hty⟩
    rw [int_of_u32_small (by omega)]
    exact hj
  have hcyc2 := calc_reach_set_child (calc_reach_target hcyc) hcyc
  obtain ⟨i, hi, hia, ht⟩ := calc_reach_target hcyc
  subst hia
  exact hac i hi ht (Relation.TransGen.mono hmono hcyc2)

/-- The state that `validate_directory` returns is the buffer as it was
loaded, with the directory that `find_directory` has found. -/
theorem validate_directory_eq {img : Image} {d : SGDDirectoryType0}
    (h : ∃ st, validate_directory img = .ok st) (hd : find_directory img = .ok d) :
    validate_directory img = .ok { img := img, dir := d } := by
  obtain ⟨st, hst⟩ := h
  obtain ⟨h1, h2, _⟩ := validate_directory_ok hst
  rw [hd] at h2
  injection h2 with h2
  rw [hst]
  cases st with
  | mk i dd =>
    simp only at h1 h2
    subst h1; subst h2
    rfl

/-- Without a cycle through `a`, a loop of `calc_set_bounds_r` over slots of
`a` whose indices all resolve makes the calls for the child SETs of those
slots, in their order. -/
theorem calc_set_children_sets (self : State → bounds_t → Nat → Except Err (State × bounds_t))
    (hself : ∀ st b e r, self st b e = .ok r →
      Mut (Relation.ReflTransGen (calc_call st) e) (fun _ => False) st r.1)
    (a : Nat) (st0 : State) (hac : ¬ Relation.TransGen (calc_call st0) a a) :
    ∀ (l : List Nat) (st : State) (b : bounds_t),
    (∀ j ∈ l, j < (st0.entry a).set.num_entries) →
    Mut (fun y => ∃ c, calc_call st0 a c ∧ Relation.ReflTransGen (calc_call st0) c y)
      (fun _ => False) st0 st →
    (∀ j ∈ l, ∃ e, find_entry st0 ((st0.entry a).set.entries.getD j 0) = .ok e) →
    calc_set_children self a l st b =
      calc_sets self (l.filterMap
        (fun j => calc_child_set st0 ((st0.entry a).set.entries.getD j 0))) st b := by
  intro l
  induction l with
  | nil => intro st b _ _ _; rfl
  | cons j rest ih =>
    intro st b hl hm hfound
    have hrest : ∀ k ∈ rest, k < (st0.entry a).set.num_entries :=
      fun k hk => hl k (List.mem_cons_of_mem _ hk)
    have hfrest : ∀ k ∈ rest, ∃ e, find_entry st0 ((st0.entry a).set.entries.getD k 0) = .ok e :=
      fun k hk => hfound k (List.mem_cons_of_mem _ hk)
    have hna : ¬ ∃ c, calc_call st0 a c ∧ Relation.ReflTransGen (calc_call st0) c a := by
      rintro ⟨c, h1, h2⟩
      exact hac (Relation.TransGen.head'_iff.mpr ⟨c, h1, h2⟩)
    have hea : st.entry a = st0.entry a := Mut_other hm a hna (fun hf => hf)
    obtain ⟨e, he⟩ := hfound j (List.mem_cons_self _ _)
    have he2 : find_entry st ((st.entry a).set.entries.getD j 0) = .ok e := by
      rw [hea, Mut_find_entry hm]; exact he
    simp only [calc_set_children, he2, List.filterMap_cons, calc_child_set, he, Mut_hdr hm]
    by_cases ht : (st0.entry e).hdr.type = SGD_SET
    · simp only [if_pos ht, calc_sets]
      cases hr : self st b e with
      | error err => rfl
      | ok r1 =>
        simp only
        have ht2 : (st.entry e).hdr.type = SGD_SET := by rw [Mut_hdr hm]; exact ht
        have hcall := calc_call_of_slot hm (hl j (List.mem_cons_self _ _)) he2 ht2
        have h2 : Mut (fun y => ∃ c, calc_call st0 a c ∧
            Relation.ReflTransGen (calc_call st0) c y) (fun _ => False) st r1.1 :=
          Mut_mono (hself st b e r1 hr)
            (fun y hy => ⟨e, hcall, (Mut_reach hm e y).mp hy⟩) (fun _ hf => hf)
        exact ih r1.1 r1.2 hrest (Mut_trans hm h2) hfrest
    · simp only [if_neg ht]
      exact ih st b hrest hm hfrest

theorem calc_child_sets_range (st : State) (a : Nat) :
    calc_child_sets st a = (List.range (st.entry a).set.num_entries).filterMap
      (fun j => calc_child_set st ((st.entry a).set.entries.getD j 0)) := by
  unfold calc_child_sets State.children
  rw [List.filterMap_map]
  rfl

theorem clear_drawn_store_unk7 (st : State) (a v : Nat)
    (hv : v &&& 0x7FFFFFFF = (st.entry a).set.unk7 &&& 0x7FFFFFFF) :
    (st.store_set_unk7 a v).clear_drawn = st.clear_drawn := by
  unfold State.store_set_unk7 State.clear_drawn
  simp only
  congr 2
  funext x
  by_cases hx : x = a
  · subst hx
    simp only [Function.update_same, SGDEntry.with_set]
    have hv2 : v &&& 0x7FFFFFFF = (st.img.entry x).set.unk7 &&& 0x7FFFFFFF := hv
    rw [hv2]
  · simp [Function.update, hx]

/-! ## Theorems: what `process_sets` stores -/

theorem store_unk7_same (st : State) (a v : Nat) :
    ((st.store_set_unk7 a v).entry a).set.unk7 = v := by
  rw [store_unk7_entry]; simp

theorem store_unk7_other (st : State) (a v x : Nat) (h : x ≠ a) :
    (st.store_set_unk7 a v).entry x = st.entry x := by
  rw [store_unk7_entry]; simp [h]

/-- The steps of `process_sets` for one SET `e`: calls of `fixup_set`, and the
DRAWN bit of `e` set. -/
theorem process_sets_draw_frame (render : State → Nat → Except Err Unit) (g : Raster)
    (do_crop : Bool) (fuel : Nat) (st : State) (b : bounds_t) (e : Nat) (r : State × bounds_t)
    (h : process_sets_draw render g do_crop fuel st b e = .ok r) :
    Mut (fun _ => True) (fun x => x = e) st r.1 ∧
    (r.1.entry e).set.unk7 = (st.entry e).set.unk7 ||| SET_DRAWN ∧
    ∀ x, x ≠ e → (r.1.entry x).set.unk7 = (st.entry x).set.unk7 := by
  unfold process_sets_draw at h
  split at h
  · cases h
  · split at h
    · cases h
    · next r0 hr0 =>
      injection h with h
      subst h
      have hm0 : Mut (fun _ => True) (fun _ => False) st r0.1 := by
        cases do_crop with
        | true =>
          simp only [if_true] at hr0
          exact Mut_mono (calc_set_bounds_r_frame g fuel st b e r0 hr0) (fun _ _ => trivial)
            (fun _ hf => hf)
        | false =>
          simp only [Bool.false_eq_true, if_false] at hr0
          injection hr0 with hr0
          subst hr0
          exact Mut.refl _
      have hu : ∀ x, (r0.1.entry x).set.unk7 = (st.entry x).set.unk7 := by
        intro x
        rcases Mut_unk7 hm0 x with hx | ⟨hx, _⟩
        · exact hx
        · exact absurd hx id
      refine ⟨?_, ?_, ?_⟩
      · exact Mut.drawn e (Mut_mono hm0 (fun _ hx => hx) (fun _ hf => absurd hf id)) rfl
      · simp only
        rw [store_unk7_same, hu]
      · intro x hx
        simp only
        rw [store_unk7_other _ _ _ _ hx, hu]

theorem process_sets_merge_frame (render : State → Nat → Except Err Unit) (g : Raster)
    (do_crop : Bool) (fuel : Nat) (text : List Nat) : ∀ (l : List Nat) (st0 st : State)
    (b : bounds_t) (m : List Nat) (r : State × bounds_t × List Nat),
    Mut (fun _ => True) (fun _ => True) st0 st →
    process_sets_merge render g do_crop fuel text l st b m = .ok r →
    Mut (fun _ => True) (fun _ => True) st0 r.1 := by
  intro l
  induction l with
  | nil =>
    intro st0 st b m r hm h
    simp only [process_sets_merge] at h
    injection h with h
    subst h
    exact hm
  | cons j rest ih =>
    intro st0 st b m r hm h
    simp only [process_sets_merge] at h
    split at h
    · exact ih st0 st b m r hm h
    · split at h
      · cases h
      · exact ih st0 st b m r hm h
      · split at h
        · exact ih st0 st b m r hm h
        · split at h
          · cases h
          · next r1 hr1 =>
            have h1 := (process_sets_draw_frame render g do_crop fuel st b _ r1 hr1).1
            exact ih st0 r1.1 r1.2 _ r
              (Mut_trans hm (Mut_mono h1 (fun _ hx => hx) (fun _ _ => trivial))) h

theorem process_sets_loop_frame (render : State → Nat → Except Err Unit) (g : Raster)
    (do_crop : Bool) (fuel : Nat) : ∀ (l : List Nat) (st0 st : State)
    (ps : List SetPass) (r : State × List SetPass),
    Mut (fun _ => True) (fun _ => True) st0 st →
    process_sets_loop render g do_crop fuel l st ps = .ok r →
    Mut (fun _ => True) (fun _ => True) st0 r.1 := by
  intro l
  induction l with
  | nil =>
    intro st0 st ps r hm h
    simp only [process_sets_loop] at h
    injection h with h
    subst h
    exact hm
  | cons i rest ih =>
    intro st0 st ps r hm h
    simp only [process_sets_loop] at h
    split at h
    · exact ih st0 st ps r hm h
    · split at h
      · cases h
      · exact ih st0 st ps r hm h
      · split at h
        · cases h
        · next r1 hr1 =>
          have h1 := (process_sets_draw_frame render g do_crop fuel st _ _ r1 hr1).1
          have hm1 := Mut_trans hm (Mut_mono h1 (fun _ hx => hx) (fun _ _ => trivial))
          split at h
          · cases h
          · next mr hmr =>
            have hm2 := process_sets_merge_frame render g do_crop fuel _ rest st0 r1.1 r1.2 []
              mr hm1 hmr
            split at h
            · cases h
            · exact ih st0 mr.1 _ r hm2 h

/-- The function `process_sets` on the records of `named_pair_image`: with
cropping, it leaves the child list
`[2, 3, 4, 5]` of the SET 1 as `[4, 5, 2, 3]`. -/
theorem process_sets_reorders_children :
    ∃ st, validate_directory named_pair_image = .ok st ∧ st.children 0 = [2, 3, 4, 5] ∧
      ∃ r, process_sets render_nothing ex_raster_crop true st = .ok r ∧
        r.1.children 0 = [4, 5, 2, 3] ∧ r.1.children 0 ≠ st.children 0 :=
  ⟨_, rfl, rfl, _, rfl, rfl, by decide⟩

/-! ## Theorems: what `process_sets` selects -/

theorem validate_set_loop_found (self : State → Nat → Except Err State) (hself : SelfSpec self)
    (set : Nat) : ∀ (l : List Nat) (st st2 : State), counts_u32 st →
    validate_set_loop self set l st = .ok st2 →
    ∀ i ∈ l, ∃ e, find_entry st ((st.entry set).set.entries.getD i 0) = .ok e := by
  intro l
  induction l with
  | nil => intro st st2 _ _ i hi; simp at hi
  | cons i rest ih =>
    intro st st2 hc h k hk
    simp only [validate_set_loop] at h
    split at h
    · cases h
    · next e he =>
      have hrest : ∀ k ∈ rest, ∃ e, find_entry st ((st.entry set).set.entries.getD k 0) = .ok e := by
        split at h
        · next ht =>
          split at h
          · cases h
          · next st3 hs =>
            obtain ⟨i0, hi0, hia⟩ := find_entry_ok he
            obtain ⟨h3, _⟩ := hself st e st3 hc ⟨i0, hi0, hia, ht⟩ hs
            subst h3
            exact ih _ st2 hc h
        · exact ih st st2 hc h
      rcases List.mem_cons.mp hk with hk | hk
      · subst hk; exact ⟨e, he⟩
      · exact hrest k hk

theorem validate_set_r_found (fuel : Nat) (st : State) (a : Nat) (st2 : State)
    (hc : counts_u32 st) (h : validate_set_r fuel st a = .ok st2) :
    ∀ j, j < (int_of_u32 (st.entry a).set.num_entries).toNat →
      ∃ e, find_entry st ((st.entry a).set.entries.getD j 0) = .ok e := by
  cases fuel with
  | zero => simp only [validate_set_r] at h; cases h
  | succ fuel =>
    simp only [validate_set_r] at h
    split at h
    · cases h
    · split at h
      · cases h
      · next st3 hl =>
        intro j hj
        have := validate_set_loop_found _ (validate_set_r_spec fuel) a _ _ st3
          (counts_u32_store a hc) hl j (List.mem_range.mpr hj)
        rw [find_entry_store, store_entries] at this
        exact this

theorem validate_sets_found (fuel : Nat) : ∀ (l : List Nat) (st st2 : State), counts_u32 st →
    (∀ i ∈ l, i < st.dir.num_entries) → validate_sets fuel l st = .ok st2 →
    ∀ i ∈ l, (st.entry (st.dir_addr i)).hdr.type = SGD_SET →
      ∀ j, j < (int_of_u32 (st.entry (st.dir_addr i)).set.num_entries).toNat →
        ∃ e, find_entry st ((st.entry (st.dir_addr i)).set.entries.getD j 0) = .ok e := by
  intro l
  induction l with
  | nil => intro st st2 _ _ _ i hi; simp at hi
  | cons i rest ih =>
    intro st st2 hc hl h k hk hkt
    simp only [validate_sets] at h
    have hrest : ∀ k ∈ rest, k < st.dir.num_entries := fun k hk => hl k (List.mem_cons_of_mem _ hk)
    by_cases ht : (st.entry (st.dir_addr i)).hdr.type = SGD_SET
    · rw [if_pos ht] at h
      cases hv : validate_set_r fuel st (st.dir_addr i) with
      | error err => rw [hv] at h; cases h
      | ok st3 =>
        rw [hv] at h
        simp only at h
        have hs : is_set_entry st (st.dir_addr i) := ⟨i, hl i (List.mem_cons_self _ _), rfl, ht⟩
        obtain ⟨h3, _⟩ := validate_set_r_spec fuel st _ st3 hc hs hv
        subst h3
        rcases List.mem_cons.mp hk with hk | hk
        · subst hk
          exact validate_set_r_found fuel _ _ _ hc hv
        · exact ih _ st2 hc hrest h k hk hkt
    · rw [if_neg ht] at h
      rcases List.mem_cons.mp hk with hk | hk
      · subst hk; exact absurd hkt ht
      · exact ih st st2 hc hrest h k hk hkt

/-- In a directory that `validate_directory` accepts, every SET of the
directory has fewer than `2^31` children and each of its child indices is the
index of a directory entry. -/
theorem validated_children_found {img : Image} {st : State}
    (h : validate_directory img = .ok st) (i : Nat) (hi : i < st.dir.num_entries)
    (ht : (st.entry (st.dir_addr i)).hdr.type = SGD_SET) :
    (st.entry (st.dir_addr i)).set.num_entries < 2 ^ 31 ∧ children_found st (st.dir_addr i) := by
  obtain ⟨himg, hd, hent, _⟩ := validate_directory_ok h
  have hn : (st.entry (st.dir_addr i)).set.num_entries < 2 ^ 31 := by
    have h1 := validate_entry_set (hent i hi) ht
    have h3 := tail_div_lt st.img (st.dir_addr i)
    omega
  refine ⟨hn, ?_⟩
  have hc : counts_u32 st := by
    intro a ⟨k, hk, hka, hkt⟩
    subst hka
    have h1 := validate_entry_set (hent k hk) hkt
    have h3 := tail_div_lt st.img (st.dir_addr k)
    omega
  have hv : validate_sets (st.dir.num_entries + 1) (List.range st.dir.num_entries) st = .ok st := by
    have h0 := h
    unfold validate_directory at h0
    rw [hd] at h0
    simp only at h0
    split at h0
    · cases h0
    · have hst : st = { img := img, dir := st.dir } := by
        cases st with
        | mk i0 d0 => simp only at himg; subst himg; rfl
      rw [← hst] at h0
      exact h0
  intro c hc2
  unfold State.children at hc2
  obtain ⟨j, hj, hjc⟩ := List.mem_map.mp hc2
  subst hjc
  exact validate_sets_found _ _ st st hc (fun k hk => List.mem_range.mp hk) hv i
    (List.mem_range.mpr hi) ht j (by rw [int_of_u32_small hn]; exact List.mem_range.mp hj)

theorem any_perm {l l2 : List Nat} (h : l.Perm l2) (p : Nat → Bool) : l.any p = l2.any p := by
  rw [Bool.eq_iff_iff]
  simp only [List.any_eq_true]
  constructor
  · rintro ⟨x, hx, hp⟩; exact ⟨x, h.mem_iff.mp hx, hp⟩
  · rintro ⟨x, hx, hp⟩; exact ⟨x, h.mem_iff.mpr hx, hp⟩

theorem all_perm {l l2 : List Nat} (h : l.Perm l2) (p : Nat → Bool) : l.all p = l2.all p := by
  rw [Bool.eq_iff_iff]
  simp only [List.all_eq_true]
  constructor
  · intro hall x hx; exact hall x (h.mem_iff.mpr hx)
  · intro hall x hx; exact hall x (h.mem_iff.mp hx)

theorem set_has_entry_children (st : State) (e index : Nat) :
    set_has_entry st e index = (st.children e).any (fun c => c == index) := by
  unfold set_has_entry State.children
  rw [List.any_map]
  rfl

theorem set_is_subset_children (st : State) (a : Nat) :
    set_is_subset st a = (List.range st.dir.num_entries).any (fun i =>
      if st.dir_addr i = a ∨ (st.entry (st.dir_addr i)).hdr.type ≠ SGD_SET ∨
          (st.entry (st.dir_addr i)).set.num_entries ≤ (st.entry a).set.num_entries then false
      else (st.children a).all (fun c => (st.children (st.dir_addr i)).any (fun d => d == c))) := by
  unfold set_is_subset
  congr 1
  funext i
  simp only
  split
  · rfl
  · simp only [set_has_entry_children]
    unfold State.children
    rw [List.all_map]
    rfl

/-- The stores of the set engine do not change what `set_is_subset` returns. -/
theorem Mut_set_is_subset {RF RD : Nat → Prop} {st st2 : State} (h : Mut RF RD st st2) (a : Nat) :
    set_is_subset st2 a = set_is_subset st a := by
  rw [set_is_subset_children, set_is_subset_children]
  have hd : st2.dir_addr = st.dir_addr := by
    funext i; unfold State.dir_addr; rw [Mut_dir h]
  rw [Mut_dir h, hd]
  congr 1
  funext i
  simp only [Mut_hdr h, Mut_num h]
  split
  · rfl
  · rw [all_perm (Mut_children h a).1]
    congr 1
    funext c
    exact any_perm (Mut_children h _).1 _

theorem get_set_name_loop_children (st : State) (size : Nat) (a : Nat) : ∀ (l : List Nat),
    (∀ i ∈ l, ∃ e, find_entry st ((st.entry a).set.entries.getD i 0) = .ok e) →
    get_set_name_loop st size a l =
      .ok ((l.map (fun i => (st.entry a).set.entries.getD i 0)).findSome? (child_name st size)) := by
  intro l
  induction l with
  | nil => intro _; rfl
  | cons i rest ih =>
    intro hf
    obtain ⟨e, he⟩ := hf i (List.mem_cons_self _ _)
    have ih2 := ih (fun k hk => hf k (List.mem_cons_of_mem _ hk))
    simp only [get_set_name_loop, he, List.map_cons, List.findSome?_cons, child_name]
    by_cases hc : (st.entry e).hdr.type = SGD_TEXTLINE2D ∧
        strchr (st.entry e).textline.text 45 = false
    · simp only [if_pos hc]
      by_cases hb : (clearstr size (st.entry e).textline.text).headD 0 ≠ 0
      · simp only [if_pos hb]
      · simp only [if_neg hb]
        exact ih2
    · simp only [if_neg hc]
      exact ih2

theorem child_name_filter (st : State) (size : Nat) : ∀ (l : List Nat),
    l.findSome? (child_name st size) = (l.filter (is_name_text st)).findSome? (child_name st size) := by
  intro l
  induction l with
  | nil => rfl
  | cons c rest ih =>
    by_cases hn : is_name_text st c = true
    · rw [List.filter_cons_of_pos hn, List.findSome?_cons, List.findSome?_cons, ih]
    · rw [List.filter_cons_of_neg hn, List.findSome?_cons, ih]
      have hnone : child_name st size c = none := by
        unfold child_name
        unfold is_name_text at hn
        cases hf : find_entry st c with
        | error err => rfl
        | ok e =>
          rw [hf] at hn
          simp only [Bool.and_eq_true, decide_eq_true_eq, Bool.not_eq_true', not_and,
            Bool.not_eq_false] at hn
          have : ¬ ((st.entry e).hdr.type = SGD_TEXTLINE2D ∧
              strchr (st.entry e).textline.text 45 = false) := by
            rintro ⟨h1, h2⟩
            have := hn h1
            rw [h2] at this
            cases this
          simp only [if_neg this]
      rw [hnone]

/-- The name of a SET whose child indices all resolve: the name that the first
TEXT_LINE child without `-` that gives one gives. -/
theorem get_set_name_children (st : State) (a : Nat) (hf : children_found st a) :
    get_set_name st a =
      .ok (((st.children a).filter (is_name_text st)).findSome? (child_name st 16)) := by
  unfold get_set_name get_set_name_buf
  rw [get_set_name_loop_children, ← child_name_filter]
  · rfl
  · intro i hi
    exact hf _ (slot_mem_children st a i (List.mem_range.mp hi))

/-- The stores of the set engine do not change what `get_set_name` returns for
a SET whose child indices all resolve. -/
theorem Mut_get_set_name {RF RD : Nat → Prop} {st st2 : State} (h : Mut RF RD st st2) (a : Nat)
    (hf : children_found st a) : get_set_name st2 a = get_set_name st a := by
  have hf2 : children_found st2 a := by
    intro c hc
    rw [Mut_find_entry h]
    exact hf c ((Mut_children h a).1.mem_iff.mp hc)
  rw [get_set_name_children st a hf, get_set_name_children st2 a hf2]
  have hcn : child_name st2 16 = child_name st 16 := by
    funext c
    unfold child_name
    simp only [Mut_find_entry h, Mut_hdr h, Mut_textline h]
  rw [hcn, Mut_is_name_text h, (Mut_children h a).2]

/-! ## Theorems: the passes of `process_sets` -/

theorem process_sets_skip_iff (st : State) (e : Nat) :
    process_sets_skip st e = true ↔
      ((st.entry e).hdr.type ≠ SGD_SET ∨ is_drawn st e ∨ set_is_subset st e = true) := by
  unfold process_sets_skip is_drawn
  simp only [Bool.or_eq_true, decide_eq_true_eq, or_assoc]

theorem process_sets_draw_drawn (render : State → Nat → Except Err Unit) (g : Raster)
    (do_crop : Bool) (fuel : Nat) (st : State) (b : bounds_t) (e : Nat) (r : State × bounds_t)
    (h : process_sets_draw render g do_crop fuel st b e = .ok r) (x : Nat) :
    is_drawn r.1 x ↔ is_drawn st x ∨ x = e := by
  obtain ⟨_, h2, h3⟩ := process_sets_draw_frame render g do_crop fuel st b e r h
  unfold is_drawn
  by_cases hx : x = e
  · subst hx
    rw [h2]
    exact ⟨fun _ => Or.inr rfl, fun _ => drawn_or_set _⟩
  · rw [h3 x hx]
    exact ⟨fun h => Or.inl h, fun h => h.resolve_right hx⟩

theorem is_candidate_name {st : State} {x : Nat} {n1 n2 : List Nat} (h1 : is_candidate st x n1)
    (h2 : is_candidate st x n2) : n1 = n2 := by
  have := h1.2.2.2.symm.trans h2.2.2.2
  injection this with this
  injection this

theorem pass_ok_mono {st : State} {n n2 : Nat} {p : SetPass} (h : pass_ok st n p) (hn : n ≤ n2) :
    pass_ok st n2 p := by
  obtain ⟨i, hi, h2⟩ := h
  exact ⟨i, by omega, h2⟩

theorem pass_member_candidate {st : State} {n : Nat} {p : SetPass} (h : pass_ok st n p) {x : Nat}
    (hx : x = p.first ∨ x ∈ p.merged) : is_candidate st x p.text := by
  obtain ⟨i, _, _, _, hc, _, hm⟩ := h
  rcases hx with hx | hx
  · rw [hx]; exact hc
  · obtain ⟨_, j, _, _, _, hcj⟩ := (hm x).mp hx
    exact hcj

theorem pass_catches {st : State} {n : Nat} {p : SetPass} (h : pass_ok st n p) {j : Nat}
    (hj : n ≤ j) (hjn : j < st.dir.num_entries) (hc : is_candidate st (st.dir_addr j) p.text) :
    st.dir_addr j = p.first ∨ st.dir_addr j ∈ p.merged := by
  obtain ⟨i, hi, _, _, _, _, hm⟩ := h
  by_cases hx : st.dir_addr j = p.first
  · exact Or.inl hx
  · exact Or.inr ((hm _).mpr ⟨hx, j, by omega, hjn, rfl, hc⟩)

/-- In a buffer that comes from `st0` by stores of the set engine, a SET of
the directory that the test of `process_sets` lets pass and that has the name
`text` is a candidate of `st0` with this name. -/
theorem candidate_of_pass {st0 st : State} (hm : Mut (fun _ => True) (fun _ => True) st0 st)
    {e : Nat} (hf : (st0.entry e).hdr.type = SGD_SET → children_found st0 e)
    (hs : ¬ process_sets_skip st e = true) {text : List Nat}
    (hn : get_set_name st e = .ok (some text)) : is_candidate st0 e text ∧ ¬ is_drawn st e := by
  rw [process_sets_skip_iff] at hs
  simp only [not_or, not_not] at hs
  obtain ⟨h1, h2, h3⟩ := hs
  have ht : (st0.entry e).hdr.type = SGD_SET := by rw [← Mut_hdr hm]; exact h1
  refine ⟨⟨ht, ?_, ?_, ?_⟩, h2⟩
  · intro hd
    exact h2 ((Mut_drawn hm e).2 hd)
  · rw [← Mut_set_is_subset hm]
    cases hsub : set_is_subset st e with
    | false => rfl
    | true => exact absurd hsub h3
  · rw [← Mut_get_set_name hm e (hf ht)]
    exact hn

/-- A candidate of `st0` that the test of `process_sets` skips in a later
buffer is DRAWN there. -/
theorem candidate_skipped {st0 st : State} (hm : Mut (fun _ => True) (fun _ => True) st0 st)
    {e : Nat} {nm : List Nat} (hc : is_candidate st0 e nm)
    (hs : process_sets_skip st e = true) : is_drawn st e := by
  rw [process_sets_skip_iff] at hs
  rcases hs with hs | hs | hs
  · exact absurd (by rw [Mut_hdr hm]; exact hc.1) hs
  · exact hs
  · rw [Mut_set_is_subset hm, hc.2.2.1] at hs
    cases hs

theorem process_sets_merge_inv (render : State → Nat → Except Err Unit) (g : Raster)
    (do_crop : Bool) (fuel : Nat) (st0 : State)
    (hfound : ∀ k, k < st0.dir.num_entries → (st0.entry (st0.dir_addr k)).hdr.type = SGD_SET →
      children_found st0 (st0.dir_addr k))
    (text : List Nat) (e i : Nat) (stF : State) (he : is_drawn stF e)
    (hbase : ∀ x, is_drawn stF x → is_candidate st0 x text → x = e) :
    ∀ (m j : Nat) (st : State) (b : bounds_t) (ml : List Nat) (r : State × bounds_t × List Nat),
    j + m = st0.dir.num_entries → i < j → MergeInv st0 text e i stF j st ml →
    process_sets_merge render g do_crop fuel text (List.range' j m) st b ml = .ok r →
    MergeInv st0 text e i stF st0.dir.num_entries r.1 r.2.2 := by
  intro m
  induction m with
  | zero =>
    intro j st b ml r hj _ hinv h
    simp only [List.range'_zero, process_sets_merge] at h
    injection h with h
    subst h
    have : j = st0.dir.num_entries := by omega
    subst this
    exact hinv
  | succ m ih =>
    intro j st b ml r hj hij hinv h
    obtain ⟨j1, j2, j3, j4⟩ := hinv
    have hdir : st.dir_addr j = st0.dir_addr j := by
      unfold State.dir_addr; rw [Mut_dir j1]
    have hjn : j < st0.dir.num_entries := by omega
    have hfj := hfound j hjn
    rw [List.range'_succ] at h
    simp only [process_sets_merge, hdir] at h
    have hnext_same : (¬ is_candidate st0 (st0.dir_addr j) text ∨ st0.dir_addr j = e ∨
        st0.dir_addr j ∈ ml) → MergeInv st0 text e i stF (j + 1) st ml := by
      intro hcase
      refine ⟨j1, j2, ?_, ?_⟩
      · intro x hx
        obtain ⟨h1, k, h2, h3, h4⟩ := j3 x hx
        exact ⟨h1, k, h2, by omega, h4⟩
      · intro k hk1 hk2 hc
        by_cases hkj : k = j
        · subst hkj
          rcases hcase with hcase | hcase
          · exact absurd hc hcase
          · exact hcase
        · exact j4 k hk1 (by omega) hc
    split at h
    · next hskip =>
      apply ih (j + 1) st b ml r (by omega) (by omega) _ h
      apply hnext_same
      by_cases hc : is_candidate st0 (st0.dir_addr j) text
      · right
        have hd := candidate_skipped j1 hc hskip
        rcases (j2 _).mp hd with hd | hd
        · exact Or.inl (hbase _ hd hc)
        · exact Or.inr hd
      · exact Or.inl hc
    · next hskip =>
      split at h
      · cases h
      · next hname =>
        apply ih (j + 1) st b ml r (by omega) (by omega) _ h
        apply hnext_same
        left
        intro hc
        have := Mut_get_set_name j1 _ (hfj hc.1)
        rw [hname, hc.2.2.2] at this
        cases this
      · next text2 hname =>
        obtain ⟨hcand, hnd⟩ := candidate_of_pass j1 hfj hskip hname
        split at h
        · next hne =>
          apply ih (j + 1) st b ml r (by omega) (by omega) _ h
          apply hnext_same
          left
          intro hc
          exact hne (is_candidate_name hcand hc)
        · next heq =>
          simp only [ne_eq, not_not] at heq
          subst heq
          split at h
          · cases h
          · next r1 hr1 =>
            apply ih (j + 1) r1.1 r1.2 (ml ++ [st0.dir_addr j]) r (by omega) (by omega) _ h
            have hd1 := process_sets_draw_drawn render g do_crop fuel st b _ r1 hr1
            have hm1 := (process_sets_draw_frame render g do_crop fuel st b _ r1 hr1).1
            have hnF : ¬ is_drawn stF (st0.dir_addr j) := fun hd => hnd ((j2 _).mpr (Or.inl hd))
            refine ⟨Mut_trans j1 (Mut_mono hm1 (fun _ hx => hx) (fun _ _ => trivial)), ?_, ?_, ?_⟩
            · intro x
              rw [hd1 x, j2 x, List.mem_append, List.mem_singleton, or_assoc]
            · intro x hx
              rcases List.mem_append.mp hx with hx | hx
              · obtain ⟨h1, k, h2, h3, h4⟩ := j3 x hx
                exact ⟨h1, k, h2, by omega, h4⟩
              · simp only [List.mem_singleton] at hx
                subst hx
                refine ⟨?_, j, hij, by omega, hjn, rfl, hcand⟩
                intro hxe
                rw [hxe] at hnF
                exact hnF he
            · intro k hk1 hk2 hc
              by_cases hkj : k = j
              · subst hkj
                exact Or.inr (by simp)
              · rcases j4 k hk1 (by omega) hc with h1 | h1
                · exact Or.inl h1
                · exact Or.inr (by simp [h1])

theorem process_sets_loop_inv (render : State → Nat → Except Err Unit) (g : Raster)
    (do_crop : Bool) (fuel : Nat) (st0 : State)
    (hfound : ∀ k, k < st0.dir.num_entries → (st0.entry (st0.dir_addr k)).hdr.type = SGD_SET →
      children_found st0 (st0.dir_addr k)) :
    ∀ (m i : Nat) (st : State) (ps : List SetPass) (r : State × List SetPass),
    i + m = st0.dir.num_entries → PassInv st0 i st ps →
    process_sets_loop render g do_crop fuel (List.range' i m) st ps = .ok r →
    PassInv st0 st0.dir.num_entries r.1 r.2 := by
  intro m
  induction m with
  | zero =>
    intro i st ps r hi hinv h
    simp only [List.range'_zero, process_sets_loop] at h
    injection h with h
    subst h
    have : i = st0.dir.num_entries := by omega
    subst this
    exact hinv
  | succ m ih =>
    intro i st ps r hi hinv h
    obtain ⟨i1, i2, i3, i4, i5⟩ := hinv
    have hdir : st.dir_addr i = st0.dir_addr i := by
      unfold State.dir_addr; rw [Mut_dir i1]
    have hin : i < st0.dir.num_entries := by omega
    have hfi := hfound i hin
    rw [List.range'_succ] at h
    simp only [process_sets_loop, hdir] at h
    have hnext_same : (∀ nm, is_candidate st0 (st0.dir_addr i) nm →
        ∃ p ∈ ps, p.text = nm ∧ (st0.dir_addr i = p.first ∨ st0.dir_addr i ∈ p.merged)) →
        PassInv st0 (i + 1) st ps := by
      intro hcase
      refine ⟨i1, i2, fun p hp => pass_ok_mono (i3 p hp) (by omega), i4, ?_⟩
      intro k hk nm hc
      by_cases hki : k = i
      · subst hki; exact hcase nm hc
      · exact i5 k (by omega) nm hc
    split at h
    · next hskip =>
      apply ih (i + 1) st ps r (by omega) _ h
      apply hnext_same
      intro nm hc
      have hd := candidate_skipped i1 hc hskip
      rcases (i2 _).mp hd with hd | ⟨p, hp, hmem⟩
      · exact absurd hd hc.2.1
      · exact ⟨p, hp, is_candidate_name (pass_member_candidate (i3 p hp) hmem) hc, hmem⟩
    · next hskip =>
      split at h
      · cases h
      · next hname =>
        apply ih (i + 1) st ps r (by omega) _ h
        apply hnext_same
        intro nm hc
        have := Mut_get_set_name i1 _ (hfi hc.1)
        rw [hname, hc.2.2.2] at this
        cases this
      · next text hname =>
        obtain ⟨hcand, hnd⟩ := candidate_of_pass i1 hfi hskip hname
        have hfresh : ∀ p ∈ ps, p.text ≠ text := by
          intro p hp hpt
          have hc2 : is_candidate st0 (st0.dir_addr i) p.text := by rw [hpt]; exact hcand
          have hmem := pass_catches (i3 p hp) (Nat.le_refl _) hin hc2
          exact hnd ((i2 _).mpr (Or.inr ⟨p, hp, hmem⟩))
        have hfirst : ∀ k, k < i → ¬ is_candidate st0 (st0.dir_addr k) text := by
          intro k hk hc
          obtain ⟨p, hp, hpt, _⟩ := i5 k hk text hc
          exact hfresh p hp hpt
        split at h
        · cases h
        · next r1 hr1 =>
          have hd1 := process_sets_draw_drawn render g do_crop fuel st _ _ r1 hr1
          have hm1 := (process_sets_draw_frame render g do_crop fuel st _ _ r1 hr1).1
          have hmF : Mut (fun _ => True) (fun _ => True) st0 r1.1 :=
            Mut_trans i1 (Mut_mono hm1 (fun _ hx => hx) (fun _ _ => trivial))
          have heF : is_drawn r1.1 (st0.dir_addr i) := (hd1 _).mpr (Or.inr rfl)
          have hbase : ∀ x, is_drawn r1.1 x → is_candidate st0 x text → x = st0.dir_addr i := by
            intro x hx hc
            rcases (hd1 x).mp hx with hx | hx
            · rcases (i2 x).mp hx with hx | ⟨p, hp, hmem⟩
              · exact absurd hx hc.2.1
              · exact absurd (is_candidate_name (pass_member_candidate (i3 p hp) hmem) hc)
                  (hfresh p hp)
            · exact hx
          split at h
          · cases h
          · next mr hmr =>
            have hJ0 : MergeInv st0 text (st0.dir_addr i) i r1.1 (i + 1) r1.1 [] :=
              ⟨hmF, fun x => by simp, fun x hx => by simp at hx,
                fun k hk1 hk2 => absurd hk2 (by omega)⟩
            obtain ⟨m1, m2, m3, m4⟩ := process_sets_merge_inv render g do_crop fuel st0 hfound
              text (st0.dir_addr i) i r1.1 heF hbase m (i + 1) r1.1 r1.2 [] mr (by omega)
              (by omega) hJ0 hmr
            split at h
            · cases h
            · next b2 hb2 =>
              apply ih (i + 1) mr.1 _ r (by omega) _ h
              refine ⟨m1, ?_, ?_, ?_, ?_⟩
              · intro x
                rw [m2 x, hd1 x, i2 x]
                simp only [List.mem_append, List.mem_singleton]
                constructor
                · rintro (((h1 | ⟨p, hp, hmem⟩) | h1) | h1)
                  · exact Or.inl h1
                  · exact Or.inr ⟨p, Or.inl hp, hmem⟩
                  · exact Or.inr ⟨_, Or.inr rfl, Or.inl h1⟩
                  · exact Or.inr ⟨_, Or.inr rfl, Or.inr h1⟩
                · rintro (h1 | ⟨p, hp | hp, hmem⟩)
                  · exact Or.inl (Or.inl (Or.inl h1))
                  · exact Or.inl (Or.inl (Or.inr ⟨p, hp, hmem⟩))
                  · subst hp
                    rcases hmem with hmem | hmem
                    · exact Or.inl (Or.inr hmem)
                    · exact Or.inr hmem
              · intro p hp
                rcases List.mem_append.mp hp with hp | hp
                · exact pass_ok_mono (i3 p hp) (by omega)
                · simp only [List.mem_singleton] at hp
                  subst hp
                  refine ⟨i, by omega, hin, rfl, hcand, hfirst, ?_⟩
                  intro x
                  constructor
                  · intro hx
                    obtain ⟨h1, k, h2, _, h4, h5, h6⟩ := m3 x hx
                    exact ⟨h1, k, h2, h4, h5, h6⟩
                  · rintro ⟨h1, k, h2, h3, h4, h5⟩
                    subst h4
                    rcases m4 k h2 h3 h5 with h6 | h6
                    · exact absurd h6 h1
                    · exact h6
              · rw [List.map_append, List.map_singleton]
                apply List.Nodup.append i4 (List.nodup_singleton _)
                intro nm h1 h2
                simp only [List.mem_singleton] at h2
                obtain ⟨p, hp, hpt⟩ := List.mem_map.mp h1
                exact hfresh p hp (hpt.trans h2)
              · intro k hk nm hc
                by_cases hki : k = i
                · subst hki
                  exact ⟨_, List.mem_append.mpr (Or.inr (List.mem_singleton.mpr rfl)),
                    is_candidate_name hcand hc, Or.inl rfl⟩
                · obtain ⟨p, hp, h1, h2⟩ := i5 k (by omega) nm hc
                  exact ⟨p, List.mem_append.mpr (Or.inl hp), h1, h2⟩

/-! ## Theorems: the fuel of `calc_set_bounds_r` -/

theorem find_entry_fuel {st : State} {idx : Nat} {err : Err}
    (h : find_entry st idx = .error err) : err ≠ .out_of_fuel := by
  unfold find_entry at h
  split at h
  · cases h
  · injection h with h
    subst h
    intro h2
    cases h2

theorem calc_polyline_bounds_fuel {st : State} {g : Raster} {b : bounds_t} {e : Nat} {err : Err}
    (h : calc_polyline_bounds st g b e = .error err) : err ≠ .out_of_fuel := by
  unfold calc_polyline_bounds at h
  simp only at h
  split at h
  · next h1 =>
    split at h1
    · split at h1
      · next hf => injection h1 with h1; injection h with h; subst h; subst h1; exact find_entry_fuel hf
      · cases h1
    · cases h1
  · split at h
    · split at h
      · next hf => injection h with h; subst h; exact find_entry_fuel hf
      · cases h
    · cases h

theorem calc_area_bounds_loop_fuel {st : State} {g : Raster} {e : Nat} : ∀ (l : List Nat)
    (b : bounds_t) (err : Err), calc_area_bounds_loop st g e l b = .error err →
    err ≠ .out_of_fuel := by
  intro l
  induction l with
  | nil => intro b err h; simp only [calc_area_bounds_loop] at h; cases h
  | cons i rest ih =>
    intro b err h
    simp only [calc_area_bounds_loop] at h
    split at h
    · next hf => injection h with h; subst h; exact find_entry_fuel hf
    · split at h
      · split at h
        · next hp => injection h with h; subst h; exact calc_polyline_bounds_fuel hp
        · exact ih _ _ h
      · split at h
        · exact ih _ _ h
        · exact ih _ _ h

theorem calc_connected_bounds_loop_fuel {st : State} {g : Raster} {e : Nat} : ∀ (l : List Nat)
    (b : bounds_t) (err : Err), calc_connected_bounds_loop st g e l b = .error err →
    err ≠ .out_of_fuel := by
  intro l
  induction l with
  | nil => intro b err h; simp only [calc_connected_bounds_loop] at h; cases h
  | cons i rest ih =>
    intro b err h
    simp only [calc_connected_bounds_loop] at h
    split at h
    · next hf => injection h with h; subst h; exact find_entry_fuel hf
    · split at h
      · split at h
        · next hp =>
          injection h with h; subst h
          exact calc_area_bounds_loop_fuel _ _ _ hp
        · exact ih _ _ h
      · exact ih _ _ h

theorem calc_entry_bounds_fuel {st : State} {g : Raster} {b : bounds_t} {e : Nat} {err : Err}
    (h : calc_entry_bounds st g b e = .error err) : err ≠ .out_of_fuel := by
  unfold calc_entry_bounds at h
  split at h
  · cases h
  · split at h
    · exact calc_connected_bounds_loop_fuel _ _ _ h
    · split at h
      · exact calc_area_bounds_loop_fuel _ _ _ h
      · cases h

theorem entry_has_shape_loop_fuel {st : State} {e : Nat} : ∀ (l : List Nat) (err : Err),
    entry_has_shape_loop st e l = .error err → err ≠ .out_of_fuel := by
  intro l
  induction l with
  | nil => intro err h; simp only [entry_has_shape_loop] at h; cases h
  | cons i rest ih =>
    intro err h
    simp only [entry_has_shape_loop] at h
    split at h
    · next hf => injection h with h; subst h; exact find_entry_fuel hf
    · split at h
      · cases h
      · exact ih _ h

theorem entry_has_shape_fuel {st : State} {e : Nat} {err : Err}
    (h : entry_has_shape st e = .error err) : err ≠ .out_of_fuel := by
  unfold entry_has_shape at h
  split at h
  · cases h
  · split at h
    · cases h
    · split at h
      · cases h
      · split at h
        · exact entry_has_shape_loop_fuel _ _ h
        · cases h

theorem calc_set_scan_fuel {st : State} {g : Raster} {a : Nat} : ∀ (l : List Nat) (s : ScanState)
    (err : Err), calc_set_scan st g a l s = .error err → err ≠ .out_of_fuel := by
  intro l
  induction l with
  | nil => intro s err h; simp only [calc_set_scan] at h; cases h
  | cons i rest ih =>
    intro s err h
    simp only [calc_set_scan] at h
    split at h
    · next hf => injection h with h; subst h; exact find_entry_fuel hf
    · split at h
      · split at h
        · cases h
        · exact ih _ _ h
      · split at h
        · next hb => injection h with h; subst h; exact calc_entry_bounds_fuel hb
        · split at h
          · next hs => injection h with h; subst h; exact entry_has_shape_fuel hs
          · exact ih _ _ h

theorem fixup_set_test_fuel {st : State} {a i : Nat} {err : Err}
    (h : fixup_set_test st a i = .error err) : err ≠ .out_of_fuel := by
  unfold fixup_set_test at h
  split at h
  · next hf => injection h with h; subst h; exact find_entry_fuel hf
  · split at h
    · next hf => injection h with h; subst h; exact find_entry_fuel hf
    · split at h
      · cases h
      · cases h

theorem fixup_set_loop_fuel (a : Nat) : ∀ (k i : Nat) (st : State) (err : Err),
    fixup_set_loop a k i st = .error err → err ≠ .out_of_fuel := by
  intro k
  induction k using Nat.strong_induction_on with
  | _ k ih =>
    intro i st err h
    match k with
    | 0 => simp only [fixup_set_loop] at h; cases h
    | 1 =>
      simp only [fixup_set_loop] at h
      split at h
      · next ht => injection h with h; subst h; exact fixup_set_test_fuel ht
      · cases h
      · cases h
    | k + 2 =>
      simp only [fixup_set_loop] at h
      split at h
      · next ht => injection h with h; subst h; exact fixup_set_test_fuel ht
      · exact ih k (by omega) _ _ _ h
      · exact ih (k + 1) (by omega) _ _ _ h

theorem fixup_set_fuel {st : State} {a : Nat} {err : Err} (h : fixup_set st a = .error err) :
    err ≠ .out_of_fuel := fixup_set_loop_fuel a _ _ _ _ h

theorem get_set_name_loop_fuel {st : State} {size a : Nat} : ∀ (l : List Nat) (err : Err),
    get_set_name_loop st size a l = .error err → err ≠ .out_of_fuel := by
  intro l
  induction l with
  | nil => intro err h; simp only [get_set_name_loop] at h; cases h
  | cons i rest ih =>
    intro err h
    simp only [get_set_name_loop] at h
    split at h
    · next hf => injection h with h; subst h; exact find_entry_fuel hf
    · split at h
      · split at h
        · cases h
        · exact ih _ h
      · exact ih _ h

theorem finalize_bounds_loop_fuel {st : State} {g : Raster} {a : Nat} : ∀ (l : List Nat)
    (b : bounds_t) (err : Err), finalize_bounds_loop st g a l b = .error err →
    err ≠ .out_of_fuel := by
  intro l
  induction l with
  | nil => intro b err h; simp only [finalize_bounds_loop] at h; cases h
  | cons i rest ih =>
    intro b err h
    simp only [finalize_bounds_loop] at h
    split at h
    · next hf => injection h with h; subst h; exact find_entry_fuel hf
    · split at h
      · next hf => injection h with h; subst h; exact find_entry_fuel hf
      · split at h
        · exact calc_entry_bounds_fuel h
        · exact ih _ _ h

theorem finalize_bounds_fuel {st : State} {g : Raster} {b : bounds_t} {a : Nat} {err : Err}
    (h : finalize_bounds st g b a = .error err) : err ≠ .out_of_fuel := by
  unfold finalize_bounds at h
  simp only at h
  split at h
  · next h1 =>
    injection h with h
    subst h
    split at h1
    · exact finalize_bounds_loop_fuel _ _ _ h1
    · cases h1
  · cases h

theorem Mut_calc_depth {RF RD : Nat → Prop} {st st2 : State} (h : Mut RF RD st st2) :
    ∀ (k a : Nat), calc_depth_lt k st a → calc_depth_lt k st2 a := by
  intro k
  induction k with
  | zero => intro a ha; exact ha
  | succ k ih =>
    intro a ha c hc
    exact ih c (ha c ((Mut_calc_call h a c).mp hc))

theorem calc_set_children_fuel (self : State → bounds_t → Nat → Except Err (State × bounds_t))
    (k : Nat) (hfuel : ∀ st b e, calc_depth_lt k st e → self st b e ≠ .error .out_of_fuel)
    (hself : ∀ st b e r, self st b e = .ok r →
      Mut (Relation.ReflTransGen (calc_call st) e) (fun _ => False) st r.1)
    (a : Nat) (st0 : State) (hd : calc_depth_lt (k + 1) st0 a) :
    ∀ (l : List Nat) (st : State) (b : bounds_t),
    (∀ j ∈ l, j < (st0.entry a).set.num_entries) →
    Mut (fun _ => True) (fun _ => False) st0 st →
    calc_set_children self a l st b ≠ .error .out_of_fuel := by
  intro l
  induction l with
  | nil => intro st b _ _ h; simp only [calc_set_children] at h; cases h
  | cons j rest ih =>
    intro st b hl hm h
    have hrest : ∀ k ∈ rest, k < (st0.entry a).set.num_entries :=
      fun k hk => hl k (List.mem_cons_of_mem _ hk)
    simp only [calc_set_children] at h
    split at h
    · next hf => injection h with h; exact find_entry_fuel hf h
    · next e he =>
      split at h
      · next ht =>
        have hcall := calc_call_of_slot hm (hl j (List.mem_cons_self _ _)) he ht
        have hde := Mut_calc_depth hm k e (hd e hcall)
        split at h
        · next hs => injection h with h; subst h; exact hfuel st b e hde hs
        · next r1 hr1 =>
          have h2 : Mut (fun _ => True) (fun _ => False) st r1.1 :=
            Mut_mono (hself st b e r1 hr1) (fun _ _ => trivial) (fun _ hf => hf)
          exact ih r1.1 r1.2 hrest (Mut_trans hm h2) h
      · exact ih st b hrest hm h

theorem calc_set_children_mut (self : State → bounds_t → Nat → Except Err (State × bounds_t))
    (hself : ∀ st b e r, self st b e = .ok r →
      Mut (Relation.ReflTransGen (calc_call st) e) (fun _ => False) st r.1)
    (a : Nat) (st0 : State) (l : List Nat) (st : State) (b : bounds_t) (r : State × bounds_t)
    (hl : ∀ j ∈ l, j < (st0.entry a).set.num_entries)
    (hm : Mut (fun _ => True) (fun _ => False) st0 st)
    (h : calc_set_children self a l st b = .ok r) :
    Mut (fun _ => True) (fun _ => False) st0 r.1 :=
  calc_set_children_frame self hself a _ st0 (fun _ _ _ _ => trivial) l st b r hl hm h

theorem calc_set_runs_fuel (self : State → bounds_t → Nat → Except Err (State × bounds_t))
    (k : Nat) (hfuel : ∀ st b e, calc_depth_lt k st e → self st b e ≠ .error .out_of_fuel)
    (hself : ∀ st b e r, self st b e = .ok r →
      Mut (Relation.ReflTransGen (calc_call st) e) (fun _ => False) st r.1)
    (g : Raster) (b : bounds_t) (a : Nat) (st0 : State) (hd : calc_depth_lt (k + 1) st0 a) :
    ∀ (m i skip : Nat) (s : RunState), i + m ≤ (st0.entry a).set.num_entries →
    Mut (fun _ => True) (fun _ => False) st0 s.st →
    calc_set_runs self g b a (List.range' i m) skip s ≠ .error .out_of_fuel := by
  intro m
  induction m with
  | zero =>
    intro i skip s _ _ h
    simp only [List.range'_zero, calc_set_runs] at h
    cases h
  | succ m ih =>
    intro i skip s hi hm h
    rw [List.range'_succ] at h
    cases skip with
    | succ k2 =>
      simp only [calc_set_runs] at h
      exact ih (i + 1) k2 s (by omega) hm h
    | zero =>
      simp only [calc_set_runs] at h
      split at h
      · next hsc => injection h with h; exact calc_set_scan_fuel _ _ _ hsc h
      · next sc hsc =>
        have hcount := calc_set_scan_count _ _ _ _ _ _ hsc
        simp only [List.length_cons, List.length_range', Nat.zero_add] at hcount
        have hjs : ∀ j ∈ List.range' i sc.count, j < (st0.entry a).set.num_entries := by
          intro j hj
          rw [List.mem_range'_1] at hj
          omega
        split at h
        · exact ih (i + 1) _ { s with textline := sc.textline } (by omega) hm h
        · split at h
          · next hch =>
            injection h with h
            subst h
            exact calc_set_children_fuel self k hfuel hself a st0 hd _ s.st sc.eb hjs hm hch
          · next r hr =>
            have h1 := calc_set_children_mut self hself a st0 _ s.st sc.eb r hjs hm hr
            exact ih (i + 1) _ _ (by omega) h1 h

/-- With `fuel` above the depth of the recursion from the SET at `x`,
`calc_set_bounds_r` does not run out of fuel. -/
theorem calc_set_bounds_r_fuel (g : Raster) : ∀ (fuel : Nat) (st : State) (b : bounds_t)
    (x : Nat), calc_depth_lt fuel st x → calc_set_bounds_r g fuel st b x ≠ .error .out_of_fuel := by
  intro fuel
  induction fuel with
  | zero => intro st b x hd; exact absurd hd id
  | succ fuel ih =>
    intro st b x hd h
    have hself := calc_set_bounds_r_frame g fuel
    simp only [calc_set_bounds_r] at h
    split at h
    · exact calc_set_children_fuel _ fuel ih hself x st hd _ st b
        (fun j hj => List.mem_range.mp hj) (Mut.refl _) h
    · split at h
      · next hf => injection h with h; exact fixup_set_fuel hf h
      · next st1 hf =>
        have hm1 : Mut (fun _ => True) (fun _ => False) st st1 :=
          Mut.fix x (Mut.refl _) trivial hf
        split at h
        · next hs =>
          injection h with h
          subst h
          rw [List.range_eq_range'] at hs
          exact calc_set_runs_fuel _ fuel ih hself g b x st hd _ 0 0 _
            (by rw [Mut_num hm1]; omega) hm1 hs
        · next s hs =>
          rw [List.range_eq_range'] at hs
          have hm2 : Mut (fun _ => True) (fun _ => False) st s.st :=
            calc_set_runs_frame _ hself g b x _ st (fun _ _ _ _ => trivial) _ 0 0 _ s
              (by rw [Mut_num hm1]; omega) hm1 hs
          have hfin : calc_set_children (calc_set_bounds_r g fuel) x
              (List.range (s.st.entry x).set.num_entries) s.st b ≠ .error .out_of_fuel :=
            calc_set_children_fuel _ fuel ih hself x st hd _ s.st b
              (fun j hj => by rw [← Mut_num hm2]; exact List.mem_range.mp hj) hm2
          split at h
          · split at h
            · cases h
            · exact hfin h
          · split at h
            · cases h
            · exact hfin h

theorem validate_set_loop_calls (self : State → Nat → Except Err State) (hself : SelfSpec self)
    (set : Nat) : ∀ (l : List Nat) (st st2 : State), counts_u32 st →
    validate_set_loop self set l st = .ok st2 →
    ∀ i ∈ l, ∀ e, find_entry st ((st.entry set).set.entries.getD i 0) = .ok e →
      (st.entry e).hdr.type = SGD_SET → ∃ s, self st e = .ok s := by
  intro l
  induction l with
  | nil => intro st st2 _ _ i hi; simp at hi
  | cons i rest ih =>
    intro st st2 hc h k hk e hke hkt
    simp only [validate_set_loop] at h
    split at h
    · cases h
    · next e0 he0 =>
      split at h
      · next ht =>
        split at h
        · cases h
        · next st3 hs =>
          obtain ⟨i0, hi0, hia⟩ := find_entry_ok he0
          obtain ⟨h3, _⟩ := hself st e0 st3 hc ⟨i0, hi0, hia, ht⟩ hs
          subst h3
          rcases List.mem_cons.mp hk with hk | hk
          · subst hk
            rw [he0] at hke
            injection hke with hke
            subst hke
            exact ⟨_, hs⟩
          · exact ih _ st2 hc h k hk e hke hkt
      · next ht =>
        rcases List.mem_cons.mp hk with hk | hk
        · subst hk
          rw [he0] at hke
          injection hke with hke
          subst hke
          exact absurd hkt ht
        · exact ih st st2 hc h k hk e hke hkt

theorem set_depth_transfer (st : State) (a : Nat) : ∀ (k c : Nat),
    set_depth_lt k (st.store_set_num_entries a U32_MINUS_ONE) c →
    (∀ b, Relation.ReflTransGen (set_call (st.store_set_num_entries a U32_MINUS_ONE)) c b →
      b ≠ a) →
    set_depth_lt k st c := by
  intro k
  induction k with
  | zero => intro c h _; exact h
  | succ k ih =>
    intro c h hr d hd
    have hca : c ≠ a := hr c Relation.ReflTransGen.refl
    have hd1 := set_call_store hca hd
    exact ih d (h d hd1) (fun b hb => hr b (Relation.ReflTransGen.head hd1 hb))

/-- A call of `validate_set_r` that returns with `fuel` units of fuel shows
that the recursion from the SET is less than `fuel` calls deep. -/
theorem validate_set_r_depth : ∀ (fuel : Nat) (st : State) (a : Nat) (st2 : State),
    counts_u32 st → is_set_entry st a → validate_set_r fuel st a = .ok st2 →
    set_depth_lt fuel st a := by
  intro fuel
  induction fuel with
  | zero => intro st a st2 _ _ h; simp only [validate_set_r] at h; cases h
  | succ fuel ih =>
    intro st a st2 hc hs h
    obtain ⟨_, _, hch⟩ := validate_set_r_step fuel (validate_set_r_spec fuel) st a st2 hc hs h
    simp only [validate_set_r] at h
    split at h
    · cases h
    · split at h
      · cases h
      · next st3 hl =>
        intro c hcall
        obtain ⟨j, hj, hf, ht⟩ := hcall
        have hf1 : find_entry (st.store_set_num_entries a U32_MINUS_ONE)
            (((st.store_set_num_entries a U32_MINUS_ONE).entry a).set.entries.getD j 0) =
            .ok c := by
          rw [find_entry_store, store_entries]; exact hf
        have ht1 : ((st.store_set_num_entries a U32_MINUS_ONE).entry c).hdr.type = SGD_SET := by
          rw [store_hdr]; exact ht
        obtain ⟨s, hs1⟩ := validate_set_loop_calls _ (validate_set_r_spec fuel) a _ _ st3
          (counts_u32_store a hc) hl j (List.mem_range.mpr hj) c hf1 ht1
        obtain ⟨i0, hi0, hia⟩ := find_entry_ok hf
        have hsc : is_set_entry (st.store_set_num_entries a U32_MINUS_ONE) c :=
          (is_set_entry_store st a _ c).mpr ⟨i0, hi0, hia, ht⟩
        have hd1 := ih _ c s (counts_u32_store a hc) hsc hs1
        apply set_depth_transfer st a fuel c hd1
        intro b hb hba
        subst hba
        exact hch c ⟨j, hj, hf, ht⟩ b hb (store_num_same st b _)

theorem validate_sets_depth (fuel : Nat) : ∀ (l : List Nat) (st st2 : State), counts_u32 st →
    (∀ i ∈ l, i < st.dir.num_entries) → validate_sets fuel l st = .ok st2 →
    ∀ i ∈ l, (st.entry (st.dir_addr i)).hdr.type = SGD_SET →
      set_depth_lt fuel st (st.dir_addr i) := by
  intro l
  induction l with
  | nil => intro st st2 _ _ _ i hi; simp at hi
  | cons i rest ih =>
    intro st st2 hc hl h k hk hkt
    simp only [validate_sets] at h
    have hrest : ∀ k ∈ rest, k < st.dir.num_entries := fun k hk => hl k (List.mem_cons_of_mem _ hk)
    by_cases ht : (st.entry (st.dir_addr i)).hdr.type = SGD_SET
    · rw [if_pos ht] at h
      cases hv : validate_set_r fuel st (st.dir_addr i) with
      | error err => rw [hv] at h; cases h
      | ok st3 =>
        rw [hv] at h
        simp only at h
        have hs : is_set_entry st (st.dir_addr i) := ⟨i, hl i (List.mem_cons_self _ _), rfl, ht⟩
        obtain ⟨h3, _⟩ := validate_set_r_spec fuel st _ st3 hc hs hv
        subst h3
        rcases List.mem_cons.mp hk with hk | hk
        · subst hk
          exact validate_set_r_depth fuel _ _ _ hc hs hv
        · exact ih _ st2 hc hrest h k hk hkt
    · rw [if_neg ht] at h
      rcases List.mem_cons.mp hk with hk | hk
      · subst hk; exact absurd hkt ht
      · exact ih st st2 hc hrest h k hk hkt

theorem set_depth_calc (st : State)
    (hn : ∀ x, is_set_entry st x → (st.entry x).set.num_entries < 2 ^ 31) : ∀ (k a : Nat),
    is_set_entry st a → set_depth_lt k st a → calc_depth_lt k st a := by
  intro k
  induction k with
  | zero => intro a _ h; exact h
  | succ k ih =>
    intro a ha h c hc
    obtain ⟨_, j, hj, hf, ht⟩ := calc_call_set_child ha hc
    have hcall : set_call st a c := ⟨j, by rw [int_of_u32_small (hn a ha)]; exact hj, hf, ht⟩
    exact ih c (calc_call_target hc) (h c hcall)

/-- In a directory that `validate_directory` accepts, the recursion of
`calc_set_bounds_r` from a SET of the directory is at most `dir->num_entries`
calls deep. -/
theorem validated_calc_depth {img : Image} {st : State} (h : validate_directory img = .ok st)
    (a : Nat) (ha : is_set_entry st a) : calc_depth_lt (st.dir.num_entries + 1) st a := by
  obtain ⟨himg, hd, hent, _⟩ := validate_directory_ok h
  have hn : ∀ x, is_set_entry st x → (st.entry x).set.num_entries < 2 ^ 31 := by
    intro x ⟨k, hk, hka, hkt⟩
    subst hka
    have h1 := validate_entry_set (hent k hk) hkt
    have h3 := tail_div_lt st.img (st.dir_addr k)
    omega
  have hc : counts_u32 st := fun x hx => by have := hn x hx; omega
  have hv : validate_sets (st.dir.num_entries + 1) (List.range st.dir.num_entries) st = .ok st := by
    have h0 := h
    unfold validate_directory at h0
    rw [hd] at h0
    simp only at h0
    split at h0
    · cases h0
    · have hst : st = { img := img, dir := st.dir } := by
        cases st with
        | mk i0 d0 => simp only at himg; subst himg; rfl
      rw [← hst] at h0
      exact h0
  obtain ⟨i, hi, hia, ht⟩ := ha
  subst hia
  exact set_depth_calc st hn _ _ ⟨i, hi, rfl, ht⟩
    (validate_sets_depth _ _ st st hc (fun k hk => List.mem_range.mp hk) hv i
      (List.mem_range.mpr hi) ht)

theorem get_set_name_fuel {st : State} {a : Nat} {err : Err}
    (h : get_set_name st a = .error err) : err ≠ .out_of_fuel :=
  get_set_name_loop_fuel _ _ h

theorem process_sets_draw_fuel (render : State → Nat → Except Err Unit)
    (hr : ∀ st e, render st e ≠ .error .out_of_fuel) (g : Raster) (do_crop : Bool) (fuel : Nat)
    (st : State) (b : bounds_t) (e : Nat) (hd : calc_depth_lt fuel st e) :
    process_sets_draw render g do_crop fuel st b e ≠ .error .out_of_fuel := by
  intro h
  unfold process_sets_draw at h
  split at h
  · next hre => injection h with h; subst h; exact hr st e hre
  · split at h
    · next hc =>
      injection h with h
      subst h
      cases do_crop with
      | true =>
        simp only [if_true] at hc
        exact calc_set_bounds_r_fuel g fuel st b e hd hc
      | false =>
        simp only [Bool.false_eq_true, if_false] at hc
        cases hc
    · cases h

theorem process_sets_merge_fuel (render : State → Nat → Except Err Unit)
    (hr : ∀ st e, render st e ≠ .error .out_of_fuel) (g : Raster) (do_crop : Bool) (fuel : Nat)
    (text : List Nat) (st0 : State)
    (hd : ∀ k, k < st0.dir.num_entries → (st0.entry (st0.dir_addr k)).hdr.type = SGD_SET →
      calc_depth_lt fuel st0 (st0.dir_addr k)) :
    ∀ (m j : Nat) (st : State) (b : bounds_t) (ml : List Nat),
    j + m = st0.dir.num_entries → Mut (fun _ => True) (fun _ => True) st0 st →
    process_sets_merge render g do_crop fuel text (List.range' j m) st b ml ≠
      .error .out_of_fuel := by
  intro m
  induction m with
  | zero =>
    intro j st b ml _ _ h
    simp only [List.range'_zero, process_sets_merge] at h
    cases h
  | succ m ih =>
    intro j st b ml hj hm h
    have hdir : st.dir_addr j = st0.dir_addr j := by
      unfold State.dir_addr; rw [Mut_dir hm]
    rw [List.range'_succ] at h
    simp only [process_sets_merge, hdir] at h
    split at h
    · exact ih (j + 1) st b ml (by omega) hm h
    · next hskip =>
      rw [process_sets_skip_iff] at hskip
      simp only [not_or, not_not] at hskip
      have ht : (st0.entry (st0.dir_addr j)).hdr.type = SGD_SET := by
        rw [← Mut_hdr hm]; exact hskip.1
      split at h
      · next hn => injection h with h; exact get_set_name_fuel hn h
      · exact ih (j + 1) st b ml (by omega) hm h
      · split at h
        · exact ih (j + 1) st b ml (by omega) hm h
        · split at h
          · next hdr =>
            injection h with h
            subst h
            exact process_sets_draw_fuel render hr g do_crop fuel st b _
              (Mut_calc_depth hm _ _ (hd j (by omega) ht)) hdr
          · next r1 hr1 =>
            have h1 := (process_sets_draw_frame render g do_crop fuel st b _ r1 hr1).1
            exact ih (j + 1) r1.1 r1.2 _ (by omega)
              (Mut_trans hm (Mut_mono h1 (fun _ hx => hx) (fun _ _ => trivial))) h

theorem process_sets_loop_fuel (render : State → Nat → Except Err Unit)
    (hr : ∀ st e, render st e ≠ .error .out_of_fuel) (g : Raster) (do_crop : Bool) (fuel : Nat)
    (st0 : State)
    (hd : ∀ k, k < st0.dir.num_entries → (st0.entry (st0.dir_addr k)).hdr.type = SGD_SET →
      calc_depth_lt fuel st0 (st0.dir_addr k)) :
    ∀ (m i : Nat) (st : State) (ps : List SetPass),
    i + m = st0.dir.num_entries → Mut (fun _ => True) (fun _ => True) st0 st →
    process_sets_loop render g do_crop fuel (List.range' i m) st ps ≠ .error .out_of_fuel := by
  intro m
  induction m with
  | zero =>
    intro i st ps _ _ h
    simp only [List.range'_zero, process_sets_loop] at h
    cases h
  | succ m ih =>
    intro i st ps hi hm h
    have hdir : st.dir_addr i = st0.dir_addr i := by
      unfold State.dir_addr; rw [Mut_dir hm]
    rw [List.range'_succ] at h
    simp only [process_sets_loop, hdir] at h
    split at h
    · exact ih (i + 1) st ps (by omega) hm h
    · next hskip =>
      rw [process_sets_skip_iff] at hskip
      simp only [not_or, not_not] at hskip
      have ht : (st0.entry (st0.dir_addr i)).hdr.type = SGD_SET := by
        rw [← Mut_hdr hm]; exact hskip.1
      split at h
      · next hn => injection h with h; exact get_set_name_fuel hn h
      · exact ih (i + 1) st ps (by omega) hm h
      · split at h
        · next hdr =>
          injection h with h
          subst h
          exact process_sets_draw_fuel render hr g do_crop fuel st _ _
            (Mut_calc_depth hm _ _ (hd i (by omega) ht)) hdr
        · next r1 hr1 =>
          have h1 := (process_sets_draw_frame render g do_crop fuel st _ _ r1 hr1).1
          have hm1 := Mut_trans hm (Mut_mono h1 (fun _ hx => hx) (fun _ _ => trivial))
          split at h
          · next hmr =>
            injection h with h
            subst h
            exact process_sets_merge_fuel render hr g do_crop fuel _ st0 hd m (i + 1) r1.1 r1.2 []
              (by omega) hm1 hmr
          · next mr hmr =>
            have hm2 := process_sets_merge_frame render g do_crop fuel _ _ st0 r1.1 r1.2 []
              mr hm1 hmr
            split at h
            · next hfb =>
              injection h with h
              subst h
              cases do_crop with
              | true =>
                simp only [if_true] at hfb
                exact finalize_bounds_fuel hfb rfl
              | false =>
                simp only [Bool.false_eq_true, if_false] at hfb
                cases hfb
            · exact ih (i + 1) mr.1 _ (by omega) hm2 h

/-- On a directory that `validate_directory` accepts, `process_sets` does not
run out of fuel: it ends or it stops the program with an error of the program
(as long as `render_mask_r` does). -/
theorem process_sets_fuel {img : Image} {st : State} (hv : validate_directory img = .ok st)
    (render : State → Nat → Except Err Unit) (hr : ∀ st e, render st e ≠ .error .out_of_fuel)
    (g : Raster) (do_crop : Bool) : process_sets render g do_crop st ≠ .error .out_of_fuel := by
  unfold process_sets
  rw [List.range_eq_range']
  exact process_sets_loop_fuel render hr g do_crop _ st
    (fun k hk ht => validated_calc_depth hv _ ⟨k, hk, rfl, ht⟩) _ 0 st [] (by omega) (Mut.refl _)

/-! ## Theorems: the set engine on a validated directory -/

theorem calc_depth_lt_mono : ∀ (k k2 : Nat) (st : State) (a : Nat), k ≤ k2 →
    calc_depth_lt k st a → calc_depth_lt k2 st a := by
  intro k
  induction k with
  | zero => intro k2 st a _ h; exact absurd h id
  | succ k ih =>
    intro k2 st a hk h
    cases k2 with
    | zero => omega
    | succ k2 =>
      intro c hc
      exact ih k2 st c (by omega) (h c hc)

/-- The function `process_sets` on records that share no byte.  Over one run
of `process_sets` on a directory that
`validate_directory` has accepted: the run does not run out of fuel (it ends,
or it stops the program as the program does), and when the run ends no two
passes have the same name; every pass starts at the first candidate of the
directory that has its name and merges the candidates of later slots that have
this name, and nothing else; every candidate belongs to the pass of its name
and has its DRAWN bit set; and no DRAWN bit has been cleared.  The candidates
are the SETs of the directory that, on entry, are not DRAWN, are not a subset
of another SET and have a name. -/
theorem process_sets_passes (img : Image) (st0 : State) (hv : validate_directory img = .ok st0)
    (render : State → Nat → Except Err Unit) (hr : ∀ st e, render st e ≠ .error .out_of_fuel)
    (g : Raster) (do_crop : Bool) :
    process_sets render g do_crop st0 ≠ .error .out_of_fuel ∧
    ∀ r, process_sets render g do_crop st0 = .ok r →
      (r.2.map SetPass.text).Nodup ∧
      (∀ p ∈ r.2, pass_ok st0 st0.dir.num_entries p) ∧
      (∀ k, k < st0.dir.num_entries → ∀ nm, is_candidate st0 (st0.dir_addr k) nm →
        (∃ p ∈ r.2, p.text = nm ∧ (st0.dir_addr k = p.first ∨ st0.dir_addr k ∈ p.merged)) ∧
        is_drawn r.1 (st0.dir_addr k)) ∧
      ∀ x, is_drawn st0 x → is_drawn r.1 x := by
  refine ⟨process_sets_fuel hv render hr g do_crop, ?_⟩
  intro r h
  unfold process_sets at h
  rw [List.range_eq_range'] at h
  have hfound : ∀ k, k < st0.dir.num_entries →
      (st0.entry (st0.dir_addr k)).hdr.type = SGD_SET → children_found st0 (st0.dir_addr k) :=
    fun k hk ht => (validated_children_found hv k hk ht).2
  have hinit : PassInv st0 0 st0 [] :=
    ⟨Mut.refl _, fun x => by simp, fun p hp => by simp at hp, List.nodup_nil,
      fun k hk => absurd hk (by omega)⟩
  obtain ⟨_, p2, p3, p4, p5⟩ := process_sets_loop_inv render g do_crop _ st0 hfound
    st0.dir.num_entries 0 st0 [] r (by omega) hinit h
  refine ⟨p4, p3, ?_, ?_⟩
  · intro k hk nm hc
    obtain ⟨p, hp, h1, h2⟩ := p5 k hk nm hc
    exact ⟨⟨p, hp, h1, h2⟩, (p2 _).mpr (Or.inr ⟨p, hp, h2⟩)⟩
  · intro x hx
    exact (p2 x).mpr (Or.inl hx)

theorem process_sets_passes_witness :
    validate_directory shapes_image = .ok shapes_state ∧
    (∀ st e, render_nothing st e ≠ .error .out_of_fuel) ∧
    ∃ r, process_sets render_nothing ex_raster_crop true shapes_state = .ok r ∧
      r.2.map SetPass.text = [[65, 66]] ∧ r.2.map SetPass.first = [0] ∧
      r.2.map SetPass.merged = [[368]] ∧
      (r.2.map SetPass.text).Nodup ∧
      (∀ p ∈ r.2, pass_ok shapes_state shapes_state.dir.num_entries p) ∧
      (∀ k, k < shapes_state.dir.num_entries → ∀ nm,
        is_candidate shapes_state (shapes_state.dir_addr k) nm →
        (∃ p ∈ r.2, p.text = nm ∧
          (shapes_state.dir_addr k = p.first ∨ shapes_state.dir_addr k ∈ p.merged)) ∧
        is_drawn r.1 (shapes_state.dir_addr k)) ∧
      ∀ x, is_drawn shapes_state x → is_drawn r.1 x := by
  have hv : validate_directory shapes_image = .ok shapes_state :=
    validate_directory_eq ⟨_, rfl⟩ rfl
  have hr : ∀ st e, render_nothing st e ≠ .error .out_of_fuel := fun _ _ h => by cases h
  obtain ⟨r, h⟩ : ∃ r, process_sets render_nothing ex_raster_crop true shapes_state = .ok r :=
    ⟨_, rfl⟩
  have h1 : r.2.map SetPass.text = [[65, 66]] ∧ r.2.map SetPass.first = [0] ∧
      r.2.map SetPass.merged = [[368]] := by
    have h2 : process_sets render_nothing ex_raster_crop true shapes_state =
        .ok ((process_sets render_nothing ex_raster_crop true shapes_state).toOption.getD
          (shapes_state, [])) := rfl
    rw [h2] at h
    injection h with h
    subst h
    exact ⟨rfl, rfl, rfl⟩
  exact ⟨hv, hr, r, h, h1.1, h1.2.1, h1.2.2,
    (process_sets_passes shapes_image shapes_state hv render_nothing hr ex_raster_crop
      true).2 r h⟩

/-- The function `process_sets` on records that share no byte.  What
`process_sets` stores in the loaded buffer, with or
without cropping: DRAWN bits, which it sets and never clears, and the order of
child lists.  After it the directory and the tables are as before, every
SET's child list is a permutation of the list before, and every other field of
every entry, apart from the DRAWN bit of `unk7`, is as before.  On a directory
that `validate_directory` has accepted the run does not run out of fuel. -/
theorem process_sets_frame (render : State → Nat → Except Err Unit) (g : Raster)
    (do_crop : Bool) (st : State) :
    (∀ img, validate_directory img = .ok st → (∀ s e, render s e ≠ .error .out_of_fuel) →
      process_sets render g do_crop st ≠ .error .out_of_fuel) ∧
    ∀ r, process_sets render g do_crop st = .ok r →
      r.1.dir = st.dir ∧ r.1.img.file_size = st.img.file_size ∧ r.1.img.table = st.img.table ∧
      r.1.img.directory = st.img.directory ∧
      ∀ x, (r.1.children x).Perm (st.children x) ∧
        (r.1.entry x).set.num_entries = (st.entry x).set.num_entries ∧
        (r.1.entry x).set.unk7 &&& 0x7FFFFFFF = (st.entry x).set.unk7 &&& 0x7FFFFFFF ∧
        ((st.entry x).set.unk7 &&& SET_DRAWN ≠ 0 → (r.1.entry x).set.unk7 &&& SET_DRAWN ≠ 0) ∧
        (r.1.entry x).hdr = (st.entry x).hdr ∧ (r.1.entry x).polyline = (st.entry x).polyline ∧
        (r.1.entry x).elliptical_arc = (st.entry x).elliptical_arc ∧
        (r.1.entry x).lasso = (st.entry x).lasso ∧
        (r.1.entry x).textline = (st.entry x).textline ∧
        (r.1.entry x).simple_area = (st.entry x).simple_area ∧
        (r.1.entry x).point = (st.entry x).point := by
  refine ⟨fun img hv hr => process_sets_fuel hv render hr g do_crop, ?_⟩
  intro r h
  unfold process_sets at h
  have hm := process_sets_loop_frame render g do_crop _ _ st st [] r (Mut.refl _) h
  obtain ⟨h1, h2, h3, h4, _⟩ := Mut_entry hm
  refine ⟨h1, h2, h3, h4, ?_⟩
  intro x
  obtain ⟨f1, f2, f3, f4, f5, f6, f7, f8⟩ := Mut_fields hm x
  obtain ⟨d1, d2⟩ := Mut_drawn hm x
  exact ⟨(Mut_children hm x).1, f8, d1, d2, f1, f2, f3, f4, f5, f6, f7⟩

theorem process_sets_frame_witness :
    validate_directory named_pair_image = .ok named_pair_state ∧
    process_sets render_nothing ex_raster_crop true named_pair_state ≠ .error .out_of_fuel ∧
    ∃ r, process_sets render_nothing ex_raster_crop true named_pair_state = .ok r ∧
      r.1.children 0 = [4, 5, 2, 3] ∧
      (r.1.children 0).Perm (named_pair_state.children 0) ∧
      r.1.dir = named_pair_state.dir :=
  ⟨validate_directory_eq ⟨_, rfl⟩ rfl,
    (process_sets_frame render_nothing ex_raster_crop true named_pair_state).1 named_pair_image
      (validate_directory_eq ⟨_, rfl⟩ rfl) (fun _ _ h => by cases h),
    _, rfl, rfl,
    (((process_sets_frame render_nothing ex_raster_crop true named_pair_state).2 _ rfl).2.2.2.2
      0).1,
    ((process_sets_frame render_nothing ex_raster_crop true named_pair_state).2 _ rfl).1⟩

theorem Mut_is_set_entry {RF RD : Nat → Prop} {st st2 : State} (h : Mut RF RD st st2) (a : Nat) :
    is_set_entry st2 a ↔ is_set_entry st a := by
  unfold is_set_entry State.dir_addr
  simp only [Mut_dir h, Mut_hdr h]

theorem Mut_children_found {RF RD : Nat → Prop} {st st2 : State} (h : Mut RF RD st st2) (a : Nat)
    (hf : children_found st a) : children_found st2 a := by
  intro c hc
  rw [Mut_find_entry h]
  exact hf c ((Mut_children h a).1.mem_iff.mp hc)

/-- The buffers that `process_sets` goes through on a directory that
`validate_directory` has accepted: in them every SET of the directory has
child indices that resolve, the calls of `calc_set_bounds_r` form no cycle and
the recursion from a SET is at most `dir->num_entries` calls deep. -/
theorem validated_mut {img : Image} {st0 st : State} (hv : validate_directory img = .ok st0)
    (hm : Mut (fun _ => True) (fun _ => True) st0 st) (a : Nat) (ha : is_set_entry st a) :
    children_found st a ∧ ¬ Relation.TransGen (calc_call st) a a ∧
    calc_depth_lt (st.dir.num_entries + 1) st a := by
  have ha0 := (Mut_is_set_entry hm a).mp ha
  obtain ⟨i, hi, hia, ht⟩ := ha0
  subst hia
  refine ⟨?_, ?_, ?_⟩
  · exact Mut_children_found hm _ (validated_children_found hv i hi ht).2
  · have hcc : calc_call st = calc_call st0 := by
      funext x y
      exact propext (Mut_calc_call hm x y)
    rw [hcc]
    exact validated_calc_acyclic hv _
  · rw [Mut_dir hm]
    exact Mut_calc_depth hm _ _ (validated_calc_depth hv _ ⟨i, hi, rfl, ht⟩)

/-- The function `calc_set_bounds_r` on records that share no byte.  On a
directory that `validate_directory` has accepted, in any buffer
that the stores of the set engine have left, for every SET of the directory
with `(unk7 & ~SET_DRAWN) == 0x79`: `calc_set_bounds_r` makes the calls for the
child SETs, in the order of the child list, from the caller's rectangle `b`,
and nothing else (the other children give no geometry); with another DRAWN bit
in `unk7` it fails in the same way or returns the same rectangle and leaves the
same buffer up to the DRAWN bits; and it leaves the entry of the SET, its child
list included, as it was (no `fixup_set`). -/
theorem calc_set_bounds_r_container (img : Image) (st0 st : State)
    (hv : validate_directory img = .ok st0) (hm : Mut (fun _ => True) (fun _ => True) st0 st)
    (g : Raster) (fuel : Nat) (b : bounds_t) (a : Nat) (ha : is_set_entry st a)
    (hk : (st.entry a).set.unk7 &&& 0x7FFFFFFF = 0x79) :
    calc_set_bounds_r g (fuel + 1) st b a =
      calc_sets (calc_set_bounds_r g fuel) (calc_child_sets st a) st b ∧
    (∀ v, v &&& 0x7FFFFFFF = (st.entry a).set.unk7 &&& 0x7FFFFFFF →
      (calc_set_bounds_r g (fuel + 1) (st.store_set_unk7 a v) b a).map clear_drawn_result =
        (calc_set_bounds_r g (fuel + 1) st b a).map clear_drawn_result) ∧
    (∀ r, calc_set_bounds_r g (fuel + 1) st b a = .ok r →
      r.1.entry a = st.entry a ∧ r.1.children a = st.children a) ∧
    (st.dir.num_entries ≤ fuel → calc_set_bounds_r g (fuel + 1) st b a ≠ .error .out_of_fuel) := by
  obtain ⟨hf, hac, hdepth⟩ := validated_mut hv hm a ha
  have hna : ¬ ∃ c, calc_call st a c ∧ Relation.ReflTransGen (calc_call st) c a := by
    rintro ⟨c, h1, h2⟩
    exact hac (Relation.TransGen.head'_iff.mpr ⟨c, h1, h2⟩)
  have hbranch : calc_set_bounds_r g (fuel + 1) st b a =
      calc_set_children (calc_set_bounds_r g fuel) a
        (List.range (st.entry a).set.num_entries) st b := by
    simp only [calc_set_bounds_r, if_pos hk]
  refine ⟨?_, ?_, ?_, ?_⟩
  · rw [hbranch, calc_child_sets_range]
    apply calc_set_children_sets _ (calc_set_bounds_r_frame g fuel) a st hac _ st b
      (fun j hj => List.mem_range.mp hj) (Mut.refl _)
    intro j hj
    exact hf _ (slot_mem_children st a j (List.mem_range.mp hj))
  · intro v hv2
    rw [← clear_drawn_calc_set_bounds_r, ← clear_drawn_calc_set_bounds_r,
      clear_drawn_store_unk7 st a v hv2]
  · intro r hr
    rw [hbranch] at hr
    have hm2 := calc_set_children_frame _ (calc_set_bounds_r_frame g fuel) a
      (fun y => ∃ c, calc_call st a c ∧ Relation.ReflTransGen (calc_call st) c y) st
      (fun c y h1 h2 => ⟨c, h1, h2⟩) _ st b r (fun j hj => List.mem_range.mp hj) (Mut.refl _) hr
    have he : r.1.entry a = st.entry a := Mut_other hm2 a hna (fun h => h)
    refine ⟨he, ?_⟩
    unfold State.children
    rw [he]
  · intro hfuel
    exact calc_set_bounds_r_fuel g (fuel + 1) st b a
      (calc_depth_lt_mono _ _ st a (by omega) hdepth)

theorem calc_set_bounds_r_container_witness :
    validate_directory shapes_image = .ok shapes_state ∧
    Mut (fun _ => True) (fun _ => True) shapes_state shapes_state ∧
    is_set_entry shapes_state 432 ∧
    (shapes_state.entry 432).set.unk7 &&& 0x7FFFFFFF = 0x79 ∧
    shapes_state.children 432 = [2, 6] ∧ calc_child_sets shapes_state 432 = [320] ∧
    calc_set_bounds_r ex_raster_crop 9 shapes_state EMPTY_BOUNDS 432 =
      calc_sets (calc_set_bounds_r ex_raster_crop 8) (calc_child_sets shapes_state 432)
        shapes_state EMPTY_BOUNDS :=
  ⟨validate_directory_eq ⟨_, rfl⟩ rfl, Mut.refl _, ⟨7, by decide, rfl, rfl⟩, by decide, rfl,
    by decide,
    (calc_set_bounds_r_container shapes_image shapes_state shapes_state
      (validate_directory_eq ⟨_, rfl⟩ rfl) (Mut.refl _) ex_raster_crop 8 EMPTY_BOUNDS 432
      ⟨7, by decide, rfl, rfl⟩ (by decide)).1⟩

/-- The function `calc_set_bounds_r` on records that share no byte.  For a
SET that is not a pure container, let the runs be
those with a shape sum other than zero and `t_k = union_bounds(b, eb_k)` the
rectangle of the run `k`, where `eb_k` is its rectangle after its child SETs
are merged in.  If all the runs have the same shape sum, other than `-1`,
`calc_set_bounds_r` sets `*b` to the `t_k` of minimum area (the first one on
ties) when that rectangle is not empty and its area is below `INT_MAX`; if two
runs have different shape sums, it sets `*b` to the union of all the `t_k`
when that union is not empty.  For a SET of a directory that
`validate_directory` has accepted, in any buffer that the stores of the set
engine have left, `dir->num_entries + 1` units of fuel are enough for the
call. -/
theorem calc_set_bounds_r_min_or_union (g : Raster) (fuel : Nat) (st : State) (b : bounds_t)
    (a : Nat) (hk : (st.entry a).set.unk7 &&& 0x7FFFFFFF ≠ 0x79) :
    (∀ img st0, validate_directory img = .ok st0 → Mut (fun _ => True) (fun _ => True) st0 st →
      is_set_entry st a → st.dir.num_entries ≤ fuel →
      calc_set_bounds_r g (fuel + 1) st b a ≠ .error .out_of_fuel) ∧
    ∀ st1 s, fixup_set st a = .ok st1 →
      calc_set_runs (calc_set_bounds_r g fuel) g b a
        (List.range (st1.entry a).set.num_entries) 0 (RunState.init st1) = .ok s →
      (∀ r ∈ s.runs, r.shape ≠ 0) ∧
      (∀ sh t, (∀ r ∈ s.runs, r.shape = sh) → sh ≠ -1 →
        first_min_area (s.runs.map (run_rect b)) t → bounds_empty t = false →
        bounds_area t < INT_MAX → calc_set_bounds_r g (fuel + 1) st b a = .ok (s.st, t)) ∧
      ((∃ r1 ∈ s.runs, ∃ r2 ∈ s.runs, r1.shape ≠ r2.shape) →
        bounds_empty (union_all (s.runs.map (run_rect b))) = false →
        calc_set_bounds_r g (fuel + 1) st b a =
          .ok (s.st, union_all (s.runs.map (run_rect b)))) := by
  refine ⟨?_, ?_⟩
  · intro img st0 hv hm ha hfuel
    exact calc_set_bounds_r_fuel g (fuel + 1) st b a
      (calc_depth_lt_mono _ _ st a (by omega) (validated_mut hv hm a ha).2.2)
  · intro st1 s hf hr
    obtain ⟨h1, _, h3, h4, h5, _, _, h8⟩ :=
      calc_set_runs_inv (calc_set_bounds_r g fuel) g b a _ 0 _ s (RunInv_init b st1) hr
    obtain ⟨p1, p2, _⟩ := calc_set_bounds_r_pick g fuel st b a st1 s hk hf hr
    refine ⟨h1, ?_, ?_⟩
    · intro sh t hall hsh hmin hne harea
      have hruns : s.runs ≠ [] := by
        obtain ⟨pre, post, heq, _⟩ := hmin
        intro hnil
        rw [hnil] at heq
        simp at heq
      have hl := h3 sh hruns hall
      have hm := h8 t hmin harea
      rw [← hm]
      exact p1 (by rw [hl]; exact hsh) (by rw [hm]; exact hne)
    · intro hdiff hne
      rw [← h5]
      exact p2 (h4 hdiff) (by rw [h5]; exact hne)

theorem calc_set_bounds_r_min_or_union_witness :
    (shapes_state.entry 0).set.unk7 &&& 0x7FFFFFFF ≠ 0x79 ∧
    validate_directory shapes_image = .ok shapes_state ∧ is_set_entry shapes_state 0 ∧
    calc_set_bounds_r ex_raster_crop 9 shapes_state EMPTY_BOUNDS 0 ≠ .error .out_of_fuel ∧
    ∃ st1 s, fixup_set shapes_state 0 = .ok st1 ∧
      calc_set_runs (calc_set_bounds_r ex_raster_crop 8) ex_raster_crop EMPTY_BOUNDS 0
        (List.range (st1.entry 0).set.num_entries) 0 (RunState.init st1) = .ok s ∧
      s.runs.map (run_rect EMPTY_BOUNDS) =
        [{ min_x := 10, min_y := 150, max_x := 30, max_y := 180 },
         { min_x := 100, min_y := 90, max_x := 105, max_y := 100 }] ∧
      calc_set_bounds_r ex_raster_crop 9 shapes_state EMPTY_BOUNDS 0 =
        .ok (s.st, { min_x := 100, min_y := 90, max_x := 105, max_y := 100 }) :=
  ⟨by decide, validate_directory_eq ⟨_, rfl⟩ rfl, ⟨0, by decide, rfl, rfl⟩,
    (calc_set_bounds_r_min_or_union ex_raster_crop 8 shapes_state EMPTY_BOUNDS 0 (by decide)).1
      shapes_image shapes_state (validate_directory_eq ⟨_, rfl⟩ rfl) (Mut.refl _)
      ⟨0, by decide, rfl, rfl⟩ (by decide),
    _, _, rfl, rfl, rfl,
    ((calc_set_bounds_r_min_or_union ex_raster_crop 8 shapes_state EMPTY_BOUNDS 0
      (by decide)).2 _ _ rfl rfl).2.1 256 { min_x := 100, min_y := 90, max_x := 105, max_y := 100 }
      (by decide)
      (by decide)
      ⟨[{ min_x := 10, min_y := 150, max_x := 30, max_y := 180 }], [], rfl, by decide, by simp⟩
      (by decide) (by decide)⟩

/-! ## Theorems: `fixup_set` permutes the children -/

theorem fixup_kept_sublist (pair : Nat → Nat → Bool) : ∀ (n : Nat) (l : List Nat),
    l.length ≤ n → List.Sublist (fixup_kept pair l) l := by
  intro n
  induction n with
  | zero =>
    intro l hl
    have : l = [] := List.length_eq_zero.mp (Nat.le_zero.mp hl)
    subst this
    simp [fixup_kept]
  | succ n ih =>
    intro l hl
    match l, hl with
    | [], _ => simp [fixup_kept]
    | [x], _ => simp [fixup_kept]
    | x :: y :: rest, hl =>
      simp only [List.length_cons] at hl
      rw [fixup_kept]
      split
      · exact ((ih rest (by omega)).cons y).cons x
      · exact (ih (y :: rest) (by simp only [List.length_cons]; omega)).cons₂ x

theorem int_of_u32_pos {n : Nat} (hn : n < 2 ^ 32) (h : 0 < int_of_u32 n) :
    int_of_u32 n = (n : Int) ∧ n < 2 ^ 31 := by
  unfold int_of_u32 at *
  rw [Nat.mod_eq_of_lt hn] at *
  split at h <;> constructor <;> omega

/-- The function `fixup_set` on records that share no byte only permutes:
the child list of the SET has
the same length and the same multiset of child indices afterwards; it is the
list `kept` of the children that are not part of a moved pair, in their
original order, followed by the members `moved` of the moved pairs, each of
which is an adjacent (TEXT_LINE with `-`, SIMPLE_AREA) pair of the original
list; and `set_is_subset` and `get_set_name` give the same answers before and
after. -/
theorem fixup_set_permutes (st : State) (a : Nat) (st2 : State)
    (hn : (st.entry a).set.num_entries < 2 ^ 32) (h : fixup_set st a = .ok st2) :
    (st2.children a).length = (st.children a).length ∧
    (st2.children a).Perm (st.children a) ∧
    (∀ x, (st2.children a).count x = (st.children a).count x) ∧
    (∃ kept moved, st2.children a = kept ++ moved ∧ List.Sublist kept (st.children a) ∧
      (∀ m ∈ moved, ∃ p ∈ (st.children a).zip (st.children a).tail,
        is_fixup_pair st p.1 p.2 = true ∧ (m = p.1 ∨ m = p.2)) ∧
      ((st.entry a).set.num_entries < 2 ^ 31 →
        kept = fixup_kept (is_fixup_pair st) (st.children a) ∧
        moved = pairs_flat (fixup_pairs (is_fixup_pair st) (st.children a)).reverse)) ∧
    (∀ x, st2.children x = if x = a then st2.children a else st.children x) ∧
    (∀ x, set_is_subset st2 x = set_is_subset st x) ∧
    (∀ x, children_found st x → get_set_name st2 x = get_set_name st x) := by
  have hm : Mut (fun _ => True) (fun _ => False) st st2 := Mut.fix a (Mut.refl st) trivial h
  have hp : (st2.children a).Perm (st.children a) := (Mut_children hm a).1
  refine ⟨hp.length_eq, hp, fun x => hp.count_eq x, ?_, ?_, ?_, ?_⟩
  · by_cases hk : (int_of_u32 (st.entry a).set.num_entries - 1).toNat = 0
    · have h2 := h
      unfold fixup_set at h2
      rw [hk] at h2
      simp only [fixup_set_loop] at h2
      injection h2 with h2
      subst h2
      refine ⟨st.children a, [], by simp, List.Sublist.refl _, by simp, ?_⟩
      intro hlt
      have hi := int_of_u32_small hlt
      have hle : (st.children a).length ≤ 1 := by rw [children_length]; omega
      match hc : st.children a, hle with
      | [], _ => simp [fixup_kept, fixup_pairs, pairs_flat]
      | [x], _ => simp [fixup_kept, fixup_pairs, pairs_flat]
    · have hpos := int_of_u32_pos hn (by omega)
      have hs := (fixup_set_spec hpos.2 h).2
      refine ⟨_, _, hs, fixup_kept_sublist _ _ _ (Nat.le_refl _), ?_, fun _ => ⟨rfl, rfl⟩⟩
      intro m hm2
      obtain ⟨p, hp1, hp2⟩ := mem_pairs_flat _ _ hm2
      rw [List.mem_reverse] at hp1
      exact ⟨p, (fixup_pairs_sublist _ _ _ (Nat.le_refl _)).subset hp1,
        fixup_pairs_are_pairs _ _ _ (Nat.le_refl _) p hp1, hp2⟩
  · intro x
    obtain ⟨_, _, _, ⟨l, hl⟩, _⟩ := fixup_set_frame h
    by_cases hx : x = a
    · simp [hx]
    · simp only [hx, if_false]
      rw [hl]
      exact children_store_entries_other st a l x hx
  · intro x
    exact Mut_set_is_subset hm x
  · intro x hf
    exact Mut_get_set_name hm x hf

theorem fixup_set_permutes_witness :
    ∃ st2, fixup_set pairs_state 0 = .ok st2 ∧
      (st2.children 0).length = (pairs_state.children 0).length ∧
      (st2.children 0).Perm (pairs_state.children 0) ∧
      (∀ x, (st2.children 0).count x = (pairs_state.children 0).count x) ∧
      (∃ kept moved, st2.children 0 = kept ++ moved ∧
        List.Sublist kept (pairs_state.children 0) ∧
        (∀ m ∈ moved, ∃ p ∈ (pairs_state.children 0).zip (pairs_state.children 0).tail,
          is_fixup_pair pairs_state p.1 p.2 = true ∧ (m = p.1 ∨ m = p.2)) ∧
        ((pairs_state.entry 0).set.num_entries < 2 ^ 31 →
          kept = fixup_kept (is_fixup_pair pairs_state) (pairs_state.children 0) ∧
          moved = pairs_flat
            (fixup_pairs (is_fixup_pair pairs_state) (pairs_state.children 0)).reverse)) ∧
      (∀ x, st2.children x = if x = 0 then st2.children 0 else pairs_state.children x) ∧
      (∀ x, set_is_subset st2 x = set_is_subset pairs_state x) ∧
      (∀ x, children_found pairs_state x → get_set_name st2 x = get_set_name pairs_state x) :=
  ⟨_, rfl, fixup_set_permutes pairs_state 0 _ (by decide) rfl⟩

/-! ## Theorems: `calc_set_bounds_r` never shrinks the bounds -/

theorem bounds_within_refl (b : bounds_t) : bounds_within b b :=
  ⟨le_refl _, le_refl _, le_refl _, le_refl _⟩

theorem bounds_within_trans {b1 b2 b3 : bounds_t} (h1 : bounds_within b1 b2)
    (h2 : bounds_within b2 b3) : bounds_within b1 b3 :=
  ⟨le_trans h2.1 h1.1, le_trans h2.2.1 h1.2.1, le_trans h1.2.2.1 h2.2.2.1,
    le_trans h1.2.2.2 h2.2.2.2⟩

theorem bounds_within_union_left (b1 b2 : bounds_t) : bounds_within b1 (union_bounds b1 b2) :=
  ⟨min_le_left _ _, min_le_left _ _, le_max_left _ _, le_max_left _ _⟩

theorem bounds_within_union_right (b1 b2 : bounds_t) : bounds_within b2 (union_bounds b1 b2) :=
  ⟨min_le_right _ _, min_le_right _ _, le_max_right _ _, le_max_right _ _⟩

/-- The loop over the child SETs does not shrink the rectangle when the
recursive call does not. -/
theorem calc_set_children_grows (self : State → bounds_t → Nat → Except Err (State × bounds_t))
    (hself : ∀ st b e r, self st b e = .ok r → bounds_within b r.2) (set : Nat) :
    ∀ (l : List Nat) (st : State) (b : bounds_t) (r : State × bounds_t),
    calc_set_children self set l st b = .ok r → bounds_within b r.2 := by
  intro l
  induction l with
  | nil =>
    intro st b r h
    simp only [calc_set_children] at h
    injection h with h
    subst h
    exact bounds_within_refl b
  | cons j rest ih =>
    intro st b r h
    simp only [calc_set_children] at h
    split at h
    · cases h
    · split at h
      · split at h
        · cases h
        · next r1 hr1 => exact bounds_within_trans (hself _ _ _ _ hr1) (ih _ _ _ h)
      · exact ih _ _ _ h

/-- The outer loop keeps `min_b` and `max_b` either at `EMPTY_BOUNDS` or
around the caller's rectangle. -/
theorem calc_set_runs_grows (self : State → bounds_t → Nat → Except Err (State × bounds_t))
    (g : Raster) (b : bounds_t) (set : Nat) :
    ∀ (l : List Nat) (skip : Nat) (s s2 : RunState),
    calc_set_runs self g b set l skip s = .ok s2 →
    (s.min_b = EMPTY_BOUNDS ∨ bounds_within b s.min_b) →
    (s.max_b = EMPTY_BOUNDS ∨ bounds_within b s.max_b) →
    (s2.min_b = EMPTY_BOUNDS ∨ bounds_within b s2.min_b) ∧
    (s2.max_b = EMPTY_BOUNDS ∨ bounds_within b s2.max_b) := by
  intro l
  induction l with
  | nil =>
    intro skip s s2 h h1 h2
    simp only [calc_set_runs] at h
    injection h with h
    subst h
    exact ⟨h1, h2⟩
  | cons i rest ih =>
    intro skip s s2 h h1 h2
    cases skip with
    | succ k =>
      simp only [calc_set_runs] at h
      exact ih _ _ _ h h1 h2
    | zero =>
      simp only [calc_set_runs] at h
      split at h
      · cases h
      · split at h
        · exact ih _ _ _ h h1 h2
        · split at h
          · cases h
          · next r hr =>
            refine ih _ _ _ h ?_ ?_
            · show (if _ then _ else _) = EMPTY_BOUNDS ∨ bounds_within b (if _ then _ else _)
              split
              · exact Or.inr (bounds_within_union_left _ _)
              · exact h1
            · exact Or.inr (bounds_within_trans (bounds_within_union_left b r.2)
                (bounds_within_union_right _ _))

theorem calc_set_bounds_r_within (g : Raster) : ∀ (fuel : Nat) (st : State) (b : bounds_t)
    (a : Nat) (r : State × bounds_t),
    calc_set_bounds_r g fuel st b a = .ok r → bounds_within b r.2 := by
  intro fuel
  induction fuel with
  | zero =>
    intro st b a r h
    simp only [calc_set_bounds_r] at h
    cases h
  | succ fuel ih =>
    intro st b a r h
    simp only [calc_set_bounds_r] at h
    have hch := calc_set_children_grows (calc_set_bounds_r g fuel) ih a
    split at h
    · exact hch _ _ _ _ h
    · split at h
      · cases h
      · split at h
        · cases h
        · next st1 _ s hs =>
          obtain ⟨h1, h2⟩ := calc_set_runs_grows _ g b a _ _ _ _ hs (Or.inl rfl) (Or.inl rfl)
          split at h
          · split at h
            · next he =>
              injection h with h
              subst h
              rcases h2 with h2 | h2
              · rw [h2] at he
                exact absurd he (by decide)
              · exact h2
            · exact hch _ _ _ _ h
          · split at h
            · next he =>
              injection h with h
              subst h
              rcases h1 with h1 | h1
              · rw [h1] at he
                exact absurd he (by decide)
              · exact h1
            · exact hch _ _ _ _ h

/-- C29. The function `calc_set_bounds_r` never shrinks the caller's bounds:
whenever it returns, from any rectangle `b` and for any SET, the rectangle
`b2` that it leaves has `b2.min_x ≤ b.min_x`, `b2.min_y ≤ b.min_y`,
`b2.max_x ≥ b.max_x` and `b2.max_y ≥ b.max_y`; and for a SET of a directory
that `validate_directory` has accepted, in any buffer that the stores of the
set engine have left, `dir->num_entries + 1` units of fuel are enough for the
call. -/
theorem calc_set_bounds_r_grows (g : Raster) (img : Image) (st0 st : State)
    (hv : validate_directory img = .ok st0) (hm : Mut (fun _ => True) (fun _ => True) st0 st)
    (a : Nat) (ha : is_set_entry st a) (b : bounds_t) (fuel : Nat)
    (hfuel : st.dir.num_entries ≤ fuel) :
    calc_set_bounds_r g (fuel + 1) st b a ≠ .error .out_of_fuel ∧
    ∀ r, calc_set_bounds_r g (fuel + 1) st b a = .ok r →
      r.2.min_x ≤ b.min_x ∧ r.2.min_y ≤ b.min_y ∧ b.max_x ≤ r.2.max_x ∧ b.max_y ≤ r.2.max_y := by
  refine ⟨?_, fun r hr => calc_set_bounds_r_within g _ st b a r hr⟩
  exact calc_set_bounds_r_fuel g (fuel + 1) st b a
    (calc_depth_lt_mono _ _ st a (by omega) (validated_mut hv hm a ha).2.2)

theorem calc_set_bounds_r_grows_witness :
    validate_directory shapes_image = .ok shapes_state ∧ is_set_entry shapes_state 0 ∧
    calc_set_bounds_r ex_raster_crop 9 shapes_state
      { min_x := 102, min_y := 0, max_x := 103, max_y := 95 } 0 ≠ .error .out_of_fuel ∧
    ∃ r, calc_set_bounds_r ex_raster_crop 9 shapes_state
        { min_x := 102, min_y := 0, max_x := 103, max_y := 95 } 0 = .ok r ∧
      r.2 = { min_x := 100, min_y := 0, max_x := 105, max_y := 100 } ∧
      r.2.min_x ≤ 102 ∧ r.2.min_y ≤ 0 ∧ 103 ≤ r.2.max_x ∧ 95 ≤ r.2.max_y := by
  have h := calc_set_bounds_r_grows ex_raster_crop shapes_image shapes_state shapes_state
    (validate_directory_eq ⟨_, rfl⟩ rfl) (Mut.refl _) 0 ⟨0, by decide, rfl, rfl⟩
    { min_x := 102, min_y := 0, max_x := 103, max_y := 95 } 8 (by decide)
  obtain ⟨r, hr⟩ : ∃ r, calc_set_bounds_r ex_raster_crop 9 shapes_state
      { min_x := 102, min_y := 0, max_x := 103, max_y := 95 } 0 = .ok r := ⟨_, rfl⟩
  have hb : r.2 = { min_x := 100, min_y := 0, max_x := 105, max_y := 100 } := by
    have h2 : (calc_set_bounds_r ex_raster_crop 9 shapes_state
        { min_x := 102, min_y := 0, max_x := 103, max_y := 95 } 0).map Prod.snd =
        .ok { min_x := 100, min_y := 0, max_x := 105, max_y := 100 } := rfl
    rw [hr] at h2
    injection h2
  exact ⟨validate_directory_eq ⟨_, rfl⟩ rfl, ⟨0, by decide, rfl, rfl⟩, h.1, r, hr, hb, h.2 r hr⟩

/-! ## Theorems: `validate_set_r` terminates -/

theorem find_entry_error {st : State} {idx : Nat} {err : Err}
    (h : find_entry st idx = .error err) : err = .entry_not_found idx := by
  unfold find_entry at h
  split at h
  · cases h
  · injection h with h
    exact h.symm

theorem validate_set_loop_errors (self : State → Nat → Except Err State)
    (hself : ∀ st e err, self st e = .error err → err = .out_of_fuel ∨ is_validate_failure err)
    (set : Nat) : ∀ (l : List Nat) (st : State) (err : Err),
    validate_set_loop self set l st = .error err → err = .out_of_fuel ∨ is_validate_failure err := by
  intro l
  induction l with
  | nil =>
    intro st err h
    simp only [validate_set_loop] at h
    cases h
  | cons i rest ih =>
    intro st err h
    simp only [validate_set_loop] at h
    split at h
    · next e he =>
      injection h with h
      subst h
      exact Or.inr (Or.inr ⟨_, find_entry_error he⟩)
    · split at h
      · split at h
        · next e he =>
          injection h with h
          subst h
          exact hself _ _ _ he
        · exact ih _ _ h
      · exact ih _ _ h

theorem validate_set_r_errors : ∀ (fuel : Nat) (st : State) (a : Nat) (err : Err),
    validate_set_r fuel st a = .error err → err = .out_of_fuel ∨ is_validate_failure err := by
  intro fuel
  induction fuel with
  | zero =>
    intro st a err h
    simp only [validate_set_r] at h
    injection h with h
    exact Or.inl h.symm
  | succ fuel ih =>
    intro st a err h
    simp only [validate_set_r] at h
    split at h
    · injection h with h
      exact Or.inr (Or.inl h.symm)
    · split at h
      · next e he =>
        injection h with h
        subst h
        exact validate_set_loop_errors _ ih a _ _ _ he
      · cases h

theorem validate_set_loop_mono (self1 self2 : State → Nat → Except Err State)
    (hs : ∀ st e, self1 st e ≠ .error .out_of_fuel → self2 st e = self1 st e) (set : Nat) :
    ∀ (l : List Nat) (st : State), validate_set_loop self1 set l st ≠ .error .out_of_fuel →
    validate_set_loop self2 set l st = validate_set_loop self1 set l st := by
  intro l
  induction l with
  | nil => intro st _; rfl
  | cons i rest ih =>
    intro st h
    simp only [validate_set_loop] at h ⊢
    split
    · rfl
    · next e he =>
      rw [he] at h
      simp only at h
      split
      · next ht =>
        rw [if_pos ht] at h
        cases h1 : self1 st e with
        | error err =>
          rw [h1] at h
          simp only at h
          have h2 := hs st e (by rw [h1]; exact h)
          rw [h2, h1]
        | ok st2 =>
          rw [h1] at h
          simp only at h
          have h2 := hs st e (by rw [h1]; intro hc; cases hc)
          rw [h2, h1]
          exact ih _ h
      · next ht =>
        rw [if_neg ht] at h
        exact ih _ h

theorem validate_set_r_succ (fuel : Nat) (st : State) (a : Nat) :
    validate_set_r (fuel + 1) st a =
      if (st.entry a).set.num_entries = U32_MINUS_ONE then .error .cycle_encountered
      else
        match validate_set_loop (validate_set_r fuel) a
            (List.range (int_of_u32 (st.entry a).set.num_entries).toNat)
            (st.store_set_num_entries a U32_MINUS_ONE) with
        | .error err => .error err
        | .ok st2 =>
          .ok (st2.store_set_num_entries a (u32_of_int (int_of_u32 (st.entry a).set.num_entries))) :=
  rfl

theorem validate_set_r_mono : ∀ (fuel : Nat) (st : State) (a : Nat),
    validate_set_r fuel st a ≠ .error .out_of_fuel →
    validate_set_r (fuel + 1) st a = validate_set_r fuel st a := by
  intro fuel
  induction fuel with
  | zero =>
    intro st a h
    exact absurd rfl h
  | succ fuel ih =>
    intro st a h
    rw [validate_set_r_succ (fuel + 1), validate_set_r_succ fuel]
    rw [validate_set_r_succ fuel] at h
    split
    · rfl
    · next hm =>
      rw [if_neg hm] at h
      have hl : validate_set_loop (validate_set_r fuel) a
          (List.range (int_of_u32 (st.entry a).set.num_entries).toNat)
          (st.store_set_num_entries a U32_MINUS_ONE) ≠ .error .out_of_fuel := by
        intro hc
        rw [hc] at h
        exact h rfl
      rw [validate_set_loop_mono _ _ ih a _ _ hl]

theorem validate_set_r_mono_le (fuel : Nat) (st : State) (a : Nat)
    (h : validate_set_r fuel st a ≠ .error .out_of_fuel) : ∀ (k : Nat),
    validate_set_r (fuel + k) st a = validate_set_r fuel st a := by
  intro k
  induction k with
  | zero => rfl
  | succ k ih =>
    rw [← Nat.add_assoc, validate_set_r_mono _ _ _ (by rw [ih]; exact h), ih]

/-- C27. The function `validate_set_r` terminates on every directory, with or
without cycles and shared sub-sets: run on a SET of the directory with more
fuel than there are SETs not marked as visiting, it returns or it fails with
the cycle error or with the error of `find_entry` for a child index that no
entry has, and more fuel gives the same result; for the SET itself is marked
before the nested calls are made, which leaves one unmarked SET less, and
there are at most `dir->num_entries` of them. -/
theorem validate_set_r_terminates (st : State) (a : Nat) (hc : counts_u32 st)
    (ha : is_set_entry st a) (fuel : Nat) (hfuel : (unmarked st).card < fuel) :
    ((∃ st2, validate_set_r fuel st a = .ok st2) ∨
      ∃ err, validate_set_r fuel st a = .error err ∧ is_validate_failure err) ∧
    (∀ fuel2, fuel ≤ fuel2 → validate_set_r fuel2 st a = validate_set_r fuel st a) ∧
    ((st.entry a).set.num_entries ≠ U32_MINUS_ONE →
      (unmarked (st.store_set_num_entries a U32_MINUS_ONE)).card + 1 = (unmarked st).card) ∧
    (unmarked st).card ≤ st.dir.num_entries := by
  have hne : validate_set_r fuel st a ≠ .error .out_of_fuel := by
    intro h
    exact (validate_set_r_fails fuel st a _ hc ha hfuel h).1 rfl
  refine ⟨?_, ?_, ?_, unmarked_card_le st⟩
  · cases h : validate_set_r fuel st a with
    | ok st2 => exact Or.inl ⟨st2, rfl⟩
    | error err =>
      refine Or.inr ⟨err, rfl, ?_⟩
      rcases validate_set_r_errors fuel st a err h with h1 | h1
      · subst h1
        exact absurd h hne
      · exact h1
  · intro fuel2 hle
    obtain ⟨k, rfl⟩ := Nat.exists_eq_add_of_le hle
    exact validate_set_r_mono_le fuel st a hne k
  · intro hn
    have hm : a ∈ unmarked st := (mem_unmarked st a).mpr ⟨ha, hn⟩
    rw [unmarked_store, Finset.card_erase_of_mem hm]
    have : 0 < (unmarked st).card := Finset.card_pos.mpr ⟨a, hm⟩
    omega

theorem validate_set_r_terminates_witness :
    counts_u32 cycle_state ∧ is_set_entry cycle_state 0 ∧ (unmarked cycle_state).card < 3 ∧
    validate_set_r 3 cycle_state 0 = .error .cycle_encountered ∧
    ∀ fuel2, 3 ≤ fuel2 → validate_set_r fuel2 cycle_state 0 = validate_set_r 3 cycle_state 0 := by
  have hc : counts_u32 cycle_state := by
    rintro a ⟨i, hi, rfl, _⟩
    have hi2 : i < 2 := hi
    interval_cases i <;> decide
  have hcard : (unmarked cycle_state).card < 3 :=
    Nat.lt_succ_of_le (unmarked_card_le cycle_state)
  exact ⟨hc, ⟨0, by decide, rfl, rfl⟩, hcard, rfl,
    (validate_set_r_terminates cycle_state 0 hc ⟨0, by decide, rfl, rfl⟩ 3 hcard).2.1⟩

/-! ## Theorems: pixel values fit the palettes -/

theorem or8_or8 (q : Nat) : (q ||| 8) ||| 8 = q ||| 8 := by
  apply Nat.eq_of_testBit_eq
  intro i
  simp only [Nat.testBit_or, Bool.or_assoc, Bool.or_self]

theorem or8_ne_white (q : Nat) : q ||| 8 ≠ PAL_WHITE := by
  intro h
  have h2 := congrArg (fun v => Nat.testBit v 3) h
  simp only [Nat.testBit_or] at h2
  have h3 : Nat.testBit 8 3 = true := by decide
  have h4 : Nat.testBit PAL_WHITE 3 = false := by decide
  rw [h3, h4] at h2
  simp at h2

theorem or8_small : ∀ p, p < 8 → (p ||| 8) < 16 ∧ (p ||| 8) &&& 7 = p ∧ p &&& 7 = p := by
  decide

/-- The pixel map of `apply_mask` applied twice is the map applied once. -/
theorem apply_mask_value_idem (m p : Nat) :
    (if m ≠ 0 ∧ ((if m ≠ 0 ∧ (p ≠ PAL_WHITE ∨ m = 255) then p ||| 8 else p) ≠ PAL_WHITE ∨ m = 255)
      then (if m ≠ 0 ∧ (p ≠ PAL_WHITE ∨ m = 255) then p ||| 8 else p) ||| 8
      else (if m ≠ 0 ∧ (p ≠ PAL_WHITE ∨ m = 255) then p ||| 8 else p)) =
    if m ≠ 0 ∧ (p ≠ PAL_WHITE ∨ m = 255) then p ||| 8 else p := by
  by_cases hc : m ≠ 0 ∧ (p ≠ PAL_WHITE ∨ m = 255)
  · rw [if_pos hc, if_pos ⟨hc.1, Or.inl (or8_ne_white p)⟩, or8_or8]
  · rw [if_neg hc, if_neg hc]

theorem apply_mask_value (g : Raster) (cr_data : Nat → Nat) (cr_stride : Nat)
    (sgd_data : Nat → Nat) (x y : Nat) (hx : x < g.sgd_width) (hy : y < g.sgd_height) :
    apply_mask g cr_data cr_stride sgd_data (y * g.sgd_width + x) =
      if cr_data (y * cr_stride + x) ≠ 0 ∧
          (sgd_data (y * g.sgd_width + x) ≠ PAL_WHITE ∨ cr_data (y * cr_stride + x) = 255) then
        sgd_data (y * g.sgd_width + x) ||| 8
      else sgd_data (y * g.sgd_width + x) :=
  (apply_mask_rows_fold g cr_data cr_stride
    { sgd_data := sgd_data, dst := 0, msk := 0 } g.sgd_height).2 x y hx hy

theorem apply_mask_outside (g : Raster) (cr_data : Nat → Nat) (cr_stride : Nat)
    (sgd_data : Nat → Nat) (p : Nat) (hp : g.sgd_height * g.sgd_width ≤ p) :
    apply_mask g cr_data cr_stride sgd_data p = sgd_data p :=
  (apply_mask_rows_fold g cr_data cr_stride
    { sgd_data := sgd_data, dst := 0, msk := 0 } g.sgd_height).1 p hp

/-- C30. Pixel values fit the output palettes.  With `colormap` entries in
`0..7` and mask bytes in `0..255`, every pixel that `render_tiles` writes is
in `0..7`; for a base image with pixels in `0..7`, `apply_mask` leaves at each
pixel a value in `0..15` whose low three bits are the base pixel, for any
mask; and `apply_mask` applied twice with the same mask gives the same buffer
as applied once. -/
theorem pixel_values_fit (g : Raster) (cr_data : Nat → Nat) (cr_stride : Nat) :
    (∀ (colormap : Nat → Nat) (tiles : Nat → Nat → Nat) (sgd_data : Nat → Nat),
      g.h_tiles = (g.sgd_width + TILE_WIDTH - 1) / TILE_WIDTH →
      (∀ i, i < 256 → colormap i < 8) → (∀ t o, tiles t o < 256) → (∀ a, cr_data a < 256) →
      ∀ x y, x < g.sgd_width → y < g.sgd_height →
        (render_tiles g colormap tiles cr_data cr_stride sgd_data).sgd_data
          (y * g.sgd_width + x) < 8) ∧
    (∀ (base : Nat → Nat) (x y : Nat), x < g.sgd_width → y < g.sgd_height →
      base (y * g.sgd_width + x) < 8 →
      apply_mask g cr_data cr_stride base (y * g.sgd_width + x) < 16 ∧
      apply_mask g cr_data cr_stride base (y * g.sgd_width + x) &&& 7 =
        base (y * g.sgd_width + x)) ∧
    (∀ (base : Nat → Nat),
      apply_mask g cr_data cr_stride (apply_mask g cr_data cr_stride base) =
        apply_mask g cr_data cr_stride base) := by
  refine ⟨?_, ?_, ?_⟩
  · intro colormap tiles sgd_data hw hcm ht hmk x y hx hy
    have hw2 : g.sgd_width ≤ g.h_tiles * 128 := by
      rw [hw]
      show g.sgd_width ≤ (g.sgd_width + 128 - 1) / 128 * 128
      omega
    have h3 := (render_tiles_rows_fold g colormap tiles cr_data cr_stride
      { sgd_data := sgd_data, dst := 0, msk := 0, stores := [] } hw2 g.sgd_height).2.2 x y hx hy
    unfold render_tiles
    rw [h3]
    unfold render_tiles_value
    split
    · exact hcm _ (ht _ _)
    · have := hmk (y * cr_stride + x)
      show cr_data (y * cr_stride + x) / 32 < 8
      omega
  · intro base x y hx hy hb
    rw [apply_mask_value g cr_data cr_stride base x y hx hy]
    obtain ⟨h1, h2, h3⟩ := or8_small _ hb
    split
    · exact ⟨h1, h2⟩
    · exact ⟨by omega, h3⟩
  · intro base
    funext p
    by_cases hp : g.sgd_height * g.sgd_width ≤ p
    · rw [apply_mask_outside g cr_data cr_stride _ p hp]
    · have hp2 : p < g.sgd_height * g.sgd_width := Nat.lt_of_not_le hp
      have hwpos : 0 < g.sgd_width := by
        rcases Nat.eq_zero_or_pos g.sgd_width with h0 | h0
        · rw [h0] at hp2; simp at hp2
        · exact h0
      have hx : p % g.sgd_width < g.sgd_width := Nat.mod_lt _ hwpos
      have hy : p / g.sgd_width < g.sgd_height :=
        Nat.div_lt_of_lt_mul (by rw [Nat.mul_comm]; exact hp2)
      have hpe : p = p / g.sgd_width * g.sgd_width + p % g.sgd_width := by
        rw [Nat.mul_comm]; exact (Nat.div_add_mod p g.sgd_width).symm
      rw [hpe, apply_mask_value g cr_data cr_stride _ _ _ hx hy,
        apply_mask_value g cr_data cr_stride base _ _ hx hy]
      exact apply_mask_value_idem _ _

theorem pixel_values_fit_witness :
    ex_raster.h_tiles = (ex_raster.sgd_width + TILE_WIDTH - 1) / TILE_WIDTH ∧
    (∀ i, i < 256 → ex_colormap i < 8) ∧ (∀ t o, ex_tiles t o < 256) ∧ (∀ a, ex_mask a < 256) ∧
    (render_tiles ex_raster ex_colormap ex_tiles ex_mask 132 (fun _ => 0)).sgd_data
      (1 * ex_raster.sgd_width + 3) < 8 ∧
    apply_mask ex_raster ex_mask 132 (fun _ => 7) (0 * ex_raster.sgd_width + 4) < 16 ∧
    apply_mask ex_raster ex_mask 132 (fun _ => 7) (0 * ex_raster.sgd_width + 4) &&& 7 = 7 := by
  have hcm : ∀ i, i < 256 → ex_colormap i < 8 := fun i _ => Nat.mod_lt _ (by decide)
  have ht : ∀ t o, ex_tiles t o < 256 := fun t o => Nat.mod_lt _ (by decide)
  have hmk : ∀ a, ex_mask a < 256 := by
    intro a
    unfold ex_mask
    split
    · decide
    · split <;> decide
  exact ⟨rfl, hcm, ht, hmk,
    (pixel_values_fit ex_raster ex_mask 132).1 ex_colormap ex_tiles (fun _ => 0) rfl hcm ht hmk
      3 1 (by decide) (by decide),
    (pixel_values_fit ex_raster ex_mask 132).2.1 (fun _ => 7) 4 0 (by decide) (by decide)
      (by decide)⟩

/-! ## Theorems: tiles of the raster -/

theorem ceil_div_128 (w n : Nat) (h1 : w ≤ n * 128) (h2 : n * 128 < w + 128) (hn : n ≠ 0) :
    n = ⌈(w : ℚ) / 128⌉₊ := by
  symm
  rw [Nat.ceil_eq_iff hn]
  constructor
  · rw [lt_div_iff₀ (by norm_num)]
    have h3 : (n - 1) * 128 < w := by omega
    exact_mod_cast h3
  · rw [div_le_iff₀ (by norm_num)]
    exact_mod_cast h1

theorem tile_index_lt (h v a c : Nat) (ha : a < v) (hc : c < h) : a * h + c < h * v := by
  have h1 : (a + 1) * h ≤ v * h := Nat.mul_le_mul_right h ha
  have h2 : (a + 1) * h = a * h + h := by ring
  have h3 : v * h = h * v := Nat.mul_comm v h
  omega

theorem tile_offset_lt (m w k : Nat) (hm : m < 128) (hw : w ≤ 128) (hk : k < 128) :
    m * w + k < 128 * 128 := by
  have h1 : m * w ≤ 127 * 128 := Nat.mul_le_mul (by omega) hw
  omega

theorem parse_mrci_header_ok {fso : Nat} {m : SGDMrciHeader} {r : Raster}
    (hw : m.width < 2 ^ 32) (hh : m.height < 2 ^ 32) (h : parse_mrci_header fso m = .ok r) :
    1 ≤ m.width ∧ m.width ≤ 2048 ∧ 1 ≤ m.height ∧ m.height ≤ 2048 ∧
    r.sgd_width = m.width ∧ r.sgd_height = m.height ∧
    r.h_tiles = (m.width + 127) / 128 ∧ r.v_tiles = (m.height + 127) / 128 := by
  unfold parse_mrci_header at h
  split at h
  · cases h
  · split at h
    · cases h
    · next hs =>
      have hs2 : ¬ ((m.width + 2 ^ 32 - 1) % 2 ^ 32 > 2048 - 1 ∨
          (m.height + 2 ^ 32 - 1) % 2 ^ 32 > 2048 - 1) := hs
      have hb : 1 ≤ m.width ∧ m.width ≤ 2048 ∧ 1 ≤ m.height ∧ m.height ≤ 2048 := by omega
      split at h
      · cases h
      · split at h
        · cases h
        · split at h
          · cases h
          · split at h
            · cases h
            · injection h with h
              subst h
              refine ⟨hb.1, hb.2.1, hb.2.2.1, hb.2.2.2, rfl, rfl, ?_, ?_⟩
              · show (m.width + 128 - 1) % 2 ^ 32 / 128 = (m.width + 127) / 128
                omega
              · show (m.height + 128 - 1) % 2 ^ 32 / 128 = (m.height + 127) / 128
                omega

/-- C26. For every MRCI header that `parse_mrci` accepts, `h_tiles` is
`ceil(W/128)` and `v_tiles` is `ceil(H/128)`, the number of tiles
`h_tiles * v_tiles` is between 1 and 256 (`MAX_TILES`), and for every pixel
`(x, y)` inside the image the tile index `(y/128)*h_tiles + x/128` is below
`h_tiles * v_tiles` and the offset in the tile
`(y%128)*min(128, W-(x/128)*128) + x%128` is below `128*128`. -/
theorem parse_mrci_tiles (fso : Nat) (m : SGDMrciHeader) (r : Raster)
    (hw : m.width < 2 ^ 32) (hh : m.height < 2 ^ 32) (h : parse_mrci_header fso m = .ok r) :
    r.sgd_width = m.width ∧ r.sgd_height = m.height ∧
    r.h_tiles = ⌈(r.sgd_width : ℚ) / 128⌉₊ ∧ r.v_tiles = ⌈(r.sgd_height : ℚ) / 128⌉₊ ∧
    1 ≤ r.h_tiles * r.v_tiles ∧ r.h_tiles * r.v_tiles ≤ MAX_TILES ∧ MAX_TILES = 256 ∧
    ∀ x y, x < r.sgd_width → y < r.sgd_height →
      (y / 128) * r.h_tiles + x / 128 < r.h_tiles * r.v_tiles ∧
      (y % 128) * min 128 (r.sgd_width - (x / 128) * 128) + x % 128 < 128 * 128 := by
  obtain ⟨h1, h2, h3, h4, h5, h6, h7, h8⟩ := parse_mrci_header_ok hw hh h
  have hh1 : 1 ≤ r.h_tiles ∧ r.h_tiles ≤ 16 := by rw [h7]; omega
  have hv1 : 1 ≤ r.v_tiles ∧ r.v_tiles ≤ 16 := by rw [h8]; omega
  refine ⟨h5, h6, ?_, ?_, ?_, ?_, rfl, ?_⟩
  · rw [h5]
    exact ceil_div_128 _ _ (by rw [h7]; omega) (by rw [h7]; omega) (by omega)
  · rw [h6]
    exact ceil_div_128 _ _ (by rw [h8]; omega) (by rw [h8]; omega) (by omega)
  · exact Nat.mul_le_mul hh1.1 hv1.1
  · exact Nat.mul_le_mul hh1.2 hv1.2
  · intro x y hx hy
    constructor
    · apply tile_index_lt
      · rw [h8]; rw [h6] at hy; omega
      · rw [h7]; rw [h5] at hx; omega
    · exact tile_offset_lt _ _ _ (Nat.mod_lt _ (by decide)) (Nat.min_le_left _ _)
        (Nat.mod_lt _ (by decide))

theorem parse_mrci_tiles_witness :
    ∃ r, parse_mrci_header 4096 { ex_mrci with width := 130, height := 2 } = .ok r ∧
      r.sgd_width = 130 ∧ r.sgd_height = 2 ∧
      r.h_tiles = ⌈(r.sgd_width : ℚ) / 128⌉₊ ∧ r.v_tiles = ⌈(r.sgd_height : ℚ) / 128⌉₊ ∧
      1 ≤ r.h_tiles * r.v_tiles ∧ r.h_tiles * r.v_tiles ≤ MAX_TILES ∧ MAX_TILES = 256 ∧
      ∀ x y, x < r.sgd_width → y < r.sgd_height →
        (y / 128) * r.h_tiles + x / 128 < r.h_tiles * r.v_tiles ∧
        (y % 128) * min 128 (r.sgd_width - (x / 128) * 128) + x % 128 < 128 * 128 :=
  ⟨_, rfl, parse_mrci_tiles 4096 { ex_mrci with width := 130, height := 2 } _
    (by decide) (by decide) rfl⟩

/-! ## Theorems: the shape sum of a run -/

theorem u32_of_int_lt (x : Int) : u32_of_int x < 2 ^ 32 := by
  unfold u32_of_int
  omega

theorem u32_of_int_add (a : Int) (n : Nat) :
    u32_of_int (a + (n : Int)) = (u32_of_int a + n) % 2 ^ 32 := by
  unfold u32_of_int
  omega

theorem u32_of_int_add_int (a v : Int) : u32_of_int (int_add a v) = u32_of_int (a + v) := by
  unfold int_add
  exact u32_of_int_of_u32 (u32_of_int_lt _)

theorem int_of_u32_range (n : Nat) : -(2 ^ 31) ≤ int_of_u32 n ∧ int_of_u32 n < 2 ^ 31 := by
  unfold int_of_u32
  split <;> omega

theorem u32_of_int_inj {x y : Int} (hx : -(2 ^ 31) ≤ x ∧ x < 2 ^ 31)
    (hy : -(2 ^ 31) ≤ y ∧ y < 2 ^ 31) (h : u32_of_int x = u32_of_int y) : x = y := by
  unfold u32_of_int at h
  omega

theorem shape_step_range (s cls : Int) (hs : -(2 ^ 31) ≤ s ∧ s < 2 ^ 31) :
    -(2 ^ 31) ≤ shape_step s cls ∧ shape_step s cls < 2 ^ 31 := by
  unfold shape_step
  split
  · exact int_of_u32_range _
  · exact hs

theorem shape_fold_range : ∀ (cl : List Int) (s : Int), (-(2 ^ 31) ≤ s ∧ s < 2 ^ 31) →
    -(2 ^ 31) ≤ cl.foldl shape_step s ∧ cl.foldl shape_step s < 2 ^ 31 := by
  intro cl
  induction cl with
  | nil => intro s hs; exact hs
  | cons c rest ih =>
    intro s hs
    rw [List.foldl_cons]
    exact ih _ (shape_step_range s c hs)

/-- The weight `1 << (8*(class-1))` that a child of class `cls` adds. -/
theorem shape_step_u32 (s cls : Int) (h0 : 0 ≤ cls) (h4 : cls ≤ 4) :
    u32_of_int (shape_step s cls) =
      (u32_of_int s + (if cls = 1 then 1 else 0) + 256 * (if cls = 2 then 1 else 0) +
        65536 * (if cls = 3 then 1 else 0) + 16777216 * (if cls = 4 then 1 else 0)) % 2 ^ 32 := by
  have hlt := u32_of_int_lt s
  have hc : cls = 0 ∨ cls = 1 ∨ cls = 2 ∨ cls = 3 ∨ cls = 4 := by omega
  rcases hc with h | h | h | h | h <;> subst h
  · simp only [shape_step]
    norm_num
    omega
  · have e : shape_step s 1 = int_add s ((1 : Nat) : Int) := by simp [shape_step]
    rw [e, u32_of_int_add_int, u32_of_int_add]
    norm_num
  · have e : shape_step s 2 = int_add s ((256 : Nat) : Int) := by simp [shape_step]
    rw [e, u32_of_int_add_int, u32_of_int_add]
    norm_num
  · have e : shape_step s 3 = int_add s ((65536 : Nat) : Int) := by simp [shape_step]
    rw [e, u32_of_int_add_int, u32_of_int_add]
    norm_num
  · have e : shape_step s 4 = int_add s ((16777216 : Nat) : Int) := by simp [shape_step]
    rw [e, u32_of_int_add_int, u32_of_int_add]
    norm_num

/-- The shape sum, as `uint32_t`, is the sum of the numbers of children of the
classes 1 to 4 weighted by `1`, `2^8`, `2^16` and `2^24`, modulo `2^32`. -/
theorem shape_fold_u32 : ∀ (cl : List Int) (s : Int), (∀ c ∈ cl, 0 ≤ c ∧ c ≤ 4) →
    u32_of_int (cl.foldl shape_step s) =
      (u32_of_int s + cl.count 1 + 256 * cl.count 2 + 65536 * cl.count 3 +
        16777216 * cl.count 4) % 2 ^ 32 := by
  intro cl
  induction cl with
  | nil =>
    intro s _
    have := u32_of_int_lt s
    simp only [List.foldl_nil, List.count_nil]
    omega
  | cons c rest ih =>
    intro s hc
    rw [List.foldl_cons, ih _ (fun x hx => hc x (List.mem_cons_of_mem _ hx)),
      shape_step_u32 s c (hc c (List.mem_cons_self _ _)).1 (hc c (List.mem_cons_self _ _)).2]
    simp only [List.count_cons, beq_iff_eq]
    omega

theorem entry_has_shape_loop_range (st : State) (e : Nat) : ∀ (l : List Nat) (c : Int),
    entry_has_shape_loop st e l = .ok c → 0 ≤ c ∧ c ≤ 4 := by
  intro l
  induction l with
  | nil =>
    intro c h
    simp only [entry_has_shape_loop] at h
    injection h with h
    subst h
    decide
  | cons i rest ih =>
    intro c h
    simp only [entry_has_shape_loop] at h
    split at h
    · cases h
    · split at h
      · injection h with h
        subst h
        decide
      · exact ih c h

theorem entry_has_shape_range {st : State} {e : Nat} {c : Int}
    (h : entry_has_shape st e = .ok c) : 0 ≤ c ∧ c ≤ 4 := by
  unfold entry_has_shape at h
  split at h
  · injection h with h; subst h; decide
  · split at h
    · injection h with h; subst h; decide
    · split at h
      · injection h with h; subst h; decide
      · split at h
        · exact entry_has_shape_loop_range st e _ c h
        · injection h with h; subst h; decide

theorem run_classes_range (st : State) (set : Nat) : ∀ (l : List Nat) (tl : Bool)
    (cl : List Int), run_classes st set l tl = .ok cl → ∀ c ∈ cl, 0 ≤ c ∧ c ≤ 4 := by
  intro l
  induction l with
  | nil =>
    intro tl cl h
    simp only [run_classes] at h
    injection h with h
    subst h
    simp
  | cons i rest ih =>
    intro tl cl h
    simp only [run_classes] at h
    split at h
    · cases h
    · split at h
      · split at h
        · injection h with h
          subst h
          simp
        · exact ih _ _ h
      · split at h
        · cases h
        · next cls hcls =>
          split at h
          · cases h
          · next cl2 hcl2 =>
            injection h with h
            subst h
            intro c hc
            rcases List.mem_cons.mp hc with hc | hc
            · subst hc
              exact entry_has_shape_range hcls
            · exact ih _ _ hcl2 c hc

/-- The inner loop of `calc_set_bounds_r` leaves in `shape` the shape sum of
the classes of the children that it has passed. -/
theorem calc_set_scan_shape (st : State) (g : Raster) (set : Nat) : ∀ (l : List Nat)
    (s s2 : ScanState), calc_set_scan st g set l s = .ok s2 →
    ∃ cl, run_classes st set l s.textline = .ok cl ∧ s2.shape = cl.foldl shape_step s.shape := by
  intro l
  induction l with
  | nil =>
    intro s s2 h
    simp only [calc_set_scan] at h
    injection h with h
    subst h
    exact ⟨[], rfl, rfl⟩
  | cons i rest ih =>
    intro s s2 h
    simp only [calc_set_scan] at h
    simp only [run_classes]
    split at h
    · cases h
    · next e he =>
      try rw [he]
      try simp only
      split at h
      · next ht =>
        rw [if_pos ht]
        split at h
        · next htl =>
          injection h with h
          subst h
          rw [if_pos htl]
          exact ⟨[], rfl, rfl⟩
        · next htl =>
          rw [if_neg htl]
          exact ih _ _ h
      · next ht =>
        rw [if_neg ht]
        split at h
        · cases h
        · split at h
          · cases h
          · next cls hcls =>
            obtain ⟨cl, h1, h2⟩ := ih _ _ h
            simp only at h1 h2
            refine ⟨cls :: cl, ?_, by rw [h2]; rfl⟩
            simp only [hcls, h1]

theorem shape_sum_eq_iff (cl1 cl2 : List Int) (h1 : ∀ c ∈ cl1, 0 ≤ c ∧ c ≤ 4)
    (h2 : ∀ c ∈ cl2, 0 ≤ c ∧ c ≤ 4)
    (hb1 : cl1.count 1 < 256 ∧ cl1.count 2 < 256 ∧ cl1.count 3 < 256 ∧ cl1.count 4 < 256)
    (hb2 : cl2.count 1 < 256 ∧ cl2.count 2 < 256 ∧ cl2.count 3 < 256 ∧ cl2.count 4 < 256) :
    shape_sum cl1 = shape_sum cl2 ↔
      (cl1.count 1 = cl2.count 1 ∧ cl1.count 2 = cl2.count 2 ∧ cl1.count 3 = cl2.count 3 ∧
        cl1.count 4 = cl2.count 4) := by
  have e1 := shape_fold_u32 cl1 0 h1
  have e2 := shape_fold_u32 cl2 0 h2
  have z : u32_of_int 0 = 0 := by decide
  rw [z] at e1 e2
  constructor
  · intro h
    have h3 : u32_of_int (shape_sum cl1) = u32_of_int (shape_sum cl2) := by rw [h]
    unfold shape_sum at h3
    rw [e1, e2] at h3
    omega
  · intro h
    apply u32_of_int_inj (shape_fold_range cl1 0 (by decide)) (shape_fold_range cl2 0 (by decide))
    rw [e1, e2]
    omega

theorem except_ok_of_toBool {α : Type} {e : Except Err α} (h : e.toBool = true) :
    ∃ x, e = .ok x := by
  cases e with
  | error err => simp [Except.toBool] at h
  | ok x => exact ⟨x, rfl⟩

theorem except_ok_of_toOption {α : Type} {e : Except Err α} {x : α}
    (h : e.toOption = some x) : e = .ok x := by
  cases e with
  | error err => simp [Except.toOption] at h
  | ok y =>
    simp only [Except.toOption, Option.some.injEq] at h
    rw [h]

theorem carry_scan :
    (calc_set_scan carry_state ex_raster_crop 0 (List.range 256)
      { eb := EMPTY_BOUNDS, shape := 0, textline := false, count := 0 }).toOption.map
        (fun r => r.shape) = some 65536 := by
  decide!

set_option maxRecDepth 100000 in
theorem carry_classes :
    (run_classes carry_state 0 (List.range 256) false).toOption =
      some (List.replicate 256 2) := by
  decide!

/-- The shape sums of two runs can be equal although the runs differ in their
numbers of children of the classes 2 and 3: the 256 children of class 2 of the
SET 1 of `carry_image` (which `validate_directory` accepts) give the shape sum
`65536`, and so does the one child of class 3 of the SET 2. -/
theorem shape_sum_carry :
    validate_directory carry_image = .ok carry_state ∧
    ∃ r1 r2,
      calc_set_scan carry_state ex_raster_crop 0 (List.range 256)
        { eb := EMPTY_BOUNDS, shape := 0, textline := false, count := 0 } = .ok r1 ∧
      calc_set_scan carry_state ex_raster_crop 1088 (List.range 1)
        { eb := EMPTY_BOUNDS, shape := 0, textline := false, count := 0 } = .ok r2 ∧
      run_classes carry_state 0 (List.range 256) false = .ok (List.replicate 256 2) ∧
      run_classes carry_state 1088 (List.range 1) false = .ok [3] ∧
      r1.shape = 65536 ∧ r2.shape = 65536 ∧ r1.shape = r2.shape ∧
      (List.replicate 256 (2 : Int)).count 2 ≠ ([3] : List Int).count 2 := by
  have hv : validate_directory carry_image = .ok carry_state :=
    validate_directory_eq (except_ok_of_toBool (by decide!)) rfl
  have h1 := carry_scan
  cases hr : calc_set_scan carry_state ex_raster_crop 0 (List.range 256)
      { eb := EMPTY_BOUNDS, shape := 0, textline := false, count := 0 } with
  | error err =>
    rw [hr] at h1
    simp [Except.toOption] at h1
  | ok r1 =>
    rw [hr] at h1
    simp only [Except.toOption, Option.map_some', Option.some.injEq] at h1
    refine ⟨hv, r1, _, rfl, rfl, except_ok_of_toOption carry_classes, rfl, h1, rfl, ?_, ?_⟩
    · rw [h1]
      rfl
    · rw [List.count_replicate_self]
      decide

/-- C25 (amended). The shape sum of a run (the 32-bit sum of
`1 << (8*(class-1))` over its children with a class in `1..4`) identifies the
shape composition of runs that have fewer than 256 children of each class:
for two such runs the shape sums are equal if and only if the runs have the
same number of children of each class `1..4`, and the shape sum of such a run
is zero if and only if it has no child of a class `1..4`. -/
theorem shape_sum_identifies (st1 st2 : State) (g1 g2 : Raster) (a1 a2 : Nat) (l1 l2 : List Nat)
    (tl1 tl2 : Bool) (r1 r2 : ScanState) (cl1 cl2 : List Int)
    (hr1 : calc_set_scan st1 g1 a1 l1
      { eb := EMPTY_BOUNDS, shape := 0, textline := tl1, count := 0 } = .ok r1)
    (hr2 : calc_set_scan st2 g2 a2 l2
      { eb := EMPTY_BOUNDS, shape := 0, textline := tl2, count := 0 } = .ok r2)
    (hc1 : run_classes st1 a1 l1 tl1 = .ok cl1) (hc2 : run_classes st2 a2 l2 tl2 = .ok cl2)
    (hb1 : cl1.count 1 < 256 ∧ cl1.count 2 < 256 ∧ cl1.count 3 < 256 ∧ cl1.count 4 < 256)
    (hb2 : cl2.count 1 < 256 ∧ cl2.count 2 < 256 ∧ cl2.count 3 < 256 ∧ cl2.count 4 < 256) :
    r1.shape = shape_sum cl1 ∧ r2.shape = shape_sum cl2 ∧
    (r1.shape = r2.shape ↔
      (cl1.count 1 = cl2.count 1 ∧ cl1.count 2 = cl2.count 2 ∧ cl1.count 3 = cl2.count 3 ∧
        cl1.count 4 = cl2.count 4)) ∧
    (r1.shape = 0 ↔
      (cl1.count 1 = 0 ∧ cl1.count 2 = 0 ∧ cl1.count 3 = 0 ∧ cl1.count 4 = 0)) := by
  obtain ⟨c1, k1, e1⟩ := calc_set_scan_shape st1 g1 a1 l1 _ r1 hr1
  obtain ⟨c2, k2, e2⟩ := calc_set_scan_shape st2 g2 a2 l2 _ r2 hr2
  simp only at k1 k2 e1 e2
  rw [hc1] at k1
  rw [hc2] at k2
  injection k1 with k1
  injection k2 with k2
  subst k1
  subst k2
  have q1 := run_classes_range st1 a1 l1 tl1 cl1 hc1
  have q2 := run_classes_range st2 a2 l2 tl2 cl2 hc2
  have s1 : r1.shape = shape_sum cl1 := e1
  have s2 : r2.shape = shape_sum cl2 := e2
  refine ⟨s1, s2, ?_, ?_⟩
  · rw [s1, s2]
    exact shape_sum_eq_iff cl1 cl2 q1 q2 hb1 hb2
  · rw [s1]
    have h0 := shape_sum_eq_iff cl1 [] q1 (by simp) hb1 (by simp)
    simpa [shape_sum] using h0

theorem shape_sum_identifies_witness :
    ∃ r1 r2,
      calc_set_scan shapes_state ex_raster_crop 0 (List.range 4)
        { eb := EMPTY_BOUNDS, shape := 0, textline := false, count := 0 } = .ok r1 ∧
      calc_set_scan carry_state ex_raster_crop 1088 (List.range 1)
        { eb := EMPTY_BOUNDS, shape := 0, textline := false, count := 0 } = .ok r2 ∧
      run_classes shapes_state 0 (List.range 4) false = .ok [2] ∧
      run_classes carry_state 1088 (List.range 1) false = .ok [3] ∧
      r1.shape = shape_sum [2] ∧ r2.shape = shape_sum [3] ∧
      (r1.shape = r2.shape ↔
        (([2] : List Int).count 1 = ([3] : List Int).count 1 ∧
          ([2] : List Int).count 2 = ([3] : List Int).count 2 ∧
          ([2] : List Int).count 3 = ([3] : List Int).count 3 ∧
          ([2] : List Int).count 4 = ([3] : List Int).count 4)) ∧
      (r1.shape = 0 ↔
        (([2] : List Int).count 1 = 0 ∧ ([2] : List Int).count 2 = 0 ∧
          ([2] : List Int).count 3 = 0 ∧ ([2] : List Int).count 4 = 0)) :=
  ⟨_, _, rfl, rfl, rfl, rfl,
    shape_sum_identifies shapes_state carry_state ex_raster_crop ex_raster_crop 0 1088
      (List.range 4) (List.range 1) false false _ _ [2] [3] rfl rfl rfl rfl
      (by decide) (by decide)⟩

/-! ## Theorems: `finalize_bounds` -/

theorem is_name_area_of_found {st : State} {x y e n : Nat} (hx : find_entry st x = .ok e)
    (hy : find_entry st y = .ok n) :
    (is_name_area st x y = true ↔
      ((st.entry e).hdr.type = SGD_TEXTLINE2D ∧ strchr (st.entry e).textline.text 45 = false ∧
        (st.entry n).hdr.type = SGD_SIMPLEAREA)) := by
  unfold is_name_area
  rw [hx, hy]
  simp only [Bool.and_eq_true, decide_eq_true_eq, Bool.not_eq_true']
  constructor
  · rintro ⟨⟨h1, h2⟩, h3⟩
    exact ⟨h1, h2, h3⟩
  · rintro ⟨h1, h2, h3⟩
    exact ⟨⟨h1, h2⟩, h3⟩

/-- The loop of `finalize_bounds` over the slots `k .. k + m - 1`, when the
children of the slots `k .. k + m` resolve: it seeds `b` with the SIMPLE_AREA
of the first pair, or leaves it. -/
theorem finalize_bounds_loop_spec (st : State) (g : Raster) (a : Nat) (b : bounds_t) :
    ∀ (m k : Nat),
    (∀ j, k ≤ j → j ≤ k + m → ∃ e, find_entry st ((st.entry a).set.entries.getD j 0) = .ok e) →
    finalize_bounds_loop st g a (List.range' k m) b =
      match first_pair_second (is_name_area st)
          ((List.range' k (m + 1)).map (fun j => (st.entry a).set.entries.getD j 0)) with
      | some y =>
        (match find_entry st y with
        | .ok n => calc_entry_bounds st g b n
        | .error err => .error err)
      | none => .ok b := by
  intro m
  induction m with
  | zero =>
    intro k _
    simp [finalize_bounds_loop, first_pair_second]
  | succ m ih =>
    intro k hres
    obtain ⟨e, he⟩ := hres k (Nat.le_refl _) (by omega)
    obtain ⟨n, hn⟩ := hres (k + 1) (by omega) (by omega)
    have hl : List.range' k (m + 1 + 1) = k :: (k + 1) :: List.range' (k + 2) m := by
      rw [List.range'_succ, List.range'_succ]
    have hl2 : (k + 1) :: List.range' (k + 2) m = List.range' (k + 1) (m + 1) := by
      rw [List.range'_succ]
    have hl3 : List.range' k (m + 1) = k :: List.range' (k + 1) m := by
      rw [List.range'_succ]
    rw [hl3, hl]
    simp only [List.map_cons, finalize_bounds_loop, first_pair_second, he, hn]
    have hiff := is_name_area_of_found he hn
    by_cases hp : is_name_area st ((st.entry a).set.entries.getD k 0)
        ((st.entry a).set.entries.getD (k + 1) 0) = true
    · rw [if_pos (hiff.mp hp), if_pos hp]
      simp only [hn]
    · rw [if_neg (fun h => hp (hiff.mpr h)), if_neg hp]
      rw [ih (k + 1) (fun j h1 h2 => hres j (by omega) (by omega))]
      rw [← List.map_cons (fun j => (st.entry a).set.entries.getD j 0), hl2]

theorem children_eq_map (st : State) (a : Nat) :
    st.children a =
      (List.range' 0 (st.entry a).set.num_entries).map
        (fun j => (st.entry a).set.entries.getD j 0) := by
  unfold State.children
  rw [List.range_eq_range']

theorem expand_bounds_empty (g : Raster) {b : bounds_t} (he : bounds_empty b = true) :
    expand_bounds g b = b := by
  unfold expand_bounds
  rw [he]
  simp

/-- The function `finalize_bounds` on a SET whose children resolve. -/
theorem finalize_bounds_spec (st : State) (g : Raster) (b : bounds_t) (a : Nat)
    (hn : (st.entry a).set.num_entries < 2 ^ 31) (hf : children_found st a)
    (he : bounds_empty b = true) :
    finalize_bounds st g b a =
      match first_pair_second (is_name_area st) (st.children a) with
      | some y =>
        (match find_entry st y with
        | .ok n => (calc_entry_bounds st g b n).map (expand_bounds g)
        | .error err => .error err)
      | none => .ok b := by
  unfold finalize_bounds
  simp only [he, if_true]
  rw [toNat_pred_count hn]
  by_cases h0 : (st.entry a).set.num_entries = 0
  · have hc : st.children a = [] := by
      apply List.eq_nil_of_length_eq_zero
      rw [children_length, h0]
    rw [hc, h0]
    simp only [first_pair_second, List.range_zero, finalize_bounds_loop]
    rw [expand_bounds_empty g he]
  · have hres : ∀ j, 0 ≤ j → j ≤ 0 + ((st.entry a).set.num_entries - 1) →
        ∃ e, find_entry st ((st.entry a).set.entries.getD j 0) = .ok e := by
      intro j _ hj
      exact hf _ (slot_mem_children st a j (by omega))
    rw [List.range_eq_range', finalize_bounds_loop_spec st g a b _ 0 hres]
    have hm : (st.entry a).set.num_entries - 1 + 1 = (st.entry a).set.num_entries := by omega
    rw [hm, ← children_eq_map]
    cases first_pair_second (is_name_area st) (st.children a) with
    | none =>
      simp only
      rw [expand_bounds_empty g he]
    | some y =>
      simp only
      cases find_entry st y with
      | error err => rfl
      | ok n =>
        simp only
        cases calc_entry_bounds st g b n <;> rfl

theorem first_pair_second_some (pair : Nat → Nat → Bool) : ∀ (n : Nat) (l : List Nat),
    l.length ≤ n → ∀ y, first_pair_second pair l = some y →
    ∃ pre x post, l = pre ++ x :: y :: post ∧ pair x y = true ∧
      first_pair_second pair (pre ++ [x]) = none := by
  intro n
  induction n with
  | zero =>
    intro l hl y h
    have : l = [] := List.length_eq_zero.mp (Nat.le_zero.mp hl)
    subst this
    simp [first_pair_second] at h
  | succ n ih =>
    intro l hl y h
    match l, hl, h with
    | [], _, h => simp [first_pair_second] at h
    | [x], _, h => simp [first_pair_second] at h
    | x :: y2 :: rest, hl, h =>
      simp only [List.length_cons] at hl
      rw [first_pair_second] at h
      by_cases hp : pair x y2 = true
      · rw [if_pos hp] at h
        injection h with h
        subst h
        exact ⟨[], x, rest, rfl, hp, by simp [first_pair_second]⟩
      · rw [if_neg hp] at h
        obtain ⟨pre, x2, post, h1, h2, h3⟩ :=
          ih (y2 :: rest) (by simp only [List.length_cons]; omega) y h
        refine ⟨x :: pre, x2, post, by rw [h1]; rfl, h2, ?_⟩
        cases pre with
        | nil =>
          simp only [List.nil_append, List.cons.injEq] at h1
          obtain ⟨h1, _⟩ := h1
          subst h1
          simp [first_pair_second, hp]
        | cons z pre2 =>
          simp only [List.cons_append, List.cons.injEq] at h1
          obtain ⟨h1, _⟩ := h1
          subst h1
          simp only [List.cons_append] at h3 ⊢
          rw [first_pair_second, if_neg hp]
          exact h3

theorem is_name_area_second {st : State} {x y : Nat} (h : is_name_area st x y = true) :
    ∃ n, find_entry st y = .ok n ∧ (st.entry n).hdr.type = SGD_SIMPLEAREA := by
  unfold is_name_area at h
  split at h
  · next e n he hn =>
    simp only [Bool.and_eq_true, decide_eq_true_eq] at h
    exact ⟨n, hn, h.2⟩
  · cases h

theorem calc_set_children_keeps_empty
    (self : State → bounds_t → Nat → Except Err (State × bounds_t))
    (hself : ∀ st b e r, self st b e = .ok r → bounds_empty r.2 = true → r.2 = b) (set : Nat) :
    ∀ (l : List Nat) (st : State) (b : bounds_t) (r : State × bounds_t),
    calc_set_children self set l st b = .ok r → bounds_empty r.2 = true → r.2 = b := by
  intro l
  induction l with
  | nil =>
    intro st b r h _
    simp only [calc_set_children] at h
    injection h with h
    subst h
    rfl
  | cons j rest ih =>
    intro st b r h he
    simp only [calc_set_children] at h
    split at h
    · cases h
    · split at h
      · split at h
        · cases h
        · next r1 hr1 =>
          have h1 := ih _ _ _ h he
          rw [h1] at he ⊢
          exact hself _ _ _ _ hr1 he
      · exact ih _ _ _ h he

/-- An empty rectangle that `calc_set_bounds_r` leaves is the rectangle that
it was given: the rectangles that it computes itself are not empty. -/
theorem calc_set_bounds_r_keeps_empty (g : Raster) : ∀ (fuel : Nat) (st : State) (b : bounds_t)
    (a : Nat) (r : State × bounds_t),
    calc_set_bounds_r g fuel st b a = .ok r → bounds_empty r.2 = true → r.2 = b := by
  intro fuel
  induction fuel with
  | zero =>
    intro st b a r h
    simp only [calc_set_bounds_r] at h
    cases h
  | succ fuel ih =>
    intro st b a r h he
    simp only [calc_set_bounds_r] at h
    have hch := calc_set_children_keeps_empty (calc_set_bounds_r g fuel) ih a
    split at h
    · exact hch _ _ _ _ h he
    · split at h
      · cases h
      · split at h
        · cases h
        · split at h
          · split at h
            · next hne =>
              injection h with h
              subst h
              rw [he] at hne
              cases hne
            · exact hch _ _ _ _ h he
          · split at h
            · next hne =>
              injection h with h
              subst h
              rw [he] at hne
              cases hne
            · exact hch _ _ _ _ h he

/-- The function `finalize_bounds`, on a SET whose children resolve: if `b` is
empty on entry, the loop looks for the first adjacent child pair (TEXT_LINE
whose text has no `-`, SIMPLE_AREA) and `b` becomes, before the expansion,
`calc_entry_bounds(b, n)` for the SIMPLE_AREA `n` of that pair, that is, the
points of the area are added to `b`.  `b` stays as it is if there is no such
pair (so for SETs with 0 or 1 children); if `b` is not empty on entry the
children of the SET are not read and `b` is only expanded.  From
`EMPTY_BOUNDS`, `calc_set_bounds_r` leaves `EMPTY_BOUNDS` or a rectangle that
is not empty. -/
theorem finalize_bounds_seed (st : State) (g : Raster) (a : Nat)
    (hn : (st.entry a).set.num_entries < 2 ^ 31) (hf : children_found st a) :
    (∀ (st2 : State) (b : bounds_t), bounds_empty b = false →
      finalize_bounds st2 g b a = .ok (expand_bounds g b)) ∧
    (∀ b y, bounds_empty b = true →
      first_pair_second (is_name_area st) (st.children a) = some y →
      ∃ n, find_entry st y = .ok n ∧ (st.entry n).hdr.type = SGD_SIMPLEAREA ∧
        finalize_bounds st g b a = (calc_entry_bounds st g b n).map (expand_bounds g) ∧
        ∃ pre x post, st.children a = pre ++ x :: y :: post ∧ is_name_area st x y = true ∧
          first_pair_second (is_name_area st) (pre ++ [x]) = none) ∧
    (∀ b, bounds_empty b = true →
      first_pair_second (is_name_area st) (st.children a) = none →
      finalize_bounds st g b a = .ok b) ∧
    ((st.entry a).set.num_entries ≤ 1 →
      first_pair_second (is_name_area st) (st.children a) = none) ∧
    (∀ fuel st1 a1 r, calc_set_bounds_r g fuel st1 EMPTY_BOUNDS a1 = .ok r →
      r.2 = EMPTY_BOUNDS ∨ bounds_empty r.2 = false) := by
  refine ⟨?_, ?_, ?_, ?_, ?_⟩
  · intro st2 b he
    unfold finalize_bounds
    simp [he]
  · intro b y he hy
    obtain ⟨pre, x, post, h1, h2, h3⟩ := first_pair_second_some _ _ _ (Nat.le_refl _) y hy
    obtain ⟨n, hn1, hn2⟩ := is_name_area_second h2
    refine ⟨n, hn1, hn2, ?_, pre, x, post, h1, h2, h3⟩
    rw [finalize_bounds_spec st g b a hn hf he, hy]
    simp only [hn1]
  · intro b he hy
    rw [finalize_bounds_spec st g b a hn hf he, hy]
  · intro h1
    have hlen := children_length st a
    match hc : st.children a with
    | [] => simp [first_pair_second]
    | [x] => simp [first_pair_second]
    | x :: y :: rest =>
      rw [hc] at hlen
      simp only [List.length_cons] at hlen
      omega
  · intro fuel st1 a1 r hr
    by_cases he : bounds_empty r.2 = true
    · exact Or.inl (calc_set_bounds_r_keeps_empty g fuel st1 _ a1 r hr he)
    · exact Or.inr (by simpa using he)

theorem finalize_bounds_seed_witness :
    (seed_state.entry 0).set.num_entries < 2 ^ 31 ∧ children_found seed_state 0 ∧
    bounds_empty EMPTY_BOUNDS = true ∧
    first_pair_second (is_name_area seed_state) (seed_state.children 0) = some 3 ∧
    ∃ n, find_entry seed_state 3 = .ok n ∧ (seed_state.entry n).hdr.type = SGD_SIMPLEAREA ∧
      finalize_bounds seed_state ex_raster_crop EMPTY_BOUNDS 0 =
        (calc_entry_bounds seed_state ex_raster_crop EMPTY_BOUNDS n).map
          (expand_bounds ex_raster_crop) ∧
      ∃ pre x post, seed_state.children 0 = pre ++ x :: 3 :: post ∧
        is_name_area seed_state x 3 = true ∧
        first_pair_second (is_name_area seed_state) (pre ++ [x]) = none := by
  have hf : children_found seed_state 0 := by
    intro x hx
    have hc : seed_state.children 0 = [2, 3] := rfl
    rw [hc] at hx
    simp only [List.mem_cons, List.mem_singleton, List.not_mem_nil, or_false] at hx
    rcases hx with hx | hx <;> subst hx <;> exact ⟨_, rfl⟩
  exact ⟨by decide, hf, by decide, by decide,
    (finalize_bounds_seed seed_state ex_raster_crop 0 (by decide) hf).2.1 EMPTY_BOUNDS 3
      (by decide) (by decide)⟩

/-! ## Theorems: the crop of a SET with one lasso -/

/-- An `int` result that fits 32 bits is the exact one. -/
theorem int_wrap_of_range {x : Int} (h1 : -2147483648 ≤ x) (h2 : x < 2147483648) :
    int_wrap x = x := by
  unfold int_wrap int_of_u32 u32_of_int
  have e32 : (2 : Int) ^ 32 = 4294967296 := by norm_num
  have n32 : (2 : Nat) ^ 32 = 4294967296 := by norm_num
  have n31 : (2 : Nat) ^ 31 = 2147483648 := by norm_num
  rw [e32, n32, n31]
  have h3 : 0 ≤ x % 4294967296 := Int.emod_nonneg _ (by norm_num)
  have h4 : x % 4294967296 < 4294967296 := Int.emod_lt_of_pos _ (by norm_num)
  have h5 : ((x % 4294967296).toNat : Int) = x % 4294967296 := Int.toNat_of_nonneg h3
  have h6 : (x % 4294967296).toNat % 4294967296 = (x % 4294967296).toNat := by omega
  rw [h6]
  split <;> omega

theorem draw_polyline_end_reverse {st : State} {g : Raster} {idx : Nat} {v : List (Int × Int)}
    (h : draw_polyline_end st g idx = .ok v) : v.reverse = v := by
  unfold draw_polyline_end at h
  split at h
  · split at h
    · cases h
    · injection h with h
      subst h
      rfl
  · injection h with h
    subst h
    rfl

theorem reverse_start (n : Nat) (hn : n < 2 ^ 31) :
    (int_of_u32 (n + 2 ^ 32 - 1) + 1).toNat = n := by
  unfold int_of_u32
  split <;> omega

/-- The two directions of `draw_polyline` for a polyline with fewer than
`2^31` points. -/
theorem draw_polyline_directions (st : State) (g : Raster) (e : Nat)
    (hn : (st.entry e).polyline.num_points < 2 ^ 31) :
    draw_polyline st g e false = polyline_forward st g e ∧
    (draw_polyline st g e true).toOption =
      (draw_polyline st g e false).toOption.map List.reverse := by
  unfold draw_polyline polyline_forward
  simp only [if_true, if_false, Bool.false_eq_true, reverse_start _ hn]
  cases h1 : draw_polyline_end st g (st.entry e).polyline.point1 with
  | error err1 =>
    cases h2 : draw_polyline_end st g (st.entry e).polyline.point2 with
    | error err2 => exact ⟨rfl, rfl⟩
    | ok v3 => exact ⟨rfl, rfl⟩
  | ok v1 =>
    cases h2 : draw_polyline_end st g (st.entry e).polyline.point2 with
    | error err2 => exact ⟨rfl, rfl⟩
    | ok v3 =>
      refine ⟨rfl, ?_⟩
      simp only [Except.toOption, Option.map_some', Option.some.injEq, List.reverse_append,
        List.map_reverse, draw_polyline_end_reverse h1, draw_polyline_end_reverse h2,
        List.append_assoc]

theorem validated_polyline {img : Image} {st : State} (hv : validate_directory img = .ok st)
    (i : Nat) (hi : i < st.dir.num_entries)
    (ht : (st.entry (st.dir_addr i)).hdr.type = SGD_POLYLINE2D) :
    (st.entry (st.dir_addr i)).polyline.num_points < 2 ^ 31 := by
  obtain ⟨_, _, hent, _⟩ := validate_directory_ok hv
  have h1 := (validate_entry_counts (hent i hi)).1 ht
  have h2 := file_size_off_lt st.img
  have h3 : (file_size_off st.img - st.dir_addr i) / sizeof_SGDPoint < 2 ^ 31 := by
    apply Nat.div_lt_of_lt_mul
    show file_size_off st.img - st.dir_addr i < 8 * 2 ^ 31
    omega
  omega

/-- C23. For every POLYLINE of a directory that `validate_directory` has
accepted, `draw_polyline` with `reverse = false` emits the first endpoint if
`point1 != 0`, the inline points, and the second endpoint if `point2 != 0`,
and with `reverse = true` it emits the reverse of that sequence (both fail
when an endpoint is not found); and `render_area_mask` calls it with
`reverse` set exactly when the signed index in the SIMPLE_AREA is negative. -/
theorem draw_polyline_reverses (img : Image) (st : State) (g : Raster)
    (hv : validate_directory img = .ok st) :
    (∀ i, i < st.dir.num_entries → (st.entry (st.dir_addr i)).hdr.type = SGD_POLYLINE2D →
      draw_polyline st g (st.dir_addr i) false = polyline_forward st g (st.dir_addr i) ∧
      (draw_polyline st g (st.dir_addr i) true).toOption =
        (draw_polyline st g (st.dir_addr i) false).toOption.map List.reverse ∧
      ∀ v, draw_polyline st g (st.dir_addr i) false = .ok v →
        draw_polyline st g (st.dir_addr i) true = .ok v.reverse) ∧
    (∀ a j rest s, find_entry st ((st.entry a).simple_area.entries.getD j 0).natAbs = .ok s →
      (st.entry s).hdr.type = SGD_POLYLINE2D →
      (st.entry s).polyline.num_points < 2 ^ 31 ∧
      ((st.entry a).simple_area.entries.getD j 0 < 0 →
        render_area_mask_loop st g a (j :: rest) =
          match draw_polyline st g s true with
          | .error err => .error err
          | .ok v =>
            match render_area_mask_loop st g a rest with
            | .error err => .error err
            | .ok r => .ok (v.map PathOp.line ++ PathOp.color_shape :: r)) ∧
      (0 ≤ (st.entry a).simple_area.entries.getD j 0 →
        render_area_mask_loop st g a (j :: rest) =
          match draw_polyline st g s false with
          | .error err => .error err
          | .ok v =>
            match render_area_mask_loop st g a rest with
            | .error err => .error err
            | .ok r => .ok (v.map PathOp.line ++ PathOp.color_shape :: r))) := by
  refine ⟨?_, ?_⟩
  · intro i hi ht
    have hn := validated_polyline hv i hi ht
    obtain ⟨h1, h2⟩ := draw_polyline_directions st g (st.dir_addr i) hn
    refine ⟨h1, h2, ?_⟩
    intro v hv2
    rw [hv2] at h2
    cases h3 : draw_polyline st g (st.dir_addr i) true with
    | error err =>
      rw [h3] at h2
      simp [Except.toOption] at h2
    | ok w =>
      rw [h3] at h2
      simp only [Except.toOption, Option.map_some', Option.some.injEq] at h2
      rw [h2]
  · intro a j rest s hs ht
    obtain ⟨i, hi, hia⟩ := find_entry_ok hs
    refine ⟨?_, ?_, ?_⟩
    · rw [← hia] at ht ⊢
      exact validated_polyline hv i hi ht
    · intro hneg
      simp only [render_area_mask_loop, hs, if_pos ht, hneg, decide_True]
    · intro hpos
      have hnn : ¬ (st.entry a).simple_area.entries.getD j 0 < 0 := by omega
      simp only [render_area_mask_loop, hs, if_pos ht, hnn, decide_False]

theorem draw_polyline_reverses_witness :
    validate_directory poly_image = .ok poly_state ∧
    draw_polyline poly_state ex_raster_crop 48 false =
      .ok [(1, 198), (10, 180), (30, 150), (7, 192)] ∧
    draw_polyline poly_state ex_raster_crop 48 true =
      .ok [(7, 192), (30, 150), (10, 180), (1, 198)] ∧
    render_area_mask poly_state ex_raster_crop 0 =
      .ok [.line (1, 198), .line (10, 180), .line (30, 150), .line (7, 192), .color_shape,
        .line (7, 192), .line (30, 150), .line (10, 180), .line (1, 198), .color_shape] ∧
    draw_polyline poly_state ex_raster_crop (poly_state.dir_addr 1) false =
      polyline_forward poly_state ex_raster_crop (poly_state.dir_addr 1) ∧
    (draw_polyline poly_state ex_raster_crop (poly_state.dir_addr 1) true).toOption =
      (draw_polyline poly_state ex_raster_crop (poly_state.dir_addr 1) false).toOption.map
        List.reverse :=
  ⟨validate_directory_eq ⟨_, rfl⟩ rfl, rfl, rfl, rfl,
    ((draw_polyline_reverses poly_image poly_state ex_raster_crop
      (validate_directory_eq ⟨_, rfl⟩ rfl)).1 1 (by decide) rfl).1,
    ((draw_polyline_reverses poly_image poly_state ex_raster_crop
      (validate_directory_eq ⟨_, rfl⟩ rfl)).1 1 (by decide) rfl).2.1⟩

/-! ## Theorems: the palette file -/

theorem fgets_loop_take_line : ∀ (inp : List Nat) (k : Nat), (take_line inp).1.length ≤ k →
    fgets_loop k inp = take_line inp := by
  intro inp
  induction inp with
  | nil =>
    intro k _
    cases k <;> rfl
  | cons c rest ih =>
    intro k hk
    by_cases hc : c = 10
    · simp only [take_line, if_pos hc, List.length_singleton] at hk ⊢
      obtain ⟨k2, rfl⟩ : ∃ k2, k = k2 + 1 := ⟨k - 1, by omega⟩
      simp only [fgets_loop, if_pos hc]
    · simp only [take_line, if_neg hc, List.length_cons] at hk ⊢
      obtain ⟨k2, rfl⟩ : ∃ k2, k = k2 + 1 := ⟨k - 1, by omega⟩
      simp only [fgets_loop, if_neg hc]
      rw [ih k2 (by omega)]

/-- When no line has more than 1023 bytes, `fgets` with a buffer of 1024 bytes
gives the lines of the file. -/
theorem fgets_all_lines : ∀ (fuel : Nat) (inp : List Nat),
    (∀ l ∈ lines_all fuel inp, l.length < 1024) →
    fgets_all 1024 fuel inp = lines_all fuel inp := by
  intro fuel
  induction fuel with
  | zero => intro inp _; rfl
  | succ fuel ih =>
    intro inp h
    cases inp with
    | nil => rfl
    | cons c rest =>
      simp only [lines_all, List.mem_cons, forall_eq_or_imp] at h
      have e : fgets_loop (1024 - 1) (c :: rest) = take_line (c :: rest) :=
        fgets_loop_take_line _ _ (by omega)
      simp only [fgets_all, fgets, lines_all, e]
      rw [ih _ h.2]

theorem fgets_loop_append : ∀ (inp : List Nat) (k : Nat),
    (fgets_loop k inp).1 ++ (fgets_loop k inp).2 = inp := by
  intro inp
  induction inp with
  | nil => intro k; cases k <;> rfl
  | cons c rest ih =>
    intro k
    cases k with
    | zero => rfl
    | succ k =>
      by_cases hc : c = 10
      · simp only [fgets_loop, if_pos hc, List.singleton_append]
      · simp only [fgets_loop, if_neg hc, List.cons_append, ih k]

theorem fgets_loop_rest (c : Nat) (rest : List Nat) (k : Nat) :
    (fgets_loop (k + 1) (c :: rest)).2.length ≤ rest.length := by
  have h := congrArg List.length (fgets_loop_append rest k)
  simp only [List.length_append] at h
  by_cases hc : c = 10
  · simp only [fgets_loop, if_pos hc, Nat.le_refl]
  · simp only [fgets_loop, if_neg hc]
    omega

/-- The fuel that `parse_pal_file` gives to the loop is enough: the buffers
that `fgets` gives make up the whole file. -/
theorem fgets_all_flatten : ∀ (fuel : Nat) (inp : List Nat), inp.length ≤ fuel →
    (fgets_all 1024 fuel inp).flatten = inp := by
  intro fuel
  induction fuel with
  | zero =>
    intro inp h
    have : inp = [] := List.length_eq_zero.mp (Nat.le_zero.mp h)
    subst this
    rfl
  | succ fuel ih =>
    intro inp h
    cases inp with
    | nil => rfl
    | cons c rest =>
      simp only [List.length_cons] at h
      simp only [fgets_all, fgets, List.flatten_cons]
      have h1 : (fgets_loop (1024 - 1) (c :: rest)).2.length ≤ rest.length :=
        fgets_loop_rest c rest 1022
      rw [ih _ (by omega : (fgets_loop (1024 - 1) (c :: rest)).2.length ≤ fuel)]
      exact fgets_loop_append _ _

theorem is_white_of_blank (sgn : Bool) : ∀ (l : List Nat), is_blank l = true →
    is_white sgn l = true := by
  intro l
  induction l with
  | nil => intro _; rfl
  | cons c rest ih =>
    intro h
    simp only [is_blank, List.all_cons, Bool.and_eq_true, decide_eq_true_eq] at h
    obtain ⟨h1, h2⟩ := h
    simp only [is_white]
    rw [if_neg (by omega), if_neg (by omega)]
    exact ih (by simpa [is_blank] using h2)

/-- The loop of `parse_pal_file` over buffers that are white or give a
colour, as long as there is room for the colours. -/
theorem parse_pal_file_loop_ok (sgn : Bool) (scan : List Nat → Option (Nat × Nat × Nat)) :
    ∀ (ls : List (List Nat)) (j i : Nat) (pal : Nat → png_color),
    (∀ l ∈ ls, is_white sgn l = false → (scan l).isSome = true) →
    i + (ls.filterMap (fun l => if is_white sgn l then none else scan l)).length ≤ 16 →
    parse_pal_file_loop sgn scan ls j i pal =
      .ok (i + (ls.filterMap (fun l => if is_white sgn l then none else scan l)).length,
        fun k =>
          if i ≤ k ∧
              k < i + (ls.filterMap (fun l => if is_white sgn l then none else scan l)).length
          then byte_color
            ((ls.filterMap (fun l => if is_white sgn l then none else scan l)).getD (k - i)
              (0, 0, 0))
          else pal k) := by
  intro ls
  induction ls with
  | nil =>
    intro j i pal _ _
    simp only [parse_pal_file_loop, List.filterMap_nil, List.length_nil, Nat.add_zero]
    congr 2
    funext k
    rw [if_neg (by omega)]
  | cons l rest ih =>
    intro j i pal hH hlen
    have hrest : ∀ l2 ∈ rest, is_white sgn l2 = false → (scan l2).isSome = true :=
      fun l2 h2 => hH l2 (List.mem_cons_of_mem _ h2)
    by_cases hw : is_white sgn l = true
    · have e : (l :: rest).filterMap (fun l => if is_white sgn l then none else scan l) =
          rest.filterMap (fun l => if is_white sgn l then none else scan l) := by
        rw [List.filterMap_cons]
        simp only [hw, if_true]
      rw [e] at hlen ⊢
      simp only [parse_pal_file_loop, hw, if_true]
      exact ih (j + 1) i pal hrest hlen
    · have hw2 : is_white sgn l = false := by simpa using hw
      obtain ⟨v, hv⟩ := Option.isSome_iff_exists.mp (hH l (List.mem_cons_self _ _) hw2)
      have e : (l :: rest).filterMap (fun l => if is_white sgn l then none else scan l) =
          v :: rest.filterMap (fun l => if is_white sgn l then none else scan l) := by
        rw [List.filterMap_cons]
        simp only [hw2, Bool.false_eq_true, if_false, hv]
      rw [e] at hlen ⊢
      simp only [List.length_cons] at hlen ⊢
      have hi : ¬ i = 16 := by omega
      simp only [parse_pal_file_loop, hw2, Bool.false_eq_true, if_false, hv, hi]
      rw [ih (j + 1) (i + 1) _ hrest (by omega)]
      congr 2
      · omega
      · funext k
        by_cases hk : k = i
        · subst hk
          rw [if_neg (by omega), if_pos (by omega), Function.update_same, Nat.sub_self]
          rfl
        · rw [Function.update_noteq hk]
          by_cases hk2 : i + 1 ≤ k ∧
              k < i + 1 + (rest.filterMap (fun l => if is_white sgn l then none else scan l)).length
          · rw [if_pos hk2, if_pos (by omega)]
            have e2 : k - i = (k - (i + 1)) + 1 := by omega
            rw [e2, List.getD_cons_succ]
          · rw [if_neg hk2, if_neg (by omega)]

/-- The loop of `parse_pal_file` fails at the 17th colour. -/
theorem parse_pal_file_loop_many (sgn : Bool) (scan : List Nat → Option (Nat × Nat × Nat)) :
    ∀ (ls : List (List Nat)) (j i : Nat) (pal : Nat → png_color),
    (∀ l ∈ ls, is_white sgn l = false → (scan l).isSome = true) → i ≤ 16 →
    16 < i + (ls.filterMap (fun l => if is_white sgn l then none else scan l)).length →
    parse_pal_file_loop sgn scan ls j i pal = .error .too_many_colors := by
  intro ls
  induction ls with
  | nil =>
    intro j i pal _ h1 h2
    simp only [List.filterMap_nil, List.length_nil] at h2
    omega
  | cons l rest ih =>
    intro j i pal hH h1 h2
    have hrest : ∀ l2 ∈ rest, is_white sgn l2 = false → (scan l2).isSome = true :=
      fun l2 h3 => hH l2 (List.mem_cons_of_mem _ h3)
    by_cases hw : is_white sgn l = true
    · rw [List.filterMap_cons] at h2
      simp only [hw, if_true] at h2
      simp only [parse_pal_file_loop, hw, if_true]
      exact ih (j + 1) i pal hrest h1 h2
    · have hw2 : is_white sgn l = false := by simpa using hw
      obtain ⟨v, hv⟩ := Option.isSome_iff_exists.mp (hH l (List.mem_cons_self _ _) hw2)
      rw [List.filterMap_cons] at h2
      simp only [hw2, Bool.false_eq_true, if_false, hv, List.length_cons] at h2
      simp only [parse_pal_file_loop, hw2, Bool.false_eq_true, if_false, hv]
      by_cases hi : i = 16
      · rw [if_pos hi]
      · rw [if_neg hi]
        exact ih (j + 1) (i + 1) _ hrest (by omega) (by omega)

theorem dup_fold (p : Nat → png_color) (n : Nat) (hn : n ≤ 8) :
    (List.range n).foldl (fun pal i => Function.update pal (i + 8) { pal i with blue := 0 }) p =
      fun k => if 8 ≤ k ∧ k < 8 + n then { p (k - 8) with blue := 0 } else p k := by
  induction n with
  | zero =>
    funext k
    simp only [List.range_zero, List.foldl_nil]
    rw [if_neg (by omega)]
  | succ n ih =>
    rw [List.range_succ, List.foldl_append, ih (by omega)]
    simp only [List.foldl_cons, List.foldl_nil]
    funext k
    by_cases hk : k = n + 8
    · subst hk
      rw [Function.update_same, if_neg (by omega), if_pos (by omega)]
      simp
    · rw [Function.update_noteq hk]
      by_cases hk2 : 8 ≤ k ∧ k < 8 + n
      · rw [if_pos hk2, if_pos (by omega)]
      · rw [if_neg hk2, if_neg (by omega)]

/-- The result of `parse_pal_file` for a file whose lines fit the buffer and
whose lines that are not blank give colours. -/
theorem parse_pal_file_result (sgn : Bool) (scan : List Nat → Option (Nat × Nat × Nat))
    (inp : List Nat) (pal : Nat → png_color)
    (hlen : ∀ l ∈ file_lines inp, l.length < 1024)
    (hparse : ∀ l ∈ file_lines inp, is_blank l = false → (scan l).isSome = true)
    (hscan : ∀ l ∈ file_lines inp, (scan l).isSome = true → is_white sgn l = false) :
    parse_pal_file sgn scan (some inp) pal =
      if 16 < (file_colors scan inp).length then .error .too_many_colors
      else if (file_colors scan inp).length = 8 then
        .ok (fun k =>
          if k < 8 then byte_color ((file_colors scan inp).getD k (0, 0, 0))
          else if k < 16 then
            { byte_color ((file_colors scan inp).getD (k - 8) (0, 0, 0)) with blue := 0 }
          else pal k)
      else if (file_colors scan inp).length ≠ 16 then .error .bad_number_of_colors
      else .ok (fun k =>
        if k < 16 then byte_color ((file_colors scan inp).getD k (0, 0, 0)) else pal k) := by
  have hch : fgets_all 1024 inp.length inp = file_lines inp := fgets_all_lines _ _ hlen
  have heq : ∀ l ∈ file_lines inp,
      (if is_white sgn l then none else scan l) = (if is_blank l then none else scan l) := by
    intro l hl
    by_cases hb : is_blank l = true
    · rw [if_pos hb, if_pos (is_white_of_blank sgn l hb)]
    · have hb2 : is_blank l = false := by simpa using hb
      have hw := hscan l hl (hparse l hl hb2)
      rw [if_neg hb, if_neg (by rw [hw]; simp)]
  have hcols : (file_lines inp).filterMap (fun l => if is_white sgn l then none else scan l) =
      file_colors scan inp := List.filterMap_congr heq
  have hH : ∀ l ∈ file_lines inp, is_white sgn l = false → (scan l).isSome = true := by
    intro l hl hw
    by_cases hb : is_blank l = true
    · rw [is_white_of_blank sgn l hb] at hw
      cases hw
    · exact hparse l hl (by simpa using hb)
  unfold parse_pal_file
  simp only [hch]
  by_cases hmany : 16 < (file_colors scan inp).length
  · rw [if_pos hmany, parse_pal_file_loop_many sgn scan _ 0 0 pal hH (by omega)
      (by rw [hcols]; omega)]
  · rw [if_neg hmany, parse_pal_file_loop_ok sgn scan _ 0 0 pal hH (by rw [hcols]; omega)]
    simp only [hcols, Nat.zero_add, Nat.zero_le, true_and, Nat.sub_zero]
    by_cases h8 : (file_colors scan inp).length = 8
    · rw [if_pos h8, if_pos h8, dup_fold _ 8 (Nat.le_refl _)]
      congr 1
      funext k
      by_cases hk1 : k < 8
      · rw [if_neg (by omega), if_pos hk1, if_pos (by omega)]
      · by_cases hk2 : k < 16
        · rw [if_pos (by omega), if_neg hk1, if_pos hk2, if_pos (by omega)]
        · rw [if_neg (by omega), if_neg hk1, if_neg hk2, if_neg (by omega)]
    · rw [if_neg h8, if_neg h8]
      by_cases h16 : (file_colors scan inp).length = 16
      · rw [if_neg (by simp [h16]), if_neg (by simp [h16])]
        congr 1
        funext k
        rw [h16]
      · rw [if_pos h16, if_pos h16]

theorem long_line_file_lines :
    (file_lines long_line_file).length = 8 ∧
    (∀ l ∈ file_lines long_line_file, is_blank l = false ∧ (sscanf_hex3 l).isSome = true) ∧
    (file_colors sscanf_hex3 long_line_file).length = 8 ∧
    (fgets_all 1024 long_line_file.length long_line_file).length = 9 := by
  decide!

theorem long_line_file_fails :
    (match parse_pal_file true sscanf_hex3 (some long_line_file) set_default_pal with
      | .error err => some err
      | .ok _ => none) = some .bad_number_of_colors := by
  decide!

theorem wide_value_file_entry :
    sscanf_hex3 [49, 70, 70, 32, 50, 32, 51, 10] = some (0x1FF, 2, 3) ∧
    (file_colors sscanf_hex3 wide_value_file).length = 16 ∧
    (parse_pal_file true sscanf_hex3 (some wide_value_file) set_default_pal).toOption.map
      (fun pal => pal 0) = some { red := 0xFF, green := 2, blue := 3 } := by
  decide!

/-- The number of the lines of a palette file does not decide the outcome of
`parse_pal_file`: `long_line_file` has 8 lines, none blank, and each parses as
three hex integers, but `fgets` cuts its first line after 1023 bytes, the
program counts 9 colours and fails.  And the entries are not the values
read: the value `1FF` is stored as `FF`. -/
theorem parse_pal_file_long_line :
    (file_lines long_line_file).length = 8 ∧
    (∀ l ∈ file_lines long_line_file, is_blank l = false ∧ (sscanf_hex3 l).isSome = true) ∧
    (file_colors sscanf_hex3 long_line_file).length = 8 ∧
    (fgets_all 1024 long_line_file.length long_line_file).length = 9 ∧
    parse_pal_file true sscanf_hex3 (some long_line_file) set_default_pal =
      .error .bad_number_of_colors ∧
    sscanf_hex3 [49, 70, 70, 32, 50, 32, 51, 10] = some (0x1FF, 2, 3) ∧
    (file_colors sscanf_hex3 wide_value_file).length = 16 ∧
    (parse_pal_file true sscanf_hex3 (some wide_value_file) set_default_pal).toOption.map
      (fun pal => pal 0) = some { red := 0xFF, green := 2, blue := 3 } := by
  refine ⟨long_line_file_lines.1, long_line_file_lines.2.1, long_line_file_lines.2.2.1,
    long_line_file_lines.2.2.2, ?_, wide_value_file_entry⟩
  have h := long_line_file_fails
  cases h2 : parse_pal_file true sscanf_hex3 (some long_line_file) set_default_pal with
  | error err =>
    rw [h2] at h
    simp only [Option.some.injEq] at h
    rw [h]
  | ok v =>
    rw [h2] at h
    cases h

/-- C24 (amended). Given a palette file in which every line has fewer than
1024 bytes (so that `fgets` returns whole lines) and every line that is not
blank parses as three hex integers, `parse_pal_file` succeeds if and only if
the number of such lines is 8 or 16: with 17 or more it fails with `Too many
colors`, with any other number with `must contain 8 or 16 colors`.  With 8
lines the entries `0..7` are the colours of the lines, each channel reduced
to its low 8 bits, and the entries `8..15` are the entries `0..7` with the
blue channel set to 0; with 16 lines the 16 entries are the colours of the
lines, each channel reduced to its low 8 bits, in file order. -/
theorem parse_pal_file_count (sgn : Bool) (scan : List Nat → Option (Nat × Nat × Nat))
    (inp : List Nat) (pal : Nat → png_color)
    (hlen : ∀ l ∈ file_lines inp, l.length < 1024)
    (hparse : ∀ l ∈ file_lines inp, is_blank l = false → (scan l).isSome = true)
    (hscan : ∀ l ∈ file_lines inp, (scan l).isSome = true → is_white sgn l = false) :
    (fgets_all 1024 inp.length inp).flatten = inp ∧
    fgets_all 1024 inp.length inp = file_lines inp ∧
    ((∃ pal2, parse_pal_file sgn scan (some inp) pal = .ok pal2) ↔
      ((file_colors scan inp).length = 8 ∨ (file_colors scan inp).length = 16)) ∧
    ((file_colors scan inp).length = 8 →
      parse_pal_file sgn scan (some inp) pal =
        .ok (fun k =>
          if k < 8 then byte_color ((file_colors scan inp).getD k (0, 0, 0))
          else if k < 16 then
            { byte_color ((file_colors scan inp).getD (k - 8) (0, 0, 0)) with blue := 0 }
          else pal k)) ∧
    ((file_colors scan inp).length = 16 →
      parse_pal_file sgn scan (some inp) pal =
        .ok (fun k =>
          if k < 16 then byte_color ((file_colors scan inp).getD k (0, 0, 0)) else pal k)) ∧
    (16 < (file_colors scan inp).length →
      parse_pal_file sgn scan (some inp) pal = .error .too_many_colors) ∧
    ((file_colors scan inp).length < 16 → (file_colors scan inp).length ≠ 8 →
      parse_pal_file sgn scan (some inp) pal = .error .bad_number_of_colors) := by
  have hres := parse_pal_file_result sgn scan inp pal hlen hparse hscan
  refine ⟨fgets_all_flatten _ _ (Nat.le_refl _), fgets_all_lines _ _ hlen, ?_, ?_, ?_, ?_, ?_⟩
  · constructor
    · rintro ⟨pal2, h⟩
      rw [hres] at h
      by_contra hn
      rw [not_or] at hn
      split at h
      · cases h
      · rw [if_neg hn.1, if_pos hn.2] at h
        cases h
    · rintro (h | h)
      · rw [hres, if_neg (by omega), if_pos h]
        exact ⟨_, rfl⟩
      · rw [hres, if_neg (by omega), if_neg (by omega), if_neg (by simp [h])]
        exact ⟨_, rfl⟩
  · intro h
    rw [hres, if_neg (by omega), if_pos h]
  · intro h
    rw [hres, if_neg (by omega), if_neg (by omega), if_neg (by simp [h])]
  · intro h
    rw [hres, if_pos h]
  · intro h1 h2
    rw [hres, if_neg (by omega), if_neg h2, if_pos (by omega)]

theorem eight_line_file_lines :
    (∀ l ∈ file_lines eight_line_file, l.length < 1024) ∧
    (∀ l ∈ file_lines eight_line_file, is_blank l = false → (sscanf_hex3 l).isSome = true) ∧
    (∀ l ∈ file_lines eight_line_file, (sscanf_hex3 l).isSome = true → is_white true l = false) ∧
    (file_lines eight_line_file).length = 9 ∧
    file_colors sscanf_hex3 eight_line_file = List.replicate 8 (1, 2, 3) := by
  decide!

theorem parse_pal_file_count_witness :
    (file_lines eight_line_file).length = 9 ∧
    file_colors sscanf_hex3 eight_line_file = List.replicate 8 (1, 2, 3) ∧
    parse_pal_file true sscanf_hex3 (some eight_line_file) set_default_pal =
      .ok (fun k =>
        if k < 8 then byte_color ((file_colors sscanf_hex3 eight_line_file).getD k (0, 0, 0))
        else if k < 16 then
          { byte_color ((file_colors sscanf_hex3 eight_line_file).getD (k - 8) (0, 0, 0)) with
            blue := 0 }
        else set_default_pal k) :=
  ⟨eight_line_file_lines.2.2.2.1, eight_line_file_lines.2.2.2.2,
    (parse_pal_file_count true sscanf_hex3 eight_line_file set_default_pal
      eight_line_file_lines.1 eight_line_file_lines.2.1 eight_line_file_lines.2.2.1).2.2.2.1
      (by rw [eight_line_file_lines.2.2.2.2]; rfl)⟩

/-! ## Theorems: the storing functions on overlapping records -/

theorem set_child_of_at {st : State} {a b i j : Nat} (h : set_child_at st a b i j = true) :
    set_child st a b := by
  unfold set_child_at at h
  simp only [Bool.and_eq_true, decide_eq_true_eq] at h
  obtain ⟨⟨⟨⟨⟨h1, h2⟩, h3⟩, h4⟩, h5⟩, h6⟩ := h
  exact ⟨⟨i, h1, h2, h3⟩, j, h4, except_ok_of_toOption h5, h6⟩

theorem is_candidate_of_check {st : State} {e : Nat} {nm : List Nat}
    (h : is_candidate_check st e nm = true) : is_candidate st e nm := by
  unfold is_candidate_check at h
  simp only [Bool.and_eq_true, decide_eq_true_eq, Bool.not_eq_true'] at h
  obtain ⟨⟨⟨h1, h2⟩, h3⟩, h4⟩ := h
  exact ⟨h1, fun hd => hd h2, h3, except_ok_of_toOption h4⟩

theorem except_error_of {α : Type} {e : Except Err α} {err : Err}
    (h : error_of e = some err) : e = .error err := by
  cases e with
  | error x => simp only [error_of, Option.some.injEq] at h; rw [h]
  | ok y => simp [error_of] at h

theorem overlap_cycle_eval :
    (match validate_directory_bytes (load overlap_cycle_file) overlap_cycle_file.length 4 with
      | .ok bs =>
        (List.range overlap_cycle_file.length).all
          (fun x => decide (bs.mem x = load overlap_cycle_file x)) &&
        set_child_at bs.view 200 228 0 0 && set_child_at bs.view 228 200 1 0
      | .error _ => false) = true := by
  decide!

/-- C1 fails on the bytes of `overlap_cycle_file`, where the header of the SET
at 228 lies on the fields `unk7`, `num_entries` and `entries` of the SET at
200: `validate_directory` returns normally and leaves every byte of the file
as it was, and in that buffer the SET at 200 has the SET at 228 as a child
and the SET at 228 has the SET at 200 as a child.  While the SET at 200 is
marked, `hdr.index` of the SET at 228 reads `0xFFFFFFFF`, and `find_entry`
gives the TEXT_LINE of the same index instead. -/
theorem validate_directory_bytes_accepts_cycle :
    ∃ bs, validate_directory_bytes (load overlap_cycle_file) overlap_cycle_file.length 4 =
        .ok bs ∧
      (∀ x, x < overlap_cycle_file.length → bs.mem x = load overlap_cycle_file x) ∧
      set_child bs.view 200 228 ∧ set_child bs.view 228 200 ∧
      Relation.TransGen (set_child bs.view) 200 200 := by
  have h := overlap_cycle_eval
  split at h
  · next bs hbs =>
    simp only [Bool.and_eq_true, List.all_eq_true, List.mem_range, decide_eq_true_eq] at h
    obtain ⟨⟨h1, h2⟩, h3⟩ := h
    exact ⟨bs, hbs, h1, set_child_of_at h2, set_child_of_at h3,
      Relation.TransGen.tail (Relation.TransGen.single (set_child_of_at h2)) (set_child_of_at h3)⟩
  · cases h

theorem overlap_drawn_eval :
    (match validate_directory_bytes (load overlap_drawn_file) overlap_drawn_file.length 4 with
      | .ok bs =>
        decide (bs.dir_num_entries = 4) && decide (bs.dir_addr 0 = 200) &&
        decide (bs.dir_addr 1 = 228) &&
        is_candidate_check bs.view 200 [65, 66] && is_candidate_check bs.view 228 [67, 68] &&
        [true, false].all (fun do_crop =>
          match process_sets_bytes render_nothing ex_raster_crop do_crop 4 bs with
          | .ok r =>
            decide (r.2 = [{ first := 200, text := [65, 66], merged := [], b := EMPTY_BOUNDS }]) &&
            decide (r.1.hdr_type 228 = 0x805A) && decide (r.1.set_unk7 200 = 0x805A0000) &&
            decide (r.1.set_unk7 228 = 0)
          | .error _ => false)
      | .error _ => false) = true := by
  decide!

/-- C12 fails on the bytes of `overlap_drawn_file`, a file that
`validate_directory` accepts and in which `hdr.type` of the SET at 228 is the
upper half of `unk7` of the SET at 200.  On entry both SETs are candidates,
with the names `AB` and `CD`.  The pass of the SET at 200 sets its DRAWN bit,
which turns `hdr.type` of the SET at 228 from `0x005A` into `0x805A`: the run
ends with the one pass `AB`, the SET at 228 has no pass and its DRAWN bit is
not set.  This is so with and without cropping. -/
theorem process_sets_bytes_drops_candidate :
    ∃ bs, validate_directory_bytes (load overlap_drawn_file) overlap_drawn_file.length 4 =
        .ok bs ∧
      bs.dir_num_entries = 4 ∧ bs.dir_addr 0 = 200 ∧ bs.dir_addr 1 = 228 ∧
      is_candidate bs.view 200 [65, 66] ∧ is_candidate bs.view 228 [67, 68] ∧
      ∀ do_crop, ∃ r, process_sets_bytes render_nothing ex_raster_crop do_crop 4 bs = .ok r ∧
        r.2 = [{ first := 200, text := [65, 66], merged := [], b := EMPTY_BOUNDS }] ∧
        r.1.hdr_type 228 = 0x805A ∧ r.1.set_unk7 200 = 0x805A0000 ∧ r.1.set_unk7 228 = 0 ∧
        r.1.set_unk7 228 &&& SET_DRAWN = 0 := by
  have h := overlap_drawn_eval
  split at h
  · next bs hbs =>
    simp only [Bool.and_eq_true, decide_eq_true_eq] at h
    obtain ⟨⟨⟨⟨⟨h1, h2⟩, h3⟩, h4⟩, h5⟩, h6⟩ := h
    refine ⟨bs, hbs, h1, h2, h3, is_candidate_of_check h4, is_candidate_of_check h5, ?_⟩
    intro do_crop
    have h7 := List.all_eq_true.mp h6 do_crop (by cases do_crop <;> simp)
    split at h7
    · next r hr =>
      simp only [Bool.and_eq_true, decide_eq_true_eq] at h7
      obtain ⟨⟨⟨p1, p2⟩, p3⟩, p4⟩ := h7
      exact ⟨r, hr, p1, p2, p3, p4, by rw [p4]; rfl⟩
    · cases h7
  · cases h

theorem overlap_fixup_eval :
    (match validate_directory_bytes (load overlap_fixup_file) overlap_fixup_file.length 4 with
      | .ok bs =>
        decide (bs.view.children 200 = [0x370000, 5, 6, 7]) &&
        decide ((List.range 5).map (fun i => bs.hdr_type (bs.dir_addr i)) = [90, 55, 55, 82, 50]) &&
        decide ((List.range 5).map (fun i => bs.hdr_index (bs.dir_addr i)) =
          [1, 5, 0x370000, 6, 7]) &&
        (match fixup_set_bytes bs 200 with
          | .ok bs2 => decide (bs2.view.children 200 = [0x370000, 7, 7, 6])
          | .error _ => false) &&
        (match process_sets_bytes render_nothing ex_raster_crop true 4 bs with
          | .ok r => decide (r.1.view.children 200 = [0x370000, 7, 7, 6]) &&
              decide (r.2.map SetPass.first = [200])
          | .error _ => false)
      | .error _ => false) = true := by
  decide!

/-- C28 fails on the bytes of `overlap_fixup_file`, a file that
`validate_directory` accepts and in which the header of the TEXT_LINE `A-B`
(index 5) lies on the child array of the SET at 200.  The `memmove` of
`fixup_set` stores the child 7 over `hdr.index` of the TEXT_LINE, and
`e->hdr.index`, read after it, is 7: the child list `0x370000, 5, 6, 7`
becomes `0x370000, 7, 7, 6`, which has lost the child 5.  A run of
`process_sets` with cropping leaves the same list. -/
theorem fixup_set_bytes_loses_child :
    ∃ bs, validate_directory_bytes (load overlap_fixup_file) overlap_fixup_file.length 4 =
        .ok bs ∧
      bs.view.children 200 = [0x370000, 5, 6, 7] ∧
      (List.range 5).map (fun i => bs.hdr_type (bs.dir_addr i)) = [90, 55, 55, 82, 50] ∧
      (List.range 5).map (fun i => bs.hdr_index (bs.dir_addr i)) = [1, 5, 0x370000, 6, 7] ∧
      (∃ bs2, fixup_set_bytes bs 200 = .ok bs2 ∧ bs2.view.children 200 = [0x370000, 7, 7, 6] ∧
        ¬ (bs2.view.children 200).Perm (bs.view.children 200) ∧
        (bs2.view.children 200).count 5 ≠ (bs.view.children 200).count 5) ∧
      ∃ r, process_sets_bytes render_nothing ex_raster_crop true 4 bs = .ok r ∧
        r.2.map SetPass.first = [200] ∧ r.1.view.children 200 = [0x370000, 7, 7, 6] := by
  have h := overlap_fixup_eval
  split at h
  · next bs hbs =>
    simp only [Bool.and_eq_true, decide_eq_true_eq] at h
    obtain ⟨⟨⟨⟨h1, h2⟩, h3⟩, h4⟩, h5⟩ := h
    refine ⟨bs, hbs, h1, h2, h3, ?_, ?_⟩
    · split at h4
      · next bs2 hbs2 =>
        simp only [decide_eq_true_eq] at h4
        refine ⟨bs2, hbs2, h4, ?_, ?_⟩
        · rw [h4, h1]; decide
        · rw [h4, h1]; decide
      · cases h4
    · split at h5
      · next r hr =>
        simp only [Bool.and_eq_true, decide_eq_true_eq] at h5
        exact ⟨r, hr, h5.2, h5.1⟩
      · cases h5
  · cases h

theorem overlap_container_eval :
    (match validate_directory_bytes (load overlap_container_file)
        overlap_container_file.length 4 with
      | .ok bs =>
        decide (bs.set_unk7 200 = 0x79) && decide (bs.view.children 200 = [0x79, 6]) &&
        decide ((List.range 6).map (fun i => bs.hdr_type (bs.dir_addr i)) =
          [90, 90, 50, 55, 90, 55]) &&
        decide ((List.range 6).map (fun i => bs.hdr_index (bs.dir_addr i)) =
          [1, 0x79, 5, 6, 7, 8]) &&
        decide ((List.range 6).map (fun i => bs.dir_addr i) = [200, 224, 268, 316, 392, 436]) &&
        (match calc_set_bounds_r_bytes ex_raster_crop 4 bs EMPTY_BOUNDS 200 with
          | .ok r => decide (r.2 = { min_x := 10, min_y := 150, max_x := 30, max_y := 180 })
          | .error _ => false) &&
        decide ((bs.store_set_unk7 200 (bs.set_unk7 200 ||| SET_DRAWN)).set_unk7 200 &&&
          0x7FFFFFFF = 0x79) &&
        decide (error_of (calc_set_bounds_r_bytes ex_raster_crop 4
            (bs.store_set_unk7 200 (bs.set_unk7 200 ||| SET_DRAWN)) EMPTY_BOUNDS 200) =
          some (.entry_not_found 0x79)) &&
        decide (error_of (process_sets_bytes render_nothing ex_raster_crop true 4 bs) =
          some (.entry_not_found 0x79))
      | .error _ => false) = true := by
  decide!

/-- C18 fails on the bytes of `overlap_container_file`, a file that
`validate_directory` accepts and in which `hdr.index` of the child SET at 224
is `unk7 = 0x79` of the SET at 200.  With the DRAWN bit clear
`calc_set_bounds_r` on the SET at 200 returns the rectangle of the lasso of
its child SET; after the store `unk7 |= SET_DRAWN` on the SET at 200 the
index of the child SET reads `0x80000079` and the same call stops the program
in `find_entry` (entry `0x79` not found).  A run of `process_sets` with
cropping meets this: the pass of the SET at 200 sets the bit, and the pass of
the SET at 392, which has the SET at 200 as a child, stops the program. -/
theorem calc_set_bounds_r_bytes_drawn_differs :
    ∃ bs, validate_directory_bytes (load overlap_container_file)
        overlap_container_file.length 4 = .ok bs ∧
      bs.set_unk7 200 = 0x79 ∧ bs.view.children 200 = [0x79, 6] ∧
      (List.range 6).map (fun i => bs.dir_addr i) = [200, 224, 268, 316, 392, 436] ∧
      (List.range 6).map (fun i => bs.hdr_type (bs.dir_addr i)) = [90, 90, 50, 55, 90, 55] ∧
      (List.range 6).map (fun i => bs.hdr_index (bs.dir_addr i)) = [1, 0x79, 5, 6, 7, 8] ∧
      (∃ r, calc_set_bounds_r_bytes ex_raster_crop 4 bs EMPTY_BOUNDS 200 = .ok r ∧
        r.2 = { min_x := 10, min_y := 150, max_x := 30, max_y := 180 }) ∧
      (bs.store_set_unk7 200 (bs.set_unk7 200 ||| SET_DRAWN)).set_unk7 200 &&& 0x7FFFFFFF = 0x79 ∧
      calc_set_bounds_r_bytes ex_raster_crop 4
        (bs.store_set_unk7 200 (bs.set_unk7 200 ||| SET_DRAWN)) EMPTY_BOUNDS 200 =
        .error (.entry_not_found 0x79) ∧
      process_sets_bytes render_nothing ex_raster_crop true 4 bs =
        .error (.entry_not_found 0x79) := by
  have h := overlap_container_eval
  split at h
  · next bs hbs =>
    simp only [Bool.and_eq_true, decide_eq_true_eq] at h
    obtain ⟨⟨⟨⟨⟨⟨⟨⟨h1, h2⟩, h3⟩, h4⟩, h5⟩, h6⟩, h9⟩, h7⟩, h8⟩ := h
    refine ⟨bs, hbs, h1, h2, h5, h3, h4, ?_, h9, except_error_of h7, except_error_of h8⟩
    split at h6
    · next r hr =>
      simp only [decide_eq_true_eq] at h6
      exact ⟨r, hr, h6⟩
    · cases h6
  · cases h

theorem thin_file_eval :
    (match validate_directory_bytes (load thin_file) thin_file.length 4 with
      | .ok bs =>
        decide (thin_file.length = 552) &&
        decide ((List.range 3).map (fun i => bs.dir_addr i) = [200, 244, 320]) &&
        decide (bs.set_unk7 200 &&& 0x7FFFFFFF ≠ 0x79) &&
        decide (bs.view.children 200 = [2, 3]) &&
        (match calc_set_scan bs.view thin_raster 200 (List.range' 0 2)
            { eb := EMPTY_BOUNDS, shape := 0, textline := false, count := 0 } with
          | .ok sc => decide (sc.shape = 256) && decide (sc.count = 2) &&
              decide (sc.eb = { min_x := 0, min_y := -126, max_x := 0, max_y := 2147483520 })
          | .error _ => false) &&
        (match calc_set_bounds_r_bytes thin_raster 4 bs EMPTY_BOUNDS 200 with
          | .ok r => decide (r.2 = EMPTY_BOUNDS)
          | .error _ => false) &&
        (match process_sets_bytes render_nothing thin_raster true 4 bs with
          | .ok r => decide (r.2 =
              [{ first := 200, text := [65, 66], merged := [], b := EMPTY_BOUNDS }])
          | .error _ => false)
      | .error _ => false) = true := by
  decide!

/-- C17 fails on the file `thin_file`, on a raster of 128 by 128 pixels.  The
SET at 200 is not a pure container and has one run, of shape sum 256, whose
rectangle `t = union_bounds(b, eb)` for the caller's `EMPTY_BOUNDS` is
`(0, -126, 0, 2147483520)`: it is not empty, and its area is `INT_MAX`, with
no overflow.  It is the rectangle of minimum area, but `area < min_area` is
false for it, so `calc_set_bounds_r` leaves `*b` as `EMPTY_BOUNDS`, and the
pass of `process_sets` for the SET ends with empty bounds. -/
theorem calc_set_bounds_r_bytes_skips_int_max :
    ∃ bs, validate_directory_bytes (load thin_file) thin_file.length 4 = .ok bs ∧
      bs.set_unk7 200 &&& 0x7FFFFFFF ≠ 0x79 ∧ bs.view.children 200 = [2, 3] ∧
      (∃ sc, calc_set_scan bs.view thin_raster 200 (List.range' 0 2)
          { eb := EMPTY_BOUNDS, shape := 0, textline := false, count := 0 } = .ok sc ∧
        sc.shape = 256 ∧ sc.count = 2 ∧
        sc.eb = { min_x := 0, min_y := -126, max_x := 0, max_y := 2147483520 } ∧
        union_bounds EMPTY_BOUNDS sc.eb =
          { min_x := 0, min_y := -126, max_x := 0, max_y := 2147483520 } ∧
        bounds_empty (union_bounds EMPTY_BOUNDS sc.eb) = false ∧
        bounds_area (union_bounds EMPTY_BOUNDS sc.eb) = INT_MAX ∧
        (0 - 0 + 1) * (2147483520 - (-126) + 1) = INT_MAX) ∧
      (∃ r, calc_set_bounds_r_bytes thin_raster 4 bs EMPTY_BOUNDS 200 = .ok r ∧
        r.2 = EMPTY_BOUNDS) ∧
      ∃ r, process_sets_bytes render_nothing thin_raster true 4 bs = .ok r ∧
        r.2 = [{ first := 200, text := [65, 66], merged := [], b := EMPTY_BOUNDS }] := by
  have h := thin_file_eval
  split at h
  · next bs hbs =>
    simp only [Bool.and_eq_true, decide_eq_true_eq] at h
    obtain ⟨⟨⟨⟨⟨⟨_, _⟩, h1⟩, h2⟩, h3⟩, h4⟩, h5⟩ := h
    refine ⟨bs, hbs, h1, h2, ?_, ?_, ?_⟩
    · split at h3
      · next sc hsc =>
        simp only [Bool.and_eq_true, decide_eq_true_eq] at h3
        obtain ⟨⟨p1, p2⟩, p3⟩ := h3
        refine ⟨sc, hsc, p1, p2, p3, ?_, ?_, ?_, by decide⟩
        · rw [p3]; decide
        · rw [p3]; decide
        · rw [p3]; decide
      · cases h3
    · split at h4
      · next r hr => exact ⟨r, hr, of_decide_eq_true h4⟩
      · cases h4
    · split at h5
      · next r hr => exact ⟨r, hr, of_decide_eq_true h5⟩
      · cases h5
  · cases h

theorem far_lasso_file_eval :
    (match validate_directory_bytes (load far_lasso_file) far_lasso_file.length 4 with
      | .ok bs =>
        decide (bs.view.children 200 = [2, 3]) &&
        decide ((bs.view.entry 320).lasso.points = [{ x := 2147483520, y := 100 }]) &&
        (match calc_set_bounds_r_bytes ex_raster_crop 4 bs EMPTY_BOUNDS 200 with
          | .ok r => decide (r.2 =
              { min_x := 9999, min_y := 100, max_x := 2147483520, max_y := 100 })
          | .error _ => false) &&
        (match process_sets_bytes render_nothing ex_raster_crop true 4 bs with
          | .ok r => decide (r.2 = [{ first := 200, text := [65, 66], merged := [], b := { min_x := -2147474076, min_y := 25, max_x := 299, max_y := 175 } }])
          | .error _ => false)
      | .error _ => false) = true := by
  decide!

/-- C19 fails on the file `far_lasso_file`, on a raster of 300 by 200
pixels.  The lasso of the SET at 200 has the one point `(2147483520, 100)`,
and `calc_set_bounds_r` returns `b = (9999, 100, 2147483520, 100)`.  In
`expand_bounds`, `mx = MIN(MIN(75, 9999), 300 - 2147483520 - 1)` is
`-2147483221`, and `b->min_x -= mx` does not fit an `int`: it leaves
`min_x = -2147474076` with `max_x = 299`.  The rectangle that goes to
`write_crop` is not empty and does not lie in the image: the crop is
2147474376 pixels wide and its first row starts 2147466576 bytes before the
image buffer. -/
theorem expand_bounds_int_leaves_image :
    ∃ bs, validate_directory_bytes (load far_lasso_file) far_lasso_file.length 4 = .ok bs ∧
      bs.view.children 200 = [2, 3] ∧
      (bs.view.entry 320).lasso.points = [{ x := 2147483520, y := 100 }] ∧
      (∃ r, calc_set_bounds_r_bytes ex_raster_crop 4 bs EMPTY_BOUNDS 200 = .ok r ∧
        r.2 = { min_x := 9999, min_y := 100, max_x := 2147483520, max_y := 100 }) ∧
      expand_bounds_int ex_raster_crop
          { min_x := 9999, min_y := 100, max_x := 2147483520, max_y := 100 } =
        { min_x := -2147474076, min_y := 25, max_x := 299, max_y := 175 } ∧
      (∃ r, process_sets_bytes render_nothing ex_raster_crop true 4 bs = .ok r ∧
        r.2 = [{ first := 200, text := [65, 66], merged := [], b := { min_x := -2147474076, min_y := 25, max_x := 299, max_y := 175 } }]) ∧
      bounds_empty { min_x := -2147474076, min_y := 25, max_x := 299, max_y := 175 } = false ∧
      ¬ inside_image ex_raster_crop
        { min_x := -2147474076, min_y := 25, max_x := 299, max_y := 175 } ∧
      ¬ crop_in_image ex_raster_crop
        { min_x := -2147474076, min_y := 25, max_x := 299, max_y := 175 } ∧
      ∃ c, write_crop ex_raster_crop
          { min_x := -2147474076, min_y := 25, max_x := 299, max_y := 175 } = some c ∧
        c.width = 2147474376 ∧ c.height = 151 ∧ c.rows.head? = some (-2147466576) := by
  have h := far_lasso_file_eval
  split at h
  · next bs hbs =>
    simp only [Bool.and_eq_true, decide_eq_true_eq] at h
    obtain ⟨⟨⟨h1, h2⟩, h3⟩, h4⟩ := h
    refine ⟨bs, hbs, h1, h2, ?_, by decide, ?_, by decide, by decide, ?_, _, rfl, by decide,
      by decide, by decide⟩
    · split at h3
      · next r hr => exact ⟨r, hr, of_decide_eq_true h3⟩
      · cases h3
    · split at h4
      · next r hr => exact ⟨r, hr, of_decide_eq_true h4⟩
      · cases h4
    · intro hc
      rcases hc with ⟨hc, _⟩ | ⟨hc, _⟩
      · revert hc; decide
      · revert hc; decide
  · cases h

theorem rd8_lt (m : Nat → Nat) (p : Nat) : rd8 m p < 256 := Nat.mod_lt _ (by decide)

theorem rd32_lt (m : Nat → Nat) (p : Nat) : rd32 m p < 2 ^ 32 := by
  unfold rd32
  have h0 := rd8_lt m p
  have h1 := rd8_lt m (p + 1)
  have h2 := rd8_lt m (p + 2)
  have h3 := rd8_lt m (p + 3)
  have e8 : (2 : Nat) ^ 8 = 256 := by norm_num
  have e16 : (2 : Nat) ^ 16 = 65536 := by norm_num
  have e24 : (2 : Nat) ^ 24 = 16777216 := by norm_num
  have e32 : (2 : Nat) ^ 32 = 4294967296 := by norm_num
  rw [e8, e16, e24, e32]
  omega

theorem rd8_congr {m m2 : Nat → Nat} {p : Nat} (h : m2 p = m p) : rd8 m2 p = rd8 m p := by
  unfold rd8; rw [h]

theorem rd16_congr {m m2 : Nat → Nat} {p : Nat}
    (h : ∀ x, p ≤ x → x < p + 2 → m2 x = m x) : rd16 m2 p = rd16 m p := by
  unfold rd16
  rw [rd8_congr (h p (by omega) (by omega)), rd8_congr (h (p + 1) (by omega) (by omega))]

theorem rd32_congr {m m2 : Nat → Nat} {p : Nat}
    (h : ∀ x, p ≤ x → x < p + 4 → m2 x = m x) : rd32 m2 p = rd32 m p := by
  unfold rd32
  rw [rd8_congr (h p (by omega) (by omega)), rd8_congr (h (p + 1) (by omega) (by omega)),
    rd8_congr (h (p + 2) (by omega) (by omega)), rd8_congr (h (p + 3) (by omega) (by omega))]

theorem wr32_outside {m : Nat → Nat} {p v x : Nat} (h : x < p ∨ p + 4 ≤ x) :
    wr32 m p v x = m x := by
  unfold wr32
  rw [if_neg (by omega)]

theorem memmove_outside {m : Nat → Nat} {dst src n x : Nat} (h : x < dst ∨ dst + n ≤ x) :
    memmove m dst src n x = m x := by
  unfold memmove
  rw [if_neg (by omega)]

theorem memmove_inside {m : Nat → Nat} {dst src n x : Nat} (h1 : dst ≤ x) (h2 : x < dst + n) :
    memmove m dst src n x = m (src + (x - dst)) := by
  unfold memmove
  rw [if_pos ⟨h1, h2⟩]

theorem rd32_wr32_same (m : Nat → Nat) (p v : Nat) : rd32 (wr32 m p v) p = v % 2 ^ 32 := by
  unfold rd32 rd8 wr32
  have e8 : (2 : Nat) ^ 8 = 256 := by norm_num
  have e16 : (2 : Nat) ^ 16 = 65536 := by norm_num
  have e24 : (2 : Nat) ^ 24 = 16777216 := by norm_num
  have e32 : (2 : Nat) ^ 32 = 4294967296 := by norm_num
  rw [if_pos (by omega), if_pos (by omega), if_pos (by omega), if_pos (by omega)]
  have a0 : p - p = 0 := by omega
  have a1 : p + 1 - p = 1 := by omega
  have a2 : p + 2 - p = 2 := by omega
  have a3 : p + 3 - p = 3 := by omega
  rw [a0, a1, a2, a3]
  norm_num
  omega

theorem rd32_wr32_other {m : Nat → Nat} {p q v : Nat} (h : q + 4 ≤ p ∨ p + 4 ≤ q) :
    rd32 (wr32 m p v) q = rd32 m q :=
  rd32_congr (fun x h1 h2 => wr32_outside (by omega))

theorem rd_words_length (m : Nat → Nat) : ∀ (n p : Nat), (rd_words m n p).length = n := by
  intro n
  induction n with
  | zero => intro p; rfl
  | succ n ih => intro p; simp [rd_words, ih]

theorem rd_words_getD (m : Nat → Nat) : ∀ (n p i : Nat), i < n →
    (rd_words m n p).getD i 0 = rd32 m (p + 4 * i) := by
  intro n
  induction n with
  | zero => intro p i h; omega
  | succ n ih =>
    intro p i h
    cases i with
    | zero => simp [rd_words]
    | succ i =>
      simp only [rd_words, List.getD_cons_succ]
      rw [ih (p + 4) i (by omega)]
      congr 1
      omega

theorem rd_words_congr {m m2 : Nat → Nat} : ∀ (n p : Nat),
    (∀ x, p ≤ x → x < p + 4 * n → m2 x = m x) → rd_words m2 n p = rd_words m n p := by
  intro n
  induction n with
  | zero => intro p _; rfl
  | succ n ih =>
    intro p h
    simp only [rd_words]
    rw [rd32_congr (fun x h1 h2 => h x h1 (by omega)),
      ih (p + 4) (fun x h1 h2 => h x (by omega) (by omega))]

theorem rd_words_add (m : Nat → Nat) : ∀ (n1 n2 p : Nat),
    rd_words m (n1 + n2) p = rd_words m n1 p ++ rd_words m n2 (p + 4 * n1) := by
  intro n1
  induction n1 with
  | zero => intro n2 p; simp [rd_words]
  | succ n1 ih =>
    intro n2 p
    have e : n1 + 1 + n2 = (n1 + n2) + 1 := by omega
    rw [e]
    simp only [rd_words, List.cons_append]
    rw [ih n2 (p + 4)]
    have e2 : p + 4 + 4 * n1 = p + 4 * (n1 + 1) := by omega
    rw [e2]

/-- The words of a list that the buffer holds, piece by piece. -/
theorem rd_words_eq_append {m : Nat → Nat} {n p : Nat} {l1 l2 : List Nat}
    (h : rd_words m n p = l1 ++ l2) :
    n = l1.length + l2.length ∧ rd_words m l1.length p = l1 ∧
      rd_words m l2.length (p + 4 * l1.length) = l2 := by
  have hlen : n = l1.length + l2.length := by
    have := congrArg List.length h
    rw [rd_words_length, List.length_append] at this
    exact this
  rw [hlen, rd_words_add] at h
  have h2 := List.append_inj h (by rw [rd_words_length])
  exact ⟨hlen, h2.1, h2.2⟩

theorem rd_words_memmove {m : Nat → Nat} {dst src len : Nat} : ∀ (n q : Nat),
    dst ≤ q → q + 4 * n ≤ dst + len →
    rd_words (memmove m dst src len) n q = rd_words m n (src + (q - dst)) := by
  intro n
  induction n with
  | zero => intro q _ _; rfl
  | succ n ih =>
    intro q h1 h2
    simp only [rd_words]
    rw [ih (q + 4) (by omega) (by omega)]
    have e : src + (q + 4 - dst) = src + (q - dst) + 4 := by omega
    rw [e]
    congr 1
    unfold rd32 rd8
    rw [memmove_inside h1 (by omega), memmove_inside (by omega) (by omega),
      memmove_inside (by omega) (by omega), memmove_inside (by omega) (by omega)]
    have e1 : src + (q + 1 - dst) = src + (q - dst) + 1 := by omega
    have e2 : src + (q + 2 - dst) = src + (q - dst) + 2 := by omega
    have e3 : src + (q + 3 - dst) = src + (q - dst) + 3 := by omega
    rw [e1, e2, e3]

theorem cstr_rd_bytes_congr {m m2 : Nat → Nat} : ∀ (n p : Nat),
    (∀ x, p ≤ x → x < p + (cstr (rd_bytes m n p)).length + 1 → m2 x = m x) →
    cstr (rd_bytes m2 n p) = cstr (rd_bytes m n p) := by
  intro n
  induction n with
  | zero => intro p _; rfl
  | succ n ih =>
    intro p h
    have h0 : rd8 m2 p = rd8 m p := rd8_congr (h p (by omega) (by omega))
    simp only [rd_bytes, cstr] at h ⊢
    rw [h0]
    by_cases hz : rd8 m p = 0
    · simp [List.takeWhile, hz]
    · have e : ∀ l, List.takeWhile (fun c => c != 0) (rd8 m p :: l) =
          rd8 m p :: List.takeWhile (fun c => c != 0) l := fun l => by
        simp [List.takeWhile_cons, hz]
      rw [e] at h
      rw [e, e]
      congr 1
      apply ih (p + 1)
      intro x h1 h2
      apply h x (by omega)
      simp only [List.length_cons]
      unfold cstr at h2
      omega

/-! ## Theorems: the typed view of the bytes -/

theorem view_dir_addr (bs : Bytes) (i : Nat) (hi : i < bs.dir_num_entries) :
    bs.view.dir_addr i = bs.dir_addr i := by
  unfold State.dir_addr Bytes.view Bytes.dir_addr
  simp only
  exact rd_words_getD bs.mem _ _ i hi

theorem view_children (bs : Bytes) (a : Nat) :
    bs.view.children a = rd_words bs.mem (bs.set_num_entries a) (SGD_OFFSET + a + 36) := by
  unfold State.children
  have h1 : (bs.view.entry a).set.num_entries = bs.set_num_entries a := rfl
  have h2 : (bs.view.entry a).set.entries =
      rd_words bs.mem (bs.set_num_entries a) (SGD_OFFSET + a + 36) := rfl
  rw [h1, h2]
  apply List.ext_getElem
  · simp [rd_words_length]
  · intro i hi1 hi2
    simp only [List.getElem_map, List.getElem_range]
    rw [List.getD_eq_getElem?_getD, List.getElem?_eq_getElem hi2]
    rfl

theorem view_set_entries (bs : Bytes) (a i : Nat) (hi : i < bs.set_num_entries a) :
    (bs.view.children a).getD i 0 = bs.set_entries a i := by
  rw [view_children, rd_words_getD _ _ _ _ hi]
  rfl

theorem find?_congr_mem {p q : Nat → Bool} : ∀ (l : List Nat), (∀ i ∈ l, p i = q i) →
    l.find? p = l.find? q := by
  intro l
  induction l with
  | nil => intro _; rfl
  | cons x rest ih =>
    intro h
    simp only [List.find?_cons]
    rw [h x (List.mem_cons_self _ _), ih (fun i hi => h i (List.mem_cons_of_mem _ hi))]

/-- The function `find_entry` on the view, in terms of the bytes. -/
theorem find_entry_view (bs : Bytes) (idx : Nat) :
    find_entry bs.view idx =
      match (List.range bs.dir_num_entries).find?
          (fun i => bs.hdr_index (bs.dir_addr i) == idx) with
      | some i => .ok (bs.dir_addr i)
      | none => .error (.entry_not_found idx) := by
  unfold find_entry
  have hn : bs.view.dir.num_entries = bs.dir_num_entries := rfl
  rw [hn]
  have hp : (List.range bs.dir_num_entries).find?
      (fun i => (bs.view.entry (bs.view.dir_addr i)).hdr.index == idx) =
      (List.range bs.dir_num_entries).find? (fun i => bs.hdr_index (bs.dir_addr i) == idx) := by
    apply find?_congr_mem
    intro i hi
    rw [view_dir_addr bs i (List.mem_range.mp hi)]
    rfl
  rw [hp]
  cases hf : (List.range bs.dir_num_entries).find?
      (fun i => bs.hdr_index (bs.dir_addr i) == idx) with
  | none => rfl
  | some i =>
    simp only
    rw [view_dir_addr bs i (List.mem_range.mp (List.mem_of_find?_eq_some hf))]

theorem find_entry_view_ok {bs : Bytes} {idx e : Nat} (h : find_entry bs.view idx = .ok e) :
    ∃ i, i < bs.dir_num_entries ∧ bs.dir_addr i = e ∧ bs.hdr_index e = idx := by
  obtain ⟨i, hi, hie⟩ := find_entry_ok h
  have hx := find_entry_index h
  exact ⟨i, hi, by rw [← view_dir_addr bs i hi]; exact hie, hx⟩

theorem same_index_refl (bs : Bytes) : same_index bs bs :=
  ⟨rfl, rfl, rfl, fun _ _ => ⟨rfl, rfl, rfl, fun _ => rfl⟩⟩

theorem same_index_find_entry {bs bs2 : Bytes} (h : same_index bs bs2) (idx : Nat) :
    find_entry bs2.view idx = find_entry bs.view idx := by
  obtain ⟨_, _, h3, h4⟩ := h
  rw [find_entry_view, find_entry_view, h3]
  have hp : (List.range bs.dir_num_entries).find?
      (fun i => bs2.hdr_index (bs2.dir_addr i) == idx) =
      (List.range bs.dir_num_entries).find? (fun i => bs.hdr_index (bs.dir_addr i) == idx) := by
    apply find?_congr_mem
    intro i hi
    obtain ⟨p1, _, p3, _⟩ := h4 i (List.mem_range.mp hi)
    rw [p1, p3]
  rw [hp]
  cases hf : (List.range bs.dir_num_entries).find?
      (fun i => bs.hdr_index (bs.dir_addr i) == idx) with
  | none => rfl
  | some i =>
    simp only
    rw [(h4 i (List.mem_range.mp (List.mem_of_find?_eq_some hf))).1]

/-! ## Theorems: `fixup_set` on the bytes -/

theorem array_frame_set_frame {bs bs2 : Bytes} {a : Nat} (h : array_frame bs bs2 a) :
    set_frame bs bs2 a :=
  ⟨h.1, h.2.1, fun x hx => h.2.2 x (by omega)⟩

theorem array_frame_refl (bs : Bytes) (a : Nat) : array_frame bs bs a :=
  ⟨rfl, rfl, fun _ _ => rfl⟩

theorem array_frame_num {bs bs2 : Bytes} {a : Nat} (h : array_frame bs bs2 a) :
    bs2.set_num_entries a = bs.set_num_entries a := by
  unfold Bytes.set_num_entries
  exact rd32_congr (fun x h1 h2 => h.2.2 x (by omega))

theorem array_frame_unk7 {bs bs2 : Bytes} {a : Nat} (h : array_frame bs bs2 a) :
    bs2.set_unk7 a = bs.set_unk7 a := by
  unfold Bytes.set_unk7
  exact rd32_congr (fun x h1 h2 => h.2.2 x (by omega))

/-- A store into the fields of a SET that lie apart leaves what `find_entry`
and the tests on headers and texts read. -/
theorem same_index_of_apart {bs bs2 : Bytes} {a : Nat} (hs : bs.set_apart a)
    (hf : set_frame bs bs2 a) : same_index bs bs2 := by
  obtain ⟨f1, f2, f3⟩ := hf
  obtain ⟨s1, s2⟩ := hs
  unfold apart at s1
  have hnum : bs2.dir_num_entries = bs.dir_num_entries := by
    unfold Bytes.dir_num_entries
    rw [f2]
    exact rd32_congr (fun x h1 h2 => f3 x (by omega))
  refine ⟨f1, f2, hnum, ?_⟩
  intro j hj
  obtain ⟨t1, t2, _⟩ := s2 j hj
  unfold apart at t1
  have haddr : bs2.dir_addr j = bs.dir_addr j := by
    unfold Bytes.dir_addr
    rw [f2]
    exact rd32_congr (fun x h1 h2 => f3 x (by omega))
  refine ⟨haddr, ?_, ?_, ?_⟩
  · unfold Bytes.hdr_type
    exact rd16_congr (fun x h1 h2 => f3 x (by omega))
  · unfold Bytes.hdr_index
    exact rd32_congr (fun x h1 h2 => f3 x (by omega))
  · intro ht
    have t3 := t2 ht
    unfold apart Bytes.text_hi at t3
    have e1 : (bs.view.entry (bs.dir_addr j)).textline.text =
        rd_bytes bs.mem bs.file_size (SGD_OFFSET + bs.dir_addr j + 72) := rfl
    have e2 : (bs2.view.entry (bs.dir_addr j)).textline.text =
        rd_bytes bs2.mem bs2.file_size (SGD_OFFSET + bs.dir_addr j + 72) := rfl
    rw [e1] at t3
    rw [e1, e2, f1]
    apply cstr_rd_bytes_congr
    intro x h1 h2
    exact f3 x (by omega)

theorem same_index_trans {bs bs2 bs3 : Bytes} (h1 : same_index bs bs2)
    (h2 : same_index bs2 bs3) : same_index bs bs3 := by
  obtain ⟨a1, a2, a3, a4⟩ := h1
  obtain ⟨b1, b2, b3, b4⟩ := h2
  refine ⟨b1.trans a1, b2.trans a2, b3.trans a3, ?_⟩
  intro j hj
  obtain ⟨p1, p2, p3, p4⟩ := a4 j hj
  obtain ⟨q1, q2, q3, q4⟩ := b4 j (by rw [a3]; exact hj)
  rw [p1] at q1 q2 q3 q4
  refine ⟨q1, q2.trans p2, q3.trans p3, ?_⟩
  intro ht
  rw [q4 (by rw [p2]; exact ht), p4 ht]

theorem same_index_is_dash_text {bs bs2 : Bytes} (h : same_index bs bs2) :
    is_dash_text bs2.view = is_dash_text bs.view := by
  funext x
  unfold is_dash_text
  rw [same_index_find_entry h]
  cases he : find_entry bs.view x with
  | error err => rfl
  | ok e =>
    simp only
    obtain ⟨i, hi, hie, _⟩ := find_entry_view_ok he
    obtain ⟨_, p2, _, p4⟩ := h.2.2.2 i hi
    rw [hie] at p2 p4
    have t2 : (bs2.view.entry e).hdr.type = bs2.hdr_type e := rfl
    have t1 : (bs.view.entry e).hdr.type = bs.hdr_type e := rfl
    rw [t2, t1, p2]
    by_cases ht : bs.hdr_type e = SGD_TEXTLINE2D
    · unfold strchr
      rw [p4 ht]
    · simp [ht]

theorem same_index_is_fixup_pair {bs bs2 : Bytes} (h : same_index bs bs2) :
    is_fixup_pair bs2.view = is_fixup_pair bs.view := by
  funext x y
  unfold is_fixup_pair
  rw [same_index_find_entry h, same_index_find_entry h]
  cases he : find_entry bs.view x with
  | error err => rfl
  | ok e =>
    cases hn : find_entry bs.view y with
    | error err => rfl
    | ok n =>
      simp only
      obtain ⟨i, hi, hie, _⟩ := find_entry_view_ok he
      obtain ⟨j, hj, hjn, _⟩ := find_entry_view_ok hn
      obtain ⟨_, p2, _, p4⟩ := h.2.2.2 i hi
      obtain ⟨_, q2, _, _⟩ := h.2.2.2 j hj
      rw [hie] at p2 p4
      rw [hjn] at q2
      have t2 : (bs2.view.entry e).hdr.type = bs2.hdr_type e := rfl
      have t1 : (bs.view.entry e).hdr.type = bs.hdr_type e := rfl
      have u2 : (bs2.view.entry n).hdr.type = bs2.hdr_type n := rfl
      have u1 : (bs.view.entry n).hdr.type = bs.hdr_type n := rfl
      rw [t2, t1, u2, u1, p2, q2]
      by_cases ht : bs.hdr_type e = SGD_TEXTLINE2D
      · unfold strchr
        rw [p4 ht]
      · simp [ht]

/-- The slot `i` and the slot `i + 1` of the array, read off the children. -/
theorem set_entries_slots {bs : Bytes} {a i : Nat} {P R M : List Nat} {x y : Nat}
    (hc : bs.view.children a = P ++ (x :: y :: R) ++ M) (hP : P.length = i) :
    bs.set_entries a i = x ∧ bs.set_entries a (i + 1) = y := by
  have hlen : (bs.view.children a).length = bs.set_num_entries a := by
    rw [view_children, rd_words_length]
  rw [hc] at hlen
  simp only [List.length_append, List.length_cons] at hlen
  constructor
  · rw [← view_set_entries bs a i (by omega), hc, ← hP, List.append_assoc]
    exact getD_append_cons P x _
  · rw [← view_set_entries bs a (i + 1) (by omega), hc, ← hP]
    have : P ++ (x :: y :: R) ++ M = (P ++ [x]) ++ y :: (R ++ M) := by simp
    rw [this]
    have h2 : P.length + 1 = (P ++ [x]).length := by simp
    rw [h2]
    exact getD_append_cons _ y _

/-- What the test of the loop of `fixup_set` returns on the bytes at a slot
holding `x` followed by `y`. -/
theorem fixup_set_test_bytes_spec {bs : Bytes} {a i : Nat} {P R M : List Nat} {x y : Nat}
    (hc : bs.view.children a = P ++ (x :: y :: R) ++ M) (hP : P.length = i)
    {r : Option (Nat × Nat)} (h : fixup_set_test_bytes bs a i = .ok r) :
    (∃ e n, r = some (e, n) ∧ find_entry bs.view x = .ok e ∧ find_entry bs.view y = .ok n ∧
      is_fixup_pair bs.view x y = true) ∨
    (r = none ∧ is_fixup_pair bs.view x y = false) := by
  obtain ⟨hx, hy⟩ := set_entries_slots hc hP
  unfold fixup_set_test_bytes at h
  rw [hx, hy] at h
  unfold is_fixup_pair
  cases he : find_entry bs.view x with
  | error err => rw [he] at h; cases h
  | ok e =>
    rw [he] at h
    simp only at h
    cases hn : find_entry bs.view y with
    | error err => rw [hn] at h; cases h
    | ok n =>
      rw [hn] at h
      simp only at h
      have t1 : (bs.view.entry e).hdr.type = bs.hdr_type e := rfl
      have u1 : (bs.view.entry n).hdr.type = bs.hdr_type n := rfl
      split at h
      · next hcond =>
        left
        injection h with h
        refine ⟨e, n, h.symm, rfl, rfl, ?_⟩
        simp [t1, u1, hcond.1, hcond.2.1, hcond.2.2]
      · next hcond =>
        right
        injection h with h
        refine ⟨h.symm, ?_⟩
        by_contra hne
        apply hcond
        simp only [Bool.not_eq_false, Bool.and_eq_true, decide_eq_true_eq, t1, u1] at hne
        exact ⟨hne.1.1, hne.1.2, hne.2⟩

theorem fixup_set_test_bytes_total {bs : Bytes} {a i : Nat} {P R M : List Nat} {x y : Nat}
    (hc : bs.view.children a = P ++ (x :: y :: R) ++ M) (hP : P.length = i)
    (hx : ∃ e, find_entry bs.view x = .ok e) (hy : ∃ e, find_entry bs.view y = .ok e) :
    ∃ r, fixup_set_test_bytes bs a i = .ok r := by
  obtain ⟨hsx, hsy⟩ := set_entries_slots hc hP
  obtain ⟨e, he⟩ := hx
  obtain ⟨n, hn⟩ := hy
  unfold fixup_set_test_bytes
  rw [hsx, hsy, he, hn]
  simp only
  split
  · exact ⟨_, rfl⟩
  · exact ⟨_, rfl⟩

/-- The words of an array after the three stores of `fixup_set` that move the
pair at slot `i`, when the two indices are read outside the array. -/
theorem store_words {m : Nat → Nat} {A i N : Nat} {P R M : List Nat} {x y pe pn : Nat}
    (hc : rd_words m N A = P ++ (x :: y :: R) ++ M) (hP : P.length = i)
    (hpe : pe + 4 ≤ A ∨ A + 4 * N ≤ pe) (hpn : pn + 4 ≤ A ∨ A + 4 * N ≤ pn)
    (hx : rd32 m pe = x) (hy : rd32 m pn = y) :
    rd_words (wr32 (wr32 (memmove m (A + 4 * i) (A + 4 * (i + 2)) ((i + R.length + 2 - i - 2) * 4))
        (A + 4 * (i + R.length + 2 - 2))
        (rd32 (memmove m (A + 4 * i) (A + 4 * (i + 2)) ((i + R.length + 2 - i - 2) * 4)) pe))
      (A + 4 * (i + R.length + 2 - 1))
      (rd32 (wr32 (memmove m (A + 4 * i) (A + 4 * (i + 2)) ((i + R.length + 2 - i - 2) * 4))
        (A + 4 * (i + R.length + 2 - 2))
        (rd32 (memmove m (A + 4 * i) (A + 4 * (i + 2)) ((i + R.length + 2 - i - 2) * 4)) pe)) pn))
      N A = P ++ R ++ [x, y] ++ M ∧
    ∀ z, z < A ∨ A + 4 * N ≤ z →
      wr32 (wr32 (memmove m (A + 4 * i) (A + 4 * (i + 2)) ((i + R.length + 2 - i - 2) * 4))
        (A + 4 * (i + R.length + 2 - 2))
        (rd32 (memmove m (A + 4 * i) (A + 4 * (i + 2)) ((i + R.length + 2 - i - 2) * 4)) pe))
      (A + 4 * (i + R.length + 2 - 1))
      (rd32 (wr32 (memmove m (A + 4 * i) (A + 4 * (i + 2)) ((i + R.length + 2 - i - 2) * 4))
        (A + 4 * (i + R.length + 2 - 2))
        (rd32 (memmove m (A + 4 * i) (A + 4 * (i + 2)) ((i + R.length + 2 - i - 2) * 4)) pe)) pn)
      z = m z := by
  have e1 : i + R.length + 2 - i - 2 = R.length := by omega
  have e2 : i + R.length + 2 - 2 = i + R.length := by omega
  have e3 : i + R.length + 2 - 1 = i + R.length + 1 := by omega
  rw [e1, e2, e3]
  generalize hm1 : memmove m (A + 4 * i) (A + 4 * (i + 2)) (R.length * 4) = m1
  generalize hm2 : wr32 m1 (A + 4 * (i + R.length)) (rd32 m1 pe) = m2
  generalize hm3 : wr32 m2 (A + 4 * (i + R.length + 1)) (rd32 m2 pn) = m3
  -- the parts of the array before the stores
  have hc1 : rd_words m N A = P ++ ((x :: y :: R) ++ M) := by rw [hc, List.append_assoc]
  obtain ⟨hN, hP0, hrest⟩ := rd_words_eq_append hc1
  have hc2 : rd_words m ((x :: y :: R) ++ M).length (A + 4 * P.length) =
      [x, y] ++ (R ++ M) := by rw [hrest]; rfl
  obtain ⟨_, _, hRM⟩ := rd_words_eq_append hc2
  obtain ⟨_, hR0, hM0⟩ := rd_words_eq_append hRM
  simp only [List.length_append, List.length_cons, List.length_nil] at hN hR0 hM0
  rw [hP] at hP0 hR0 hM0 hN
  -- what each store leaves
  have f1 : ∀ z, z < A + 4 * i ∨ A + 4 * (i + R.length) ≤ z → m1 z = m z := by
    intro z hz
    rw [← hm1]
    exact memmove_outside (by omega)
  have f2 : ∀ z, z < A + 4 * (i + R.length) ∨ A + 4 * (i + R.length) + 4 ≤ z → m2 z = m1 z := by
    intro z hz
    rw [← hm2]
    exact wr32_outside (by omega)
  have f3 : ∀ z, z < A + 4 * (i + R.length + 1) ∨ A + 4 * (i + R.length + 1) + 4 ≤ z →
      m3 z = m2 z := by
    intro z hz
    rw [← hm3]
    exact wr32_outside (by omega)
  have hxlt : x < 2 ^ 32 := by rw [← hx]; exact rd32_lt _ _
  have hylt : y < 2 ^ 32 := by rw [← hy]; exact rd32_lt _ _
  have v1 : rd32 m1 pe = x := by
    rw [← hx]
    exact rd32_congr (fun z h1 h2 => f1 z (by omega))
  have v2 : rd32 m2 pn = y := by
    rw [← hy]
    exact rd32_congr (fun z h1 h2 => (f2 z (by omega)).trans (f1 z (by omega)))
  constructor
  · have hsplit : N = i + (R.length + (2 + M.length)) := by omega
    rw [hsplit, rd_words_add, rd_words_add, rd_words_add]
    have p1 : rd_words m3 i A = P := by
      refine Eq.trans ?_ hP0
      exact rd_words_congr i A (fun z h1 h2 =>
        (f3 z (by omega)).trans ((f2 z (by omega)).trans (f1 z (by omega))))
    have p2 : rd_words m3 R.length (A + 4 * i) = R := by
      have : rd_words m3 R.length (A + 4 * i) = rd_words m1 R.length (A + 4 * i) :=
        rd_words_congr _ _ (fun z h1 h2 => (f3 z (by omega)).trans (f2 z (by omega)))
      rw [this, ← hm1, rd_words_memmove _ _ (Nat.le_refl _) (by omega)]
      have e : A + 4 * (i + 2) + (A + 4 * i - (A + 4 * i)) = A + 4 * i + 4 * 2 := by omega
      rw [e]
      exact hR0
    have p3 : rd_words m3 2 (A + 4 * i + 4 * R.length) = [x, y] := by
      have q0 : A + 4 * i + 4 * R.length = A + 4 * (i + R.length) := by omega
      have q1 : A + 4 * (i + R.length) + 4 = A + 4 * (i + R.length + 1) := by omega
      have w1 : rd32 m3 (A + 4 * (i + R.length)) = x := by
        rw [← hm3, rd32_wr32_other (by omega), ← hm2, rd32_wr32_same, v1]
        exact Nat.mod_eq_of_lt hxlt
      have w2 : rd32 m3 (A + 4 * (i + R.length + 1)) = y := by
        rw [← hm3, rd32_wr32_same, v2]
        exact Nat.mod_eq_of_lt hylt
      rw [q0]
      simp only [rd_words]
      rw [q1, w1, w2]
    have p4 : rd_words m3 M.length (A + 4 * i + 4 * R.length + 4 * 2) = M := by
      have : A + 4 * i + 4 * (0 + 1 + 1) + 4 * R.length =
          A + 4 * i + 4 * R.length + 4 * 2 := by omega
      rw [this] at hM0
      refine Eq.trans ?_ hM0
      exact rd_words_congr M.length (A + 4 * i + 4 * R.length + 4 * 2) (fun z h1 h2 =>
        (f3 z (by omega)).trans ((f2 z (by omega)).trans (f1 z (by omega))))
    rw [p1, p2, p3, p4]
    simp
  · intro z hz
    exact (f3 z (by omega)).trans ((f2 z (by omega)).trans (f1 z (by omega)))

/-- The header of a directory entry lies outside the child array of a SET
that is apart. -/
theorem hdr_outside_array {bs0 bs : Bytes} {a e idx : Nat} (hs : bs0.set_apart a)
    (hi : same_index bs0 bs) (he : find_entry bs.view idx = .ok e) :
    SGD_OFFSET + e + 4 + 4 ≤ SGD_OFFSET + a + 36 ∨
      SGD_OFFSET + a + 36 + 4 * bs0.set_num_entries a ≤ SGD_OFFSET + e + 4 := by
  obtain ⟨j, hj, hje, _⟩ := find_entry_view_ok he
  rw [hi.2.2.1] at hj
  obtain ⟨p1, _⟩ := hi.2.2.2 j hj
  obtain ⟨t1, _⟩ := hs.2 j hj
  unfold apart Bytes.set_hi at t1
  rw [← hje, p1]
  omega

/-- The state after the pair at slot `i` is moved, on the bytes of a SET that
is apart: the array holds the pair behind the slots that followed it, and no
byte outside the array has changed. -/
theorem fixup_set_store_bytes_spec {bs0 bs : Bytes} {a i : Nat} {P R M : List Nat}
    {x y e n : Nat} (hs : bs0.set_apart a) (hf : array_frame bs0 bs a)
    (hc : bs.view.children a = P ++ (x :: y :: R) ++ M) (hP : P.length = i)
    (he : find_entry bs.view x = .ok e) (hn : find_entry bs.view y = .ok n) :
    array_frame bs0 (fixup_set_store_bytes bs a (i + R.length + 2) i (e, n)) a ∧
    (fixup_set_store_bytes bs a (i + R.length + 2) i (e, n)).view.children a =
      P ++ R ++ [x, y] ++ M := by
  have hi := same_index_of_apart hs (array_frame_set_frame hf)
  have hnum := array_frame_num hf
  have hpe := hdr_outside_array hs hi he
  have hpn := hdr_outside_array hs hi hn
  rw [← hnum] at hpe hpn
  have hx : rd32 bs.mem (SGD_OFFSET + e + 4) = x := (find_entry_view_ok he).choose_spec.2.2
  have hy : rd32 bs.mem (SGD_OFFSET + n + 4) = y := (find_entry_view_ok hn).choose_spec.2.2
  rw [view_children] at hc
  obtain ⟨k1, k2⟩ := store_words hc hP hpe hpn hx hy
  have hnum2 : (fixup_set_store_bytes bs a (i + R.length + 2) i (e, n)).set_num_entries a =
      bs.set_num_entries a := by
    unfold Bytes.set_num_entries
    exact rd32_congr (fun z h1 h2 => k2 z (by omega))
  constructor
  · refine ⟨hf.1, hf.2.1, ?_⟩
    intro z hz
    have : (fixup_set_store_bytes bs a (i + R.length + 2) i (e, n)).mem z = bs.mem z := by
      apply k2
      unfold Bytes.set_hi at hz
      rw [hnum]
      omega
    rw [this]
    exact hf.2.2 z hz
  · rw [view_children, hnum2]
    exact k1

/-- The loop of `fixup_set` on the bytes of a SET that is apart, over the
slots `X` that follow the slots `P` already looked at: the children kept stay
in their order, the pairs moved are stacked from the end of `X`, the first
pair moved last, and no byte outside the array changes. -/
theorem fixup_set_loop_bytes_spec {bs0 : Bytes} {a : Nat} (hs : bs0.set_apart a) :
    ∀ (k i : Nat) (bs bs2 : Bytes) (P X M : List Nat),
    array_frame bs0 bs a → bs.view.children a = P ++ X ++ M → P.length = i → X.length = k + 1 →
    fixup_set_loop_bytes a k i bs = .ok bs2 →
    array_frame bs0 bs2 a ∧
    bs2.view.children a = P ++ fixup_kept (is_fixup_pair bs0.view) X ++
      pairs_flat (fixup_pairs (is_fixup_pair bs0.view) X).reverse ++ M := by
  intro k
  induction k using Nat.strong_induction_on with
  | _ k ih =>
    intro i bs bs2 P X M hfr hc hP hX h
    have hpair : is_fixup_pair bs.view = is_fixup_pair bs0.view :=
      same_index_is_fixup_pair (same_index_of_apart hs (array_frame_set_frame hfr))
    match k, X, hX with
    | 0, [x], _ =>
      simp only [fixup_set_loop_bytes] at h
      injection h with h
      subst h
      refine ⟨hfr, ?_⟩
      simp [fixup_kept, fixup_pairs, pairs_flat, hc]
    | 1, [x, y], _ =>
      have hc2 : bs.view.children a = P ++ (x :: y :: []) ++ M := hc
      simp only [fixup_set_loop_bytes] at h
      cases ht : fixup_set_test_bytes bs a i with
      | error err => rw [ht] at h; cases h
      | ok r =>
        rw [ht] at h
        rcases fixup_set_test_bytes_spec hc2 hP ht with ⟨e, n, hr, he, hn, hp⟩ | ⟨hr, hp⟩
        · subst hr
          simp only at h
          injection h with h
          subst h
          have := fixup_set_store_bytes_spec hs hfr hc2 hP he hn
          simp only [List.length_nil, Nat.add_zero] at this
          refine ⟨this.1, ?_⟩
          rw [this.2]
          rw [hpair] at hp
          simp [fixup_kept, fixup_pairs, pairs_flat, hp]
        · subst hr
          simp only at h
          injection h with h
          subst h
          refine ⟨hfr, ?_⟩
          rw [hpair] at hp
          simp [fixup_kept, fixup_pairs, pairs_flat, hp, hc]
    | k + 2, x :: y :: R, hX =>
      have hR : R.length = k + 1 := by simpa using hX
      simp only [fixup_set_loop_bytes] at h
      cases ht : fixup_set_test_bytes bs a i with
      | error err => rw [ht] at h; cases h
      | ok r =>
        rw [ht] at h
        rcases fixup_set_test_bytes_spec hc hP ht with ⟨e, n, hr, he, hn, hp⟩ | ⟨hr, hp⟩
        · subst hr
          simp only at h
          have hst := fixup_set_store_bytes_spec hs hfr hc hP he hn
          have hnum : i + R.length + 2 = i + k + 3 := by omega
          rw [hnum] at hst
          have hch2 : (fixup_set_store_bytes bs a (i + k + 3) i (e, n)).view.children a =
              P ++ R ++ ([x, y] ++ M) := by rw [hst.2]; simp
          obtain ⟨hfr2, hres⟩ := ih k (by omega) i _ bs2 P R ([x, y] ++ M) hst.1 hch2 hP hR h
          refine ⟨hfr2, ?_⟩
          rw [hpair] at hp
          rw [hres]
          simp [fixup_kept, fixup_pairs, hp, pairs_flat_append, pairs_flat]
        · subst hr
          simp only at h
          have hc3 : bs.view.children a = (P ++ [x]) ++ (y :: R) ++ M := by rw [hc]; simp
          obtain ⟨hfr2, hres⟩ := ih (k + 1) (by omega) (i + 1) bs bs2 (P ++ [x]) (y :: R) M hfr
            hc3 (by simp [hP]) (by simp [hR]) h
          refine ⟨hfr2, ?_⟩
          rw [hpair] at hp
          rw [hres]
          simp [fixup_kept, fixup_pairs, hp]

/-- The loop of `fixup_set` on the bytes of a SET that is apart ends without
an error when the slots it looks at hold indices of directory entries. -/
theorem fixup_set_loop_bytes_total {bs0 : Bytes} {a : Nat} (hs : bs0.set_apart a) :
    ∀ (k i : Nat) (bs : Bytes) (P X M : List Nat),
    array_frame bs0 bs a → bs.view.children a = P ++ X ++ M → P.length = i → X.length = k + 1 →
    (∀ x ∈ X, ∃ e, find_entry bs0.view x = .ok e) →
    ∃ bs2, fixup_set_loop_bytes a k i bs = .ok bs2 := by
  intro k
  induction k using Nat.strong_induction_on with
  | _ k ih =>
    intro i bs P X M hfr hc hP hX hf
    have hidx := same_index_of_apart hs (array_frame_set_frame hfr)
    have hf2 : ∀ x ∈ X, ∃ e, find_entry bs.view x = .ok e := by
      intro x hx
      rw [same_index_find_entry hidx]
      exact hf x hx
    match k, X, hX with
    | 0, [x], _ => exact ⟨bs, by simp only [fixup_set_loop_bytes]⟩
    | 1, [x, y], _ =>
      have hc2 : bs.view.children a = P ++ (x :: y :: []) ++ M := hc
      obtain ⟨r, hr⟩ := fixup_set_test_bytes_total hc2 hP (hf2 x (by simp)) (hf2 y (by simp))
      simp only [fixup_set_loop_bytes, hr]
      cases r with
      | none => exact ⟨_, rfl⟩
      | some p => exact ⟨_, rfl⟩
    | k + 2, x :: y :: R, hX =>
      have hR : R.length = k + 1 := by simpa using hX
      obtain ⟨r, hr⟩ := fixup_set_test_bytes_total hc hP (hf2 x (by simp)) (hf2 y (by simp))
      simp only [fixup_set_loop_bytes, hr]
      rcases fixup_set_test_bytes_spec hc hP hr with ⟨e, n, hr2, he, hn, _⟩ | ⟨hr2, _⟩
      · subst hr2
        simp only
        have hst := fixup_set_store_bytes_spec hs hfr hc hP he hn
        have hnum : i + R.length + 2 = i + k + 3 := by omega
        rw [hnum] at hst
        have hch2 : (fixup_set_store_bytes bs a (i + k + 3) i (e, n)).view.children a =
            P ++ R ++ ([x, y] ++ M) := by rw [hst.2]; simp
        refine ih k (by omega) i _ P R ([x, y] ++ M) hst.1 hch2 hP hR ?_
        intro z hz
        exact hf z (by simp [hz])
      · subst hr2
        simp only
        have hc3 : bs.view.children a = (P ++ [x]) ++ (y :: R) ++ M := by rw [hc]; simp
        refine ih (k + 1) (by omega) (i + 1) bs (P ++ [x]) (y :: R) M hfr hc3
          (by simp [hP]) (by simp [hR]) ?_
        intro z hz
        exact hf z (List.mem_cons_of_mem _ hz)

theorem view_children_length (bs : Bytes) (a : Nat) :
    (bs.view.children a).length = bs.set_num_entries a := by
  rw [view_children, rd_words_length]

/-- The function `fixup_set` on the bytes, entered with the buffer `bs` that
differs from `bs0` inside the array of the SET only, when the SET is apart in
`bs0` and has fewer than `2^31` children. -/
theorem fixup_set_bytes_spec {bs0 bs : Bytes} {a : Nat} {bs2 : Bytes} (hs : bs0.set_apart a)
    (hfr : array_frame bs0 bs a) (hn : bs0.set_num_entries a < 2 ^ 31)
    (h : fixup_set_bytes bs a = .ok bs2) :
    array_frame bs0 bs2 a ∧
    bs2.view.children a = fixup_kept (is_fixup_pair bs0.view) (bs.view.children a) ++
      pairs_flat (fixup_pairs (is_fixup_pair bs0.view) (bs.view.children a)).reverse := by
  have hnum := array_frame_num hfr
  unfold fixup_set_bytes at h
  rw [hnum, toNat_pred_count hn] at h
  have hlen := view_children_length bs a
  rw [hnum] at hlen
  by_cases h0 : bs0.set_num_entries a = 0
  · rw [h0] at h hlen
    simp only [fixup_set_loop_bytes] at h
    injection h with h
    subst h
    have hnil : bs.view.children a = [] := List.length_eq_zero.mp hlen
    refine ⟨hfr, ?_⟩
    rw [hnil]
    rfl
  · have := fixup_set_loop_bytes_spec hs (bs0.set_num_entries a - 1) 0 bs bs2 []
      (bs.view.children a) [] hfr (by simp) rfl (by rw [hlen]; omega) h
    simpa using this

/-- The function `fixup_set` returns on the bytes of a SET that is apart when
every child index of the SET is the index of a directory entry. -/
theorem fixup_set_bytes_total {bs0 bs : Bytes} {a : Nat} (hs : bs0.set_apart a)
    (hfr : array_frame bs0 bs a) (hn : bs0.set_num_entries a < 2 ^ 31)
    (hf : ∀ x ∈ bs.view.children a, ∃ e, find_entry bs0.view x = .ok e) :
    ∃ bs2, fixup_set_bytes bs a = .ok bs2 := by
  have hnum := array_frame_num hfr
  unfold fixup_set_bytes
  rw [hnum, toNat_pred_count hn]
  have hlen := view_children_length bs a
  rw [hnum] at hlen
  by_cases h0 : bs0.set_num_entries a = 0
  · rw [h0]
    exact ⟨bs, by simp only [fixup_set_loop_bytes]⟩
  · exact fixup_set_loop_bytes_total hs (bs0.set_num_entries a - 1) 0 bs []
      (bs.view.children a) [] hfr (by simp) rfl (by rw [hlen]; omega) hf

/-- A count of `2^31` or more is negative as `int num_entries`, and the loop
of `fixup_set` is not entered. -/
theorem fixup_set_bytes_large {bs : Bytes} {a : Nat} (hn : ¬ bs.set_num_entries a < 2 ^ 31) :
    fixup_set_bytes bs a = .ok bs := by
  have hlt := rd32_lt bs.mem (SGD_OFFSET + a + 32)
  have h0 : (int_of_u32 (bs.set_num_entries a) - 1).toNat = 0 := by
    unfold int_of_u32 Bytes.set_num_entries
    unfold Bytes.set_num_entries at hn
    rw [Nat.mod_eq_of_lt hlt, if_neg hn]
    omega
  unfold fixup_set_bytes
  rw [h0]
  simp only [fixup_set_loop_bytes]

/-! ## Theorems: `fixup_set` on records that share no byte -/

theorem pairs_file_eval :
    (match validate_directory_bytes (load pairs_file) pairs_file.length 4 with
      | .ok bs =>
        decide (bs.set_num_entries 200 < 2 ^ 31) && decide (bs.set_apart 200) &&
        decide (bs.view.children 200 = [2, 3, 4, 5, 6]) &&
        decide (fixup_pairs (is_fixup_pair bs.view) (bs.view.children 200) = [(2, 3), (4, 5)]) &&
        (match fixup_set_bytes bs 200 with
          | .ok bs1 => decide (bs1.view.children 200 = [6, 4, 5, 2, 3]) &&
            (match fixup_set_bytes bs1 200 with
              | .ok bs2 => decide (bs2.view.children 200 = [6, 2, 3, 4, 5])
              | .error _ => false)
          | .error _ => false)
      | .error _ => false) = true := by
  decide!

theorem one_dash_file_eval :
    (match validate_directory_bytes (load one_dash_file) one_dash_file.length 4 with
      | .ok bs =>
        decide (bs.set_num_entries 200 < 2 ^ 31) && decide (bs.set_apart 200) &&
        decide (bs.view.children 200 = [2, 3, 6, 5, 6]) &&
        decide (∀ x ∈ bs.view.children 200, (find_entry bs.view x).toBool = true) &&
        decide ((bs.view.children 200).countP (is_dash_text bs.view) ≤ 1) &&
        decide (fixup_pairs (is_fixup_pair bs.view) (bs.view.children 200) = [(2, 3)])
      | .error _ => false) = true := by
  decide!

/-- C13 (as stated) fails on the bytes of `pairs_file`, a file that
`validate_directory` accepts and whose records share no byte: with two pairs
to move, a second `fixup_set` swaps the two pairs again. -/
theorem fixup_set_bytes_not_idempotent :
    ∃ bs, validate_directory_bytes (load pairs_file) pairs_file.length 4 = .ok bs ∧
      bs.set_apart 200 ∧ bs.view.children 200 = [2, 3, 4, 5, 6] ∧
      ∃ bs1, fixup_set_bytes bs 200 = .ok bs1 ∧ bs1.view.children 200 = [6, 4, 5, 2, 3] ∧
        ∃ bs2, fixup_set_bytes bs1 200 = .ok bs2 ∧ bs2.view.children 200 = [6, 2, 3, 4, 5] ∧
          bs2.view.children 200 ≠ bs1.view.children 200 := by
  have h := pairs_file_eval
  split at h
  · next bs hbs =>
    simp only [Bool.and_eq_true, decide_eq_true_eq] at h
    obtain ⟨⟨⟨⟨_, h2⟩, h3⟩, _⟩, h5⟩ := h
    refine ⟨bs, hbs, h2, h3, ?_⟩
    split at h5
    · next bs1 hbs1 =>
      simp only [Bool.and_eq_true, decide_eq_true_eq] at h5
      obtain ⟨h6, h7⟩ := h5
      refine ⟨bs1, hbs1, h6, ?_⟩
      split at h7
      · next bs2 hbs2 =>
        simp only [decide_eq_true_eq] at h7
        refine ⟨bs2, hbs2, h7, ?_⟩
        rw [h6, h7]
        decide
      · cases h7
    · cases h5
  · cases h

/-- C13 (amended). On a SET whose fields `unk7`, `num_entries` and `entries`
share no byte with the directory, with the header of a directory entry, with
the text of a TEXT_LINE or with these fields of another SET
(`Bytes.set_apart`), whose children are each the index of a directory entry
and which has at most one child that is a TEXT_LINE whose text contains `-`:
`fixup_set` returns, a second `fixup_set` returns too, and the child list
after the second is the child list after the first. -/
theorem fixup_set_bytes_idempotent_one_dash (bs : Bytes) (a : Nat)
    (hs : bs.set_apart a) (hf : children_found bs.view a)
    (hd : (bs.view.children a).countP (is_dash_text bs.view) ≤ 1) :
    ∃ bs1, fixup_set_bytes bs a = .ok bs1 ∧
      ∃ bs2, fixup_set_bytes bs1 a = .ok bs2 ∧ bs2.view.children a = bs1.view.children a := by
  by_cases hn : bs.set_num_entries a < 2 ^ 31
  swap
  · exact ⟨bs, fixup_set_bytes_large hn, bs, fixup_set_bytes_large hn, rfl⟩
  obtain ⟨bs1, h1⟩ := fixup_set_bytes_total hs (array_frame_refl bs a) hn hf
  obtain ⟨hfr1, hc1⟩ := fixup_set_bytes_spec hs (array_frame_refl bs a) hn h1
  have hf1 : ∀ x ∈ bs1.view.children a, ∃ e, find_entry bs.view x = .ok e := by
    intro x hx
    rw [hc1] at hx
    exact hf x ((fixup_perm (is_fixup_pair bs.view) (bs.view.children a)).mem_iff.mp hx)
  obtain ⟨bs2, h2⟩ := fixup_set_bytes_total hs hfr1 hn hf1
  refine ⟨bs1, h1, bs2, h2, ?_⟩
  rw [(fixup_set_bytes_spec hs hfr1 hn h2).2, hc1]
  exact fixup_idem_pure (is_fixup_pair bs.view) (is_dash_text bs.view)
    (is_fixup_pair_dash bs.view) _ hd

theorem fixup_set_bytes_idempotent_one_dash_witness :
    ∃ bs, validate_directory_bytes (load one_dash_file) one_dash_file.length 4 = .ok bs ∧
      bs.set_apart 200 ∧ children_found bs.view 200 ∧
      bs.view.children 200 = [2, 3, 6, 5, 6] ∧
      (bs.view.children 200).countP (is_dash_text bs.view) ≤ 1 ∧
      fixup_pairs (is_fixup_pair bs.view) (bs.view.children 200) = [(2, 3)] ∧
      ∃ bs1, fixup_set_bytes bs 200 = .ok bs1 ∧
        ∃ bs2, fixup_set_bytes bs1 200 = .ok bs2 ∧
          bs2.view.children 200 = bs1.view.children 200 := by
  have h := one_dash_file_eval
  split at h
  · next bs hbs =>
    simp only [Bool.and_eq_true, decide_eq_true_eq] at h
    obtain ⟨⟨⟨⟨⟨_, h2⟩, h3⟩, h4⟩, h5⟩, h6⟩ := h
    have hf : children_found bs.view 200 := fun x hx => except_ok_of_toBool (h4 x hx)
    exact ⟨bs, hbs, h2, hf, h3, h5, h6, fixup_set_bytes_idempotent_one_dash bs 200 h2 hf h5⟩
  · cases h

/-- C14 (as stated) fails on the bytes of `pairs_file`, a file that
`validate_directory` accepts and whose records share no byte: two pairs are
moved and the tail of the child list holds them in the reverse of the order in
which they occurred. -/
theorem fixup_set_bytes_reverses_pairs :
    ∃ bs, validate_directory_bytes (load pairs_file) pairs_file.length 4 = .ok bs ∧
      bs.set_apart 200 ∧ bs.view.children 200 = [2, 3, 4, 5, 6] ∧
      fixup_pairs (is_fixup_pair bs.view) (bs.view.children 200) = [(2, 3), (4, 5)] ∧
      ∃ bs1, fixup_set_bytes bs 200 = .ok bs1 ∧ bs1.view.children 200 = [6, 4, 5, 2, 3] ∧
        bs1.view.children 200 ≠ fixup_kept (is_fixup_pair bs.view) (bs.view.children 200) ++
          pairs_flat (fixup_pairs (is_fixup_pair bs.view) (bs.view.children 200)) := by
  have h := pairs_file_eval
  split at h
  · next bs hbs =>
    simp only [Bool.and_eq_true, decide_eq_true_eq] at h
    obtain ⟨⟨⟨⟨h1, h2⟩, h3⟩, h4⟩, h5⟩ := h
    refine ⟨bs, hbs, h2, h3, h4, ?_⟩
    split at h5
    · next bs1 hbs1 =>
      simp only [Bool.and_eq_true, decide_eq_true_eq] at h5
      obtain ⟨h6, _⟩ := h5
      refine ⟨bs1, hbs1, h6, ?_⟩
      have hspec := (fixup_set_bytes_spec h2 (array_frame_refl bs 200) h1 hbs1).2
      rw [h4, h6] at hspec
      intro hne
      rw [h4, h6] at hne
      have hk : fixup_kept (is_fixup_pair bs.view) (bs.view.children 200) ++ [4, 5, 2, 3] =
          fixup_kept (is_fixup_pair bs.view) (bs.view.children 200) ++ [2, 3, 4, 5] :=
        hspec.symm.trans hne
      have := List.append_cancel_left hk
      revert this
      decide
    · cases h5
  · cases h

/-- C14 (amended). On a SET whose fields `unk7`, `num_entries` and `entries`
share no byte with the directory, with the header of a directory entry, with
the text of a TEXT_LINE or with these fields of another SET
(`Bytes.set_apart`) and which has fewer than `2^31` children: after
`fixup_set` the pairs (TEXT_LINE whose text contains `-`, SIMPLE_AREA) that it
moved form the tail of the child list, each TEXT_LINE immediately followed by
its SIMPLE_AREA, after the children that were not moved, which keep their
order; the pairs moved are adjacent pairs of the original list and they appear
in the tail in the reverse of the order in which they occurred there. -/
theorem fixup_set_bytes_tail (bs : Bytes) (a : Nat) (bs2 : Bytes)
    (hn : bs.set_num_entries a < 2 ^ 31) (hs : bs.set_apart a)
    (h : fixup_set_bytes bs a = .ok bs2) :
    bs2.view.children a = fixup_kept (is_fixup_pair bs.view) (bs.view.children a) ++
      pairs_flat (fixup_pairs (is_fixup_pair bs.view) (bs.view.children a)).reverse ∧
    (∀ p ∈ fixup_pairs (is_fixup_pair bs.view) (bs.view.children a),
      is_fixup_pair bs.view p.1 p.2 = true) ∧
    List.Sublist (fixup_pairs (is_fixup_pair bs.view) (bs.view.children a))
      ((bs.view.children a).zip (bs.view.children a).tail) ∧
    List.Sublist (fixup_kept (is_fixup_pair bs.view) (bs.view.children a))
      (bs.view.children a) := by
  refine ⟨(fixup_set_bytes_spec hs (array_frame_refl bs a) hn h).2, ?_, ?_, ?_⟩
  · exact fixup_pairs_are_pairs _ _ _ (Nat.le_refl _)
  · exact fixup_pairs_sublist _ _ _ (Nat.le_refl _)
  · exact fixup_kept_sublist _ _ _ (Nat.le_refl _)

theorem fixup_set_bytes_tail_witness :
    ∃ bs, validate_directory_bytes (load pairs_file) pairs_file.length 4 = .ok bs ∧
      bs.set_num_entries 200 < 2 ^ 31 ∧ bs.set_apart 200 ∧
      ∃ bs2, fixup_set_bytes bs 200 = .ok bs2 ∧ bs2.view.children 200 = [6, 4, 5, 2, 3] ∧
        bs2.view.children 200 = fixup_kept (is_fixup_pair bs.view) (bs.view.children 200) ++
          pairs_flat (fixup_pairs (is_fixup_pair bs.view) (bs.view.children 200)).reverse ∧
        (∀ p ∈ fixup_pairs (is_fixup_pair bs.view) (bs.view.children 200),
          is_fixup_pair bs.view p.1 p.2 = true) ∧
        List.Sublist (fixup_pairs (is_fixup_pair bs.view) (bs.view.children 200))
          ((bs.view.children 200).zip (bs.view.children 200).tail) ∧
        List.Sublist (fixup_kept (is_fixup_pair bs.view) (bs.view.children 200))
          (bs.view.children 200) := by
  have h := pairs_file_eval
  split at h
  · next bs hbs =>
    simp only [Bool.and_eq_true, decide_eq_true_eq] at h
    obtain ⟨⟨⟨⟨h1, h2⟩, _⟩, _⟩, h5⟩ := h
    refine ⟨bs, hbs, h1, h2, ?_⟩
    split at h5
    · next bs1 hbs1 =>
      simp only [Bool.and_eq_true, decide_eq_true_eq] at h5
      exact ⟨bs1, hbs1, h5.1, fixup_set_bytes_tail bs 200 bs1 h1 h2 hbs1⟩
    · cases h5
  · cases h

/-! ## Theorems: what `process_sets` stores in the bytes -/

theorem bytes_frame_refl (bs : Bytes) : bytes_frame bs bs :=
  ⟨rfl, rfl, fun _ _ => rfl, fun _ _ => ⟨rfl, Or.inl rfl, List.Perm.refl _⟩⟩

theorem not_in_set {bs : Bytes} {lo hi x : Nat} (h1 : lo ≤ x) (h2 : x < hi)
    (hap : ∀ j, j < bs.dir_num_entries → bs.hdr_type (bs.dir_addr j) = SGD_SET →
      apart (SGD_OFFSET + bs.dir_addr j + 28) (bs.set_hi (bs.dir_addr j)) lo hi) :
    ¬ bs.in_set x := by
  rintro ⟨j, hj, ht, h3, h4⟩
  have := hap j hj ht
  unfold apart at this
  omega

/-- The directory, the headers and the texts are as before in a buffer that
differs inside the fields of SETs only, when these fields are apart. -/
theorem bytes_frame_same_index {bs0 bs : Bytes} (hs : bs0.sets_apart)
    (hf : bytes_frame bs0 bs) : same_index bs0 bs := by
  obtain ⟨f1, f2, f3, _⟩ := hf
  have hdir : ∀ x, bs0.dir + 12 ≤ x → x < bs0.dir + 24 + 4 * bs0.dir_num_entries →
      bs.mem x = bs0.mem x := by
    intro x h1 h2
    exact f3 x (not_in_set h1 h2 (fun j hj ht => (hs j hj ht).1))
  have hnum : bs.dir_num_entries = bs0.dir_num_entries := by
    unfold Bytes.dir_num_entries
    rw [f2]
    exact rd32_congr (fun x h1 h2 => hdir x (by omega) (by omega))
  refine ⟨f1, f2, hnum, ?_⟩
  intro k hk
  have hhdr : ∀ x, SGD_OFFSET + bs0.dir_addr k ≤ x → x < SGD_OFFSET + bs0.dir_addr k + 28 →
      bs.mem x = bs0.mem x := by
    intro x h1 h2
    exact f3 x (not_in_set h1 h2 (fun j hj ht => ((hs j hj ht).2 k hk).1))
  have haddr : bs.dir_addr k = bs0.dir_addr k := by
    unfold Bytes.dir_addr
    rw [f2]
    exact rd32_congr (fun x h1 h2 => hdir x (by omega) (by omega))
  refine ⟨haddr, ?_, ?_, ?_⟩
  · unfold Bytes.hdr_type
    exact rd16_congr (fun x h1 h2 => hhdr x (by omega) (by omega))
  · unfold Bytes.hdr_index
    exact rd32_congr (fun x h1 h2 => hhdr x (by omega) (by omega))
  · intro ht
    have e1 : (bs0.view.entry (bs0.dir_addr k)).textline.text =
        rd_bytes bs0.mem bs0.file_size (SGD_OFFSET + bs0.dir_addr k + 72) := rfl
    have e2 : (bs.view.entry (bs0.dir_addr k)).textline.text =
        rd_bytes bs.mem bs.file_size (SGD_OFFSET + bs0.dir_addr k + 72) := rfl
    rw [e1, e2, f1]
    apply cstr_rd_bytes_congr
    intro x h1 h2
    refine f3 x (@not_in_set bs0 (SGD_OFFSET + bs0.dir_addr k + 72)
      (bs0.text_hi (bs0.dir_addr k)) x h1 ?_ (fun j hj ht2 => ((hs j hj ht2).2 k hk).2.1 ht))
    unfold Bytes.text_hi
    rw [e1]
    exact h2

theorem is_set_of_index {bs0 bs : Bytes} (hi : same_index bs0 bs) {j : Nat}
    (hj : j < bs.dir_num_entries) (ht : bs.hdr_type (bs.dir_addr j) = SGD_SET) :
    bs0.is_set (bs.dir_addr j) := by
  rw [hi.2.2.1] at hj
  obtain ⟨p1, p2, _, _⟩ := hi.2.2.2 j hj
  rw [p1] at ht ⊢
  rw [p2] at ht
  exact ⟨j, hj, rfl, ht⟩

theorem is_set_of_find {bs0 bs : Bytes} (hi : same_index bs0 bs) {idx e : Nat}
    (he : find_entry bs.view idx = .ok e) (ht : bs.hdr_type e = SGD_SET) : bs0.is_set e := by
  obtain ⟨j, hj, hje, _⟩ := find_entry_view_ok he
  rw [← hje] at ht ⊢
  exact is_set_of_index hi hj ht

/-- The fields of the SETs are apart in a buffer that differs inside these
fields only, when they were apart before. -/
theorem bytes_frame_sets_apart {bs0 bs : Bytes} (hs : bs0.sets_apart)
    (hf : bytes_frame bs0 bs) : bs.sets_apart := by
  have hidx := bytes_frame_same_index hs hf
  obtain ⟨f1, f2, f3, f4⟩ := hf
  obtain ⟨_, _, inum, iall⟩ := hidx
  have hhi : ∀ j, j < bs0.dir_num_entries → bs0.hdr_type (bs0.dir_addr j) = SGD_SET →
      bs.set_hi (bs0.dir_addr j) = bs0.set_hi (bs0.dir_addr j) := by
    intro j hj ht
    unfold Bytes.set_hi
    rw [(f4 _ ⟨j, hj, rfl, ht⟩).1]
  intro i hi ht
  rw [inum] at hi
  obtain ⟨a1, a2, _, _⟩ := iall i hi
  rw [a1] at ht ⊢
  rw [a2] at ht
  have hs0 := hs i hi ht
  unfold Bytes.set_apart at hs0 ⊢
  rw [hhi i hi ht, f2, inum]
  refine ⟨hs0.1, ?_⟩
  intro j hj
  obtain ⟨q1, q2, _, q4⟩ := iall j hj
  obtain ⟨t1, t2, t3⟩ := hs0.2 j hj
  rw [q1, q2]
  refine ⟨t1, ?_, ?_⟩
  · intro htx
    have : bs.text_hi (bs0.dir_addr j) = bs0.text_hi (bs0.dir_addr j) := by
      unfold Bytes.text_hi
      rw [q4 htx]
    rw [this]
    exact t2 htx
  · intro hts hne
    rw [hhi j hj hts]
    exact t3 hts hne

/-- One store of the set engine: the buffer `bs2` differs from `bs` inside
the fields of the SET at `a` only, `num_entries` is kept, `unk7` is kept or
gets the DRAWN bit, and the children are permuted. -/
theorem bytes_frame_step {bs0 bs bs2 : Bytes} {a : Nat} (hs : bs0.sets_apart)
    (hf : bytes_frame bs0 bs) (ha : bs0.is_set a) (hfr : set_frame bs bs2 a)
    (hn : bs2.set_num_entries a = bs.set_num_entries a)
    (hu : bs2.set_unk7 a = bs.set_unk7 a ∨ bs2.set_unk7 a = bs.set_unk7 a ||| SET_DRAWN)
    (hp : (bs2.view.children a).Perm (bs.view.children a)) : bytes_frame bs0 bs2 := by
  obtain ⟨f1, f2, f3, f4⟩ := hf
  obtain ⟨g1, g2, g3⟩ := hfr
  obtain ⟨ja, hja, hjaa, hta⟩ := ha
  have hhi : bs.set_hi a = bs0.set_hi a := by
    unfold Bytes.set_hi
    rw [(f4 a ⟨ja, hja, hjaa, hta⟩).1]
  rw [hhi] at g3
  refine ⟨g1.trans f1, g2.trans f2, ?_, ?_⟩
  · intro x hx
    rw [← f3 x hx]
    apply g3
    by_contra hc
    apply hx
    refine ⟨ja, hja, ?_, ?_, ?_⟩
    · rw [hjaa]; exact hta
    · rw [hjaa]; omega
    · rw [hjaa]; omega
  · intro c hc
    obtain ⟨c1, c2, c3⟩ := f4 c hc
    by_cases hca : c = a
    · subst hca
      refine ⟨hn.trans c1, ?_, hp.trans c3⟩
      rcases hu with hu | hu
      · rw [hu]; exact c2
      · rcases c2 with c2 | c2
        · right; rw [hu, c2]
        · right; rw [hu, c2, Nat.lor_assoc, Nat.or_self]
    · obtain ⟨jc, hjc, hjcc, htc⟩ := hc
      have hsa := hs ja hja (by rw [hjaa]; exact hta)
      rw [hjaa] at hsa
      have hap := (hsa.2 jc hjc).2.2 (by rw [hjcc]; exact htc) (by rw [hjcc]; exact hca)
      rw [hjcc] at hap
      unfold apart at hap
      have hhic : bs.set_hi c = bs0.set_hi c := by
        unfold Bytes.set_hi
        rw [c1]
      have hmem : ∀ x, SGD_OFFSET + c + 28 ≤ x → x < bs0.set_hi c → bs2.mem x = bs.mem x := by
        intro x h1 h2
        exact g3 x (by omega)
      have hlo : SGD_OFFSET + c + 36 ≤ bs0.set_hi c := by
        unfold Bytes.set_hi; omega
      have n2 : bs2.set_num_entries c = bs.set_num_entries c := by
        unfold Bytes.set_num_entries
        exact rd32_congr (fun x h1 h2 => hmem x (by omega) (by omega))
      have u2 : bs2.set_unk7 c = bs.set_unk7 c := by
        unfold Bytes.set_unk7
        exact rd32_congr (fun x h1 h2 => hmem x (by omega) (by omega))
      have k2 : bs2.view.children c = bs.view.children c := by
        rw [view_children, view_children, n2]
        apply rd_words_congr
        intro x h1 h2
        apply hmem x (by omega)
        rw [← hhic]
        unfold Bytes.set_hi
        omega
      rw [n2, u2, k2]
      exact ⟨c1, c2, c3⟩

/-- The function `fixup_set` on a SET that is apart: the bytes outside its
array are kept and its children are permuted. -/
theorem fixup_set_bytes_frame {bs bs2 : Bytes} {a : Nat} (hs : bs.set_apart a)
    (h : fixup_set_bytes bs a = .ok bs2) :
    array_frame bs bs2 a ∧ (bs2.view.children a).Perm (bs.view.children a) := by
  by_cases hn : bs.set_num_entries a < 2 ^ 31
  · obtain ⟨h1, h2⟩ := fixup_set_bytes_spec hs (array_frame_refl bs a) hn h
    refine ⟨h1, ?_⟩
    rw [h2]
    exact fixup_perm _ _
  · rw [fixup_set_bytes_large hn] at h
    injection h with h
    subst h
    exact ⟨array_frame_refl _ _, List.Perm.refl _⟩

theorem set_apart_of_is_set {bs0 bs : Bytes} (hs : bs0.sets_apart) (hf : bytes_frame bs0 bs)
    {a : Nat} (ha : bs0.is_set a) : bs.set_apart a := by
  have hidx := bytes_frame_same_index hs hf
  obtain ⟨j, hj, hja, ht⟩ := ha
  obtain ⟨p1, p2, _, _⟩ := hidx.2.2.2 j hj
  have := bytes_frame_sets_apart hs hf j (by rw [hidx.2.2.1]; exact hj)
    (by rw [p1, p2, hja]; exact ht)
  rw [p1, hja] at this
  exact this

theorem fixup_set_bytes_keeps {bs0 bs bs2 : Bytes} {a : Nat} (hs : bs0.sets_apart)
    (hf : bytes_frame bs0 bs) (ha : bs0.is_set a) (h : fixup_set_bytes bs a = .ok bs2) :
    bytes_frame bs0 bs2 := by
  obtain ⟨h1, h2⟩ := fixup_set_bytes_frame (set_apart_of_is_set hs hf ha) h
  exact bytes_frame_step hs hf ha (array_frame_set_frame h1) (array_frame_num h1)
    (Or.inl (array_frame_unk7 h1)) h2

theorem store_set_unk7_keeps {bs0 bs : Bytes} {a : Nat} (hs : bs0.sets_apart)
    (hf : bytes_frame bs0 bs) (ha : bs0.is_set a) :
    bytes_frame bs0 (bs.store_set_unk7 a (bs.set_unk7 a ||| SET_DRAWN)) := by
  have hmem : ∀ x, x < SGD_OFFSET + a + 28 ∨ SGD_OFFSET + a + 32 ≤ x →
      (bs.store_set_unk7 a (bs.set_unk7 a ||| SET_DRAWN)).mem x = bs.mem x := by
    intro x hx
    exact wr32_outside (by omega)
  have hn : (bs.store_set_unk7 a (bs.set_unk7 a ||| SET_DRAWN)).set_num_entries a =
      bs.set_num_entries a := by
    unfold Bytes.set_num_entries
    exact rd32_congr (fun x h1 h2 => hmem x (by omega))
  refine bytes_frame_step hs hf ha ⟨rfl, rfl, ?_⟩ hn (Or.inr ?_) ?_
  · intro x hx
    apply hmem
    unfold Bytes.set_hi at hx
    omega
  · have hlt : bs.set_unk7 a ||| SET_DRAWN < 2 ^ 32 :=
      Nat.or_lt_two_pow (rd32_lt _ _) (by decide)
    have : (bs.store_set_unk7 a (bs.set_unk7 a ||| SET_DRAWN)).set_unk7 a =
        (bs.set_unk7 a ||| SET_DRAWN) % 2 ^ 32 := rd32_wr32_same _ _ _
    rw [this, Nat.mod_eq_of_lt hlt]
  · rw [view_children, view_children, hn]
    have : rd_words (bs.store_set_unk7 a (bs.set_unk7 a ||| SET_DRAWN)).mem
        (bs.set_num_entries a) (SGD_OFFSET + a + 36) =
        rd_words bs.mem (bs.set_num_entries a) (SGD_OFFSET + a + 36) :=
      rd_words_congr _ _ (fun x h1 h2 => hmem x (by omega))
    rw [this]

theorem calc_set_children_bytes_keeps {bs0 : Bytes} (hs : bs0.sets_apart)
    {self : Bytes → bounds_t → Nat → Except Err (Bytes × bounds_t)} (hself : frame_self bs0 self)
    (set : Nat) : ∀ (l : List Nat) (bs : Bytes) (b : bounds_t) (r : Bytes × bounds_t),
    bytes_frame bs0 bs → calc_set_children_bytes self set l bs b = .ok r →
    bytes_frame bs0 r.1 := by
  intro l
  induction l with
  | nil =>
    intro bs b r hf h
    simp only [calc_set_children_bytes] at h
    injection h with h
    subst h
    exact hf
  | cons j rest ih =>
    intro bs b r hf h
    simp only [calc_set_children_bytes] at h
    split at h
    · cases h
    · next e he =>
      split at h
      · next ht =>
        split at h
        · cases h
        · next r1 hr1 =>
          exact ih r1.1 r1.2 r
            (hself bs b e r1 hf (is_set_of_find (bytes_frame_same_index hs hf) he ht) hr1) h
      · exact ih bs b r hf h

theorem calc_set_recurse_bytes_keeps {bs0 : Bytes} (hs : bs0.sets_apart)
    {self : Bytes → bounds_t → Nat → Except Err (Bytes × bounds_t)} (hself : frame_self bs0 self)
    (set : Nat) : ∀ (k i : Nat) (bs : Bytes) (b : bounds_t) (r : Bytes × bounds_t),
    bytes_frame bs0 bs → calc_set_recurse_bytes self set k i bs b = .ok r →
    bytes_frame bs0 r.1 := by
  intro k
  induction k with
  | zero =>
    intro i bs b r _ h
    simp only [calc_set_recurse_bytes] at h
    cases h
  | succ k ih =>
    intro i bs b r hf h
    simp only [calc_set_recurse_bytes] at h
    split at h
    · split at h
      · cases h
      · next e he =>
        split at h
        · next ht =>
          split at h
          · cases h
          · next r1 hr1 =>
            exact ih (i + 1) r1.1 r1.2 r
              (hself bs b e r1 hf (is_set_of_find (bytes_frame_same_index hs hf) he ht) hr1) h
        · exact ih (i + 1) bs b r hf h
    · injection h with h
      subst h
      exact hf

theorem calc_set_runs_bytes_keeps {bs0 : Bytes} (hs : bs0.sets_apart)
    {self : Bytes → bounds_t → Nat → Except Err (Bytes × bounds_t)} (hself : frame_self bs0 self)
    (g : Raster) (b : bounds_t) (set : Nat) : ∀ (k i : Nat) (s r : RunBytes),
    bytes_frame bs0 s.bs → calc_set_runs_bytes self g b set k i s = .ok r →
    bytes_frame bs0 r.bs := by
  intro k
  induction k with
  | zero =>
    intro i s r _ h
    simp only [calc_set_runs_bytes] at h
    cases h
  | succ k ih =>
    intro i s r hf h
    simp only [calc_set_runs_bytes] at h
    split at h
    · split at h
      · cases h
      · next sc hsc =>
        split at h
        · exact ih _ _ r (by exact hf) h
        · split at h
          · cases h
          · next r1 hr1 =>
            exact ih _ _ r (by exact calc_set_children_bytes_keeps hs hself set _ _ _ _ hf hr1) h
    · injection h with h
      subst h
      exact hf

/-- The function `calc_set_bounds_r` on the bytes, called on a SET of the
directory, keeps `bytes_frame`, whatever the fuel. -/
theorem calc_set_bounds_r_bytes_keeps {bs0 : Bytes} (hs : bs0.sets_apart) (g : Raster) :
    ∀ (fuel : Nat), frame_self bs0 (fun bs b e => calc_set_bounds_r_bytes g fuel bs b e) := by
  intro fuel
  induction fuel with
  | zero =>
    intro bs b e r _ _ h
    simp only [calc_set_bounds_r_bytes] at h
    cases h
  | succ fuel ih =>
    intro bs b e r hf ha h
    simp only [calc_set_bounds_r_bytes] at h
    split at h
    · exact calc_set_recurse_bytes_keeps hs ih e _ _ _ _ r hf h
    · split at h
      · cases h
      · next bs1 hbs1 =>
        have hf1 := fixup_set_bytes_keeps hs hf ha hbs1
        split at h
        · cases h
        · next s hs1 =>
          have hf2 := calc_set_runs_bytes_keeps hs ih g b e _ _ _ s hf1 hs1
          split at h
          · split at h
            · injection h with h
              subst h
              exact hf2
            · exact calc_set_recurse_bytes_keeps hs ih e _ _ _ _ r hf2 h
          · split at h
            · injection h with h
              subst h
              exact hf2
            · exact calc_set_recurse_bytes_keeps hs ih e _ _ _ _ r hf2 h

theorem process_sets_draw_bytes_keeps {bs0 : Bytes} (hs : bs0.sets_apart)
    (render : State → Nat → Except Err Unit) (g : Raster) (do_crop : Bool) (fuel : Nat)
    {bs : Bytes} {b : bounds_t} {e : Nat} {r : Bytes × bounds_t} (hf : bytes_frame bs0 bs)
    (ha : bs0.is_set e) (h : process_sets_draw_bytes render g do_crop fuel bs b e = .ok r) :
    bytes_frame bs0 r.1 := by
  unfold process_sets_draw_bytes at h
  split at h
  · cases h
  · split at h
    · cases h
    · next r1 hr1 =>
      injection h with h
      subst h
      have hf1 : bytes_frame bs0 r1.1 := by
        split at hr1
        · exact calc_set_bounds_r_bytes_keeps hs g fuel bs b e r1 hf ha hr1
        · injection hr1 with hr1
          subst hr1
          exact hf
      exact store_set_unk7_keeps hs hf1 ha

theorem is_set_of_skip {bs0 bs : Bytes} (hi : same_index bs0 bs) {j : Nat}
    (hj : j < bs.dir_num_entries) (hk : ¬ process_sets_skip bs.view (bs.dir_addr j) = true) :
    bs0.is_set (bs.dir_addr j) := by
  apply is_set_of_index hi hj
  by_contra hne
  apply hk
  unfold process_sets_skip
  have : (bs.view.entry (bs.dir_addr j)).hdr.type = bs.hdr_type (bs.dir_addr j) := rfl
  rw [this]
  simp [hne]

theorem process_sets_merge_bytes_keeps {bs0 : Bytes} (hs : bs0.sets_apart)
    (render : State → Nat → Except Err Unit) (g : Raster) (do_crop : Bool) (fuel : Nat)
    (text : List Nat) : ∀ (k j : Nat) (bs : Bytes) (b : bounds_t) (merged : List Nat)
    (r : Bytes × bounds_t × List Nat), bytes_frame bs0 bs →
    process_sets_merge_bytes render g do_crop fuel text k j bs b merged = .ok r →
    bytes_frame bs0 r.1 := by
  intro k
  induction k with
  | zero =>
    intro j bs b merged r _ h
    simp only [process_sets_merge_bytes] at h
    cases h
  | succ k ih =>
    intro j bs b merged r hf h
    simp only [process_sets_merge_bytes] at h
    split at h
    · next hj =>
      split at h
      · exact ih _ _ _ _ r hf h
      · next hk =>
        split at h
        · cases h
        · exact ih _ _ _ _ r hf h
        · split at h
          · exact ih _ _ _ _ r hf h
          · split at h
            · cases h
            · next r1 hr1 =>
              exact ih _ _ _ _ r (process_sets_draw_bytes_keeps hs render g do_crop fuel hf
                (is_set_of_skip (bytes_frame_same_index hs hf) hj hk) hr1) h
    · injection h with h
      subst h
      exact hf

theorem process_sets_loop_bytes_keeps {bs0 : Bytes} (hs : bs0.sets_apart)
    (render : State → Nat → Except Err Unit) (g : Raster) (do_crop : Bool) (fuel : Nat) :
    ∀ (k i : Nat) (bs : Bytes) (passes : List SetPass) (r : Bytes × List SetPass),
    bytes_frame bs0 bs → process_sets_loop_bytes render g do_crop fuel k i bs passes = .ok r →
    bytes_frame bs0 r.1 := by
  intro k
  induction k with
  | zero =>
    intro i bs passes r _ h
    simp only [process_sets_loop_bytes] at h
    cases h
  | succ k ih =>
    intro i bs passes r hf h
    simp only [process_sets_loop_bytes] at h
    split at h
    · next hi =>
      split at h
      · exact ih _ _ _ r hf h
      · next hk =>
        split at h
        · cases h
        · exact ih _ _ _ r hf h
        · split at h
          · cases h
          · next r1 hr1 =>
            have hf1 := process_sets_draw_bytes_keeps hs render g do_crop fuel hf
              (is_set_of_skip (bytes_frame_same_index hs hf) hi hk) hr1
            split at h
            · cases h
            · next m hm =>
              have hf2 := process_sets_merge_bytes_keeps hs render g do_crop fuel _ _ _ _ _ _ m
                hf1 hm
              split at h
              · cases h
              · exact ih _ _ _ r hf2 h
    · injection h with h
      subst h
      exact hf

theorem named_pair_file_eval :
    (match validate_directory_bytes (load named_pair_file) named_pair_file.length 4 with
      | .ok bs =>
        decide bs.sets_apart && decide (bs.view.children 200 = [2, 3, 4, 5]) &&
        decide (bs.set_unk7 200 = 0) &&
        decide ((List.range bs.dir_num_entries).map (fun i => bs.dir_addr i) =
          [200, 252, 328, 360, 436]) &&
        decide ((List.range bs.dir_num_entries).map (fun i => bs.hdr_type (bs.dir_addr i)) =
          [90, 55, 82, 55, 50]) &&
        (match process_sets_bytes render_nothing ex_raster_crop true 4 bs with
          | .ok r => decide (r.1.view.children 200 = [4, 5, 2, 3]) &&
              decide (r.1.set_unk7 200 = SET_DRAWN) &&
              decide (r.2.map SetPass.first = [200])
          | .error _ => false)
      | .error _ => false) = true := by
  decide!

/-- C15 (as stated) fails on the bytes of `named_pair_file`, a file that
`validate_directory` accepts and whose records share no byte: with cropping,
`process_sets` leaves the child list 2, 3, 4, 5 of the SET at 200 as
4, 5, 2, 3. -/
theorem process_sets_bytes_reorders_children :
    ∃ bs, validate_directory_bytes (load named_pair_file) named_pair_file.length 4 = .ok bs ∧
      bs.sets_apart ∧ bs.is_set 200 ∧ bs.view.children 200 = [2, 3, 4, 5] ∧
      ∃ r, process_sets_bytes render_nothing ex_raster_crop true 4 bs = .ok r ∧
        r.2.map SetPass.first = [200] ∧
        r.1.view.children 200 = [4, 5, 2, 3] ∧ r.1.view.children 200 ≠ bs.view.children 200 := by
  have h := named_pair_file_eval
  split at h
  · next bs hbs =>
    simp only [Bool.and_eq_true, decide_eq_true_eq] at h
    obtain ⟨⟨⟨⟨⟨h1, h2⟩, _⟩, h4⟩, h5⟩, h6⟩ := h
    have hn : bs.dir_num_entries = 5 := by
      have := congrArg List.length h4
      simpa using this
    have ha : bs.is_set 200 := by
      rw [hn] at h4 h5
      refine ⟨0, by rw [hn]; decide, ?_, ?_⟩
      · have := congrArg (fun l => l.getD 0 0) h4
        simpa using this
      · have e1 := congrArg (fun l => l.getD 0 0) h4
        have e2 := congrArg (fun l => l.getD 0 0) h5
        simp at e1 e2
        rw [e1] at e2
        exact e2
    refine ⟨bs, hbs, h1, ha, h2, ?_⟩
    split at h6
    · next r hr =>
      simp only [Bool.and_eq_true, decide_eq_true_eq] at h6
      obtain ⟨⟨h7, _⟩, h9⟩ := h6
      refine ⟨r, hr, h9, h7, ?_⟩
      rw [h7, h2]
      decide
    · cases h6
  · cases h

/-- C15 (amended). When the fields `unk7`, `num_entries` and `entries` of
every SET of the directory share no byte with the directory, with the header
of a directory entry, with the text of a TEXT_LINE or with these fields of
another SET (`Bytes.sets_apart`), `process_sets`, with or without cropping and
whatever the depth of the recursion, stores nothing in the loaded buffer but
DRAWN bits, which it sets and never clears, and the order of child lists: no
byte outside these fields of the SETs differs afterwards, so that the
directory and the type, the index and the text of every directory entry are as
before, and every SET of the directory has its `num_entries` as before, its
`unk7` as before or with the DRAWN bit in addition, and a child list that is a
permutation of the list before. -/
theorem process_sets_bytes_frame (render : State → Nat → Except Err Unit) (g : Raster)
    (do_crop : Bool) (fuel : Nat) (bs : Bytes) (r : Bytes × List SetPass)
    (hs : bs.sets_apart) (h : process_sets_bytes render g do_crop fuel bs = .ok r) :
    r.1.file_size = bs.file_size ∧ r.1.dir = bs.dir ∧
    (∀ x, ¬ bs.in_set x → r.1.mem x = bs.mem x) ∧
    same_index bs r.1 ∧
    ∀ a, bs.is_set a →
      r.1.set_num_entries a = bs.set_num_entries a ∧
      (r.1.set_unk7 a = bs.set_unk7 a ∨ r.1.set_unk7 a = bs.set_unk7 a ||| SET_DRAWN) ∧
      (r.1.view.children a).Perm (bs.view.children a) := by
  unfold process_sets_bytes at h
  have hf := process_sets_loop_bytes_keeps hs render g do_crop fuel _ _ _ _ r
    (bytes_frame_refl bs) h
  exact ⟨hf.1, hf.2.1, hf.2.2.1, bytes_frame_same_index hs hf, hf.2.2.2⟩

theorem process_sets_bytes_frame_witness :
    ∃ bs, validate_directory_bytes (load named_pair_file) named_pair_file.length 4 = .ok bs ∧
      bs.sets_apart ∧
      ∃ r, process_sets_bytes render_nothing ex_raster_crop true 4 bs = .ok r ∧
        r.1.view.children 200 = [4, 5, 2, 3] ∧ r.1.set_unk7 200 = SET_DRAWN ∧
        r.1.file_size = bs.file_size ∧ r.1.dir = bs.dir ∧
        (∀ x, ¬ bs.in_set x → r.1.mem x = bs.mem x) ∧
        same_index bs r.1 ∧
        ∀ a, bs.is_set a →
          r.1.set_num_entries a = bs.set_num_entries a ∧
          (r.1.set_unk7 a = bs.set_unk7 a ∨ r.1.set_unk7 a = bs.set_unk7 a ||| SET_DRAWN) ∧
          (r.1.view.children a).Perm (bs.view.children a) := by
  have h := named_pair_file_eval
  split at h
  · next bs hbs =>
    simp only [Bool.and_eq_true, decide_eq_true_eq] at h
    obtain ⟨⟨⟨⟨⟨h1, _⟩, _⟩, _⟩, _⟩, h6⟩ := h
    refine ⟨bs, hbs, h1, ?_⟩
    split at h6
    · next r hr =>
      simp only [Bool.and_eq_true, decide_eq_true_eq] at h6
      exact ⟨r, hr, h6.1.1, h6.1.2,
        process_sets_bytes_frame render_nothing ex_raster_crop true 4 bs r h1 hr⟩
    · cases h6
  · cases h

/-- The two forms of `expand_bounds` agree when no operation overflows: the
image is at most `2^29` pixels wide and high and the coordinates of `b` lie
between `-2^29` and `2^29`. -/
theorem expand_bounds_int_eq (g : Raster) (b : bounds_t)
    (hw : g.sgd_width ≤ 2 ^ 29) (hh : g.sgd_height ≤ 2 ^ 29)
    (h1 : -2 ^ 29 ≤ b.min_x ∧ b.min_x ≤ 2 ^ 29) (h2 : -2 ^ 29 ≤ b.min_y ∧ b.min_y ≤ 2 ^ 29)
    (h3 : -2 ^ 29 ≤ b.max_x ∧ b.max_x ≤ 2 ^ 29) (h4 : -2 ^ 29 ≤ b.max_y ∧ b.max_y ≤ 2 ^ 29) :
    expand_bounds_int g b = expand_bounds g b := by
  have e29 : (2 : Int) ^ 29 = 536870912 := by norm_num
  have n29 : (2 : Nat) ^ 29 = 536870912 := by norm_num
  rw [e29] at h1 h2 h3 h4
  rw [n29] at hw hh
  have hW : ((g.sgd_width : Nat) : Int) ≤ 536870912 := by exact_mod_cast hw
  have hH : ((g.sgd_height : Nat) : Int) ≤ 536870912 := by exact_mod_cast hh
  have hW0 : (0 : Int) ≤ (g.sgd_width : Int) := Int.ofNat_nonneg _
  have hH0 : (0 : Int) ≤ (g.sgd_height : Int) := Int.ofNat_nonneg _
  have w1 : int_wrap ((g.sgd_width : Int) - b.max_x) = (g.sgd_width : Int) - b.max_x :=
    int_wrap_of_range (by omega) (by omega)
  have w2 : int_wrap ((g.sgd_width : Int) - b.max_x - 1) = (g.sgd_width : Int) - b.max_x - 1 :=
    int_wrap_of_range (by omega) (by omega)
  have w3 : int_wrap ((g.sgd_height : Int) - b.max_y) = (g.sgd_height : Int) - b.max_y :=
    int_wrap_of_range (by omega) (by omega)
  have w4 : int_wrap ((g.sgd_height : Int) - b.max_y - 1) = (g.sgd_height : Int) - b.max_y - 1 :=
    int_wrap_of_range (by omega) (by omega)
  unfold expand_bounds_int expand_bounds
  split
  · simp only [w1, w2, w3, w4]
    rw [int_wrap_of_range (by omega) (by omega), int_wrap_of_range (by omega) (by omega),
      int_wrap_of_range (by omega) (by omega), int_wrap_of_range (by omega) (by omega)]
  · rfl

end SGD
